import Mathlib

/-!
Water-supply network (project1) : flow network model and Edmonds-Karp engine

Shallow embedding of `src/project1/src/Graph.cpp`.

The C++ program is pointer based: `Location` objects (vertices) and `Pipe`
objects (edges) live on the free store and are shared between every `Graph`
value that holds a pointer to them.  The embedding makes the free store
explicit as a `Heap`; a pointer is a natural number, `new` takes the next unused
address.  A `Graph` value holds only its own containers (`vertexSet` and the
four lookup maps), exactly like the C++ class, so that the copy constructor
`Graph(const Graph&)` copies the containers and shares the objects.

Modelling conventions.
* In this first model `double` quantities (capacity, flow, demand, maximum
  delivery) are exact integers (`Int`) and `INF` is the integer value of the
  largest finite `double`: it is the program on integer data, where no sum or
  difference is rounded. The second model, `Project1.Fp`, keeps every `double`
  as a binary64 value and rounds as the program does.
* `std::unordered_map` is an association list with unique keys; its iteration
  order is taken to be insertion order.
* Fields that C++ leaves uninitialised (`Pipe::flow`, `City::totalFlow`)
  start at `0`; the modelled functions write them before reading them.
* Loops that C++ writes as `while`/`for` over pointers take a `fuel` argument;
  running out of fuel and dereferencing a null pointer both give `stuck`.
-/

set_option autoImplicit false

namespace Project1

/-! ## Data model -/

/-- Class `Pipe`: a directed edge with capacity `weight`, current `flow`, an
`activated` flag and an optional `reverse` edge. -/
structure Pipe where
  dest : Nat
  weight : Int
  orig : Nat
  reverse : Option Nat
  flow : Int
  activated : Bool
deriving DecidableEq

/-- The three subclasses of `Location` with their own member variables. -/
inductive Kind where
  | reservoir (name municipality : String) (maximumDelivery : Int)
  | pumpingStation
  | city (name : String) (demand : Int) (population : Int) (totalFlow : Int)
deriving DecidableEq

/-- Class `Location`: a vertex with its outgoing (`adj`) and `incoming` edges. -/
structure Location where
  code : String
  id : Int
  adj : List Nat
  incoming : List Nat
  visited : Bool
  processing : Bool
  indegree : Nat
  path : Option Nat
  kind : Kind
deriving DecidableEq

/-- The free store: every `Location` and `Pipe` object ever allocated. -/
structure Heap where
  locs : Nat → Location
  pipes : Nat → Pipe
  nextLoc : Nat
  nextPipe : Nat

/-- Class `Graph`: the vertex vector and the four lookup maps. -/
structure Graph where
  vertexSet : List Nat
  mapReservoirs : List (String × Nat)
  mapStations : List (String × Nat)
  mapCities : List (String × Nat)
  mapPipes : List (String × Nat)
deriving DecidableEq

/-- Struct `CityInfo`. -/
structure CityInfo where
  cityName : String
  cityCode : String
  demand : Int
  totalFlow : Int
  affectedTotalFlow : Int
deriving DecidableEq

/-- Outcome of a call that may throw `std::logic_error` (`invalidArgument`,
with the heap as it is when the exception leaves the function) or fail to
return a value (`stuck`). -/
inductive Result (α : Type) where
  | ok (a : α) (h : Heap)
  | invalidArgument (h : Heap)
  | stuck

/-- The macro `INF` : `std::numeric_limits<double>::max()`, an integer. -/
def INF : Int :=
  179769313486231570814527423731704356798070567525844996598917476803157260780028538760589558632766878171540458953514382464234321326889464182768467546703537516986049910576551282076245490090389328944075868508455133942304583236903222948165808559332123348274797826204144723168738177180919299881250404026184124858368

/-! ## Heap access -/

def Location.getMaximumDelivery (l : Location) : Int :=
  match l.kind with
  | Kind.reservoir _ _ m => m
  | _ => 0

def Location.getName (l : Location) : String :=
  match l.kind with
  | Kind.reservoir n _ _ => n
  | Kind.city n _ _ _ => n
  | Kind.pumpingStation => ""

def Location.getDemand (l : Location) : Int :=
  match l.kind with
  | Kind.city _ d _ _ => d
  | _ => 0

def Location.getTotalFlow (l : Location) : Int :=
  match l.kind with
  | Kind.city _ _ _ f => f
  | _ => 0

def Heap.setLoc (h : Heap) (v : Nat) (l : Location) : Heap :=
  { h with locs := Function.update h.locs v l }

def Heap.setPipe (h : Heap) (e : Nat) (p : Pipe) : Heap :=
  { h with pipes := Function.update h.pipes e p }

/-- Model of `Location::setVisited`. -/
def setVisited (h : Heap) (v : Nat) (b : Bool) : Heap :=
  h.setLoc v { h.locs v with visited := b }

/-- Model of `Location::setPath`. -/
def setPath (h : Heap) (v : Nat) (p : Option Nat) : Heap :=
  h.setLoc v { h.locs v with path := p }

/-- Model of `Pipe::setFlow`. -/
def setFlow (h : Heap) (e : Nat) (f : Int) : Heap :=
  h.setPipe e { h.pipes e with flow := f }

/-- Model of `Pipe::setActivated`. -/
def setActivated (h : Heap) (e : Nat) (b : Bool) : Heap :=
  h.setPipe e { h.pipes e with activated := b }

/-- Model of `Pipe::setReverse`. -/
def setReverse (h : Heap) (e : Nat) (r : Option Nat) : Heap :=
  h.setPipe e { h.pipes e with reverse := r }

/-- Model of `City::setTotalFlow`. -/
def setTotalFlow (h : Heap) (v : Nat) (f : Int) : Heap :=
  match (h.locs v).kind with
  | Kind.city n d p _ => h.setLoc v { h.locs v with kind := Kind.city n d p f }
  | _ => h

/-! ## Lookup maps -/

/-- Model of `unordered_map::find` / `count`. -/
def mapFind (m : List (String × Nat)) (k : String) : Option Nat :=
  (m.find? (fun p => p.1 == k)).map (fun p => p.2)

/-- Assignment `m[k] = v`. -/
def mapInsert (m : List (String × Nat)) (k : String) (v : Nat) : List (String × Nat) :=
  if m.any (fun p => p.1 == k) then m.map (fun p => if p.1 == k then (k, v) else p)
  else m ++ [(k, v)]

/-! ## Building the network -/

/-- The empty free store. -/
def Heap.empty : Heap where
  locs := fun _ =>
    { code := "", id := 0, adj := [], incoming := [], visited := false, processing := false,
      indegree := 0, path := none, kind := Kind.pumpingStation }
  pipes := fun _ =>
    { dest := 0, weight := 0, orig := 0, reverse := none, flow := 0, activated := true }
  nextLoc := 0
  nextPipe := 0

/-- Model of `Graph::Graph()`. -/
def Graph.empty : Graph where
  vertexSet := []
  mapReservoirs := []
  mapStations := []
  mapCities := []
  mapPipes := []

/-- Model of `new Reservoir / PumpingStation / City` : the `Location` constructor sets
`indegree = 0`; `visited`, `processing` and `path` have default initialisers. -/
def newLocation (h : Heap) (id : Int) (code : String) (k : Kind) : Nat × Heap :=
  (h.nextLoc,
   { h with
     locs := Function.update h.locs h.nextLoc
       { code := code, id := id, adj := [], incoming := [], visited := false,
         processing := false, indegree := 0, path := none, kind := k }
     nextLoc := h.nextLoc + 1 })

/-- Model of `Graph::findVertex`. -/
def findVertex (g : Graph) (h : Heap) (code : String) : Option Nat :=
  g.vertexSet.find? (fun v => (h.locs v).code == code)

/-- Model of `Graph::addVertexReservoir`. -/
def addVertexReservoir (g : Graph) (h : Heap) (name municipality : String) (id : Int)
    (code : String) (maximumDelivery : Int) : Bool × Graph × Heap :=
  if (mapFind g.mapReservoirs code).isSome then (false, g, h)
  else
    let r := newLocation h id code (Kind.reservoir name municipality maximumDelivery)
    (true,
     { g with vertexSet := g.vertexSet ++ [r.1],
              mapReservoirs := mapInsert g.mapReservoirs code r.1 },
     r.2)

/-- Model of `Graph::addVertexStation`. -/
def addVertexStation (g : Graph) (h : Heap) (id : Int) (code : String) : Bool × Graph × Heap :=
  if (mapFind g.mapStations code).isSome then (false, g, h)
  else
    let r := newLocation h id code Kind.pumpingStation
    (true,
     { g with vertexSet := g.vertexSet ++ [r.1],
              mapStations := mapInsert g.mapStations code r.1 },
     r.2)

/-- Model of `Graph::addVertexCity`. -/
def addVertexCity (g : Graph) (h : Heap) (name : String) (id : Int) (code : String)
    (demand : Int) (population : Int) : Bool × Graph × Heap :=
  if (mapFind g.mapCities code).isSome then (false, g, h)
  else
    let r := newLocation h id code (Kind.city name demand population 0)
    (true,
     { g with vertexSet := g.vertexSet ++ [r.1],
              mapCities := mapInsert g.mapCities code r.1 },
     r.2)

/-- Model of `Location::addEdge` : allocate the pipe, push it on `adj` of the origin, then
increment `indegree` of the destination and push it on its `incoming`. -/
def Location.addEdge (h : Heap) (this d : Nat) (w : Int) : Nat × Heap :=
  let e := h.nextPipe
  let h1 : Heap :=
    { h with
      pipes := Function.update h.pipes e
        { dest := d, weight := w, orig := this, reverse := none, flow := 0, activated := true }
      nextPipe := e + 1 }
  let h2 := h1.setLoc this { h1.locs this with adj := (h1.locs this).adj ++ [e] }
  let h3 := h2.setLoc d
    { h2.locs d with indegree := ((h2.locs d).indegree + 1) % 4294967296,
                     incoming := (h2.locs d).incoming ++ [e] }
  (e, h3)

/-- Model of `Graph::addEdge`. -/
def addEdge (g : Graph) (h : Heap) (source dest : String) (w : Int) : Bool × Graph × Heap :=
  match findVertex g h source, findVertex g h dest with
  | some v1, some v2 =>
    let r := Location.addEdge h v1 v2 w
    (true, { g with mapPipes := mapInsert g.mapPipes (source ++ "|" ++ dest) r.1 }, r.2)
  | _, _ => (false, g, h)

/-- Model of `Graph::addBidirectionalEdge`. -/
def addBidirectionalEdge (g : Graph) (h : Heap) (source dest : String) (w : Int) :
    Bool × Graph × Heap :=
  match findVertex g h source, findVertex g h dest with
  | some v1, some v2 =>
    let r1 := Location.addEdge h v1 v2 w
    let r2 := Location.addEdge r1.2 v2 v1 w
    let h3 := setReverse r2.2 r1.1 (some r2.1)
    let h4 := setReverse h3 r2.1 (some r1.1)
    (true,
     { g with mapPipes :=
        mapInsert (mapInsert g.mapPipes (source ++ "|" ++ dest) r1.1) (dest ++ "|" ++ source) r2.1 },
     h4)
  | _, _ => (false, g, h)

/-! ## Edmonds-Karp -/

/-- Model of `Graph::testAndVisit`; the state is the heap together with the BFS queue. -/
def testAndVisit (st : Heap × List Nat) (e w : Nat) (residual : Int) : Heap × List Nat :=
  if !(st.1.locs w).visited && decide (residual > 0) && (st.1.pipes e).activated then
    (setPath (setVisited st.1 w true) w (some e), st.2 ++ [w])
  else st

/-- The loop "Process outgoing edges" of `findAugmentingPath`. -/
def processOutgoing (st : Heap × List Nat) (es : List Nat) : Heap × List Nat :=
  es.foldl (fun st e =>
    testAndVisit st e (st.1.pipes e).dest ((st.1.pipes e).weight - (st.1.pipes e).flow)) st

/-- The loop "Process incoming edges" of `findAugmentingPath`. -/
def processIncoming (st : Heap × List Nat) (es : List Nat) : Heap × List Nat :=
  es.foldl (fun st e => testAndVisit st e (st.1.pipes e).orig (st.1.pipes e).flow) st

/-- The `while (!q.empty() and !t->isVisited())` loop of `findAugmentingPath`. -/
def bfsLoop : Nat → Nat → Heap × List Nat → Option Heap
  | 0, _, _ => none
  | fuel + 1, t, (h, q) =>
    match q with
    | [] => some h
    | v :: q1 =>
      if (h.locs t).visited then some h
      else
        let st1 := processOutgoing (h, q1) (h.locs v).adj
        let st2 := processIncoming st1 (st1.1.locs v).incoming
        bfsLoop fuel t st2

/-- Model of `Graph::findAugmentingPath`. -/
def findAugmentingPath (fuel : Nat) (g : Graph) (h : Heap) (s t : Nat) : Option (Bool × Heap) :=
  let h1 := g.vertexSet.foldl (fun h v => setVisited h v false) h
  let h2 := setVisited h1 s true
  match bfsLoop fuel t (h2, [s]) with
  | none => none
  | some h3 => some ((h3.locs t).visited, h3)

/-- The loop of `Graph::findMinResidualAlongPath`, at vertex `v` with running minimum `f`. -/
def minResidualWalk : Nat → Heap → Nat → Nat → Int → Option Int
  | 0, _, _, _, _ => none
  | fuel + 1, h, s, v, f =>
    if v = s then some f
    else
      match (h.locs v).path with
      | none => none
      | some e =>
        if (h.pipes e).dest = v then
          minResidualWalk fuel h s (h.pipes e).orig (min f ((h.pipes e).weight - (h.pipes e).flow))
        else
          minResidualWalk fuel h s (h.pipes e).dest (min f (h.pipes e).flow)

/-- Model of `Graph::findMinResidualAlongPath`. -/
def findMinResidualAlongPath (fuel : Nat) (h : Heap) (s t : Nat) : Option Int :=
  minResidualWalk fuel h s t INF

/-- The loop of `Graph::augmentFlowAlongPath`, at vertex `v`. -/
def augmentWalk : Nat → Heap → Nat → Nat → Int → Option Heap
  | 0, _, _, _, _ => none
  | fuel + 1, h, s, v, f =>
    if v = s then some h
    else
      match (h.locs v).path with
      | none => none
      | some e =>
        if (h.pipes e).dest = v then
          augmentWalk fuel (setFlow h e ((h.pipes e).flow + f)) s (h.pipes e).orig f
        else
          augmentWalk fuel (setFlow h e ((h.pipes e).flow - f)) s (h.pipes e).dest f

/-- Model of `Graph::augmentFlowAlongPath`. -/
def augmentFlowAlongPath (fuel : Nat) (h : Heap) (s t : Nat) (f : Int) : Option Heap :=
  augmentWalk fuel h s t f

/-- The `while (findAugmentingPath(s, t))` loop of `edmondsKarp`; `n` bounds the
number of iterations, `fuel` is handed to the inner loops. -/
def augmentLoop : Nat → Nat → Graph → Nat → Nat → Heap → Option Heap
  | 0, _, _, _, _, _ => none
  | n + 1, fuel, g, s, t, h =>
    match findAugmentingPath fuel g h s t with
    | none => none
    | some (false, h1) => some h1
    | some (true, h1) =>
      match findMinResidualAlongPath fuel h1 s t with
      | none => none
      | some f =>
        match augmentFlowAlongPath fuel h1 s t f with
        | none => none
        | some h2 => augmentLoop n fuel g s t h2

/-- The loop "Initialize flow on all edges to 0" of `edmondsKarp`. -/
def resetFlows (g : Graph) (h : Heap) : Heap :=
  g.vertexSet.foldl (fun h v => (h.locs v).adj.foldl (fun h e => setFlow h e 0) h) h

/-- Model of `Graph::edmondsKarp`. -/
def edmondsKarp (fuel : Nat) (g : Graph) (h : Heap) (source target : String) : Result Unit :=
  match findVertex g h source, findVertex g h target with
  | some s, some t =>
    if s = t then Result.invalidArgument h
    else
      match augmentLoop fuel fuel g s t (resetFlows g h) with
      | none => Result.stuck
      | some h1 => Result.ok () h1
  | _, _ => Result.invalidArgument h

/-! ## Delivered flow per city -/

/-- Model of `Graph::addR0C0` : the loop over `getMapReservoirs()`. -/
def addR0Edges (toRemove : String) (g : Graph) (h : Heap) :
    List (String × Nat) → Graph × Heap
  | [] => (g, h)
  | p :: ps =>
    if p.1 == toRemove then
      let r := addEdge g h "R_0" p.1 0
      addR0Edges toRemove r.2.1 r.2.2 ps
    else if p.1 != "R_0" then
      let r := addEdge g h "R_0" p.1 (h.locs p.2).getMaximumDelivery
      addR0Edges toRemove r.2.1 r.2.2 ps
    else addR0Edges toRemove g h ps

/-- Model of `Graph::addR0C0` : the loop over `getMapCities()`. -/
def addC0Edges (g : Graph) (h : Heap) : List (String × Nat) → Graph × Heap
  | [] => (g, h)
  | p :: ps =>
    if p.1 != "C_0" then
      let r := addEdge g h p.1 "C_0" (h.locs p.2).getDemand
      addC0Edges r.2.1 r.2.2 ps
    else addC0Edges g h ps

/-- Model of `Graph::addR0C0`. -/
def addR0C0 (g : Graph) (h : Heap) (toRemove : String) : Graph × Heap :=
  let r1 := addVertexReservoir g h "" "" 0 "R_0" 0
  if r1.1 then
    let r2 := addVertexCity r1.2.1 r1.2.2 "" 0 "C_0" 0 0
    if r2.1 then
      let r3 := addR0Edges toRemove r2.2.1 r2.2.2 r2.2.1.mapReservoirs
      addC0Edges r3.1 r3.2 r3.1.mapCities
    else (r2.2.1, r2.2.2)
  else (r1.2.1, r1.2.2)

/-- The double loop of `getCitiesFlow` adding up the flow of every edge whose
destination has the given code. -/
def maxFlowInto (g : Graph) (h : Heap) (code : String) : Int :=
  g.vertexSet.foldl (fun acc loc =>
    (h.locs loc).adj.foldl (fun acc e =>
      if (h.locs (h.pipes e).dest).code == code then acc + (h.pipes e).flow else acc) acc) 0

/-- The loop of `getCitiesFlow` over `g.mapCities` (branch `allCities`). -/
def collectCities (g : Graph) : Heap → List (String × Nat) → List CityInfo → List CityInfo × Heap
  | h, [], acc => (acc, h)
  | h, p :: ps, acc =>
    if p.1 != "C_0" then
      let maxFlow := maxFlowInto g h p.1
      let h1 := setTotalFlow h p.2 maxFlow
      collectCities g h1 ps
        (acc ++ [{ cityName := (h1.locs p.2).getName, cityCode := (h1.locs p.2).code,
                   demand := (h1.locs p.2).getDemand, totalFlow := maxFlow,
                   affectedTotalFlow := 0 }])
    else collectCities g h ps acc

/-- Sequencing of calls: an exception or a failure to return propagates. -/
def Result.bind {α β : Type} (r : Result α) (k : α → Heap → Result β) : Result β :=
  match r with
  | Result.ok a h => k a h
  | Result.invalidArgument h => Result.invalidArgument h
  | Result.stuck => Result.stuck

/-- Model of `Graph::getCitiesFlow`.  The copy `g` of the caller graph is local and is
dropped on return; the heap it worked on is the one the caller sees. -/
def getCitiesFlow (fuel : Nat) (this : Graph) (h : Heap) (allCities : Bool)
    (oneCity : String) (removeR : String) : Result (List CityInfo) :=
  let g := this
  let r := addR0C0 g h removeR
  (edmondsKarp fuel r.1 r.2 "R_0" "C_0").bind fun _ h1 =>
    if allCities then
      let c := collectCities r.1 h1 r.1.mapCities []
      Result.ok c.1 c.2
    else
      match mapFind r.1.mapCities oneCity with
      | none => Result.stuck
      | some city =>
        let maxFlow := maxFlowInto r.1 h1 (h1.locs city).code
        let h2 := setTotalFlow h1 city maxFlow
        Result.ok [{ cityName := (h2.locs city).getName, cityCode := (h2.locs city).code,
                     demand := (h2.locs city).getDemand, totalFlow := maxFlow,
                     affectedTotalFlow := 0 }] h2

/-! ## Sensitivity analysis -/

/-- The comparison loop shared by the `remove...Compare` functions: index `i`
runs over `ogMF`, and `noMF[i]` must exist. -/
def compareFlows : List CityInfo → List CityInfo → Option (List CityInfo)
  | [], _ => some []
  | _ :: _, [] => none
  | a :: as, b :: bs =>
    match compareFlows as bs with
    | none => none
    | some rest =>
      if a.totalFlow - b.totalFlow > 0 then
        some ({ a with affectedTotalFlow := b.totalFlow } :: rest)
      else some rest

/-- The comparison loop as a call. -/
def compareResult (ogMF noMF : List CityInfo) (h : Heap) : Result (List CityInfo) :=
  match compareFlows ogMF noMF with
  | none => Result.stuck
  | some res => Result.ok res h

/-- The two solves of `removeReservoirCompare` : baseline flows and flows with
the reservoir `code` removed. -/
def reservoirFlows (fuel : Nat) (this : Graph) (h : Heap) (code : String) :
    Result (List CityInfo × List CityInfo) :=
  (getCitiesFlow fuel this h true "" "").bind fun ogMF h1 =>
    (getCitiesFlow fuel this h1 true "" code).bind fun noMF h2 =>
      Result.ok (ogMF, noMF) h2

/-- Model of `Graph::removeReservoirCompare`. -/
def removeReservoirCompare (fuel : Nat) (this : Graph) (h : Heap) (code : String) :
    Result (List CityInfo) :=
  (reservoirFlows fuel this h code).bind fun p h2 => compareResult p.1 p.2 h2

/-- The loops of `removeStationCompare` that deactivate (`b = false`) or
re-activate (`b = true`) the pipes going to the station `code`. -/
def setStation (this : Graph) (b : Bool) (code : String) (h : Heap) : Result Unit :=
  match mapFind this.mapStations code with
  | none => Result.stuck
  | some st => Result.ok () ((h.locs st).incoming.foldl (fun h e => setActivated h e b) h)

/-- The part of `removeStationCompare` up to the second solve: baseline flows,
deactivation, perturbed flows. -/
def stationFlows (fuel : Nat) (this : Graph) (h : Heap) (code : String) :
    Result (List CityInfo × List CityInfo) :=
  (getCitiesFlow fuel this h true "" "").bind fun ogMF h1 =>
    (setStation this false code h1).bind fun _ h2 =>
      (getCitiesFlow fuel this h2 true "" "").bind fun noMF h3 =>
        Result.ok (ogMF, noMF) h3

/-- Model of `Graph::removeStationCompare`. -/
def removeStationCompare (fuel : Nat) (this : Graph) (h : Heap) (code : String) :
    Result (List CityInfo) :=
  (stationFlows fuel this h code).bind fun p h3 =>
    (compareResult p.1 p.2 h3).bind fun res h4 =>
      (setStation this true code h4).bind fun _ h5 => Result.ok res h5

/-- The loop of `removeStationsCompare` over `mapStations`; the result map is
given as the list of its entries. -/
def stationsLoop (fuel : Nat) (this : Graph) :
    List (String × Nat) → List (String × List CityInfo) → Heap →
      Result (List (String × List CityInfo))
  | [], acc, h => Result.ok acc h
  | p :: ps, acc, h =>
    (removeStationCompare fuel this h p.1).bind fun res h1 =>
      stationsLoop fuel this ps (acc ++ [(p.1, res)]) h1

/-- Model of `Graph::removeStationsCompare`. -/
def removeStationsCompare (fuel : Nat) (this : Graph) (h : Heap) :
    Result (List (String × List CityInfo)) :=
  stationsLoop fuel this this.mapStations [] h

/-- The loops "Deactivate Pipes" / "Re-activate Pipes" of
`removeMultiplePipesCompare`. -/
def setPipelines (this : Graph) (b : Bool) : Heap → List (String × String) → Option Heap
  | h, [] => some h
  | h, p :: ps =>
    match mapFind this.mapPipes (p.1 ++ "|" ++ p.2) with
    | none => none
    | some e =>
      let h1 := setActivated h e b
      match mapFind this.mapPipes (p.2 ++ "|" ++ p.1) with
      | some r => setPipelines this b (setActivated h1 r b) ps
      | none => setPipelines this b h1 ps

/-- The loop over the pipelines as a call. -/
def setPipelinesResult (this : Graph) (b : Bool) (pipelines : List (String × String))
    (h : Heap) : Result Unit :=
  match setPipelines this b h pipelines with
  | none => Result.stuck
  | some h1 => Result.ok () h1

/-- The part of `removeMultiplePipesCompare` / `removePipeCompare` up to the
second solve: baseline flows, deactivation, perturbed flows. -/
def pipeFlows (fuel : Nat) (this : Graph) (h : Heap) (pipelines : List (String × String)) :
    Result (List CityInfo × List CityInfo) :=
  (getCitiesFlow fuel this h true "" "").bind fun ogMF h1 =>
    (setPipelinesResult this false pipelines h1).bind fun _ h2 =>
      (getCitiesFlow fuel this h2 true "" "").bind fun noMF h3 =>
        Result.ok (ogMF, noMF) h3

/-- Model of `Graph::removeMultiplePipesCompare`; the `std::set` of pairs is given as
the list of its elements in iteration order. -/
def removeMultiplePipesCompare (fuel : Nat) (this : Graph) (h : Heap)
    (pipelines : List (String × String)) : Result (List CityInfo) :=
  (pipeFlows fuel this h pipelines).bind fun p h3 =>
    (compareResult p.1 p.2 h3).bind fun res h4 =>
      (setPipelinesResult this true pipelines h4).bind fun _ h5 => Result.ok res h5

/-- Model of `Graph::removePipeCompare` : the same steps for the single pipeline
`(sourceCode, destCode)`. -/
def removePipeCompare (fuel : Nat) (this : Graph) (h : Heap) (sourceCode destCode : String) :
    Result (List CityInfo) :=
  (pipeFlows fuel this h [(sourceCode, destCode)]).bind fun p h3 =>
    (compareResult p.1 p.2 h3).bind fun res h4 =>
      (setPipelinesResult this true [(sourceCode, destCode)] h4).bind fun _ h5 =>
        Result.ok res h5

/-- The key parsing of `removeAllPipesCompare` : `getline(ss, sourceCode, '|')`
takes the characters before the first `|`, `getline(ss, destCode)` the rest up
to the first line feed. -/
def splitKey (key : String) : String × String :=
  let cs := key.toList
  let src := cs.takeWhile (fun c => c != Char.ofNat 124)
  let rest := (cs.dropWhile (fun c => c != Char.ofNat 124)).drop 1
  (String.mk src, String.mk (rest.takeWhile (fun c => c != Char.ofNat 10)))

/-- The loop of `removeAllPipesCompare` over `mapPipes`; the result map is given
as the list of its entries. -/
def pipesLoop (fuel : Nat) (this : Graph) :
    List (String × Nat) → List (String × List CityInfo) → Heap →
      Result (List (String × List CityInfo))
  | [], acc, h => Result.ok acc h
  | p :: ps, acc, h =>
    (removePipeCompare fuel this h (splitKey p.1).1 (splitKey p.1).2).bind fun res h1 =>
      pipesLoop fuel this ps (acc ++ [(p.1, res)]) h1

/-- Model of `Graph::removeAllPipesCompare`. -/
def removeAllPipesCompare (fuel : Nat) (this : Graph) (h : Heap) :
    Result (List (String × List CityInfo)) :=
  pipesLoop fuel this this.mapPipes [] h

/-! ## Specification vocabulary -/

/-- Every pipe owned by (listed in `adj` of) a vertex of `V`. -/
def allPipes (h : Heap) (V : List Nat) : List Nat :=
  V.flatMap (fun v => (h.locs v).adj)

/-- A well-formed network: the vertices are distinct objects, every pipe object
is owned by one vertex and listed once, each pipe in `adj` of `v` starts at `v`,
ends at a vertex of the network and is listed in `incoming` of its destination,
and each pipe in `incoming` of `v` ends at `v`, starts at a vertex of the network
and is listed in `adj` of its origin. -/
structure WF (h : Heap) (V : List Nat) : Prop where
  nodupV : V.Nodup
  nodupE : (allPipes h V).Nodup
  adj_ok : ∀ v ∈ V, ∀ e ∈ (h.locs v).adj,
    (h.pipes e).orig = v ∧ (h.pipes e).dest ∈ V ∧ e ∈ (h.locs (h.pipes e).dest).incoming
  inc_ok : ∀ v ∈ V, ∀ e ∈ (h.locs v).incoming,
    (h.pipes e).dest = v ∧ (h.pipes e).orig ∈ V ∧ e ∈ (h.locs (h.pipes e).orig).adj
  nodupInc : ∀ v ∈ V, (h.locs v).incoming.Nodup

instance (h : Heap) (V : List Nat) : Decidable (WF h V) :=
  decidable_of_iff
    (V.Nodup ∧ (allPipes h V).Nodup ∧
      (∀ v ∈ V, ∀ e ∈ (h.locs v).adj,
        (h.pipes e).orig = v ∧ (h.pipes e).dest ∈ V ∧ e ∈ (h.locs (h.pipes e).dest).incoming) ∧
      (∀ v ∈ V, ∀ e ∈ (h.locs v).incoming,
        (h.pipes e).dest = v ∧ (h.pipes e).orig ∈ V ∧ e ∈ (h.locs (h.pipes e).orig).adj) ∧
      (∀ v ∈ V, (h.locs v).incoming.Nodup))
    ⟨fun ⟨a, b, c, d, e⟩ => ⟨a, b, c, d, e⟩, fun ⟨a, b, c, d, e⟩ => ⟨a, b, c, d, e⟩⟩

/-- Link capacities are non-negative. -/
def CapsNonneg (h : Heap) (V : List Nat) : Prop :=
  ∀ e ∈ allPipes h V, 0 ≤ (h.pipes e).weight

instance (h : Heap) (V : List Nat) : Decidable (CapsNonneg h V) := by
  unfold CapsNonneg; infer_instance

/-- Sum of `fl` over the outgoing links of `v`. -/
def outflowOf (h : Heap) (fl : Nat → Int) (v : Nat) : Int :=
  ((h.locs v).adj.map fl).sum

/-- Sum of `fl` over the incoming links of `v`. -/
def inflowOf (h : Heap) (fl : Nat → Int) (v : Nat) : Int :=
  ((h.locs v).incoming.map fl).sum

/-- The flow stored in the pipes. -/
def flowOf (h : Heap) : Nat → Int := fun e => (h.pipes e).flow

/-- Sum of the flows on the outgoing links of `v`. -/
def outflow (h : Heap) (v : Nat) : Int := outflowOf h (flowOf h) v

/-- Sum of the flows on the incoming links of `v`. -/
def inflow (h : Heap) (v : Nat) : Int := inflowOf h (flowOf h) v

/-- Net flow out of `s` for the assignment `fl`. -/
def valueOf (h : Heap) (fl : Nat → Int) (s : Nat) : Int :=
  outflowOf h fl s - inflowOf h fl s

/-- Net flow out of `s`. -/
def flowValue (h : Heap) (s : Nat) : Int := valueOf h (flowOf h) s

/-- One step of the residual graph: forward over an enabled link with
`flow < capacity`, or backward over a link with `flow > 0`. -/
def ResidualStep (h : Heap) (u w : Nat) : Prop :=
  (∃ e ∈ (h.locs u).adj, (h.pipes e).dest = w ∧ (h.pipes e).activated = true ∧
      (h.pipes e).flow < (h.pipes e).weight) ∨
  (∃ e ∈ (h.locs u).incoming, (h.pipes e).orig = w ∧ 0 < (h.pipes e).flow)

/-- An augmenting path from `s` to `t` in the residual graph. -/
def AugmentingPath (h : Heap) (s t : Nat) : Prop :=
  Relation.ReflTransGen (ResidualStep h) s t

/-- Capacity of the cut `S` : total capacity of the enabled links that leave `S`. -/
def cutCapacity (h : Heap) (V : List Nat) (S : Nat → Bool) : Int :=
  (((allPipes h V).filter (fun e =>
      (h.pipes e).activated && S (h.pipes e).orig && !S (h.pipes e).dest)).map
    (fun e => (h.pipes e).weight)).sum

/-- A feasible flow of the network with terminals `s` and `t` : within capacity
on every link, zero on disabled links, conserved at every other vertex. -/
def Feasible (h : Heap) (V : List Nat) (s t : Nat) (fl : Nat → Int) : Prop :=
  (∀ e ∈ allPipes h V, 0 ≤ fl e ∧ fl e ≤ (h.pipes e).weight ∧
      ((h.pipes e).activated = false → fl e = 0)) ∧
  ∀ v ∈ V, v ≠ s → v ≠ t → inflowOf h fl v = outflowOf h fl v

/-- Total capacity of the links leaving `s`. -/
def capOut (h : Heap) (s : Nat) : Int :=
  ((h.locs s).adj.map (fun e => (h.pipes e).weight)).sum

/-- Number of vertices plus number of links plus total capacity of the links
leaving `s`, plus two: enough fuel for `edmondsKarp` from `s`. -/
def fuelBound (h : Heap) (V : List Nat) (s : Nat) : Nat :=
  V.length + (allPipes h V).length + (capOut h s).toNat + 2

/-- The path recorded in the `path` fields from `v` back to `s`, as the list of
its links with their direction (`true` : traversed forward, the link enters the
vertex it was recorded at). Every vertex on it is visited and every link is
enabled with positive residual in its direction. -/
inductive TreePath (h : Heap) (V : List Nat) (s : Nat) : Nat → List (Nat × Bool) → Prop
  | nil : (h.locs s).visited = true → TreePath h V s s []
  | fwd (v e : Nat) (l : List (Nat × Bool)) :
      v ≠ s → (h.locs v).visited = true → (h.locs v).path = some e →
      (h.pipes e).dest = v → (h.pipes e).orig ∈ V → e ∈ (h.locs (h.pipes e).orig).adj →
      (h.pipes e).activated = true → (h.pipes e).flow < (h.pipes e).weight →
      TreePath h V s (h.pipes e).orig l → (∀ d, (e, d) ∉ l) →
      TreePath h V s v ((e, true) :: l)
  | bwd (v e : Nat) (l : List (Nat × Bool)) :
      v ≠ s → (h.locs v).visited = true → (h.locs v).path = some e →
      (h.pipes e).dest ≠ v → (h.pipes e).orig = v → v ∈ V → e ∈ (h.locs v).adj →
      (h.pipes e).activated = true → 0 < (h.pipes e).flow →
      TreePath h V s (h.pipes e).dest l → (∀ d, (e, d) ∉ l) →
      TreePath h V s v ((e, false) :: l)

/-- The walk of `findMinResidualAlongPath` / `augmentFlowAlongPath` without the
arithmetic: the links met from `v` back to `s` and their direction. -/
def walkEdges : Nat → Heap → Nat → Nat → Option (List (Nat × Bool))
  | 0, _, _, _ => none
  | fuel + 1, h, s, v =>
    if v = s then some []
    else
      match (h.locs v).path with
      | none => none
      | some e =>
        if (h.pipes e).dest = v then
          (walkEdges fuel h s (h.pipes e).orig).map (fun l => (e, true) :: l)
        else
          (walkEdges fuel h s (h.pipes e).dest).map (fun l => (e, false) :: l)

/-- Push `f` along one link of a walk. -/
def pushStep (f : Int) (fl : Nat → Int) (p : Nat × Bool) : Nat → Int :=
  Function.update fl p.1 (if p.2 then fl p.1 + f else fl p.1 - f)

/-- Residual of a link in the direction of traversal. -/
def residual (h : Heap) (p : Nat × Bool) : Int :=
  if p.2 then (h.pipes p.1).weight - (h.pipes p.1).flow else (h.pipes p.1).flow

/-- Two heaps describe the same network: same link lists at every vertex, same
end points, capacity and enabled flag on every pipe. -/
structure SameNet (h h1 : Heap) : Prop where
  adj : ∀ v, (h1.locs v).adj = (h.locs v).adj
  incoming : ∀ v, (h1.locs v).incoming = (h.locs v).incoming
  orig : ∀ e, (h1.pipes e).orig = (h.pipes e).orig
  dest : ∀ e, (h1.pipes e).dest = (h.pipes e).dest
  weight : ∀ e, (h1.pipes e).weight = (h.pipes e).weight
  activated : ∀ e, (h1.pipes e).activated = (h.pipes e).activated
  reverse : ∀ e, (h1.pipes e).reverse = (h.pipes e).reverse

/-- Every residual neighbour of `v` reachable by `testAndVisit` is visited. -/
def Closed (h : Heap) (v : Nat) : Prop :=
  (∀ e ∈ (h.locs v).adj, (h.pipes e).activated = true →
      (h.pipes e).flow < (h.pipes e).weight → (h.locs (h.pipes e).dest).visited = true) ∧
  (∀ e ∈ (h.locs v).incoming, (h.pipes e).activated = true →
      0 < (h.pipes e).flow → (h.locs (h.pipes e).orig).visited = true)

/-- Number of vertices of `V` not yet visited. -/
def unvisited (h : Heap) (V : List Nat) : Nat :=
  V.countP (fun v => !(h.locs v).visited)

/-- Invariant of the BFS while the links of the dequeued vertex `v` are being
tested; `h0` is the heap when the BFS loop was entered. -/
structure BfsCore (h0 : Heap) (V : List Nat) (s v : Nat) (st : Heap × List Nat) : Prop where
  pipes : st.1.pipes = h0.pipes
  adj : ∀ x, (st.1.locs x).adj = (h0.locs x).adj
  incoming : ∀ x, (st.1.locs x).incoming = (h0.locs x).incoming
  src : (st.1.locs s).visited = true
  cur : (st.1.locs v).visited = true
  queue : ∀ x ∈ st.2, x ∈ V ∧ (st.1.locs x).visited = true
  tree : ∀ x ∈ V, (st.1.locs x).visited = true → ∃ l, TreePath st.1 V s x l
  closed : ∀ x ∈ V, (st.1.locs x).visited = true → x ∉ st.2 → x ≠ v → Closed st.1 x

/-- Invariant of the BFS at the head of its `while` loop. -/
structure BfsInv (h0 : Heap) (V : List Nat) (s : Nat) (st : Heap × List Nat) : Prop where
  pipes : st.1.pipes = h0.pipes
  adj : ∀ x, (st.1.locs x).adj = (h0.locs x).adj
  incoming : ∀ x, (st.1.locs x).incoming = (h0.locs x).incoming
  src : (st.1.locs s).visited = true
  queue : ∀ x ∈ st.2, x ∈ V ∧ (st.1.locs x).visited = true
  tree : ∀ x ∈ V, (st.1.locs x).visited = true → ∃ l, TreePath st.1 V s x l
  closed : ∀ x ∈ V, (st.1.locs x).visited = true → x ∉ st.2 → Closed st.1 x

/-- What holds when the BFS loop, entered with heap `h0`, returns heap `h`. -/
structure BfsPost (h0 : Heap) (V : List Nat) (s t : Nat) (h : Heap) : Prop where
  pipes : h.pipes = h0.pipes
  adj : ∀ x, (h.locs x).adj = (h0.locs x).adj
  incoming : ∀ x, (h.locs x).incoming = (h0.locs x).incoming
  src : (h.locs s).visited = true
  tree : ∀ x ∈ V, (h.locs x).visited = true → ∃ l, TreePath h V s x l
  closed : (h.locs t).visited = false → ∀ x ∈ V, (h.locs x).visited = true → Closed h x

/-- Push `f` along every link of a walk, on a flow assignment. -/
def pushAll (f : Int) (l : List (Nat × Bool)) (fl : Nat → Int) : Nat → Int :=
  l.foldl (pushStep f) fl

/-- Push `f` along every link of a walk, in the heap. -/
def applyPush (f : Int) (l : List (Nat × Bool)) (h : Heap) : Heap :=
  l.foldl (fun h p =>
    setFlow h p.1 (if p.2 then (h.pipes p.1).flow + f else (h.pipes p.1).flow - f)) h

/-- Minimum of `f0` and the residuals of the links of a walk. -/
def bottleneck (h : Heap) (l : List (Nat × Bool)) (f0 : Int) : Int :=
  l.foldl (fun f p => min f (residual h p)) f0

/-- Inflow minus outflow of `x` for the assignment `fl`. -/
def excessOf (h : Heap) (fl : Nat → Int) (x : Nat) : Int :=
  inflowOf h fl x - outflowOf h fl x

/-- Invariant of the loop of `edmondsKarp` : capacity respect, no flow on
disabled links, conservation away from the terminals. -/
structure FlowInv (h : Heap) (V : List Nat) (s t : Nat) : Prop where
  bounds : ∀ e ∈ allPipes h V, 0 ≤ (h.pipes e).flow ∧ (h.pipes e).flow ≤ (h.pipes e).weight
  disabled : ∀ e ∈ allPipes h V, (h.pipes e).activated = false → (h.pipes e).flow = 0
  conserve : ∀ v ∈ V, v ≠ s → v ≠ t → inflow h v = outflow h v

/-- What holds when `edmondsKarp`, called on heap `h` between the distinct
vertices `s` and `t`, returns with heap `h1` : the network is the same, the flow
respects capacities and conservation, and the vertices marked visited by the
last BFS contain `s`, not `t`, and are closed under residual steps. -/
structure EKPost (h : Heap) (V : List Nat) (s t : Nat) (h1 : Heap) : Prop where
  net : SameNet h h1
  inv : FlowInv h1 V s t
  src : (h1.locs s).visited = true
  snk : (h1.locs t).visited = false
  closed : ∀ x ∈ V, (h1.locs x).visited = true → Closed h1 x

/-- Indicator of a vertex set, as an integer. -/
def ind (S : Nat → Bool) (v : Nat) : Int := if S v then 1 else 0

/-! ## Example networks -/

/-- The network Source `R1` (maximum delivery 10), Relay `PS1`, Sink `C1`
(demand 6) with links `R1 -> PS1` of capacity 10 and `PS1 -> C1` of capacity 6,
built through the public interface. -/
def chainNet : Graph × Heap :=
  let r1 := addVertexReservoir Graph.empty Heap.empty "Reservoir1" "Municipality1" 1 "R1" 10
  let r2 := addVertexStation r1.2.1 r1.2.2 1 "PS1"
  let r3 := addVertexCity r2.2.1 r2.2.2 "City1" 1 "C1" 6 1000
  let r4 := addEdge r3.2.1 r3.2.2 "R1" "PS1" 10
  let r5 := addEdge r4.2.1 r4.2.2 "PS1" "C1" 6
  (r5.2.1, r5.2.2)

/-- The value returned by a call, if it returned. -/
def Result.value {α : Type} : Result α → Option α
  | Result.ok a _ => some a
  | _ => none

/-- The heap a call leaves behind, if it returned or threw. -/
def Result.heap {α : Type} : Result α → Option Heap
  | Result.ok _ h => some h
  | Result.invalidArgument h => some h
  | Result.stuck => none

/-- The network Source `R1` (maximum delivery 5) with links of capacity 5 to
each of the Sinks `CA` and `CB` (demand 5 each). -/
def forkNet : Graph × Heap :=
  let r1 := addVertexReservoir Graph.empty Heap.empty "Reservoir1" "Municipality1" 1 "R1" 5
  let r2 := addVertexCity r1.2.1 r1.2.2 "CityA" 1 "CA" 5 1000
  let r3 := addVertexCity r2.2.1 r2.2.2 "CityB" 2 "CB" 5 1000
  let r4 := addEdge r3.2.1 r3.2.2 "R1" "CA" 5
  let r5 := addEdge r4.2.1 r4.2.2 "R1" "CB" 5
  (r5.2.1, r5.2.2)

/-- The heap of `chainNet` after one call of `getCitiesFlow(true)`. -/
def chainNetSolved : Heap :=
  ((getCitiesFlow 20 chainNet.1 chainNet.2 true "" "").heap).getD chainNet.2

/-- Per-sink monotonicity of a pair (baseline flows, perturbed flows): at every
index the perturbed flow is at most the baseline flow. -/
def PerSinkMonotone (p : List CityInfo × List CityInfo) : Prop :=
  ∀ x ∈ p.1.zip p.2, x.2.totalFlow ≤ x.1.totalFlow

instance (p : List CityInfo × List CityInfo) : Decidable (PerSinkMonotone p) := by
  unfold PerSinkMonotone; infer_instance

/-- Every link owned by a vertex of `V` has in `h1` the flow and the enabled
flag it has in `h`. -/
def FlowsAndFlagsKept (V : List Nat) (h h1 : Heap) : Prop :=
  ∀ e ∈ allPipes h V,
    (h1.pipes e).flow = (h.pipes e).flow ∧ (h1.pipes e).activated = (h.pipes e).activated

instance (V : List Nat) (h h1 : Heap) : Decidable (FlowsAndFlagsKept V h h1) := by
  unfold FlowsAndFlagsKept; infer_instance

/-- Every vertex of `V` has in `h1` the outgoing list, incoming list and
incoming count it has in `h`, and none of its links touches a vertex coded
`R_0` or `C_0`. -/
def LinksUntouched (V : List Nat) (h h1 : Heap) : Prop :=
  ∀ v ∈ V,
    (h1.locs v).adj = (h.locs v).adj ∧ (h1.locs v).incoming = (h.locs v).incoming ∧
    (h1.locs v).indegree = (h.locs v).indegree ∧
    (∀ e ∈ (h1.locs v).adj, (h1.locs (h1.pipes e).dest).code ≠ "R_0" ∧
      (h1.locs (h1.pipes e).dest).code ≠ "C_0") ∧
    (∀ e ∈ (h1.locs v).incoming, (h1.locs (h1.pipes e).orig).code ≠ "R_0" ∧
      (h1.locs (h1.pipes e).orig).code ≠ "C_0")

instance (V : List Nat) (h h1 : Heap) : Decidable (LinksUntouched V h h1) := by
  unfold LinksUntouched; infer_instance

/-- What the solver may change: `h1` differs from `h` at most in the `flow` of
pipes and in the `visited` and `path` marks of vertices. -/
structure SolverFrame (h h1 : Heap) : Prop where
  nextLoc : h1.nextLoc = h.nextLoc
  nextPipe : h1.nextPipe = h.nextPipe
  locs : ∀ v, (h1.locs v).code = (h.locs v).code ∧ (h1.locs v).id = (h.locs v).id ∧
    (h1.locs v).adj = (h.locs v).adj ∧ (h1.locs v).incoming = (h.locs v).incoming ∧
    (h1.locs v).processing = (h.locs v).processing ∧
    (h1.locs v).indegree = (h.locs v).indegree ∧ (h1.locs v).kind = (h.locs v).kind
  pipes : ∀ e, (h1.pipes e).orig = (h.pipes e).orig ∧ (h1.pipes e).dest = (h.pipes e).dest ∧
    (h1.pipes e).weight = (h.pipes e).weight ∧ (h1.pipes e).reverse = (h.pipes e).reverse ∧
    (h1.pipes e).activated = (h.pipes e).activated

/-- What one `getCitiesFlow` may change for the objects allocated before the
call: the pipes keep everything but their flow, and the incoming lists of the
vertices only grow. -/
structure QueryFrame (h h1 : Heap) : Prop where
  nextLoc : h.nextLoc ≤ h1.nextLoc
  nextPipe : h.nextPipe ≤ h1.nextPipe
  pipes : ∀ e, e < h.nextPipe →
    (h1.pipes e).orig = (h.pipes e).orig ∧ (h1.pipes e).dest = (h.pipes e).dest ∧
    (h1.pipes e).weight = (h.pipes e).weight ∧ (h1.pipes e).reverse = (h.pipes e).reverse ∧
    (h1.pipes e).activated = (h.pipes e).activated
  incoming : ∀ v, v < h.nextLoc → ∀ e ∈ (h.locs v).incoming, e ∈ (h1.locs v).incoming

/-- What an impact query leaves in place for the pipes allocated before the
call: end points, capacity and reverse link are the same, and a pipe that was
enabled is enabled. -/
structure ImpactFrame (h h1 : Heap) : Prop where
  nextLoc : h.nextLoc ≤ h1.nextLoc
  nextPipe : h.nextPipe ≤ h1.nextPipe
  pipes : ∀ e, e < h.nextPipe →
    (h1.pipes e).orig = (h.pipes e).orig ∧ (h1.pipes e).dest = (h.pipes e).dest ∧
    (h1.pipes e).weight = (h.pipes e).weight ∧ (h1.pipes e).reverse = (h.pipes e).reverse
  enabled : ∀ e, e < h.nextPipe → (h.pipes e).activated = true → (h1.pipes e).activated = true

/-- The pipes named by a list of pipelines in the pipe map: for every pair the
pipe under `src|dst`, then the pipe under `dst|src` when there is one. -/
def pipelineTargets (this : Graph) : List (String × String) → Option (List Nat)
  | [] => some []
  | p :: ps =>
    match mapFind this.mapPipes (p.1 ++ "|" ++ p.2) with
    | none => none
    | some e =>
      match mapFind this.mapPipes (p.2 ++ "|" ++ p.1) with
      | some r => (pipelineTargets this ps).map (fun l => e :: r :: l)
      | none => (pipelineTargets this ps).map (fun l => e :: l)

/-! ## Comparing two runs of the solver

Run `B` is compared with run `A` : the vertices `VA` of run `A` correspond to the
vertices `VA.map φ` of run `B`, the pipes `E` of run `A` to their images under
`ψ`.  Both heaps may hold left-overs of earlier solves that neither run can use:
dead sinks (`ZA`, `ZB` : vertices outside the graph without outgoing pipes) and
stale sources (`YA`, `YB` : vertices outside the graph that stay marked). -/

/-- The data of a comparison. -/
structure Ctx where
  φ : Nat → Nat
  ψ : Nat → Nat
  VA : List Nat
  E : Nat → Prop
  ZA : Nat → Prop
  ZB : Nat → Prop
  YA : Nat → Prop
  YB : Nat → Prop

/-- Vertices of run `B`. -/
def Ctx.VB (c : Ctx) : List Nat := c.VA.map c.φ

/-- Pipes of run `B` that correspond to a pipe of run `A`. -/
def Ctx.EB (c : Ctx) (e : Nat) : Prop := ∃ e0, c.E e0 ∧ c.ψ e0 = e

/-- Corresponding outgoing lists: the pipes of `E` appear in the same order on
both sides; the other entries lead to dead sinks. -/
inductive OutSim (c : Ctx) (hA hB : Heap) : List Nat → List Nat → Prop
  | nil : OutSim c hA hB [] []
  | both (e : Nat) (la lb : List Nat) :
      c.E e → OutSim c hA hB la lb → OutSim c hA hB (e :: la) (c.ψ e :: lb)
  | left (e : Nat) (la lb : List Nat) :
      c.ZA (hA.pipes e).dest → OutSim c hA hB la lb → OutSim c hA hB (e :: la) lb
  | right (e : Nat) (la lb : List Nat) :
      c.ZB (hB.pipes e).dest → OutSim c hA hB la lb → OutSim c hA hB la (e :: lb)

/-- Corresponding incoming lists: the pipes of `E` appear in the same order on
both sides; the other entries come from stale sources. -/
inductive InSim (c : Ctx) (hA hB : Heap) : List Nat → List Nat → Prop
  | nil : InSim c hA hB [] []
  | both (e : Nat) (la lb : List Nat) :
      c.E e → InSim c hA hB la lb → InSim c hA hB (e :: la) (c.ψ e :: lb)
  | left (e : Nat) (la lb : List Nat) :
      c.YA (hA.pipes e).orig → InSim c hA hB la lb → InSim c hA hB (e :: la) lb
  | right (e : Nat) (la lb : List Nat) :
      c.YB (hB.pipes e).orig → InSim c hA hB la lb → InSim c hA hB la (e :: lb)

/-- Corresponding BFS queues: the graph vertices appear in the same order on
both sides; the other entries are dead sinks. -/
inductive QSim (c : Ctx) : List Nat → List Nat → Prop
  | nil : QSim c [] []
  | both (x : Nat) (qa qb : List Nat) :
      x ∈ c.VA → QSim c qa qb → QSim c (x :: qa) (c.φ x :: qb)
  | left (z : Nat) (qa qb : List Nat) : c.ZA z → QSim c qa qb → QSim c (z :: qa) qb
  | right (z : Nat) (qa qb : List Nat) : c.ZB z → QSim c qa qb → QSim c qa (z :: qb)

/-- The part of the comparison that the solver cannot change: the shape of the
two networks. -/
structure SimS (c : Ctx) (hA hB : Heap) : Prop where
  phiInj : ∀ x ∈ c.VA, ∀ y ∈ c.VA, c.φ x = c.φ y → x = y
  psiInj : ∀ e e1, c.E e → c.E e1 → c.ψ e = c.ψ e1 → e = e1
  pipe : ∀ e, c.E e →
    (hA.pipes e).orig ∈ c.VA ∧ (hA.pipes e).dest ∈ c.VA ∧
    e ∈ (hA.locs (hA.pipes e).orig).adj ∧
    (hB.pipes (c.ψ e)).orig = c.φ (hA.pipes e).orig ∧
    (hB.pipes (c.ψ e)).dest = c.φ (hA.pipes e).dest ∧
    (hB.pipes (c.ψ e)).weight = (hA.pipes e).weight ∧
    (hB.pipes (c.ψ e)).activated = (hA.pipes e).activated
  adj : ∀ x ∈ c.VA, OutSim c hA hB (hA.locs x).adj (hB.locs (c.φ x)).adj
  inc : ∀ x ∈ c.VA, InSim c hA hB (hA.locs x).incoming (hB.locs (c.φ x)).incoming
  origOk : ∀ x ∈ c.VA, ∀ e ∈ (hA.locs x).adj, c.E e → (hA.pipes e).orig = x
  destOk : ∀ x ∈ c.VA, ∀ e ∈ (hA.locs x).incoming, c.E e → (hA.pipes e).dest = x
  zA : ∀ z, c.ZA z → z ∉ c.VA ∧ (hA.locs z).adj = [] ∧
    ∀ e ∈ (hA.locs z).incoming, ¬ c.E e ∧ ∃ u ∈ c.VA, e ∈ (hA.locs u).adj
  zB : ∀ z, c.ZB z → z ∉ c.VB ∧ (hB.locs z).adj = [] ∧
    ∀ e ∈ (hB.locs z).incoming, ¬ c.EB e ∧ ∃ u ∈ c.VB, e ∈ (hB.locs u).adj
  yA : ∀ y, c.YA y → y ∉ c.VA
  yB : ∀ y, c.YB y → y ∉ c.VB

/-- Stale sources are marked visited in both runs. -/
structure SimY (c : Ctx) (hA hB : Heap) : Prop where
  yA : ∀ y, c.YA y → (hA.locs y).visited = true
  yB : ∀ y, c.YB y → (hB.locs y).visited = true

/-- Corresponding pipes carry the same flow, pipes into dead sinks carry none. -/
structure SimFlow (c : Ctx) (hA hB : Heap) : Prop where
  flow : ∀ e, c.E e → (hB.pipes (c.ψ e)).flow = (hA.pipes e).flow
  zeroA : ∀ z, c.ZA z → ∀ e ∈ (hA.locs z).incoming, (hA.pipes e).flow = 0
  zeroB : ∀ z, c.ZB z → ∀ e ∈ (hB.locs z).incoming, (hB.pipes e).flow = 0

/-- Corresponding marks during a BFS from `s` : same visited flags, and every
visited vertex other than `s` was reached by corresponding pipes from a visited
vertex. -/
structure SimMarks (c : Ctx) (s : Nat) (hA hB : Heap) : Prop where
  src : (hA.locs s).visited = true
  vis : ∀ x ∈ c.VA, (hB.locs (c.φ x)).visited = (hA.locs x).visited
  tree : ∀ x ∈ c.VA, (hA.locs x).visited = true → x ≠ s →
    ∃ e, c.E e ∧ (hA.locs x).path = some e ∧ (hB.locs (c.φ x)).path = some (c.ψ e) ∧
      (hA.locs (if (hA.pipes e).dest = x then (hA.pipes e).orig
        else (hA.pipes e).dest)).visited = true

/-- Everything that relates the two heaps while the solver runs. -/
structure SimRun (c : Ctx) (hA hB : Heap) : Prop where
  shape : SimS c hA hB
  stale : SimY c hA hB
  flows : SimFlow c hA hB

/-- Corresponding states of two BFS loops. -/
structure SimBfs (c : Ctx) (s : Nat) (stA stB : Heap × List Nat) : Prop where
  run : SimRun c stA.1 stB.1
  marks : SimMarks c s stA.1 stB.1
  queue : QSim c stA.2 stB.2
  qvis : ∀ x ∈ stA.2, (stA.1.locs x).visited = true

/-- Corresponding vertices carry the same code, left-over sinks are coded `C_0`,
and the vertices allocated before index `n` have the same code, name and demand
in both heaps. -/
structure SimCode (c : Ctx) (n : Nat) (hA hB : Heap) : Prop where
  code : ∀ x ∈ c.VA, (hB.locs (c.φ x)).code = (hA.locs x).code
  zA : ∀ z, c.ZA z → (hA.locs z).code = "C_0"
  zB : ∀ z, c.ZB z → (hB.locs z).code = "C_0"
  old : ∀ v, v < n → (hB.locs v).code = (hA.locs v).code ∧
    (hB.locs v).getName = (hA.locs v).getName ∧
    (hB.locs v).getDemand = (hA.locs v).getDemand ∧
    (hB.locs v).getMaximumDelivery = (hA.locs v).getMaximumDelivery

/-- Corresponding entries of a lookup map of two runs: same key, and unless the
key is the reserved code `k` the same vertex, allocated before index `n`. -/
def EntrySim (n : Nat) (k : String) (pA pB : String × Nat) : Prop :=
  pA.1 = pB.1 ∧ (pA.1 ≠ k → pA.2 = pB.2 ∧ pA.2 < n)

/-- A network on which the reserved codes `R_0` and `C_0` are free: it is
well formed, its vertices and pipes are allocated, no vertex and no key of the
source and sink maps carries a reserved code, and the maps point to allocated
vertices. -/
def QueryReady (this : Graph) (h : Heap) : Prop :=
  WF h this.vertexSet ∧
  (∀ v ∈ this.vertexSet,
    v < h.nextLoc ∧ (h.locs v).code ≠ "R_0" ∧ (h.locs v).code ≠ "C_0") ∧
  (∀ e ∈ allPipes h this.vertexSet, e < h.nextPipe) ∧
  (∀ p ∈ this.mapReservoirs, p.1 ≠ "R_0" ∧ p.1 ≠ "C_0" ∧ p.2 < h.nextLoc) ∧
  (∀ p ∈ this.mapCities, p.1 ≠ "R_0" ∧ p.1 ≠ "C_0" ∧ p.2 < h.nextLoc)

instance (this : Graph) (h : Heap) : Decidable (QueryReady this h) := by
  unfold QueryReady; infer_instance

/-- The graph `getCitiesFlow` works on once the super source and the super sink
are added, before their links are. -/
def withTerminals (this : Graph) (n : Nat) : Graph :=
  { this with vertexSet := this.vertexSet ++ [n] ++ [n + 1],
              mapReservoirs := this.mapReservoirs ++ [("R_0", n)],
              mapCities := this.mapCities ++ [("C_0", n + 1)] }

/-- The heap once the super source and the super sink are allocated. -/
def allocTerminals (h : Heap) : Heap :=
  (newLocation (newLocation h 0 "R_0" (Kind.reservoir "" "" 0)).2 0 "C_0"
    (Kind.city "" 0 0 0)).2

/-- What a query leaves behind: heap `k` is heap `h` (vertices `V`, allocation
marks `n` and `m`) together with a super source at `n`, a super sink at `n + 1`
and their links, appended to the link lists of the vertices of `V`. -/
structure Grown (V : List Nat) (n m : Nat) (h k : Heap) : Prop where
  nextLoc : k.nextLoc = n + 2
  nextPipe : m ≤ k.nextPipe
  old : ∀ v, v < n → (k.locs v).code = (h.locs v).code ∧
    (k.locs v).getName = (h.locs v).getName ∧
    (k.locs v).getDemand = (h.locs v).getDemand ∧
    (k.locs v).getMaximumDelivery = (h.locs v).getMaximumDelivery
  pipes : ∀ e, e < m → (k.pipes e).orig = (h.pipes e).orig ∧
    (k.pipes e).dest = (h.pipes e).dest ∧ (k.pipes e).weight = (h.pipes e).weight ∧
    (k.pipes e).activated = (h.pipes e).activated
  adj : ∀ x ∈ V, ∃ ex, (k.locs x).adj = (h.locs x).adj ++ ex ∧
    ∀ e ∈ ex, (k.pipes e).dest = n + 1 ∧ m ≤ e ∧ e < k.nextPipe
  inc : ∀ x ∈ V, ∃ ey, (k.locs x).incoming = (h.locs x).incoming ++ ey ∧
    ∀ e ∈ ey, (k.pipes e).orig = n ∧ m ≤ e ∧ e < k.nextPipe
  sinkAdj : (k.locs (n + 1)).adj = []
  sinkInc : ∀ e ∈ (k.locs (n + 1)).incoming,
    m ≤ e ∧ e < k.nextPipe ∧ ∃ u ∈ V, e ∈ (k.locs u).adj
  codeR : (k.locs n).code = "R_0"
  codeC : (k.locs (n + 1)).code = "C_0"

/-- The comparison with another set of corresponding pipes. -/
def Ctx.withE (c : Ctx) (E : Nat → Prop) : Ctx := { c with E := E }

/-- The comparison while the links of the super source and the super sink are
being added: the shapes correspond, and every pipe listed so far is allocated,
so that the next pipe allocated in run `A` corresponds to the next one
allocated in run `B`. -/
structure SimBuild (c : Ctx) (hA hB : Heap) : Prop where
  shape : SimS c hA hB
  stale : SimY c hA hB
  psi : ∀ e, hA.nextPipe ≤ e → c.ψ e + hA.nextPipe = e + hB.nextPipe
  boundE : ∀ e, c.E e → e < hA.nextPipe ∧ c.ψ e < hB.nextPipe
  listsA : ∀ x ∈ c.VA, (∀ e ∈ (hA.locs x).adj, e < hA.nextPipe) ∧
    ∀ e ∈ (hA.locs x).incoming, e < hA.nextPipe
  listsB : ∀ x ∈ c.VB, (∀ e ∈ (hB.locs x).adj, e < hB.nextPipe) ∧
    ∀ e ∈ (hB.locs x).incoming, e < hB.nextPipe
  sinkA : ∀ z, c.ZA z → ∀ e ∈ (hA.locs z).incoming, e < hA.nextPipe
  sinkB : ∀ z, c.ZB z → ∀ e ∈ (hB.locs z).incoming, e < hB.nextPipe

/-- The comparison of a second query (on the heap `h1` left by the first) with
the first query (on heap `h`, vertices `V`). -/
def queryCtx (V : List Nat) (h h1 : Heap) : Ctx where
  φ := fun x => if x < h.nextLoc then x else x + 2
  ψ := fun e => if e < h.nextPipe then e else e + (h1.nextPipe - h.nextPipe)
  VA := V ++ [h.nextLoc] ++ [h.nextLoc + 1]
  E := fun e => e ∈ allPipes h V
  ZA := fun _ => False
  ZB := fun z => z = h.nextLoc + 1
  YA := fun _ => False
  YB := fun y => y = h.nextLoc

/-- A network with a Relay coded `R_0` : Source `R1` (maximum delivery 5), Sink
`C1` (demand 10) and the link `R1 -> C1` of capacity 10. -/
def clashNet : Graph × Heap :=
  let r0 := addVertexStation Graph.empty Heap.empty 1 "R_0"
  let r1 := addVertexReservoir r0.2.1 r0.2.2 "Source" "M" 1 "R1" 5
  let r2 := addVertexCity r1.2.1 r1.2.2 "Sink" 1 "C1" 10 1000
  let r3 := addEdge r2.2.1 r2.2.2 "R1" "C1" 10
  (r3.2.1, r3.2.2)

/-- Non-negative quantities: link capacities, maximum deliveries of the Sources
and demands of the Sinks registered in the lookup maps. -/
def QueryCaps (this : Graph) (h : Heap) : Prop :=
  CapsNonneg h this.vertexSet ∧
  (∀ p ∈ this.mapReservoirs, 0 ≤ (h.locs p.2).getMaximumDelivery) ∧
  (∀ p ∈ this.mapCities, 0 ≤ (h.locs p.2).getDemand)

instance (this : Graph) (h : Heap) : Decidable (QueryCaps this h) := by
  unfold QueryCaps; infer_instance

/-- A network the solver can run on: well formed, every owned pipe allocated,
capacities non-negative. -/
structure NetOK (h : Heap) (V : List Nat) : Prop where
  wf : WF h V
  bound : ∀ e ∈ allPipes h V, e < h.nextPipe
  caps : CapsNonneg h V

end Project1

namespace Project1

/-! ## Removing links and vertices, unmet demand -/

/-- Model of `Location::deleteEdge`, called on `this` for `edge` : every pipe whose
origin has the code of `this` is erased from `incoming` of the destination of
`edge`.  The `delete edge` that follows has no counterpart here: the pipe object
stays in the heap, no longer referenced by the two lists. -/
def Location.deleteEdge (h : Heap) (this edge : Nat) : Heap :=
  let d := (h.pipes edge).dest
  h.setLoc d { h.locs d with
    incoming := (h.locs d).incoming.filter
      (fun e => !((h.locs (h.pipes e).orig).code == (h.locs this).code)) }

/-- The loop of `Location::removeEdge` : `kept` are the entries of `adj` the
iterator has passed, `e :: es` the entries from the iterator on. -/
def Location.removeEdgeLoop (this : Nat) (inn : String) :
    Heap → List Nat → List Nat → Bool → Bool × Heap
  | h, _, [], r => (r, h)
  | h, kept, e :: es, r =>
    if (h.locs (h.pipes e).dest).code == inn then
      let h1 := h.setLoc this { h.locs this with adj := kept ++ es }
      Location.removeEdgeLoop this inn (Location.deleteEdge h1 this e) kept es true
    else Location.removeEdgeLoop this inn h (kept ++ [e]) es r

/-- Model of `Location::removeEdge`. -/
def Location.removeEdge (h : Heap) (this : Nat) (inn : String) : Bool × Heap :=
  Location.removeEdgeLoop this inn h [] (h.locs this).adj false

/-- The loop of `Location::removeOutgoingEdges` : `e :: es` is what is left of `adj`. -/
def Location.removeOutgoingLoop (this : Nat) : Heap → List Nat → Heap
  | h, [] => h
  | h, e :: es =>
    let h1 := h.setLoc this { h.locs this with adj := es }
    Location.removeOutgoingLoop this (Location.deleteEdge h1 this e) es

/-- Model of `Location::removeOutgoingEdges`. -/
def Location.removeOutgoingEdges (h : Heap) (this : Nat) : Heap :=
  Location.removeOutgoingLoop this h (h.locs this).adj

/-- Model of `Graph::removeEdge`. -/
def removeEdge (g : Graph) (h : Heap) (source dest : String) : Bool × Heap :=
  match findVertex g h source with
  | none => (false, h)
  | some v => Location.removeEdge h v dest

/-- Model of `Graph::removeVertex` : the vertex found is the first of `vertexSet`
with the code. The final `delete v` has no counterpart here: the object stays in the
heap and the lookup maps keep their entry, so the model says which pointers are kept,
not what a read through them yields (in the program the object is freed). -/
def removeVertex (g : Graph) (h : Heap) (inn : String) : Bool × Graph × Heap :=
  match findVertex g h inn with
  | none => (false, g, h)
  | some v =>
    let h1 := Location.removeOutgoingEdges h v
    let h2 := g.vertexSet.foldl (fun h u => (Location.removeEdge h u (h.locs v).code).2) h1
    (true, { g with vertexSet := g.vertexSet.erase v }, h2)

/-- Model of `Graph::verifyCityNeeds`. -/
def verifyCityNeeds (fuel : Nat) (this : Graph) (h : Heap) : Result (List CityInfo) :=
  (getCitiesFlow fuel this h true "" "").bind fun l h1 =>
    Result.ok
      (l.foldl (fun acc info => if info.totalFlow < info.demand then acc ++ [info] else acc) [])
      h1

/-- Every vertex that carries a link is the vertex `findVertex` returns for its
code; this holds in particular when the codes of the vertices are distinct. -/
def Addressable (g : Graph) (h : Heap) : Prop :=
  ∀ v ∈ g.vertexSet, ((h.locs v).adj ≠ [] ∨ (h.locs v).incoming ≠ []) →
    findVertex g h (h.locs v).code = some v

instance (g : Graph) (h : Heap) : Decidable (Addressable g h) := by
  unfold Addressable; infer_instance

/-- The network Source `R1` (maximum delivery 10), Sink `C1` (demand 20) with the
single link `R1 -> C1` of capacity 6. -/
def thirstyNet : Graph × Heap :=
  let r1 := addVertexReservoir Graph.empty Heap.empty "Reservoir1" "Municipality1" 1 "R1" 10
  let r2 := addVertexCity r1.2.1 r1.2.2 "City1" 1 "C1" 20 1000
  let r3 := addEdge r2.2.1 r2.2.2 "R1" "C1" 6
  (r3.2.1, r3.2.2)

/-- Relays `A`, `B`, `C` with two parallel links `A -> B` of capacities 3 and 4
and the links `A -> C` (capacity 5) and `C -> B` (capacity 2). -/
def parallelNet : Graph × Heap :=
  let r1 := addVertexStation Graph.empty Heap.empty 1 "A"
  let r2 := addVertexStation r1.2.1 r1.2.2 2 "B"
  let r3 := addVertexStation r2.2.1 r2.2.2 3 "C"
  let r4 := addEdge r3.2.1 r3.2.2 "A" "B" 3
  let r5 := addEdge r4.2.1 r4.2.2 "A" "B" 4
  let r6 := addEdge r5.2.1 r5.2.2 "A" "C" 5
  let r7 := addEdge r6.2.1 r6.2.2 "C" "B" 2
  (r7.2.1, r7.2.2)

/-- The Relays `A` and `B`, without links. -/
def pairNet : Graph × Heap :=
  let r1 := addVertexStation Graph.empty Heap.empty 1 "A"
  let r2 := addVertexStation r1.2.1 r1.2.2 2 "B"
  (r2.2.1, r2.2.2)

/-- Relays `A` and `B` joined by one bidirectional link of capacity 5. -/
def bidiNet : Graph × Heap :=
  let r3 := addBidirectionalEdge pairNet.1 pairNet.2 "A" "B" 5
  (r3.2.1, r3.2.2)

/-- A Relay and a Sink that are both given the code `X`. -/
def twinNet : Graph × Heap :=
  let r1 := addVertexStation Graph.empty Heap.empty 1 "X"
  let r2 := addVertexCity r1.2.1 r1.2.2 "City" 1 "X" 5 100
  (r2.2.1, r2.2.2)

/-- A network with the single Relay `A`. -/
def loneNet : Graph × Heap :=
  let r1 := addVertexStation Graph.empty Heap.empty 1 "A"
  (r1.2.1, r1.2.2)

/-- The link `e` ends at a vertex coded `c`. -/
def destCoded (h : Heap) (c : String) (e : Nat) : Bool :=
  (h.locs (h.pipes e).dest).code == c

/-- The link `e` starts at a vertex coded `c`. -/
def origCoded (h : Heap) (c : String) (e : Nat) : Bool :=
  (h.locs (h.pipes e).orig).code == c

/-- What the removal of links may change: `h1` differs from `h` at most in the
`adj` and `incoming` lists of the vertices (the incoming count `indegree` is
among the fields that stay). -/
structure RemovalFrame (h h1 : Heap) : Prop where
  pipes : h1.pipes = h.pipes
  nextLoc : h1.nextLoc = h.nextLoc
  nextPipe : h1.nextPipe = h.nextPipe
  locs : ∀ v, (h1.locs v).code = (h.locs v).code ∧ (h1.locs v).id = (h.locs v).id ∧
    (h1.locs v).kind = (h.locs v).kind ∧ (h1.locs v).visited = (h.locs v).visited ∧
    (h1.locs v).processing = (h.locs v).processing ∧
    (h1.locs v).indegree = (h.locs v).indegree ∧ (h1.locs v).path = (h.locs v).path

/-! ## Vocabulary for the records of the impact queries -/

/-- What a record says about the sink itself: code, name and demand. -/
def CityInfo.sink (c : CityInfo) : String × String × Int :=
  (c.cityCode, c.cityName, c.demand)

/-- Code, name and demand as stored in a node. -/
def Location.sink (l : Location) : String × String × Int :=
  (l.code, l.getName, l.getDemand)

/-- Every allocated node owns the links in its lists: a link in `adj` starts at the
node, a link in `incoming` ends at it, and links and their other end points are
allocated. -/
def HeapOK (h : Heap) : Prop :=
  ∀ v, v < h.nextLoc →
    (∀ e ∈ (h.locs v).adj,
      (h.pipes e).orig = v ∧ (h.pipes e).dest < h.nextLoc ∧ e < h.nextPipe) ∧
    (∀ e ∈ (h.locs v).incoming,
      (h.pipes e).dest = v ∧ (h.pipes e).orig < h.nextLoc ∧ e < h.nextPipe)

instance (h : Heap) : Decidable (HeapOK h) := by
  unfold HeapOK; exact Nat.decidableBallLT _ _

/-- The nodes of the graph and the sinks of its city map are allocated. -/
def GraphOK (g : Graph) (h : Heap) : Prop :=
  (∀ v ∈ g.vertexSet, v < h.nextLoc) ∧ (∀ p ∈ g.mapCities, p.2 < h.nextLoc)

instance (g : Graph) (h : Heap) : Decidable (GraphOK g h) := by
  unfold GraphOK; exact inferInstance

/-- The Source `R1` (capacity 10) and the Sink `C1` (demand 10) joined by two parallel
links `R1 -> C1` of capacities 3 (pipe 0) and 4 (pipe 1). -/
def doubleNet : Graph × Heap :=
  let r1 := addVertexReservoir Graph.empty Heap.empty "Res" "Mun" 1 "R1" 10
  let r2 := addVertexCity r1.2.1 r1.2.2 "City" 1 "C1" 10 100
  let r3 := addEdge r2.2.1 r2.2.2 "R1" "C1" 3
  let r4 := addEdge r3.2.1 r3.2.2 "R1" "C1" 4
  (r4.2.1, r4.2.2)

/-- The allocated nodes of `h` keep code, name and demand in `h1`. -/
def SinkFrame (h h1 : Heap) : Prop :=
  h.nextLoc ≤ h1.nextLoc ∧ ∀ v, v < h.nextLoc → (h1.locs v).sink = (h.locs v).sink

/-- The vertex `w` is the start vertex `s` or was marked visited since the search
started in `h0`. -/
def Marked (h0 h : Heap) (s w : Nat) : Prop :=
  w = s ∨ ((h.locs w).visited = true ∧ (h0.locs w).visited = false)

/-- Every vertex marked since the search started in `h0` has a `path` link that is
enabled, and the vertex the walk back along `path` goes to next is marked as well. -/
def OpenTree (h0 h : Heap) (s : Nat) : Prop :=
  ∀ w, Marked h0 h s w → w ≠ s →
    ∃ e, (h.locs w).path = some e ∧ (h.pipes e).activated = true ∧
      Marked h0 h s (if (h.pipes e).dest = w then (h.pipes e).orig else (h.pipes e).dest)

/-- State of the search for an augmenting path: `st` (heap and queue) was reached from
`h0`, the heap in which the start vertex `s` was marked. Links and lists are
those of `h0`, marks are only added, and the queue holds marked allocated vertices. -/
structure Search (h0 : Heap) (s : Nat) (st : Heap × List Nat) : Prop where
  pipes : st.1.pipes = h0.pipes
  nextLoc : st.1.nextLoc = h0.nextLoc
  adj : ∀ x, (st.1.locs x).adj = (h0.locs x).adj
  incoming : ∀ x, (st.1.locs x).incoming = (h0.locs x).incoming
  mono : ∀ x, (h0.locs x).visited = true → (st.1.locs x).visited = true
  tree : OpenTree h0 st.1 s
  queue : ∀ v ∈ st.2, Marked h0 st.1 s v ∧ v < h0.nextLoc

/-- How the graph `g1` and heap `h1` built from `g` and `h` relate to them: the heap is
consistent, the vertices are allocated, no vertex is dropped, the outgoing lists of the
old nodes only grow, and the old pipes are as described by `QueryFrame`. -/
structure Built (g : Graph) (h : Heap) (g1 : Graph) (h1 : Heap) : Prop where
  ok : HeapOK h1
  alloc : ∀ v ∈ g1.vertexSet, v < h1.nextLoc
  verts : ∀ v ∈ g.vertexSet, v ∈ g1.vertexSet
  adj : ∀ v, v < h.nextLoc → ∀ e ∈ (h.locs v).adj, e ∈ (h1.locs v).adj
  frame : QueryFrame h h1

end Project1

/-! ## The type `double`

Model of the C++ type `double` as the program uses it: IEEE-754 binary64 with
round-to-nearest, ties-to-even. Every finite binary64 value is an integer multiple of
`2^(-1074)`; the constructor `fin n` holds the value `n * 2^(-1074)`. The sign of a zero
is not kept: the program adds, subtracts and compares, which do not tell `-0.0` from
`0.0`. -/

/-- A value of the C++ type `double`. -/
inductive Double where
  | nan
  | inf (negative : Bool)
  | fin (n : Int)
deriving DecidableEq

namespace Double

/-- The loop that counts the binary digits of `a`. -/
def bitsFrom : Nat → Nat → Nat → Nat
  | 0, _, acc => acc
  | f + 1, a, acc => if a = 0 then acc else bitsFrom f (a / 2) (acc + 1)

/-- The number of binary digits of `a`. -/
def bits (a : Nat) : Nat := bitsFrom a a 0

/-- The `double` nearest to `num / den` units of `2^(-1074)`, with the given sign: the
quotient is cut to its 53 leading binary digits and goes one up when the part cut off
is more than half a unit of the last digit kept, or exactly half with an odd last digit;
a result of more than 2098 digits (above the largest finite value) is an infinity. -/
def roundQ (negative : Bool) (num den : Nat) : Double :=
  let x := num / den
  let k := bits x - 53
  let q := x >>> k
  let twice := 2 * (num - (q <<< k) * den)
  let q1 := if den <<< k < twice ∨ (twice = den <<< k ∧ q % 2 = 1) then q + 1 else q
  if 2098 < bits (q1 <<< k) then inf negative
  else fin (if negative then -((q1 <<< k : Nat) : Int) else ((q1 <<< k : Nat) : Int))

/-- Rounding of `n` units of `2^(-1074)`. -/
def rnd (n : Int) : Double := roundQ (decide (n < 0)) n.natAbs 1

/-- The value `std::stod` gives for the decimal `m * 10^(-k)`. -/
def ofDecimal (m : Int) (k : Nat) : Double :=
  roundQ (decide (m < 0)) (m.natAbs <<< 1074) (10 ^ k)

/-- Conversion of an integer. -/
def ofInt (m : Int) : Double := ofDecimal m 0

instance (n : Nat) : OfNat Double n := ⟨ofInt n⟩

/-- The operator `+`. -/
def add : Double → Double → Double
  | fin a, fin b => rnd (a + b)
  | nan, _ => nan
  | _, nan => nan
  | inf s, inf t => if s = t then inf s else nan
  | inf s, fin _ => inf s
  | fin _, inf t => inf t

/-- Unary minus. -/
def neg : Double → Double
  | nan => nan
  | inf s => inf (!s)
  | fin n => fin (-n)

/-- The operator `-`. -/
def sub (a b : Double) : Double := add a (neg b)

/-- The operator `<`; false when an operand is a NaN. -/
def lt : Double → Double → Bool
  | fin a, fin b => decide (a < b)
  | fin _, inf t => !t
  | inf s, fin _ => s
  | inf s, inf t => s && !t
  | _, _ => false

/-- The operator `==`; false when an operand is a NaN. -/
def eq : Double → Double → Bool
  | fin a, fin b => decide (a = b)
  | inf s, inf t => s == t
  | _, _ => false

/-- The operator `<=`. -/
def le (a b : Double) : Bool := lt a b || eq a b

/-- Model of `std::isnan`. -/
def isNaN : Double → Bool
  | nan => true
  | _ => false

/-- Model of `std::min(a, b)` : `b` when `b < a`, else `a`. -/
def min (a b : Double) : Double := if lt b a then b else a

instance : Add Double := ⟨add⟩
instance : Sub Double := ⟨sub⟩
instance : LT Double := ⟨fun a b => lt a b = true⟩
instance : LE Double := ⟨fun a b => le a b = true⟩
instance (a b : Double) : Decidable (a < b) := inferInstanceAs (Decidable (lt a b = true))
instance (a b : Double) : Decidable (a ≤ b) := inferInstanceAs (Decidable (le a b = true))

end Double

/-! ## The second project: travelling salesman on a complete graph

Model of `src/projeto2/src/Graph.cpp`. A `std::unordered_map<int, T>` is an association
list, and every `Vertex*` stored in `vertexMap` is the vertex held under that key. -/

namespace Projeto2

/-- Model of `unordered_map::find`. -/
def amFind {α : Type} (m : List (Int × α)) (k : Int) : Option α :=
  (m.find? (fun p => p.1 == k)).map (fun p => p.2)

/-- Assignment `m[k] = v`. -/
def amInsert {α : Type} (m : List (Int × α)) (k : Int) (v : α) : List (Int × α) :=
  if m.any (fun p => p.1 == k) then m.map (fun p => if p.1 == k then (k, v) else p)
  else m ++ [(k, v)]

/-- Model of `unordered_map::erase(key)`. -/
def amErase {α : Type} (m : List (Int × α)) (k : Int) : List (Int × α) :=
  m.filter (fun p => !(p.1 == k))

/-- Class `Vertex`. -/
structure Vertex where
  id : Int
  latitude : Double
  longitude : Double
  adj : List (Int × Double)
  visited : Bool
deriving DecidableEq

/-- Class `Graph`: the map from ids to vertices. -/
structure Graph where
  vertexMap : List (Int × Vertex)
deriving DecidableEq

/-- Model of the constructor `Vertex(int id)`. -/
def Vertex.mk1 (id : Int) : Vertex :=
  { id := id, latitude := 0, longitude := 0, adj := [], visited := false }

/-- Model of `Vertex::addEdge`. -/
def Vertex.addEdge (this : Vertex) (dest : Int) (w : Double) : Vertex :=
  if dest = this.id then this else { this with adj := amInsert this.adj dest w }

/-- Model of `Vertex::removeEdge`. -/
def Vertex.removeEdge (this : Vertex) (dest : Int) : Vertex :=
  { this with adj := amErase this.adj dest }

/-- Model of `Graph::Graph()`. -/
def Graph.empty : Graph := { vertexMap := [] }

/-- Model of `Graph::getNumVertex`. -/
def Graph.getNumVertex (this : Graph) : Nat := this.vertexMap.length

/-- Model of `Graph::findVertex`. -/
def Graph.findVertex (this : Graph) (id : Int) : Option Vertex := amFind this.vertexMap id

/-- A write through the pointer stored under key `k` : the vertex held there becomes
`f` of itself. -/
def Graph.update (this : Graph) (k : Int) (f : Vertex → Vertex) : Graph :=
  { vertexMap := this.vertexMap.map (fun p => if p.1 == k then (p.1, f p.2) else p) }

/-- The body of the loop of `Graph::read_edges` for one line `id1,id2,weight` : a line
with an id `-1` is skipped. -/
def Graph.readEdge (this : Graph) (id1 id2 : Int) (weight : Double) : Graph :=
  if id1 = -1 ∨ id2 = -1 then this
  else
    let g1 : Graph :=
      match this.findVertex id1 with
      | some _ => this
      | none => { vertexMap := amInsert this.vertexMap id1 (Vertex.mk1 id1) }
    let g2 : Graph :=
      match g1.findVertex id2 with
      | some _ => g1
      | none => { vertexMap := amInsert g1.vertexMap id2 (Vertex.mk1 id2) }
    (g2.update id1 (fun v => v.addEdge id2 weight)).update id2 (fun v => v.addEdge id1 weight)

/-- Model of `Graph::removeAllEdgesTo`; the argument `v` is the pointer stored under
key `vk`. Returns the map `weights` and the graph. -/
def Graph.removeAllEdgesTo (this : Graph) (vk : Int) :
    Option (List (Int × Double) × Graph) :=
  match this.findVertex vk with
  | none => none
  | some v0 =>
    let r := (List.range this.getNumVertex).foldl
      (fun (st : List (Int × Double) × Vertex) (i : Nat) =>
        if (i : Int) = st.2.id then st
        else (amInsert st.1 i ((amFind st.2.adj i).getD 0), st.2.removeEdge i)) ([], v0)
    some (r.1, this.update vk (fun _ => r.2))

/-- Model of `Graph::addAllEdgesTo`; the argument `v` is the pointer stored under key
`vk`. The call `getVertexMap()[i]->addEdge(i, weights[i])` goes through the pointer
stored under `i`, which must exist. -/
def Graph.addAllEdgesTo (this : Graph) (vk : Int) (weights : List (Int × Double)) :
    Option Graph :=
  match this.findVertex vk with
  | none => none
  | some v =>
    (List.range this.getNumVertex).foldl
      (fun (st : Option Graph) (i : Nat) =>
        st.bind fun g1 =>
          if (i : Int) = v.id then some g1
          else
            match g1.findVertex i with
            | none => none
            | some _ => some (g1.update i (fun u => u.addEdge i ((amFind weights i).getD 0))))
      (some this)

/-- The loop of `Graph::pathDistance`, at position `i` with the sum `acc`; `hav`
stands for `getHaversine`, a function of the two latitudes and longitudes. -/
def Graph.pathDistanceLoop (hav : Double → Double → Double → Double → Double)
    (this : Graph) : Double → List Int → Option Double
  | acc, a :: b :: rest =>
    match this.findVertex a with
    | none => none
    | some va =>
      if Double.eq ((amFind va.adj b).getD 0) 0 then
        match this.findVertex b with
        | none => none
        | some vb =>
          Graph.pathDistanceLoop hav this
            (acc + hav va.latitude va.longitude vb.latitude vb.longitude) (b :: rest)
      else Graph.pathDistanceLoop hav this (acc + (amFind va.adj b).getD 0) (b :: rest)
  | acc, _ => some acc

/-- Model of `Graph::pathDistance`; on the empty path the loop bound `path_size - 1`
wraps around and the function does not return a value. -/
def Graph.pathDistance (hav : Double → Double → Double → Double → Double) (this : Graph)
    (path : List Int) : Option Double :=
  if path = [] then none else this.pathDistanceLoop hav 0 path

/-- Model of `Graph::recursiveBacktracking`; `fuel` bounds the depth of the recursion.
The vector `path` is pushed before and popped after each inner call, so the caller
goes on with its own `path`. Returns the graph (visited flags) and `best_path`. -/
def Graph.recursiveBacktracking (hav : Double → Double → Double → Double → Double) :
    Nat → Graph → List Int → List Int → Option (Graph × List Int)
  | 0, _, _, _ => none
  | fuel + 1, g, path, best_path =>
    if path.length = g.getNumVertex then
      match path.head? with
      | none => none
      | some front =>
        if best_path = [] then some (g, path ++ [front])
        else
          match g.pathDistance hav (path ++ [front]), g.pathDistance hav best_path with
          | some d1, some d2 => some (g, if d1 < d2 then path ++ [front] else best_path)
          | _, _ => none
    else
      match path.getLast? with
      | none => none
      | some back =>
        match g.findVertex back with
        | none => some (g, best_path)
        | some currentVertex =>
          (List.range g.getNumVertex).foldl
            (fun (st : Option (Graph × List Int)) (i : Nat) =>
              st.bind fun s =>
                if (i : Int) = currentVertex.id then some s
                else
                  match s.1.findVertex i with
                  | none => none
                  | some nextVertex =>
                    if nextVertex.visited then some s
                    else
                      match Graph.recursiveBacktracking hav fuel
                          (s.1.update i (fun v => { v with visited := true }))
                          (path ++ [nextVertex.id]) s.2 with
                      | none => none
                      | some r =>
                        some (r.1.update i (fun v => { v with visited := false }), r.2))
            (some (g, best_path))

/-- Model of `Graph::backtrackingTSP`; returns the path, the distance written to
`dist` (nothing is written for an invalid source) and the graph. The clock is not
modelled. -/
def Graph.backtrackingTSP (hav : Double → Double → Double → Double → Double) (fuel : Nat)
    (this : Graph) (source : Int) : Option (List Int × Option Double × Graph) :=
  let g0 : Graph :=
    { vertexMap := this.vertexMap.map (fun p => (p.1, { p.2 with visited := false })) }
  match g0.findVertex source with
  | none => some ([], none, g0)
  | some _ =>
    match Graph.recursiveBacktracking hav fuel
        (g0.update source (fun v => { v with visited := true })) [source] [] with
    | none => none
    | some r =>
      match r.1.pathDistance hav r.2 with
      | none => none
      | some d => some (r.2, some d, r.1)

/-- The graph with vertices 0 and 1 joined by an edge of weight 5, as read from the
line `0,1,5`. -/
def pairGraph : Graph := Graph.empty.readEdge 0 1 5

/-- The graph read from the lines `0,1,1`, `1,2,1`, `0,2,5`. -/
def triGraph : Graph := ((Graph.empty.readEdge 0 1 1).readEdge 1 2 1).readEdge 0 2 5

/-- The vertex ids are exactly `0, ..., n - 1` : the map holds under every key `i` below
the number of its entries a vertex with id `i`. -/
def Graph.Canonical (g : Graph) : Prop :=
  ∀ i, i < g.getNumVertex → (g.findVertex (i : Int)).map (fun v => v.id) = some (i : Int)

instance (g : Graph) : Decidable g.Canonical := by
  unfold Graph.Canonical; exact Nat.decidableBallLT _ _

/-- A tour of the vertices `0, ..., n - 1` from `source` : `n + 1` ids, the first and the
last are `source`, and without the last one they are every vertex exactly once. -/
def IsTour (n : Nat) (source : Int) (path : List Int) : Prop :=
  path.head? = some source ∧ path.getLast? = some source ∧ path.length = n + 1 ∧
  path.dropLast.Perm ((List.range n).map Int.ofNat)

instance (n : Nat) (source : Int) (path : List Int) : Decidable (IsTour n source path) := by
  unfold IsTour; infer_instance

/-- The graph with the flag `visited` set at the vertices whose key is in `path` and
cleared at the others. -/
def Graph.paint (g : Graph) (path : List Int) : Graph :=
  { vertexMap := g.vertexMap.map (fun p => (p.1, { p.2 with visited := decide (p.1 ∈ path) })) }

/-- The value of `pathDistance`, 0 where it returns none. -/
def Graph.dist (hav : Double → Double → Double → Double → Double) (g : Graph)
    (path : List Int) : Double :=
  (g.pathDistance hav path).getD 0

/-- The graph read from the lines `0,1,1`, `1,2,4`, `0,2,2`, `2,3,1`, `1,3,1`, `0,3,7`. -/
def quadGraph : Graph :=
  (((((Graph.empty.readEdge 0 1 1).readEdge 1 2 4).readEdge 0 2 2).readEdge 2 3 1).readEdge
    1 3 1).readEdge 0 3 7

/-- The complete graph on four vertices read from the lines `0,1,nan`, `0,2,1`, `0,3,1`,
`1,2,1`, `1,3,1`, `2,3,1` (`std::stod` reads `nan` as a NaN). -/
def nanGraph : Graph :=
  (((((Graph.empty.readEdge 0 1 Double.nan).readEdge 0 2 1).readEdge 0 3 1).readEdge 1 2 1).readEdge
    1 3 1).readEdge 2 3 1

/-- Every stored weight is at least zero (in particular not a NaN). -/
def Graph.NonNeg (g : Graph) : Prop :=
  ∀ p ∈ g.vertexMap, ∀ e ∈ p.2.adj, (0 : Double) ≤ e.2

instance (g : Graph) : Decidable g.NonNeg := by
  unfold Graph.NonNeg; infer_instance

end Projeto2

namespace Project1

/-! ## Vocabulary for the search with residuals -/

/-- The link `e`, recorded in `path` of the vertex `w`, was usable in the direction it
was taken from a marked vertex: it is enabled, and either it enters `w`, is listed in
`adj` of its marked origin and has `flow < capacity`, or it leaves `w`, is listed in
`incoming` of its marked destination and has `flow > 0`. -/
def Reached (h0 h : Heap) (s w e : Nat) : Prop :=
  (h.pipes e).activated = true ∧
  (((h.pipes e).dest = w ∧ Marked h0 h s (h.pipes e).orig ∧
      (h.pipes e).flow < (h.pipes e).weight ∧ e ∈ (h.locs (h.pipes e).orig).adj) ∨
   ((h.pipes e).dest ≠ w ∧ (h.pipes e).orig = w ∧ Marked h0 h s (h.pipes e).dest ∧
      0 < (h.pipes e).flow ∧ e ∈ (h.locs (h.pipes e).dest).incoming))

/-- Every vertex marked since the search started in `h0` is allocated and was reached
over the link in its `path` field. -/
def ResidualTree (h0 h : Heap) (s : Nat) : Prop :=
  ∀ w, Marked h0 h s w → w ≠ s →
    w < h.nextLoc ∧ ∃ e, (h.locs w).path = some e ∧ Reached h0 h s w e

/-- State of the search, with the residuals of the links taken. -/
structure Hunt (h0 : Heap) (s : Nat) (st : Heap × List Nat) : Prop where
  base : Search h0 s st
  tree : ResidualTree h0 st.1 s

/-- The three Relays `S`, `A`, `T` with the links `A -> S` (pipe 0) and `A -> T`
(pipe 1) of capacity 5, where the link `A -> S` carries flow 3 and is disabled. -/
def backNet : Graph × Heap :=
  let r1 := addVertexStation Graph.empty Heap.empty 1 "S"
  let r2 := addVertexStation r1.2.1 r1.2.2 2 "A"
  let r3 := addVertexStation r2.2.1 r2.2.2 3 "T"
  let r4 := addEdge r3.2.1 r3.2.2 "A" "S" 5
  let r5 := addEdge r4.2.1 r4.2.2 "A" "T" 5
  (r5.2.1, setActivated (setFlow r5.2.2 0 3) 0 false)

end Project1

namespace Project1

/-! ## Sequences of building and editing operations -/

/-- The calls that build and edit a network. -/
inductive Op where
  | addVertexReservoir (name municipality : String) (id : Int) (code : String)
      (maximumDelivery : Int)
  | addVertexStation (id : Int) (code : String)
  | addVertexCity (name : String) (id : Int) (code : String) (demand population : Int)
  | addEdge (source dest : String) (w : Int)
  | addBidirectionalEdge (source dest : String) (w : Int)
  | removeEdge (source dest : String)
  | removeVertex (code : String)

/-- The code a call gives to a new node, for the calls that add a node. -/
def Op.newCode : Op → Option String
  | Op.addVertexReservoir _ _ _ code _ => some code
  | Op.addVertexStation _ code => some code
  | Op.addVertexCity _ _ code _ _ => some code
  | _ => none

/-- The effect of one call on the graph and the heap; the returned flag is dropped. -/
def Op.run : Op → Graph × Heap → Graph × Heap
  | Op.addVertexReservoir name municipality id code m, st =>
    (Project1.addVertexReservoir st.1 st.2 name municipality id code m).2
  | Op.addVertexStation id code, st => (Project1.addVertexStation st.1 st.2 id code).2
  | Op.addVertexCity name id code d p, st => (Project1.addVertexCity st.1 st.2 name id code d p).2
  | Op.addEdge source dest w, st => (Project1.addEdge st.1 st.2 source dest w).2
  | Op.addBidirectionalEdge source dest w, st => (Project1.addBidirectionalEdge st.1 st.2 source dest w).2
  | Op.removeEdge source dest, st => (st.1, (Project1.removeEdge st.1 st.2 source dest).2)
  | Op.removeVertex code, st => (Project1.removeVertex st.1 st.2 code).2

/-- A sequence of calls, from left to right. -/
def runOps (ops : List Op) (st : Graph × Heap) : Graph × Heap :=
  ops.foldl (fun st op => op.run st) st

/-- A network in good shape: well formed, with pairwise distinct node codes, and with
its nodes and links allocated. -/
structure Sound (g : Graph) (h : Heap) : Prop where
  wf : WF h g.vertexSet
  codes : (g.vertexSet.map (fun v => (h.locs v).code)).Nodup
  alloc : ∀ v ∈ g.vertexSet, v < h.nextLoc
  bound : ∀ e ∈ allPipes h g.vertexSet, e < h.nextPipe

end Project1

namespace Project1

/-! ## Vocabulary for the perturbed solves -/

/-- The network Source `R1` (maximum delivery 10, node 0), Relay `PS1` (node 1), Sink `C1`
(demand 8, node 2) with the bidirectional pipeline `R1 <-> PS1` of capacity 5 (pipes 0
and 1), the link `PS1 -> C1` of capacity 5 (pipe 2) and the link `R1 -> C1` of capacity
3 (pipe 3). -/
def relayNet : Graph × Heap :=
  let r1 := addVertexReservoir Graph.empty Heap.empty "Reservoir1" "Municipality1" 1 "R1" 10
  let r2 := addVertexStation r1.2.1 r1.2.2 1 "PS1"
  let r3 := addVertexCity r2.2.1 r2.2.2 "City1" 1 "C1" 8 1000
  let r4 := addBidirectionalEdge r3.2.1 r3.2.2 "R1" "PS1" 5
  let r5 := addEdge r4.2.1 r4.2.2 "PS1" "C1" 5
  let r6 := addEdge r5.2.1 r5.2.2 "R1" "C1" 3
  (r6.2.1, r6.2.2)

/-- The lookup maps of the Sources and of the Sinks have distinct keys, and every entry
holds the node `findVertex` returns for its key. -/
def MapsSound (this : Graph) (h : Heap) : Prop :=
  (this.mapReservoirs.map Prod.fst).Nodup ∧ (this.mapCities.map Prod.fst).Nodup ∧
  (∀ p ∈ this.mapReservoirs, findVertex this h p.1 = some p.2) ∧
  (∀ p ∈ this.mapCities, findVertex this h p.1 = some p.2)

instance (this : Graph) (h : Heap) : Decidable (MapsSound this h) := by
  unfold MapsSound; infer_instance

/-- The pipe object `Location::addEdge` allocates for a link given by origin, destination
and capacity. -/
def freshPipe (t : Nat × Nat × Int) : Pipe :=
  { dest := t.2.1, weight := t.2.2, orig := t.1, reverse := none, flow := 0, activated := true }

/-- Successive calls of `Location::addEdge`, one for each link of the list (origin,
destination, capacity). -/
def linkAll (h : Heap) (ts : List (Nat × Nat × Int)) : Heap :=
  ts.foldl (fun h t => (Location.addEdge h t.1 t.2.1 t.2.2).2) h

/-- The pipe indices, counted from `m`, of the links of the list that satisfy `f`. -/
def positions (f : Nat × Nat × Int → Bool) : Nat → List (Nat × Nat × Int) → List Nat
  | _, [] => []
  | m, t :: ts => if f t then m :: positions f (m + 1) ts else positions f (m + 1) ts

/-- The links of the super source `n` and of the super sink `n + 1` for the Source map
`R` and the Sink map `C` : one link from `n` to every Source, of capacity its maximum
delivery, or 0 under the key `tr`, then one link from every Sink to `n + 1`, of capacity
its demand. -/
def superLinks (h : Heap) (R C : List (String × Nat)) (tr : String) (n : Nat) :
    List (Nat × Nat × Int) :=
  R.map (fun p => (n, p.2, if p.1 == tr then 0 else (h.locs p.2).getMaximumDelivery)) ++
  C.map (fun p => (p.2, n + 1, (h.locs p.2).getDemand))

/-- Every link in a list of an allocated node is also in the list at its other end. -/
def Paired (h : Heap) : Prop :=
  ∀ v, v < h.nextLoc →
    (∀ e ∈ (h.locs v).adj, e ∈ (h.locs (h.pipes e).dest).incoming) ∧
    (∀ e ∈ (h.locs v).incoming, e ∈ (h.locs (h.pipes e).orig).adj)

instance (h : Heap) : Decidable (Paired h) := by
  unfold Paired; exact Nat.decidableBallLT _ _

/-- The node `S` is cut off: every link entering it is disabled and every link leaving
it carries no flow. -/
structure CutOff (h : Heap) (S : Nat) : Prop where
  entering : ∀ e ∈ (h.locs S).incoming, (h.pipes e).activated = false
  leaving : ∀ e ∈ (h.locs S).adj, (h.pipes e).flow = 0

/-- The heaps returned by the successive calls of `findAugmentingPath` in the loop of
`edmondsKarp` (the same loop as `augmentLoop`, keeping the heap after each search). -/
def bfsTrace : Nat → Nat → Graph → Nat → Nat → Heap → Option (List Heap)
  | 0, _, _, _, _, _ => none
  | n + 1, fuel, g, s, t, h =>
    match findAugmentingPath fuel g h s t with
    | none => none
    | some (false, h1) => some [h1]
    | some (true, h1) =>
      match findMinResidualAlongPath fuel h1 s t with
      | none => none
      | some f =>
        match augmentFlowAlongPath fuel h1 s t f with
        | none => none
        | some h2 => (bfsTrace n fuel g s t h2).map (fun l => h1 :: l)

end Project1

/-! ## The flow engine with `double` arithmetic

The same functions of `src/project1/src/Graph.cpp` as in the first model, with every
`double` (capacity, flow, demand, maximum delivery, reported flow) kept as a `Double`,
so that sums and differences are rounded as the program rounds them. The containers of
class `Graph` hold no number and are shared with the first model. -/

/-- The value in units of `2^(-1074)` of a finite `double` (0 for the others): exact
sums and differences of finite values are sums and differences of these integers. -/
def Double.units : Double → Int
  | Double.fin n => n
  | _ => 0

namespace Project1.Fp

/-! ## Data model -/

/-- Class `Pipe`: a directed edge with capacity `weight`, current `flow`, an
`activated` flag and an optional `reverse` edge. -/
structure Pipe where
  dest : Nat
  weight : Double
  orig : Nat
  reverse : Option Nat
  flow : Double
  activated : Bool
deriving DecidableEq

/-- The three subclasses of `Location` with their own member variables. -/
inductive Kind where
  | reservoir (name municipality : String) (maximumDelivery : Double)
  | pumpingStation
  | city (name : String) (demand : Double) (population : Int) (totalFlow : Double)
deriving DecidableEq

/-- Class `Location`: a vertex with its outgoing (`adj`) and `incoming` edges. -/
structure Location where
  code : String
  id : Int
  adj : List Nat
  incoming : List Nat
  visited : Bool
  processing : Bool
  indegree : Nat
  path : Option Nat
  kind : Kind
deriving DecidableEq

/-- The free store: every `Location` and `Pipe` object ever allocated. -/
structure Heap where
  locs : Nat → Location
  pipes : Nat → Pipe
  nextLoc : Nat
  nextPipe : Nat

/-- Struct `CityInfo`. -/
structure CityInfo where
  cityName : String
  cityCode : String
  demand : Double
  totalFlow : Double
  affectedTotalFlow : Double
deriving DecidableEq

/-- Outcome of a call that may throw `std::logic_error` (`invalidArgument`,
with the heap as it is when the exception leaves the function) or fail to
return a value (`stuck`). -/
inductive Result (α : Type) where
  | ok (a : α) (h : Heap)
  | invalidArgument (h : Heap)
  | stuck

/-- The macro `INF` : `std::numeric_limits<double>::max()`, the largest finite value
`(2^53 - 1) * 2^971`. -/
def INF : Double := Double.fin (((9007199254740991 : Nat) <<< 2045 : Nat) : Int)

/-! ## Heap access -/

def Location.getMaximumDelivery (l : Location) : Double :=
  match l.kind with
  | Kind.reservoir _ _ m => m
  | _ => 0

def Location.getName (l : Location) : String :=
  match l.kind with
  | Kind.reservoir n _ _ => n
  | Kind.city n _ _ _ => n
  | Kind.pumpingStation => ""

def Location.getDemand (l : Location) : Double :=
  match l.kind with
  | Kind.city _ d _ _ => d
  | _ => 0

def Location.getTotalFlow (l : Location) : Double :=
  match l.kind with
  | Kind.city _ _ _ f => f
  | _ => 0

def Heap.setLoc (h : Heap) (v : Nat) (l : Location) : Heap :=
  { h with locs := Function.update h.locs v l }

def Heap.setPipe (h : Heap) (e : Nat) (p : Pipe) : Heap :=
  { h with pipes := Function.update h.pipes e p }

/-- Model of `Location::setVisited`. -/
def setVisited (h : Heap) (v : Nat) (b : Bool) : Heap :=
  h.setLoc v { h.locs v with visited := b }

/-- Model of `Location::setPath`. -/
def setPath (h : Heap) (v : Nat) (p : Option Nat) : Heap :=
  h.setLoc v { h.locs v with path := p }

/-- Model of `Pipe::setFlow`. -/
def setFlow (h : Heap) (e : Nat) (f : Double) : Heap :=
  h.setPipe e { h.pipes e with flow := f }

/-- Model of `Pipe::setActivated`. -/
def setActivated (h : Heap) (e : Nat) (b : Bool) : Heap :=
  h.setPipe e { h.pipes e with activated := b }

/-- Model of `Pipe::setReverse`. -/
def setReverse (h : Heap) (e : Nat) (r : Option Nat) : Heap :=
  h.setPipe e { h.pipes e with reverse := r }

/-- Model of `City::setTotalFlow`. -/
def setTotalFlow (h : Heap) (v : Nat) (f : Double) : Heap :=
  match (h.locs v).kind with
  | Kind.city n d p _ => h.setLoc v { h.locs v with kind := Kind.city n d p f }
  | _ => h

/-! ## Building the network -/

/-- The empty free store. -/
def Heap.empty : Heap where
  locs := fun _ =>
    { code := "", id := 0, adj := [], incoming := [], visited := false, processing := false,
      indegree := 0, path := none, kind := Kind.pumpingStation }
  pipes := fun _ =>
    { dest := 0, weight := 0, orig := 0, reverse := none, flow := 0, activated := true }
  nextLoc := 0
  nextPipe := 0

/-- Model of `new Reservoir / PumpingStation / City` : the `Location` constructor sets
`indegree = 0`; `visited`, `processing` and `path` have default initialisers. -/
def newLocation (h : Heap) (id : Int) (code : String) (k : Kind) : Nat × Heap :=
  (h.nextLoc,
   { h with
     locs := Function.update h.locs h.nextLoc
       { code := code, id := id, adj := [], incoming := [], visited := false,
         processing := false, indegree := 0, path := none, kind := k }
     nextLoc := h.nextLoc + 1 })

/-- Model of `Graph::findVertex`. -/
def findVertex (g : Graph) (h : Heap) (code : String) : Option Nat :=
  g.vertexSet.find? (fun v => (h.locs v).code == code)

/-- Model of `Graph::addVertexReservoir`. -/
def addVertexReservoir (g : Graph) (h : Heap) (name municipality : String) (id : Int)
    (code : String) (maximumDelivery : Double) : Bool × Graph × Heap :=
  if (mapFind g.mapReservoirs code).isSome then (false, g, h)
  else
    let r := newLocation h id code (Kind.reservoir name municipality maximumDelivery)
    (true,
     { g with vertexSet := g.vertexSet ++ [r.1],
              mapReservoirs := mapInsert g.mapReservoirs code r.1 },
     r.2)

/-- Model of `Graph::addVertexStation`. -/
def addVertexStation (g : Graph) (h : Heap) (id : Int) (code : String) : Bool × Graph × Heap :=
  if (mapFind g.mapStations code).isSome then (false, g, h)
  else
    let r := newLocation h id code Kind.pumpingStation
    (true,
     { g with vertexSet := g.vertexSet ++ [r.1],
              mapStations := mapInsert g.mapStations code r.1 },
     r.2)

/-- Model of `Graph::addVertexCity`. -/
def addVertexCity (g : Graph) (h : Heap) (name : String) (id : Int) (code : String)
    (demand : Double) (population : Int) : Bool × Graph × Heap :=
  if (mapFind g.mapCities code).isSome then (false, g, h)
  else
    let r := newLocation h id code (Kind.city name demand population 0)
    (true,
     { g with vertexSet := g.vertexSet ++ [r.1],
              mapCities := mapInsert g.mapCities code r.1 },
     r.2)

/-- Model of `Location::addEdge` : allocate the pipe, push it on `adj` of the origin, then
increment `indegree` of the destination and push it on its `incoming`. -/
def Location.addEdge (h : Heap) (this d : Nat) (w : Double) : Nat × Heap :=
  let e := h.nextPipe
  let h1 : Heap :=
    { h with
      pipes := Function.update h.pipes e
        { dest := d, weight := w, orig := this, reverse := none, flow := 0, activated := true }
      nextPipe := e + 1 }
  let h2 := h1.setLoc this { h1.locs this with adj := (h1.locs this).adj ++ [e] }
  let h3 := h2.setLoc d
    { h2.locs d with indegree := ((h2.locs d).indegree + 1) % 4294967296,
                     incoming := (h2.locs d).incoming ++ [e] }
  (e, h3)

/-- Model of `Graph::addEdge`. -/
def addEdge (g : Graph) (h : Heap) (source dest : String) (w : Double) :
    Bool × Graph × Heap :=
  match findVertex g h source, findVertex g h dest with
  | some v1, some v2 =>
    let r := Location.addEdge h v1 v2 w
    (true, { g with mapPipes := mapInsert g.mapPipes (source ++ "|" ++ dest) r.1 }, r.2)
  | _, _ => (false, g, h)

/-! ## Edmonds-Karp -/

/-- Model of `Graph::testAndVisit`; the state is the heap together with the BFS queue. -/
def testAndVisit (st : Heap × List Nat) (e w : Nat) (residual : Double) : Heap × List Nat :=
  if !(st.1.locs w).visited && decide (residual > 0) && (st.1.pipes e).activated then
    (setPath (setVisited st.1 w true) w (some e), st.2 ++ [w])
  else st

/-- The loop "Process outgoing edges" of `findAugmentingPath`. -/
def processOutgoing (st : Heap × List Nat) (es : List Nat) : Heap × List Nat :=
  es.foldl (fun st e =>
    testAndVisit st e (st.1.pipes e).dest ((st.1.pipes e).weight - (st.1.pipes e).flow)) st

/-- The loop "Process incoming edges" of `findAugmentingPath`. -/
def processIncoming (st : Heap × List Nat) (es : List Nat) : Heap × List Nat :=
  es.foldl (fun st e => testAndVisit st e (st.1.pipes e).orig (st.1.pipes e).flow) st

/-- The `while (!q.empty() and !t->isVisited())` loop of `findAugmentingPath`. -/
def bfsLoop : Nat → Nat → Heap × List Nat → Option Heap
  | 0, _, _ => none
  | fuel + 1, t, (h, q) =>
    match q with
    | [] => some h
    | v :: q1 =>
      if (h.locs t).visited then some h
      else
        let st1 := processOutgoing (h, q1) (h.locs v).adj
        let st2 := processIncoming st1 (st1.1.locs v).incoming
        bfsLoop fuel t st2

/-- Model of `Graph::findAugmentingPath`. -/
def findAugmentingPath (fuel : Nat) (g : Graph) (h : Heap) (s t : Nat) : Option (Bool × Heap) :=
  let h1 := g.vertexSet.foldl (fun h v => setVisited h v false) h
  let h2 := setVisited h1 s true
  match bfsLoop fuel t (h2, [s]) with
  | none => none
  | some h3 => some ((h3.locs t).visited, h3)

/-- The loop of `Graph::findMinResidualAlongPath`, at vertex `v` with running minimum `f`. -/
def minResidualWalk : Nat → Heap → Nat → Nat → Double → Option Double
  | 0, _, _, _, _ => none
  | fuel + 1, h, s, v, f =>
    if v = s then some f
    else
      match (h.locs v).path with
      | none => none
      | some e =>
        if (h.pipes e).dest = v then
          minResidualWalk fuel h s (h.pipes e).orig (Double.min f ((h.pipes e).weight - (h.pipes e).flow))
        else
          minResidualWalk fuel h s (h.pipes e).dest (Double.min f (h.pipes e).flow)

/-- Model of `Graph::findMinResidualAlongPath`. -/
def findMinResidualAlongPath (fuel : Nat) (h : Heap) (s t : Nat) : Option Double :=
  minResidualWalk fuel h s t INF

/-- The loop of `Graph::augmentFlowAlongPath`, at vertex `v`. -/
def augmentWalk : Nat → Heap → Nat → Nat → Double → Option Heap
  | 0, _, _, _, _ => none
  | fuel + 1, h, s, v, f =>
    if v = s then some h
    else
      match (h.locs v).path with
      | none => none
      | some e =>
        if (h.pipes e).dest = v then
          augmentWalk fuel (setFlow h e ((h.pipes e).flow + f)) s (h.pipes e).orig f
        else
          augmentWalk fuel (setFlow h e ((h.pipes e).flow - f)) s (h.pipes e).dest f

/-- Model of `Graph::augmentFlowAlongPath`. -/
def augmentFlowAlongPath (fuel : Nat) (h : Heap) (s t : Nat) (f : Double) : Option Heap :=
  augmentWalk fuel h s t f

/-- The `while (findAugmentingPath(s, t))` loop of `edmondsKarp`; `n` bounds the
number of iterations, `fuel` is handed to the inner loops. -/
def augmentLoop : Nat → Nat → Graph → Nat → Nat → Heap → Option Heap
  | 0, _, _, _, _, _ => none
  | n + 1, fuel, g, s, t, h =>
    match findAugmentingPath fuel g h s t with
    | none => none
    | some (false, h1) => some h1
    | some (true, h1) =>
      match findMinResidualAlongPath fuel h1 s t with
      | none => none
      | some f =>
        match augmentFlowAlongPath fuel h1 s t f with
        | none => none
        | some h2 => augmentLoop n fuel g s t h2

/-- The loop "Initialize flow on all edges to 0" of `edmondsKarp`. -/
def resetFlows (g : Graph) (h : Heap) : Heap :=
  g.vertexSet.foldl (fun h v => (h.locs v).adj.foldl (fun h e => setFlow h e 0) h) h

/-- Model of `Graph::edmondsKarp`. -/
def edmondsKarp (fuel : Nat) (g : Graph) (h : Heap) (source target : String) : Result Unit :=
  match findVertex g h source, findVertex g h target with
  | some s, some t =>
    if s = t then Result.invalidArgument h
    else
      match augmentLoop fuel fuel g s t (resetFlows g h) with
      | none => Result.stuck
      | some h1 => Result.ok () h1
  | _, _ => Result.invalidArgument h

/-! ## Delivered flow per city -/

/-- Model of `Graph::addR0C0` : the loop over `getMapReservoirs()`. -/
def addR0Edges (toRemove : String) (g : Graph) (h : Heap) :
    List (String × Nat) → Graph × Heap
  | [] => (g, h)
  | p :: ps =>
    if p.1 == toRemove then
      let r := addEdge g h "R_0" p.1 0
      addR0Edges toRemove r.2.1 r.2.2 ps
    else if p.1 != "R_0" then
      let r := addEdge g h "R_0" p.1 (h.locs p.2).getMaximumDelivery
      addR0Edges toRemove r.2.1 r.2.2 ps
    else addR0Edges toRemove g h ps

/-- Model of `Graph::addR0C0` : the loop over `getMapCities()`. -/
def addC0Edges (g : Graph) (h : Heap) : List (String × Nat) → Graph × Heap
  | [] => (g, h)
  | p :: ps =>
    if p.1 != "C_0" then
      let r := addEdge g h p.1 "C_0" (h.locs p.2).getDemand
      addC0Edges r.2.1 r.2.2 ps
    else addC0Edges g h ps

/-- Model of `Graph::addR0C0`. -/
def addR0C0 (g : Graph) (h : Heap) (toRemove : String) : Graph × Heap :=
  let r1 := addVertexReservoir g h "" "" 0 "R_0" 0
  if r1.1 then
    let r2 := addVertexCity r1.2.1 r1.2.2 "" 0 "C_0" 0 0
    if r2.1 then
      let r3 := addR0Edges toRemove r2.2.1 r2.2.2 r2.2.1.mapReservoirs
      addC0Edges r3.1 r3.2 r3.1.mapCities
    else (r2.2.1, r2.2.2)
  else (r1.2.1, r1.2.2)

/-- The double loop of `getCitiesFlow` adding up the flow of every edge whose
destination has the given code. -/
def maxFlowInto (g : Graph) (h : Heap) (code : String) : Double :=
  g.vertexSet.foldl (fun acc loc =>
    (h.locs loc).adj.foldl (fun acc e =>
      if (h.locs (h.pipes e).dest).code == code then acc + (h.pipes e).flow else acc) acc) 0

/-- The loop of `getCitiesFlow` over `g.mapCities` (branch `allCities`). -/
def collectCities (g : Graph) : Heap → List (String × Nat) → List CityInfo → List CityInfo × Heap
  | h, [], acc => (acc, h)
  | h, p :: ps, acc =>
    if p.1 != "C_0" then
      let maxFlow := maxFlowInto g h p.1
      let h1 := setTotalFlow h p.2 maxFlow
      collectCities g h1 ps
        (acc ++ [{ cityName := (h1.locs p.2).getName, cityCode := (h1.locs p.2).code,
                   demand := (h1.locs p.2).getDemand, totalFlow := maxFlow,
                   affectedTotalFlow := 0 }])
    else collectCities g h ps acc

/-- Sequencing of calls: an exception or a failure to return propagates. -/
def Result.bind {α β : Type} (r : Result α) (k : α → Heap → Result β) : Result β :=
  match r with
  | Result.ok a h => k a h
  | Result.invalidArgument h => Result.invalidArgument h
  | Result.stuck => Result.stuck

/-- Model of `Graph::getCitiesFlow`.  The copy `g` of the caller graph is local and is
dropped on return; the heap it worked on is the one the caller sees. -/
def getCitiesFlow (fuel : Nat) (this : Graph) (h : Heap) (allCities : Bool)
    (oneCity : String) (removeR : String) : Result (List CityInfo) :=
  let g := this
  let r := addR0C0 g h removeR
  (edmondsKarp fuel r.1 r.2 "R_0" "C_0").bind fun _ h1 =>
    if allCities then
      let c := collectCities r.1 h1 r.1.mapCities []
      Result.ok c.1 c.2
    else
      match mapFind r.1.mapCities oneCity with
      | none => Result.stuck
      | some city =>
        let maxFlow := maxFlowInto r.1 h1 (h1.locs city).code
        let h2 := setTotalFlow h1 city maxFlow
        Result.ok [{ cityName := (h2.locs city).getName, cityCode := (h2.locs city).code,
                     demand := (h2.locs city).getDemand, totalFlow := maxFlow,
                     affectedTotalFlow := 0 }] h2

/-- The value returned by a call, if it returned. -/
def Result.value {α : Type} : Result α → Option α
  | Result.ok a _ => some a
  | _ => none

/-- The heap a call leaves behind, if it returned or threw. -/
def Result.heap {α : Type} : Result α → Option Heap
  | Result.ok _ h => some h
  | Result.invalidArgument h => some h
  | Result.stuck => none

/-! ## Networks with decimal capacities -/

/-- The network Source `R1` (maximum delivery 3.9) with pipelines of capacity 10 to each
of the Sinks `C1` (demand 1.7) and `C2` (demand 10). -/
def roundNet : Graph × Heap :=
  let r1 := addVertexReservoir Graph.empty Heap.empty "Reservoir1" "Municipality1" 1 "R1"
    (Double.ofDecimal 39 1)
  let r2 := addVertexCity r1.2.1 r1.2.2 "City1" 1 "C1" (Double.ofDecimal 17 1) 1000
  let r3 := addVertexCity r2.2.1 r2.2.2 "City2" 2 "C2" 10 1000
  let r4 := addEdge r3.2.1 r3.2.2 "R1" "C1" 10
  let r5 := addEdge r4.2.1 r4.2.2 "R1" "C2" 10
  (r5.2.1, r5.2.2)

/-- The graph that `getCitiesFlow` solves for `roundNet` : its copy with the terminals
`R_0` (node 3) and `C_0` (node 4) and their links `R_0 -> R1` (link 2, capacity 3.9),
`C1 -> C_0` (capacity 1.7) and `C2 -> C_0` (capacity 10). -/
def roundQuery : Graph × Heap := addR0C0 roundNet.1 roundNet.2 ""

/-- The first turn of the loop of `edmondsKarp("R_0", "C_0")` on `roundQuery` : the
flows are reset, a path is searched, its bottleneck is taken and pushed. -/
def roundFirst : Option Heap :=
  (findAugmentingPath 20 roundQuery.1 (resetFlows roundQuery.1 roundQuery.2) 3 4).bind fun r =>
    (findMinResidualAlongPath 20 r.2 3 4).bind fun f => augmentFlowAlongPath 20 r.2 3 4 f

/-- The search of the second turn, on the heap the first turn left. -/
def roundSecond : Option (Bool × Heap) :=
  roundFirst.bind fun h => findAugmentingPath 20 roundQuery.1 h 3 4

/-- One turn of the loop `while (findAugmentingPath(s, t))` of `edmondsKarp` : the search
and, when it has found a path, the push of the bottleneck of that path. -/
def augmentTurn (fuel : Nat) (g : Graph) (s t : Nat) (h : Heap) : Option (Bool × Heap) :=
  (findAugmentingPath fuel g h s t).bind fun r =>
    if r.1 then
      (findMinResidualAlongPath fuel r.2 s t).bind fun f =>
        (augmentFlowAlongPath fuel r.2 s t f).map fun h2 => (true, h2)
    else some (false, r.2)

/-- The network Source `R1` (maximum delivery 1.5000000000000002) with pipelines of
capacity 10 to each of the Sinks `C1` (demand 0.25000000000000011) and `C2` (demand
10). -/
def tieNet : Graph × Heap :=
  let r1 := addVertexReservoir Graph.empty Heap.empty "Reservoir1" "Municipality1" 1 "R1"
    (Double.ofDecimal 15000000000000002 16)
  let r2 := addVertexCity r1.2.1 r1.2.2 "City1" 1 "C1" (Double.ofDecimal 25000000000000011 17)
    1000
  let r3 := addVertexCity r2.2.1 r2.2.2 "City2" 2 "C2" 10 1000
  let r4 := addEdge r3.2.1 r3.2.2 "R1" "C1" 10
  let r5 := addEdge r4.2.1 r4.2.2 "R1" "C2" 10
  (r5.2.1, r5.2.2)

/-- The graph that `getCitiesFlow` solves for `tieNet`, with the terminals `R_0` (node 3)
and `C_0` (node 4) and the link `R_0 -> R1` (link 2). -/
def tieQuery : Graph × Heap := addR0C0 tieNet.1 tieNet.2 ""

/-- The links a node owns, each with its destination, capacity and flow. -/
def outLinks (h : Heap) (v : Nat) : List (Nat × Double × Double) :=
  (h.locs v).adj.map (fun e => ((h.pipes e).dest, (h.pipes e).weight, (h.pipes e).flow))

/-- The link recorded in `path` of a node, as its origin and destination. -/
def pathEnds (h : Heap) (v : Nat) : Option (Nat × Nat) :=
  (h.locs v).path.map (fun e => ((h.pipes e).orig, (h.pipes e).dest))

/-- The net flow out of a node in units of `2^(-1074)` : the exact sum of the flows on
its outgoing links minus the exact sum of the flows on its incoming links. -/
def netUnits (h : Heap) (v : Nat) : Int :=
  ((h.locs v).adj.map (fun e => (h.pipes e).flow.units)).sum
    - ((h.locs v).incoming.map (fun e => (h.pipes e).flow.units)).sum

/-- The capacity of the cut around the nodes `S`, in units of `2^(-1074)` : the exact sum
of the capacities of the enabled links that a node of `S` owns and that end outside
`S`. -/
def cutUnits (h : Heap) (S : List Nat) : Int :=
  (S.map (fun v =>
    (((h.locs v).adj.filter
      (fun e => (h.pipes e).activated && !(S.contains (h.pipes e).dest))).map
      (fun e => (h.pipes e).weight.units)).sum)).sum

/-- The network with the Sources `R1` (maximum delivery 1.7) and `R2` (maximum delivery
10), the Relay `PS1` and the Sink `C1` (demand 3.9), and the pipelines `R1 -> C1`,
`R2 -> PS1` and `PS1 -> C1` of capacity 10 each. -/
def twoSourceNet : Graph × Heap :=
  let r1 := addVertexReservoir Graph.empty Heap.empty "Reservoir1" "Municipality1" 1 "R1"
    (Double.ofDecimal 17 1)
  let r2 := addVertexReservoir r1.2.1 r1.2.2 "Reservoir2" "Municipality2" 2 "R2" 10
  let r3 := addVertexStation r2.2.1 r2.2.2 1 "PS1"
  let r4 := addVertexCity r3.2.1 r3.2.2 "City1" 1 "C1" (Double.ofDecimal 39 1) 1000
  let r5 := addEdge r4.2.1 r4.2.2 "R1" "C1" 10
  let r6 := addEdge r5.2.1 r5.2.2 "R2" "PS1" 10
  let r7 := addEdge r6.2.1 r6.2.2 "PS1" "C1" 10
  (r7.2.1, r7.2.2)

end Project1.Fp

namespace Project1

/-! ## Frame lemmas for the setters -/

@[simp] theorem setVisited_pipes (h : Heap) (v : Nat) (b : Bool) :
    (setVisited h v b).pipes = h.pipes := rfl

@[simp] theorem setPath_pipes (h : Heap) (v : Nat) (p : Option Nat) :
    (setPath h v p).pipes = h.pipes := rfl

@[simp] theorem setFlow_locs (h : Heap) (e : Nat) (f : Int) :
    (setFlow h e f).locs = h.locs := rfl

theorem setVisited_locs (h : Heap) (v w : Nat) (b : Bool) :
    (setVisited h v b).locs w = if w = v then { h.locs v with visited := b } else h.locs w := by
  unfold setVisited Heap.setLoc
  by_cases hw : w = v
  · subst hw; simp
  · simp [Function.update, hw]

theorem setPath_locs (h : Heap) (v w : Nat) (p : Option Nat) :
    (setPath h v p).locs w = if w = v then { h.locs v with path := p } else h.locs w := by
  unfold setPath Heap.setLoc
  by_cases hw : w = v
  · subst hw; simp
  · simp [Function.update, hw]

theorem setFlow_pipes (h : Heap) (e x : Nat) (f : Int) :
    (setFlow h e f).pipes x = if x = e then { h.pipes e with flow := f } else h.pipes x := by
  unfold setFlow Heap.setPipe
  by_cases hx : x = e
  · subst hx; simp
  · simp [Function.update, hx]

@[simp] theorem setVisited_adj (h : Heap) (v w : Nat) (b : Bool) :
    ((setVisited h v b).locs w).adj = (h.locs w).adj := by
  rw [setVisited_locs]; split <;> simp_all

@[simp] theorem setVisited_incoming (h : Heap) (v w : Nat) (b : Bool) :
    ((setVisited h v b).locs w).incoming = (h.locs w).incoming := by
  rw [setVisited_locs]; split <;> simp_all

@[simp] theorem setVisited_path (h : Heap) (v w : Nat) (b : Bool) :
    ((setVisited h v b).locs w).path = (h.locs w).path := by
  rw [setVisited_locs]; split <;> simp_all

@[simp] theorem setVisited_visited (h : Heap) (v w : Nat) (b : Bool) :
    ((setVisited h v b).locs w).visited = if w = v then b else (h.locs w).visited := by
  rw [setVisited_locs]; split <;> simp_all

@[simp] theorem setPath_adj (h : Heap) (v w : Nat) (p : Option Nat) :
    ((setPath h v p).locs w).adj = (h.locs w).adj := by
  rw [setPath_locs]; split <;> simp_all

@[simp] theorem setPath_incoming (h : Heap) (v w : Nat) (p : Option Nat) :
    ((setPath h v p).locs w).incoming = (h.locs w).incoming := by
  rw [setPath_locs]; split <;> simp_all

@[simp] theorem setPath_visited (h : Heap) (v w : Nat) (p : Option Nat) :
    ((setPath h v p).locs w).visited = (h.locs w).visited := by
  rw [setPath_locs]; split <;> simp_all

@[simp] theorem setPath_path (h : Heap) (v w : Nat) (p : Option Nat) :
    ((setPath h v p).locs w).path = if w = v then p else (h.locs w).path := by
  rw [setPath_locs]; split <;> simp_all

@[simp] theorem setFlow_orig (h : Heap) (e x : Nat) (f : Int) :
    ((setFlow h e f).pipes x).orig = (h.pipes x).orig := by
  rw [setFlow_pipes]; split <;> simp_all

@[simp] theorem setFlow_dest (h : Heap) (e x : Nat) (f : Int) :
    ((setFlow h e f).pipes x).dest = (h.pipes x).dest := by
  rw [setFlow_pipes]; split <;> simp_all

@[simp] theorem setFlow_weight (h : Heap) (e x : Nat) (f : Int) :
    ((setFlow h e f).pipes x).weight = (h.pipes x).weight := by
  rw [setFlow_pipes]; split <;> simp_all

@[simp] theorem setFlow_activated (h : Heap) (e x : Nat) (f : Int) :
    ((setFlow h e f).pipes x).activated = (h.pipes x).activated := by
  rw [setFlow_pipes]; split <;> simp_all

@[simp] theorem setFlow_reverse (h : Heap) (e x : Nat) (f : Int) :
    ((setFlow h e f).pipes x).reverse = (h.pipes x).reverse := by
  rw [setFlow_pipes]; split <;> simp_all

@[simp] theorem setFlow_flow (h : Heap) (e x : Nat) (f : Int) :
    ((setFlow h e f).pipes x).flow = if x = e then f else (h.pipes x).flow := by
  rw [setFlow_pipes]; split <;> simp_all

theorem flowOf_setFlow (h : Heap) (e : Nat) (f : Int) :
    flowOf (setFlow h e f) = Function.update (flowOf h) e f := by
  funext x
  simp [flowOf, Function.update]

theorem SameNet.refl (h : Heap) : SameNet h h :=
  ⟨fun _ => rfl, fun _ => rfl, fun _ => rfl, fun _ => rfl, fun _ => rfl, fun _ => rfl,
   fun _ => rfl⟩

theorem SameNet.trans {h1 h2 h3 : Heap} (a : SameNet h1 h2) (b : SameNet h2 h3) :
    SameNet h1 h3 :=
  ⟨fun v => (b.adj v).trans (a.adj v), fun v => (b.incoming v).trans (a.incoming v),
   fun e => (b.orig e).trans (a.orig e), fun e => (b.dest e).trans (a.dest e),
   fun e => (b.weight e).trans (a.weight e), fun e => (b.activated e).trans (a.activated e),
   fun e => (b.reverse e).trans (a.reverse e)⟩

theorem SameNet.symm {h1 h2 : Heap} (a : SameNet h1 h2) : SameNet h2 h1 :=
  ⟨fun v => (a.adj v).symm, fun v => (a.incoming v).symm,
   fun e => (a.orig e).symm, fun e => (a.dest e).symm,
   fun e => (a.weight e).symm, fun e => (a.activated e).symm, fun e => (a.reverse e).symm⟩

theorem SameNet.setVisited (h : Heap) (v : Nat) (b : Bool) : SameNet h (setVisited h v b) :=
  ⟨fun _ => by simp, fun _ => by simp, fun _ => rfl, fun _ => rfl, fun _ => rfl, fun _ => rfl,
   fun _ => rfl⟩

theorem SameNet.setPath (h : Heap) (v : Nat) (p : Option Nat) : SameNet h (setPath h v p) :=
  ⟨fun _ => by simp, fun _ => by simp, fun _ => rfl, fun _ => rfl, fun _ => rfl, fun _ => rfl,
   fun _ => rfl⟩

theorem SameNet.setFlow (h : Heap) (e : Nat) (f : Int) : SameNet h (setFlow h e f) :=
  ⟨fun _ => rfl, fun _ => rfl, fun _ => by simp, fun _ => by simp, fun _ => by simp,
   fun _ => by simp, fun _ => by simp⟩

theorem SameNet.allPipes {h h1 : Heap} (a : SameNet h h1) (V : List Nat) :
    allPipes h1 V = allPipes h V := by
  unfold Project1.allPipes
  congr 1
  funext v
  exact a.adj v

theorem SameNet.wf {h h1 : Heap} (a : SameNet h h1) {V : List Nat} (w : WF h V) : WF h1 V where
  nodupV := w.nodupV
  nodupE := by rw [a.allPipes]; exact w.nodupE
  adj_ok := by
    intro v hv e he
    rw [a.adj] at he
    have := w.adj_ok v hv e he
    rw [a.orig, a.dest, a.incoming]; exact this
  inc_ok := by
    intro v hv e he
    rw [a.incoming] at he
    have := w.inc_ok v hv e he
    rw [a.orig, a.dest, a.adj]; exact this
  nodupInc := by
    intro v hv
    rw [a.incoming]; exact w.nodupInc v hv

theorem SameNet.capsNonneg {h h1 : Heap} (a : SameNet h h1) {V : List Nat}
    (c : CapsNonneg h V) : CapsNonneg h1 V := by
  intro e he
  rw [a.allPipes] at he
  rw [a.weight]; exact c e he

theorem SameNet.outflowOf {h h1 : Heap} (a : SameNet h h1) (fl : Nat → Int) (v : Nat) :
    outflowOf h1 fl v = outflowOf h fl v := by
  unfold Project1.outflowOf; rw [a.adj]

theorem SameNet.inflowOf {h h1 : Heap} (a : SameNet h h1) (fl : Nat → Int) (v : Nat) :
    inflowOf h1 fl v = inflowOf h fl v := by
  unfold Project1.inflowOf; rw [a.incoming]

/-! ## Membership in `allPipes` -/

theorem mem_allPipes {h : Heap} {V : List Nat} {e : Nat} :
    e ∈ allPipes h V ↔ ∃ v ∈ V, e ∈ (h.locs v).adj := by
  simp [allPipes, List.mem_flatMap]

theorem WF.mem_allPipes_iff {h : Heap} {V : List Nat} (w : WF h V) {e : Nat} :
    e ∈ allPipes h V ↔ (h.pipes e).orig ∈ V ∧ e ∈ (h.locs (h.pipes e).orig).adj := by
  rw [mem_allPipes]
  constructor
  · rintro ⟨v, hv, he⟩
    have := (w.adj_ok v hv e he).1
    rw [this]; exact ⟨hv, he⟩
  · rintro ⟨hv, he⟩
    exact ⟨_, hv, he⟩

end Project1

namespace Project1

/-! ## The recorded path -/

theorem TreePath.visited {h : Heap} {V : List Nat} {s v : Nat} {l : List (Nat × Bool)}
    (p : TreePath h V s v l) : (h.locs v).visited = true := by
  cases p <;> assumption

theorem TreePath.endpoints {h : Heap} {V : List Nat} {s v : Nat} {l : List (Nat × Bool)}
    (p : TreePath h V s v l) :
    ∀ q ∈ l, (h.locs (h.pipes q.1).orig).visited = true ∧
      (h.locs (h.pipes q.1).dest).visited = true := by
  induction p with
  | nil _ => simp
  | fwd v e l _ hvis _ hdest _ _ _ _ hp _ ih =>
    intro q hq
    rcases List.mem_cons.1 hq with rfl | hq
    · exact ⟨hp.visited, by rw [hdest]; exact hvis⟩
    · exact ih q hq
  | bwd v e l _ hvis _ _ horig _ _ _ _ hp _ ih =>
    intro q hq
    rcases List.mem_cons.1 hq with rfl | hq
    · exact ⟨by rw [horig]; exact hvis, hp.visited⟩
    · exact ih q hq

theorem TreePath.transport {h k : Heap} {V : List Nat} {s v : Nat} {l : List (Nat × Bool)}
    (p : TreePath h V s v l) (hp : k.pipes = h.pipes)
    (hadj : ∀ x, (k.locs x).adj = (h.locs x).adj)
    (hv : ∀ x, (h.locs x).visited = true →
      (k.locs x).visited = true ∧ (k.locs x).path = (h.locs x).path) :
    TreePath k V s v l := by
  induction p with
  | nil hs => exact TreePath.nil (hv _ hs).1
  | fwd v e l hne hvis hpath hdest horig hadj1 hact hres _ hnot ih =>
    refine TreePath.fwd v e l hne (hv _ hvis).1 ?_ ?_ ?_ ?_ ?_ ?_ ?_ hnot
    · rw [(hv _ hvis).2]; exact hpath
    · rw [hp]; exact hdest
    · rw [hp]; exact horig
    · rw [hp, hadj]; exact hadj1
    · rw [hp]; exact hact
    · rw [hp]; exact hres
    · rw [hp]; exact ih
  | bwd v e l hne hvis hpath hdest horig hV hadj1 hact hres _ hnot ih =>
    refine TreePath.bwd v e l hne (hv _ hvis).1 ?_ ?_ ?_ hV ?_ ?_ ?_ ?_ hnot
    · rw [(hv _ hvis).2]; exact hpath
    · rw [hp]; exact hdest
    · rw [hp]; exact horig
    · rw [hadj]; exact hadj1
    · rw [hp]; exact hact
    · rw [hp]; exact hres
    · rw [hp]; exact ih

/-! ## Counting unvisited vertices -/

theorem countP_flip {p q : Nat → Bool} {w : Nat} (hw : p w = true) (hq : q w = false)
    (hpq : ∀ x, x ≠ w → q x = p x) :
    ∀ l : List Nat, l.Nodup →
      (w ∈ l → l.countP q + 1 = l.countP p) ∧ (w ∉ l → l.countP q = l.countP p) := by
  intro l
  induction l with
  | nil => intro _; simp
  | cons a l ih =>
    intro nd
    have nd1 := List.nodup_cons.1 nd
    have ih1 := ih nd1.2
    by_cases ha : a = w
    · subst ha
      constructor
      · intro _
        rw [List.countP_cons_of_pos _ _ hw, List.countP_cons_of_neg _ _ (by simp [hq])]
        rw [ih1.2 nd1.1]
      · intro hn; exact absurd (List.mem_cons_self _ _) hn
    · constructor
      · intro hm
        have hm1 : w ∈ l := by
          rcases List.mem_cons.1 hm with h | h
          · exact absurd h.symm ha
          · exact h
        simp only [List.countP_cons, hpq a ha]
        have := ih1.1 hm1
        omega
      · intro hn
        have hn1 : w ∉ l := fun h => hn (List.mem_cons_of_mem _ h)
        simp only [List.countP_cons, hpq a ha]
        rw [ih1.2 hn1]

theorem unvisited_visit {h : Heap} {V : List Nat} {w : Nat} (p : Option Nat) (nd : V.Nodup)
    (hw : w ∈ V) (hu : (h.locs w).visited = false) :
    unvisited (setPath (setVisited h w true) w p) V + 1 = unvisited h V := by
  unfold unvisited
  refine (countP_flip (w := w) ?_ ?_ ?_ V nd).1 hw
  · simp [hu]
  · simp
  · intro x hx; simp [hx]

/-! ## One call of `testAndVisit` -/

theorem testAndVisit_fire {st : Heap × List Nat} {e w : Nat} {r : Int}
    (h1 : (st.1.locs w).visited = false) (h2 : 0 < r) (h3 : (st.1.pipes e).activated = true) :
    testAndVisit st e w r = (setPath (setVisited st.1 w true) w (some e), st.2 ++ [w]) := by
  simp [testAndVisit, h1, h2, h3]

theorem testAndVisit_skip {st : Heap × List Nat} {e w : Nat} {r : Int}
    (h : (st.1.locs w).visited = true ∨ r ≤ 0 ∨ (st.1.pipes e).activated = false) :
    testAndVisit st e w r = st := by
  unfold testAndVisit
  rcases h with h | h | h
  · simp [h]
  · have : ¬ (r > 0) := by omega
    simp [this]
  · simp [h]

theorem Closed.mono {h h1 : Heap} {x : Nat} (c : Closed h x) (hp : h1.pipes = h.pipes)
    (hadj : (h1.locs x).adj = (h.locs x).adj)
    (hinc : (h1.locs x).incoming = (h.locs x).incoming)
    (hv : ∀ y, (h.locs y).visited = true → (h1.locs y).visited = true) : Closed h1 x := by
  constructor
  · intro e he ha hr
    rw [hadj] at he
    rw [hp] at ha hr ⊢
    exact hv _ (c.1 e he ha hr)
  · intro e he ha hr
    rw [hinc] at he
    rw [hp] at ha hr ⊢
    exact hv _ (c.2 e he ha hr)

theorem testAndVisit_core {h0 : Heap} {V : List Nat} {s v : Nat} {st : Heap × List Nat}
    {e w : Nat} {r : Int} (wf : WF h0 V) (c : BfsCore h0 V s v st) (hw : w ∈ V)
    (hj : (st.1.locs w).visited = false → 0 < r → (h0.pipes e).activated = true →
      ∃ l, TreePath (setPath (setVisited st.1 w true) w (some e)) V s w l) :
    BfsCore h0 V s v (testAndVisit st e w r) ∧
    (∀ x, (st.1.locs x).visited = true → ((testAndVisit st e w r).1.locs x).visited = true) ∧
    (0 < r → (h0.pipes e).activated = true →
      ((testAndVisit st e w r).1.locs w).visited = true) ∧
    (testAndVisit st e w r).2.length + unvisited (testAndVisit st e w r).1 V
      = st.2.length + unvisited st.1 V := by
  by_cases h1 : (st.1.locs w).visited = true
  · rw [testAndVisit_skip (Or.inl h1)]
    exact ⟨c, fun _ hx => hx, fun _ _ => h1, rfl⟩
  by_cases h2 : 0 < r
  swap
  · rw [testAndVisit_skip (Or.inr (Or.inl (by omega)))]
    exact ⟨c, fun _ hx => hx, fun hr _ => absurd hr h2, rfl⟩
  by_cases h3 : (st.1.pipes e).activated = true
  swap
  · rw [testAndVisit_skip (Or.inr (Or.inr (by simpa using h3)))]
    refine ⟨c, fun _ hx => hx, fun _ ha => ?_, rfl⟩
    rw [c.pipes] at h3; exact absurd ha h3
  have h1f : (st.1.locs w).visited = false := by simpa using h1
  rw [testAndVisit_fire h1f h2 h3]
  have mono : ∀ x, (st.1.locs x).visited = true →
      ((setPath (setVisited st.1 w true) w (some e)).locs x).visited = true := by
    intro x hx
    simp only [setPath_visited, setVisited_visited]
    split
    · rfl
    · exact hx
  have keep : ∀ x, (st.1.locs x).visited = true →
      ((setPath (setVisited st.1 w true) w (some e)).locs x).visited = true ∧
      ((setPath (setVisited st.1 w true) w (some e)).locs x).path = (st.1.locs x).path := by
    intro x hx
    refine ⟨mono x hx, ?_⟩
    have hxw : x ≠ w := by
      intro hxw; rw [hxw, h1f] at hx; exact Bool.noConfusion hx
    simp [hxw]
  refine ⟨?_, mono, fun _ _ => by simp, ?_⟩
  · refine ⟨by simp [c.pipes], fun x => by simp [c.adj], fun x => by simp [c.incoming],
      mono _ c.src, mono _ c.cur, ?_, ?_, ?_⟩
    · intro x hx
      rcases List.mem_append.1 hx with hx | hx
      · exact ⟨(c.queue x hx).1, mono _ (c.queue x hx).2⟩
      · rw [List.mem_singleton.1 hx]
        exact ⟨hw, by simp⟩
    · intro x hx hvis
      by_cases hxw : x = w
      · subst hxw
        rw [c.pipes] at h3
        exact hj h1f h2 h3
      · have hvis0 : (st.1.locs x).visited = true := by
          simpa [hxw] using hvis
        obtain ⟨l, hl⟩ := c.tree x hx hvis0
        exact ⟨l, hl.transport (by simp) (fun y => by simp) keep⟩
    · intro x hx hvis hnq hxv
      have hxw : x ≠ w := by
        intro hxw; apply hnq; simp [hxw]
      have hvis0 : (st.1.locs x).visited = true := by
        simpa [hxw] using hvis
      have hnq0 : x ∉ st.2 := fun hm => hnq (List.mem_append_left _ hm)
      exact (c.closed x hx hvis0 hnq0 hxv).mono (by simp) (by simp) (by simp) mono
  · have := unvisited_visit (h := st.1) (some e) wf.nodupV hw h1f
    simp only [List.length_append, List.length_singleton]
    omega

end Project1

namespace Project1

/-! ## Processing the links of a dequeued vertex -/

theorem processOutgoing_nil (st : Heap × List Nat) : processOutgoing st [] = st := rfl

theorem processOutgoing_cons (st : Heap × List Nat) (e : Nat) (es : List Nat) :
    processOutgoing st (e :: es) =
      processOutgoing (testAndVisit st e (st.1.pipes e).dest
        ((st.1.pipes e).weight - (st.1.pipes e).flow)) es := rfl

theorem processIncoming_nil (st : Heap × List Nat) : processIncoming st [] = st := rfl

theorem processIncoming_cons (st : Heap × List Nat) (e : Nat) (es : List Nat) :
    processIncoming st (e :: es) =
      processIncoming (testAndVisit st e (st.1.pipes e).orig (st.1.pipes e).flow) es := rfl

theorem processOutgoing_core {h0 : Heap} {V : List Nat} {s v : Nat} (wf : WF h0 V)
    (hv : v ∈ V) :
    ∀ (es : List Nat) (st : Heap × List Nat), (∀ e ∈ es, e ∈ (h0.locs v).adj) →
      BfsCore h0 V s v st →
      BfsCore h0 V s v (processOutgoing st es) ∧
      (∀ x, (st.1.locs x).visited = true → ((processOutgoing st es).1.locs x).visited = true) ∧
      (∀ e ∈ es, (h0.pipes e).activated = true → (h0.pipes e).flow < (h0.pipes e).weight →
        ((processOutgoing st es).1.locs (h0.pipes e).dest).visited = true) ∧
      (processOutgoing st es).2.length + unvisited (processOutgoing st es).1 V
        = st.2.length + unvisited st.1 V := by
  intro es
  induction es with
  | nil =>
    intro st _ c
    exact ⟨c, fun _ hx => hx, by simp, rfl⟩
  | cons e es ih =>
    intro st hes c
    rw [processOutgoing_cons]
    have he : e ∈ (h0.locs v).adj := hes e (List.mem_cons_self _ _)
    have hok := wf.adj_ok v hv e he
    have step := testAndVisit_core (e := e) (w := (st.1.pipes e).dest)
      (r := (st.1.pipes e).weight - (st.1.pipes e).flow) wf c
      (by rw [c.pipes]; exact hok.2.1)
      (by
        intro hu hr ha
        obtain ⟨l, hl⟩ := c.tree v hv c.cur
        have keep : ∀ x, (st.1.locs x).visited = true →
            ((setPath (setVisited st.1 (st.1.pipes e).dest true) (st.1.pipes e).dest
              (some e)).locs x).visited = true ∧
            ((setPath (setVisited st.1 (st.1.pipes e).dest true) (st.1.pipes e).dest
              (some e)).locs x).path = (st.1.locs x).path := by
          intro x hx
          have hxw : x ≠ (st.1.pipes e).dest := by
            intro hxw; rw [hxw, hu] at hx; exact Bool.noConfusion hx
          simp [hxw, hx]
        have hl1 := hl.transport (k := setPath (setVisited st.1 (st.1.pipes e).dest true)
          (st.1.pipes e).dest (some e)) (by simp) (fun y => by simp) keep
        refine ⟨(e, true) :: l, TreePath.fwd _ e l ?_ (by simp) (by simp) (by simp) ?_ ?_ ?_ ?_ ?_ ?_⟩
        · intro hs; rw [hs, c.src] at hu; exact Bool.noConfusion hu
        · simp only [setPath_pipes, setVisited_pipes]; rw [c.pipes, hok.1]; exact hv
        · simp only [setPath_pipes, setVisited_pipes, setPath_adj, setVisited_adj]
          rw [c.pipes, hok.1, c.adj]; exact he
        · simp only [setPath_pipes, setVisited_pipes]; rw [c.pipes]; exact ha
        · simp only [setPath_pipes, setVisited_pipes]; omega
        · simp only [setPath_pipes, setVisited_pipes]
          have : (st.1.pipes e).orig = v := by rw [c.pipes]; exact hok.1
          rw [this]; exact hl1
        · intro d hd
          have := (hl.endpoints (e, d) hd).2
          simp only at this
          rw [hu] at this; exact Bool.noConfusion this)
    obtain ⟨c1, m1, f1, n1⟩ := step
    obtain ⟨c2, m2, f2, n2⟩ := ih _ (fun x hx => hes x (List.mem_cons_of_mem _ hx)) c1
    refine ⟨c2, fun x hx => m2 x (m1 x hx), ?_, by omega⟩
    intro x hx ha hr
    rcases List.mem_cons.1 hx with rfl | hx
    · have hpe : st.1.pipes x = h0.pipes x := by rw [c.pipes]
      have := f1 (by rw [hpe]; omega) ha
      apply m2
      rw [← hpe]; exact this
    · exact f2 x hx ha hr

theorem processIncoming_core {h0 : Heap} {V : List Nat} {s v : Nat} (wf : WF h0 V)
    (hv : v ∈ V) :
    ∀ (es : List Nat) (st : Heap × List Nat), (∀ e ∈ es, e ∈ (h0.locs v).incoming) →
      BfsCore h0 V s v st →
      BfsCore h0 V s v (processIncoming st es) ∧
      (∀ x, (st.1.locs x).visited = true → ((processIncoming st es).1.locs x).visited = true) ∧
      (∀ e ∈ es, (h0.pipes e).activated = true → 0 < (h0.pipes e).flow →
        ((processIncoming st es).1.locs (h0.pipes e).orig).visited = true) ∧
      (processIncoming st es).2.length + unvisited (processIncoming st es).1 V
        = st.2.length + unvisited st.1 V := by
  intro es
  induction es with
  | nil =>
    intro st _ c
    exact ⟨c, fun _ hx => hx, by simp, rfl⟩
  | cons e es ih =>
    intro st hes c
    rw [processIncoming_cons]
    have he : e ∈ (h0.locs v).incoming := hes e (List.mem_cons_self _ _)
    have hok := wf.inc_ok v hv e he
    have step := testAndVisit_core (e := e) (w := (st.1.pipes e).orig)
      (r := (st.1.pipes e).flow) wf c
      (by rw [c.pipes]; exact hok.2.1)
      (by
        intro hu hr ha
        obtain ⟨l, hl⟩ := c.tree v hv c.cur
        have keep : ∀ x, (st.1.locs x).visited = true →
            ((setPath (setVisited st.1 (st.1.pipes e).orig true) (st.1.pipes e).orig
              (some e)).locs x).visited = true ∧
            ((setPath (setVisited st.1 (st.1.pipes e).orig true) (st.1.pipes e).orig
              (some e)).locs x).path = (st.1.locs x).path := by
          intro x hx
          have hxw : x ≠ (st.1.pipes e).orig := by
            intro hxw; rw [hxw, hu] at hx; exact Bool.noConfusion hx
          simp [hxw, hx]
        have hl1 := hl.transport (k := setPath (setVisited st.1 (st.1.pipes e).orig true)
          (st.1.pipes e).orig (some e)) (by simp) (fun y => by simp) keep
        have hdv : (st.1.pipes e).dest = v := by rw [c.pipes]; exact hok.1
        refine ⟨(e, false) :: l, TreePath.bwd _ e l ?_ (by simp) (by simp) ?_ (by simp) ?_ ?_ ?_ ?_ ?_ ?_⟩
        · intro hs; rw [hs, c.src] at hu; exact Bool.noConfusion hu
        · simp only [setPath_pipes, setVisited_pipes]
          intro hd
          rw [← hd, hdv, c.cur] at hu; exact Bool.noConfusion hu
        · rw [c.pipes]; exact hok.2.1
        · simp only [setPath_adj, setVisited_adj]
          rw [c.pipes, c.adj]; exact hok.2.2
        · simp only [setPath_pipes, setVisited_pipes]; rw [c.pipes]; exact ha
        · simp only [setPath_pipes, setVisited_pipes]; exact hr
        · simp only [setPath_pipes, setVisited_pipes]
          rw [hdv]; exact hl1
        · intro d hd
          have := (hl.endpoints (e, d) hd).1
          simp only at this
          rw [hu] at this; exact Bool.noConfusion this)
    obtain ⟨c1, m1, f1, n1⟩ := step
    obtain ⟨c2, m2, f2, n2⟩ := ih _ (fun x hx => hes x (List.mem_cons_of_mem _ hx)) c1
    refine ⟨c2, fun x hx => m2 x (m1 x hx), ?_, by omega⟩
    intro x hx ha hr
    rcases List.mem_cons.1 hx with rfl | hx
    · have hpe : st.1.pipes x = h0.pipes x := by rw [c.pipes]
      have := f1 (by rw [hpe]; exact hr) ha
      apply m2
      rw [← hpe]; exact this
    · exact f2 x hx ha hr

end Project1

namespace Project1

/-! ## The BFS loop and `findAugmentingPath` -/

theorem bfsLoop_nil (fuel t : Nat) (h : Heap) : bfsLoop (fuel + 1) t (h, []) = some h := rfl

theorem bfsLoop_cons (fuel t : Nat) (h : Heap) (v : Nat) (q1 : List Nat) :
    bfsLoop (fuel + 1) t (h, v :: q1) =
      if (h.locs t).visited then some h
      else bfsLoop fuel t
        (processIncoming (processOutgoing (h, q1) (h.locs v).adj)
          ((processOutgoing (h, q1) (h.locs v).adj).1.locs v).incoming) := rfl

theorem bfsLoop_spec {h0 : Heap} {V : List Nat} {s : Nat} (t : Nat) (wf : WF h0 V) :
    ∀ (fuel : Nat) (st : Heap × List Nat), BfsInv h0 V s st →
      st.2.length + unvisited st.1 V < fuel →
      ∃ h, bfsLoop fuel t st = some h ∧ BfsPost h0 V s t h := by
  intro fuel
  induction fuel with
  | zero => intro st _ hlt; exact absurd hlt (Nat.not_lt_zero _)
  | succ fuel ih =>
    rintro ⟨h, q⟩ inv hlt
    cases q with
    | nil =>
      refine ⟨h, bfsLoop_nil _ _ _, inv.pipes, inv.adj, inv.incoming, inv.src, inv.tree, ?_⟩
      intro _ x hx hvis
      exact inv.closed x hx hvis (by simp)
    | cons v q1 =>
      rw [bfsLoop_cons]
      by_cases ht : (h.locs t).visited = true
      · rw [if_pos ht]
        refine ⟨h, rfl, inv.pipes, inv.adj, inv.incoming, inv.src, inv.tree, ?_⟩
        intro hf; rw [ht] at hf; exact Bool.noConfusion hf
      · rw [if_neg ht]
        have hvq := inv.queue v (List.mem_cons_self _ _)
        have core : BfsCore h0 V s v (h, q1) :=
          ⟨inv.pipes, inv.adj, inv.incoming, inv.src, hvq.2,
           fun x hx => inv.queue x (List.mem_cons_of_mem _ hx), inv.tree,
           fun x hx hvis hnq hxv => inv.closed x hx hvis (by
             intro hm
             rcases List.mem_cons.1 hm with h1 | h1
             · exact hxv h1
             · exact hnq h1)⟩
        obtain ⟨c1, m1, f1, n1⟩ := processOutgoing_core wf hvq.1 (h.locs v).adj (h, q1)
          (fun e he => by rw [← inv.adj]; exact he) core
        obtain ⟨c2, m2, f2, n2⟩ := processIncoming_core wf hvq.1
          ((processOutgoing (h, q1) (h.locs v).adj).1.locs v).incoming _
          (fun e he => by rw [← c1.incoming]; exact he) c1
        apply ih
        · refine ⟨c2.pipes, c2.adj, c2.incoming, c2.src, c2.queue, c2.tree, ?_⟩
          intro x hx hvis hnq
          by_cases hxv : x = v
          · subst hxv
            constructor
            · intro e he ha hr
              rw [c2.pipes] at ha hr ⊢
              rw [c2.adj, ← inv.adj] at he
              exact m2 _ (f1 e he ha hr)
            · intro e he ha hr
              rw [c2.pipes] at ha hr ⊢
              rw [c2.incoming, ← c1.incoming] at he
              exact f2 e he ha hr
          · exact c2.closed x hx hvis hnq hxv
        · simp only [List.length_cons] at hlt n1
          omega

/-- The loop "Mark all vertices as not visited". -/
theorem resetVisited_spec (V : List Nat) :
    ∀ h : Heap,
      (V.foldl (fun h v => setVisited h v false) h).pipes = h.pipes ∧
      (∀ x, ((V.foldl (fun h v => setVisited h v false) h).locs x).adj = (h.locs x).adj) ∧
      (∀ x, ((V.foldl (fun h v => setVisited h v false) h).locs x).incoming
        = (h.locs x).incoming) ∧
      (∀ x, ((V.foldl (fun h v => setVisited h v false) h).locs x).visited
        = if x ∈ V then false else (h.locs x).visited) := by
  induction V with
  | nil => intro h; simp
  | cons a V ih =>
    intro h
    simp only [List.foldl_cons]
    obtain ⟨p, a1, i1, v1⟩ := ih (setVisited h a false)
    refine ⟨by rw [p]; rfl, fun x => by rw [a1]; simp, fun x => by rw [i1]; simp, ?_⟩
    intro x
    rw [v1]
    by_cases hx : x ∈ V
    · simp [hx]
    · by_cases hxa : x = a
      · simp [hxa]
      · simp [hx, hxa]

theorem findAugmentingPath_spec {g : Graph} {h : Heap} {s t : Nat} (wf : WF h g.vertexSet)
    (hs : s ∈ g.vertexSet) (fuel : Nat) (hfuel : g.vertexSet.length + 1 < fuel) :
    ∃ h1, findAugmentingPath fuel g h s t = some ((h1.locs t).visited, h1) ∧
      BfsPost h g.vertexSet s t h1 := by
  obtain ⟨p, a1, i1, v1⟩ := resetVisited_spec g.vertexSet h
  have net : SameNet h
      (setVisited (g.vertexSet.foldl (fun h v => setVisited h v false) h) s true) :=
    ⟨fun x => by simp [a1], fun x => by simp [i1], fun e => by simp [p], fun e => by simp [p],
     fun e => by simp [p], fun e => by simp [p], fun e => by simp [p]⟩
  have wf2 := net.wf wf
  have inv : BfsInv (setVisited (g.vertexSet.foldl (fun h v => setVisited h v false) h) s true)
      g.vertexSet s
      (setVisited (g.vertexSet.foldl (fun h v => setVisited h v false) h) s true, [s]) := by
    refine ⟨rfl, fun _ => rfl, fun _ => rfl, by simp, ?_, ?_, ?_⟩
    · intro x hx
      rw [List.mem_singleton.1 hx]
      exact ⟨hs, by simp⟩
    · intro x hx hvis
      have hxs : x = s := by
        by_contra hne
        simp [hne, v1, hx] at hvis
      subst hxs
      exact ⟨[], TreePath.nil hvis⟩
    · intro x hx hvis hnq
      have hxs : x = s := by
        by_contra hne
        simp [hne, v1, hx] at hvis
      exact absurd (by simp [hxs]) hnq
  have hlen : ([s] : List Nat).length +
      unvisited (setVisited (g.vertexSet.foldl (fun h v => setVisited h v false) h) s true)
        g.vertexSet < fuel := by
    have : unvisited (setVisited (g.vertexSet.foldl (fun h v => setVisited h v false) h) s true)
        g.vertexSet ≤ g.vertexSet.length := List.countP_le_length _
    simp only [List.length_singleton]
    omega
  obtain ⟨h1, e1, post⟩ := bfsLoop_spec t wf2 fuel _ inv hlen
  refine ⟨h1, ?_, ?_⟩
  · unfold findAugmentingPath
    simp only [e1]
  · exact ⟨by rw [post.pipes]; simp [p], fun x => by rw [post.adj]; simp [a1],
      fun x => by rw [post.incoming]; simp [i1], post.src, post.tree, post.closed⟩

end Project1

namespace Project1

/-! ## The walk back from the sink -/

theorem walkEdges_congr {h k : Heap} (hp : ∀ x, (k.locs x).path = (h.locs x).path)
    (hd : ∀ e, (k.pipes e).dest = (h.pipes e).dest)
    (ho : ∀ e, (k.pipes e).orig = (h.pipes e).orig) (s : Nat) :
    ∀ (fuel v : Nat), walkEdges fuel k s v = walkEdges fuel h s v := by
  intro fuel
  induction fuel with
  | zero => intro v; rfl
  | succ fuel ih =>
    intro v
    simp only [walkEdges, hp, hd, ho, ih]

theorem walkEdges_setFlow (h : Heap) (e : Nat) (x : Int) (s fuel v : Nat) :
    walkEdges fuel (setFlow h e x) s v = walkEdges fuel h s v :=
  walkEdges_congr (h := h) (k := setFlow h e x) (fun _ => rfl) (fun _ => by simp)
    (fun _ => by simp) s fuel v

theorem minResidualWalk_eq (h : Heap) (s : Nat) :
    ∀ (fuel v : Nat) (f0 : Int),
      minResidualWalk fuel h s v f0 = (walkEdges fuel h s v).map (fun l => bottleneck h l f0) := by
  intro fuel
  induction fuel with
  | zero => intro v f0; rfl
  | succ fuel ih =>
    intro v f0
    unfold minResidualWalk walkEdges
    by_cases hv : v = s
    · simp [hv, bottleneck]
    · simp only [hv, if_false]
      cases hp : (h.locs v).path with
      | none => rfl
      | some e =>
        simp only
        by_cases hd : (h.pipes e).dest = v
        · simp only [hd, if_true, ih, Option.map_map]
          rfl
        · simp only [hd, if_false, ih, Option.map_map]
          rfl

theorem augmentWalk_eq (s : Nat) (f : Int) :
    ∀ (fuel : Nat) (h : Heap) (v : Nat),
      augmentWalk fuel h s v f = (walkEdges fuel h s v).map (fun l => applyPush f l h) := by
  intro fuel
  induction fuel with
  | zero => intro h v; rfl
  | succ fuel ih =>
    intro h v
    unfold augmentWalk walkEdges
    by_cases hv : v = s
    · simp [hv, applyPush]
    · simp only [hv, if_false]
      cases hp : (h.locs v).path with
      | none => rfl
      | some e =>
        simp only
        by_cases hd : (h.pipes e).dest = v
        · simp only [hd, if_true, ih, Option.map_map, walkEdges_setFlow]
          rfl
        · simp only [hd, if_false, ih, Option.map_map, walkEdges_setFlow]
          rfl

theorem walkEdges_of_treePath {h : Heap} {V : List Nat} {s v : Nat} {l : List (Nat × Bool)}
    (p : TreePath h V s v l) : ∀ fuel, l.length < fuel → walkEdges fuel h s v = some l := by
  induction p with
  | nil _ =>
    intro fuel hf
    cases fuel with
    | zero => exact absurd hf (Nat.not_lt_zero _)
    | succ fuel => simp [walkEdges]
  | fwd v e l hne _ hpath hdest _ _ _ _ _ _ ih =>
    intro fuel hf
    cases fuel with
    | zero => exact absurd hf (Nat.not_lt_zero _)
    | succ fuel =>
      simp only [List.length_cons, Nat.add_lt_add_iff_right] at hf
      simp [walkEdges, hne, hpath, hdest, ih fuel hf]
  | bwd v e l hne _ hpath hdest _ _ _ _ _ _ _ ih =>
    intro fuel hf
    cases fuel with
    | zero => exact absurd hf (Nat.not_lt_zero _)
    | succ fuel =>
      simp only [List.length_cons, Nat.add_lt_add_iff_right] at hf
      simp [walkEdges, hne, hpath, hdest, ih fuel hf]

theorem TreePath.nodup {h : Heap} {V : List Nat} {s v : Nat} {l : List (Nat × Bool)}
    (p : TreePath h V s v l) : (l.map Prod.fst).Nodup := by
  induction p with
  | nil _ => simp
  | fwd v e l _ _ _ _ _ _ _ _ _ hnot ih =>
    simp only [List.map_cons, List.nodup_cons]
    refine ⟨?_, ih⟩
    intro hm
    obtain ⟨q, hq, hqe⟩ := List.mem_map.1 hm
    apply hnot q.2
    rw [← hqe]; exact hq
  | bwd v e l _ _ _ _ _ _ _ _ _ _ hnot ih =>
    simp only [List.map_cons, List.nodup_cons]
    refine ⟨?_, ih⟩
    intro hm
    obtain ⟨q, hq, hqe⟩ := List.mem_map.1 hm
    apply hnot q.2
    rw [← hqe]; exact hq

theorem TreePath.edges_owned {h : Heap} {V : List Nat} {s v : Nat} {l : List (Nat × Bool)}
    (p : TreePath h V s v l) : ∀ q ∈ l, q.1 ∈ allPipes h V := by
  induction p with
  | nil _ => simp
  | fwd v e l _ _ _ _ horig hadj _ _ _ _ ih =>
    intro q hq
    rcases List.mem_cons.1 hq with rfl | hq
    · exact Project1.mem_allPipes.2 ⟨_, horig, hadj⟩
    · exact ih q hq
  | bwd v e l _ _ _ _ _ hV hadj _ _ _ _ ih =>
    intro q hq
    rcases List.mem_cons.1 hq with rfl | hq
    · exact Project1.mem_allPipes.2 ⟨_, hV, hadj⟩
    · exact ih q hq

theorem TreePath.activated {h : Heap} {V : List Nat} {s v : Nat} {l : List (Nat × Bool)}
    (p : TreePath h V s v l) : ∀ q ∈ l, (h.pipes q.1).activated = true := by
  induction p with
  | nil _ => simp
  | fwd v e l _ _ _ _ _ _ hact _ _ _ ih =>
    intro q hq
    rcases List.mem_cons.1 hq with rfl | hq
    · exact hact
    · exact ih q hq
  | bwd v e l _ _ _ _ _ _ _ hact _ _ _ ih =>
    intro q hq
    rcases List.mem_cons.1 hq with rfl | hq
    · exact hact
    · exact ih q hq

theorem TreePath.residual_pos {h : Heap} {V : List Nat} {s v : Nat} {l : List (Nat × Bool)}
    (p : TreePath h V s v l) : ∀ q ∈ l, 0 < residual h q := by
  induction p with
  | nil _ => simp
  | fwd v e l _ _ _ _ _ _ _ hres _ _ ih =>
    intro q hq
    rcases List.mem_cons.1 hq with rfl | hq
    · simp only [residual, if_true]; omega
    · exact ih q hq
  | bwd v e l _ _ _ _ _ _ _ _ hres _ _ ih =>
    intro q hq
    rcases List.mem_cons.1 hq with rfl | hq
    · simpa [residual] using hres
    · exact ih q hq

theorem TreePath.length_le {h : Heap} {V : List Nat} {s v : Nat} {l : List (Nat × Bool)}
    (p : TreePath h V s v l) : l.length ≤ (allPipes h V).length := by
  have h1 : (l.map Prod.fst).length ≤ (allPipes h V).length := by
    apply List.Subperm.length_le
    apply List.Nodup.subperm p.nodup
    intro e he
    obtain ⟨q, hq, hqe⟩ := List.mem_map.1 he
    rw [← hqe]; exact p.edges_owned q hq
  simpa using h1

/-! ## The bottleneck -/

theorem bottleneck_le (h : Heap) : ∀ (l : List (Nat × Bool)) (f0 : Int),
    bottleneck h l f0 ≤ f0 ∧ ∀ q ∈ l, bottleneck h l f0 ≤ residual h q := by
  intro l
  induction l with
  | nil => intro f0; simp [bottleneck]
  | cons p l ih =>
    intro f0
    have := ih (min f0 (residual h p))
    simp only [bottleneck, List.foldl_cons] at this ⊢
    refine ⟨le_trans this.1 (min_le_left _ _), ?_⟩
    intro q hq
    rcases List.mem_cons.1 hq with rfl | hq
    · exact le_trans this.1 (min_le_right _ _)
    · exact this.2 q hq

theorem bottleneck_pos (h : Heap) : ∀ (l : List (Nat × Bool)) (f0 : Int), 0 < f0 →
    (∀ q ∈ l, 0 < residual h q) → 0 < bottleneck h l f0 := by
  intro l
  induction l with
  | nil => intro f0 h0 _; simpa [bottleneck] using h0
  | cons p l ih =>
    intro f0 h0 hr
    simp only [bottleneck, List.foldl_cons]
    apply ih
    · exact lt_min h0 (hr p (List.mem_cons_self _ _))
    · intro q hq; exact hr q (List.mem_cons_of_mem _ hq)

theorem INF_pos : 0 < INF := by
  unfold INF; decide

/-! ## Pushing flow along the walk -/

theorem applyPush_locs (f : Int) : ∀ (l : List (Nat × Bool)) (h : Heap),
    (applyPush f l h).locs = h.locs := by
  intro l
  induction l with
  | nil => intro h; rfl
  | cons p l ih =>
    intro h
    simp only [applyPush, List.foldl_cons] at ih ⊢
    rw [ih]; rfl

theorem applyPush_sameNet (f : Int) : ∀ (l : List (Nat × Bool)) (h : Heap),
    SameNet h (applyPush f l h) := by
  intro l
  induction l with
  | nil => intro h; exact SameNet.refl h
  | cons p l ih =>
    intro h
    simp only [applyPush, List.foldl_cons] at ih ⊢
    exact (SameNet.setFlow h _ _).trans (ih _)

theorem applyPush_flowOf (f : Int) : ∀ (l : List (Nat × Bool)) (h : Heap),
    flowOf (applyPush f l h) = pushAll f l (flowOf h) := by
  intro l
  induction l with
  | nil => intro h; rfl
  | cons p l ih =>
    intro h
    simp only [applyPush, pushAll, List.foldl_cons] at ih ⊢
    rw [ih, flowOf_setFlow]
    rfl

theorem pushAll_apply (f : Int) : ∀ (l : List (Nat × Bool)) (fl : Nat → Int),
    (l.map Prod.fst).Nodup → ∀ e,
      pushAll f l fl e =
        if (e, true) ∈ l then fl e + f else if (e, false) ∈ l then fl e - f else fl e := by
  intro l
  induction l with
  | nil => intro fl _ e; simp [pushAll]
  | cons p l ih =>
    intro fl nd e
    simp only [List.map_cons, List.nodup_cons] at nd
    have := ih (pushStep f fl p) nd.2 e
    simp only [pushAll, List.foldl_cons] at this ⊢
    rw [this]
    obtain ⟨a, d⟩ := p
    by_cases hea : e = a
    · subst hea
      have hn : ∀ d1, (e, d1) ∉ l := by
        intro d1 hm
        exact nd.1 (List.mem_map.2 ⟨(e, d1), hm, rfl⟩)
      cases d <;> simp [hn, pushStep]
    · have h1 : ∀ d1, ((e, d1) ∈ (a, d) :: l ↔ (e, d1) ∈ l) := by
        intro d1; simp [hea]
      simp [h1, pushStep, Function.update, hea]

end Project1

namespace Project1

/-! ## Sums over link lists -/

theorem sum_map_update_not_mem (fl : Nat → Int) (e : Nat) (x : Int) :
    ∀ l : List Nat, e ∉ l → (l.map (Function.update fl e x)).sum = (l.map fl).sum := by
  intro l
  induction l with
  | nil => intro _; rfl
  | cons a l ih =>
    intro hn
    have hae : a ≠ e := fun h => hn (by simp [h])
    have hl : e ∉ l := fun h => hn (List.mem_cons_of_mem _ h)
    simp [Function.update, hae, ih hl]

theorem sum_map_update_mem (fl : Nat → Int) (e : Nat) (x : Int) :
    ∀ l : List Nat, l.Nodup → e ∈ l →
      (l.map (Function.update fl e x)).sum = (l.map fl).sum + (x - fl e) := by
  intro l
  induction l with
  | nil => intro _ hm; exact absurd hm (List.not_mem_nil _)
  | cons a l ih =>
    intro nd hm
    have nd1 := List.nodup_cons.1 nd
    by_cases hae : a = e
    · subst hae
      simp only [List.map_cons, List.sum_cons, Function.update_same]
      rw [sum_map_update_not_mem fl a x l nd1.1]
      omega
    · have hl : e ∈ l := by
        rcases List.mem_cons.1 hm with h | h
        · exact absurd h.symm hae
        · exact h
      simp only [List.map_cons, List.sum_cons, Function.update_noteq hae]
      rw [ih nd1.2 hl]
      omega

theorem WF.nodup_adj {h : Heap} {V : List Nat} (w : WF h V) {v : Nat} (hv : v ∈ V) :
    (h.locs v).adj.Nodup :=
  (List.nodup_flatMap.1 w.nodupE).1 v hv

theorem WF.orig_mem {h : Heap} {V : List Nat} (w : WF h V) {e : Nat}
    (he : e ∈ allPipes h V) : (h.pipes e).orig ∈ V ∧ e ∈ (h.locs (h.pipes e).orig).adj :=
  w.mem_allPipes_iff.1 he

theorem WF.dest_mem {h : Heap} {V : List Nat} (w : WF h V) {e : Nat}
    (he : e ∈ allPipes h V) :
    (h.pipes e).dest ∈ V ∧ e ∈ (h.locs (h.pipes e).dest).incoming := by
  obtain ⟨h1, h2⟩ := w.orig_mem he
  exact (w.adj_ok _ h1 e h2).2

theorem WF.incoming_mem {h : Heap} {V : List Nat} (w : WF h V) {v e : Nat} (hv : v ∈ V)
    (he : e ∈ (h.locs v).incoming) : e ∈ allPipes h V := by
  have := w.inc_ok v hv e he
  exact mem_allPipes.2 ⟨_, this.2.1, this.2.2⟩

theorem outflowOf_update {h : Heap} {V : List Nat} (w : WF h V) (fl : Nat → Int) {e : Nat}
    (he : e ∈ allPipes h V) (x : Int) {y : Nat} (hy : y ∈ V) :
    outflowOf h (Function.update fl e x) y =
      outflowOf h fl y + (if y = (h.pipes e).orig then x - fl e else 0) := by
  unfold outflowOf
  by_cases hyo : y = (h.pipes e).orig
  · rw [if_pos hyo, hyo]
    exact sum_map_update_mem fl e x _ (w.nodup_adj (w.orig_mem he).1) (w.orig_mem he).2
  · rw [if_neg hyo, add_zero]
    apply sum_map_update_not_mem
    intro hm
    exact hyo (w.adj_ok y hy e hm).1.symm

theorem inflowOf_update {h : Heap} {V : List Nat} (w : WF h V) (fl : Nat → Int) {e : Nat}
    (he : e ∈ allPipes h V) (x : Int) {y : Nat} (hy : y ∈ V) :
    inflowOf h (Function.update fl e x) y =
      inflowOf h fl y + (if y = (h.pipes e).dest then x - fl e else 0) := by
  unfold inflowOf
  by_cases hyo : y = (h.pipes e).dest
  · rw [if_pos hyo, hyo]
    exact sum_map_update_mem fl e x _ (w.nodupInc _ (w.dest_mem he).1) (w.dest_mem he).2
  · rw [if_neg hyo, add_zero]
    apply sum_map_update_not_mem
    intro hm
    exact hyo (w.inc_ok y hy e hm).1.symm

theorem excessOf_pushStep {h : Heap} {V : List Nat} (w : WF h V) (f : Int) (fl : Nat → Int)
    {p : Nat × Bool} (he : p.1 ∈ allPipes h V) {y : Nat} (hy : y ∈ V) :
    excessOf h (pushStep f fl p) y =
      excessOf h fl y + (if y = (h.pipes p.1).dest then (if p.2 then f else -f) else 0)
        - (if y = (h.pipes p.1).orig then (if p.2 then f else -f) else 0) := by
  unfold excessOf pushStep
  rw [outflowOf_update w fl he _ hy, inflowOf_update w fl he _ hy]
  cases p.2 <;> (split <;> split <;> simp <;> omega)

theorem excessOf_pushAll {h : Heap} {V : List Nat} {s v : Nat} {l : List (Nat × Bool)}
    (w : WF h V) (f : Int) (p : TreePath h V s v l) :
    ∀ (fl : Nat → Int) (y : Nat), y ∈ V →
      excessOf h (pushAll f l fl) y =
        excessOf h fl y + (if y = v then f else 0) - (if y = s then f else 0) := by
  induction p with
  | nil _ => intro fl y _; simp [pushAll]
  | fwd v e l _ _ _ hdest horig hadj _ _ hp _ ih =>
    intro fl y hy
    have he : e ∈ allPipes h V := mem_allPipes.2 ⟨_, horig, hadj⟩
    have h1 := ih (pushStep f fl (e, true)) y hy
    have h2 := excessOf_pushStep w f fl (p := (e, true)) he hy
    simp only [pushAll, List.foldl_cons] at h1 ⊢
    rw [h1, h2]
    simp only [hdest, if_true]
    omega
  | bwd v e l _ _ _ _ horig hV hadj _ _ hp _ ih =>
    intro fl y hy
    have he : e ∈ allPipes h V := mem_allPipes.2 ⟨_, hV, hadj⟩
    have h1 := ih (pushStep f fl (e, false)) y hy
    have h2 := excessOf_pushStep w f fl (p := (e, false)) he hy
    simp only [pushAll, List.foldl_cons] at h1 ⊢
    rw [h1, h2]
    simp only [horig, Bool.false_eq_true, if_false]
    by_cases h3 : y = (h.pipes e).dest <;> by_cases h4 : y = v <;> by_cases h5 : y = s <;>
      simp [h3, h4, h5] <;> omega

end Project1

namespace Project1

/-! ## One augmentation -/

theorem flowOf_congr {h h1 : Heap} (hp : h1.pipes = h.pipes) : flowOf h1 = flowOf h := by
  unfold flowOf; rw [hp]

theorem FlowInv.congr {h h1 : Heap} {V : List Nat} {s t : Nat} (inv : FlowInv h V s t)
    (hp : h1.pipes = h.pipes) (hadj : ∀ x, (h1.locs x).adj = (h.locs x).adj)
    (hinc : ∀ x, (h1.locs x).incoming = (h.locs x).incoming) : FlowInv h1 V s t := by
  have hE : allPipes h1 V = allPipes h V := by
    unfold allPipes; congr 1; funext v; exact hadj v
  refine ⟨?_, ?_, ?_⟩
  · intro e he; rw [hE] at he; rw [hp]; exact inv.bounds e he
  · intro e he; rw [hE] at he; rw [hp]; exact inv.disabled e he
  · intro v hv h1s h1t
    have := inv.conserve v hv h1s h1t
    simp only [inflow, outflow, inflowOf, outflowOf, flowOf_congr hp, hadj, hinc] at this ⊢
    exact this

theorem flowValue_congr {h h1 : Heap} (hp : h1.pipes = h.pipes)
    (hadj : ∀ x, (h1.locs x).adj = (h.locs x).adj)
    (hinc : ∀ x, (h1.locs x).incoming = (h.locs x).incoming) (s : Nat) :
    flowValue h1 s = flowValue h s := by
  simp only [flowValue, valueOf, inflowOf, outflowOf, flowOf_congr hp, hadj, hinc]

theorem augment_step {h : Heap} {V : List Nat} {s t : Nat} {l : List (Nat × Bool)}
    (wf : WF h V) (inv : FlowInv h V s t) (tp : TreePath h V s t l) (hst : s ≠ t)
    (hs : s ∈ V) :
    0 < bottleneck h l INF ∧
    FlowInv (applyPush (bottleneck h l INF) l h) V s t ∧
    flowValue (applyPush (bottleneck h l INF) l h) s = flowValue h s + bottleneck h l INF := by
  have hpos : 0 < bottleneck h l INF := bottleneck_pos h l INF INF_pos tp.residual_pos
  have hle := (bottleneck_le h l INF).2
  have net := applyPush_sameNet (bottleneck h l INF) l h
  have hfl := applyPush_flowOf (bottleneck h l INF) l h
  have hflow : ∀ e, ((applyPush (bottleneck h l INF) l h).pipes e).flow
      = pushAll (bottleneck h l INF) l (flowOf h) e := by
    intro e
    have := congrFun hfl e
    simpa [flowOf] using this
  have hexc : ∀ y ∈ V, excessOf h (pushAll (bottleneck h l INF) l (flowOf h)) y =
      excessOf h (flowOf h) y + (if y = t then bottleneck h l INF else 0)
        - (if y = s then bottleneck h l INF else 0) :=
    fun y hy => excessOf_pushAll wf _ tp (flowOf h) y hy
  refine ⟨hpos, ⟨?_, ?_, ?_⟩, ?_⟩
  · intro e he
    rw [net.allPipes] at he
    rw [hflow, net.weight, pushAll_apply _ _ _ tp.nodup]
    have hb := inv.bounds e he
    simp only [flowOf]
    split
    · rename_i hm
      have := hle _ hm
      simp only [residual, if_true] at this
      constructor <;> omega
    · split
      · rename_i hm
        have := hle _ hm
        simp only [residual] at this
        simp only [Bool.false_eq_true, if_false] at this
        constructor <;> omega
      · exact hb
  · intro e he ha
    rw [net.allPipes] at he
    rw [net.activated] at ha
    rw [hflow, pushAll_apply _ _ _ tp.nodup]
    have h1 : (e, true) ∉ l := by
      intro hm
      have := tp.activated _ hm
      simp only at this
      rw [ha] at this; exact Bool.noConfusion this
    have h2 : (e, false) ∉ l := by
      intro hm
      have := tp.activated _ hm
      simp only at this
      rw [ha] at this; exact Bool.noConfusion this
    simp only [h1, h2, if_false]
    exact inv.disabled e he ha
  · intro v hv hvs hvt
    have := hexc v hv
    have h0 := inv.conserve v hv hvs hvt
    simp only [inflow, outflow, hfl, net.inflowOf, net.outflowOf] at h0 ⊢
    simp only [excessOf, hvs, hvt, if_false] at this
    omega
  · have := hexc s hs
    simp only [flowValue, valueOf, hfl, net.inflowOf, net.outflowOf]
    simp only [excessOf, hst, if_false, if_true] at this
    omega

/-! ## The loop of `edmondsKarp` -/

theorem sum_map_le_sum_map (f g : Nat → Int) :
    ∀ l : List Nat, (∀ e ∈ l, f e ≤ g e) → (l.map f).sum ≤ (l.map g).sum := by
  intro l
  induction l with
  | nil => intro _; simp
  | cons a l ih =>
    intro hl
    simp only [List.map_cons, List.sum_cons]
    have h1 := hl a (List.mem_cons_self _ _)
    have h2 := ih (fun e he => hl e (List.mem_cons_of_mem _ he))
    omega

theorem sum_map_nonneg (f : Nat → Int) :
    ∀ l : List Nat, (∀ e ∈ l, 0 ≤ f e) → 0 ≤ (l.map f).sum := by
  intro l
  induction l with
  | nil => intro _; simp
  | cons a l ih =>
    intro hl
    simp only [List.map_cons, List.sum_cons]
    have h1 := hl a (List.mem_cons_self _ _)
    have h2 := ih (fun e he => hl e (List.mem_cons_of_mem _ he))
    omega

theorem flowValue_le_capOut {h : Heap} {V : List Nat} {s t : Nat} (wf : WF h V)
    (inv : FlowInv h V s t) (hs : s ∈ V) : flowValue h s ≤ capOut h s := by
  have h1 : outflow h s ≤ capOut h s := by
    unfold outflow outflowOf capOut
    apply sum_map_le_sum_map
    intro e he
    exact (inv.bounds e (mem_allPipes.2 ⟨s, hs, he⟩)).2
  have h2 : 0 ≤ inflow h s := by
    unfold inflow inflowOf
    apply sum_map_nonneg
    intro e he
    exact (inv.bounds e (wf.incoming_mem hs he)).1
  simp only [flowValue, valueOf, inflow, outflow] at *
  omega

theorem SameNet.capOut {h h1 : Heap} (a : SameNet h h1) (s : Nat) :
    capOut h1 s = capOut h s := by
  unfold Project1.capOut
  rw [a.adj]
  congr 1
  apply List.map_congr_left
  intro e _
  exact a.weight e

theorem augmentLoop_spec {g : Graph} {s t : Nat} (hs : s ∈ g.vertexSet)
    (ht : t ∈ g.vertexSet) (hst : s ≠ t) (fuel : Nat) :
    ∀ (n : Nat) (h : Heap), WF h g.vertexSet → FlowInv h g.vertexSet s t →
      g.vertexSet.length + (allPipes h g.vertexSet).length + 2 ≤ fuel →
      (capOut h s - flowValue h s).toNat < n →
      ∃ h1, augmentLoop n fuel g s t h = some h1 ∧ SameNet h h1 ∧
        FlowInv h1 g.vertexSet s t ∧ (h1.locs s).visited = true ∧
        (h1.locs t).visited = false ∧
        ∀ x ∈ g.vertexSet, (h1.locs x).visited = true → Closed h1 x := by
  intro n
  induction n with
  | zero => intro h _ _ _ hlt; exact absurd hlt (Nat.not_lt_zero _)
  | succ n ih =>
    intro h wf inv hfuel hlt
    obtain ⟨h1, e1, post⟩ := findAugmentingPath_spec (t := t) wf hs fuel (by omega)
    have net1 : SameNet h h1 :=
      ⟨post.adj, post.incoming, fun e => by rw [post.pipes], fun e => by rw [post.pipes],
       fun e => by rw [post.pipes], fun e => by rw [post.pipes], fun e => by rw [post.pipes]⟩
    have inv1 : FlowInv h1 g.vertexSet s t := inv.congr post.pipes post.adj post.incoming
    have wf1 := net1.wf wf
    unfold augmentLoop
    rw [e1]
    cases hvis : (h1.locs t).visited with
    | false =>
      exact ⟨h1, rfl, net1, inv1, post.src, hvis, post.closed hvis⟩
    | true =>
      simp only
      obtain ⟨l, tp⟩ := post.tree t ht hvis
      have hlen : l.length < fuel := by
        have := tp.length_le
        rw [net1.allPipes] at this
        omega
      have hw := walkEdges_of_treePath tp fuel hlen
      obtain ⟨hpos, inv2, hval⟩ := augment_step wf1 inv1 tp hst hs
      have net2 := applyPush_sameNet (bottleneck h1 l INF) l h1
      have e2 : findMinResidualAlongPath fuel h1 s t = some (bottleneck h1 l INF) := by
        unfold findMinResidualAlongPath
        rw [minResidualWalk_eq, hw]; rfl
      have e3 : augmentFlowAlongPath fuel h1 s t (bottleneck h1 l INF)
          = some (applyPush (bottleneck h1 l INF) l h1) := by
        unfold augmentFlowAlongPath
        rw [augmentWalk_eq, hw]; rfl
      rw [e2]
      simp only
      rw [e3]
      simp only
      have net12 := net1.trans net2
      obtain ⟨h3, e4, net3, inv3, r1, r2, r3⟩ := ih _ (net12.wf wf) inv2
        (by rw [net12.allPipes]; exact hfuel)
        (by
          have v1 := flowValue_congr post.pipes post.adj post.incoming s
          have v2 := flowValue_le_capOut wf inv hs
          have v3 := net12.capOut s
          have v4 := flowValue_le_capOut (net12.wf wf) inv2 hs
          omega)
      exact ⟨h3, e4, net12.trans net3, inv3, r1, r2, r3⟩

end Project1

namespace Project1

/-! ## `edmondsKarp` -/

theorem resetAdj_spec : ∀ (es : List Nat) (h : Heap),
    (es.foldl (fun h e => setFlow h e 0) h).locs = h.locs ∧
    SameNet h (es.foldl (fun h e => setFlow h e 0) h) ∧
    ∀ e, ((es.foldl (fun h e => setFlow h e 0) h).pipes e).flow
      = if e ∈ es then 0 else (h.pipes e).flow := by
  intro es
  induction es with
  | nil => intro h; exact ⟨rfl, SameNet.refl h, by simp⟩
  | cons a es ih =>
    intro h
    obtain ⟨l1, n1, f1⟩ := ih (setFlow h a 0)
    simp only [List.foldl_cons]
    refine ⟨by rw [l1]; rfl, (SameNet.setFlow h a 0).trans n1, ?_⟩
    intro e
    rw [f1]
    by_cases hea : e = a
    · simp [hea]
    · by_cases hes : e ∈ es
      · simp [hes]
      · simp [hes, hea]

theorem resetFlows_aux : ∀ (V : List Nat) (h : Heap),
    (V.foldl (fun h v => (h.locs v).adj.foldl (fun h e => setFlow h e 0) h) h).locs = h.locs ∧
    SameNet h (V.foldl (fun h v => (h.locs v).adj.foldl (fun h e => setFlow h e 0) h) h) ∧
    ∀ e, ((V.foldl (fun h v => (h.locs v).adj.foldl (fun h e => setFlow h e 0) h) h).pipes e).flow
      = if e ∈ allPipes h V then 0 else (h.pipes e).flow := by
  intro V
  induction V with
  | nil => intro h; exact ⟨rfl, SameNet.refl h, by simp [allPipes]⟩
  | cons a V ih =>
    intro h
    obtain ⟨l0, n0, f0⟩ := resetAdj_spec (h.locs a).adj h
    obtain ⟨l1, n1, f1⟩ := ih ((h.locs a).adj.foldl (fun h e => setFlow h e 0) h)
    simp only [List.foldl_cons]
    refine ⟨by rw [l1, l0], n0.trans n1, ?_⟩
    intro e
    rw [f1, f0, n0.allPipes]
    simp only [allPipes, List.flatMap_cons, List.mem_append]
    by_cases h1 : e ∈ (h.locs a).adj
    · simp [h1]
    · simp [h1]

theorem resetFlows_spec (g : Graph) (h : Heap) :
    (resetFlows g h).locs = h.locs ∧ SameNet h (resetFlows g h) ∧
    ∀ e, ((resetFlows g h).pipes e).flow
      = if e ∈ allPipes h g.vertexSet then 0 else (h.pipes e).flow :=
  resetFlows_aux g.vertexSet h

theorem sum_map_zero (f : Nat → Int) :
    ∀ l : List Nat, (∀ e ∈ l, f e = 0) → (l.map f).sum = 0 := by
  intro l
  induction l with
  | nil => intro _; rfl
  | cons a l ih =>
    intro hl
    simp only [List.map_cons, List.sum_cons]
    rw [hl a (List.mem_cons_self _ _), ih (fun e he => hl e (List.mem_cons_of_mem _ he))]
    rfl

theorem resetFlows_flowInv {g : Graph} {h : Heap} (wf : WF h g.vertexSet)
    (caps : CapsNonneg h g.vertexSet) (s t : Nat) :
    FlowInv (resetFlows g h) g.vertexSet s t ∧
      (∀ v ∈ g.vertexSet, flowValue (resetFlows g h) v = 0) := by
  obtain ⟨l0, n0, f0⟩ := resetFlows_spec g h
  have wf0 := n0.wf wf
  have hz : ∀ e ∈ allPipes (resetFlows g h) g.vertexSet, ((resetFlows g h).pipes e).flow = 0 := by
    intro e he
    rw [n0.allPipes] at he
    rw [f0, if_pos he]
  have hin : ∀ v ∈ g.vertexSet, inflow (resetFlows g h) v = 0 := by
    intro v hv
    unfold inflow inflowOf
    apply sum_map_zero
    intro e he
    exact hz e (wf0.incoming_mem hv he)
  have hout : ∀ v ∈ g.vertexSet, outflow (resetFlows g h) v = 0 := by
    intro v hv
    unfold outflow outflowOf
    apply sum_map_zero
    intro e he
    exact hz e (mem_allPipes.2 ⟨v, hv, he⟩)
  refine ⟨⟨?_, ?_, ?_⟩, ?_⟩
  · intro e he
    rw [hz e he, n0.weight]
    rw [n0.allPipes] at he
    exact ⟨le_refl _, caps e he⟩
  · intro e he _
    exact hz e he
  · intro v hv _ _
    rw [hin v hv, hout v hv]
  · intro v hv
    have h1 := hin v hv
    have h2 := hout v hv
    simp only [flowValue, valueOf, inflow, outflow] at *
    omega

theorem findVertex_mem {g : Graph} {h : Heap} {code : String} {v : Nat}
    (hv : findVertex g h code = some v) : v ∈ g.vertexSet :=
  List.mem_of_find?_eq_some hv

theorem edmondsKarp_spec {g : Graph} {h : Heap} {source target : String} {s t : Nat}
    (wf : WF h g.vertexSet) (caps : CapsNonneg h g.vertexSet)
    (hs : findVertex g h source = some s) (ht : findVertex g h target = some t)
    (hst : s ≠ t) (fuel : Nat) (hfuel : fuelBound h g.vertexSet s ≤ fuel) :
    ∃ h1, edmondsKarp fuel g h source target = Result.ok () h1 ∧
      EKPost h g.vertexSet s t h1 := by
  have hsV := findVertex_mem hs
  have htV := findVertex_mem ht
  obtain ⟨l0, n0, f0⟩ := resetFlows_spec g h
  obtain ⟨inv0, val0⟩ := resetFlows_flowInv wf caps s t
  have hcap : 0 ≤ capOut h s := by
    unfold capOut
    apply sum_map_nonneg
    intro e he
    exact caps e (mem_allPipes.2 ⟨s, hsV, he⟩)
  unfold fuelBound at hfuel
  obtain ⟨h1, e1, net1, inv1, r1, r2, r3⟩ :=
    augmentLoop_spec hsV htV hst fuel fuel (resetFlows g h) (n0.wf wf) inv0
      (by rw [n0.allPipes]; omega)
      (by
        rw [val0 s hsV, n0.capOut]
        omega)
  refine ⟨h1, ?_, n0.trans net1, inv1, r1, r2, r3⟩
  unfold edmondsKarp
  simp only [hs, ht, hst, if_false, e1]

end Project1

namespace Project1

/-! ## Cuts -/

theorem sum_flatMap_map (f : Nat → List Nat) (F : Nat → Int) :
    ∀ V : List Nat, ((V.flatMap f).map F).sum = (V.map (fun v => ((f v).map F).sum)).sum := by
  intro V
  induction V with
  | nil => rfl
  | cons a V ih =>
    simp only [List.flatMap_cons, List.map_append, List.sum_append, List.map_cons, List.sum_cons, ih]

theorem mul_sum_map (c : Int) (F G : Nat → Int) :
    ∀ l : List Nat, (∀ e ∈ l, G e = c * F e) → c * (l.map F).sum = (l.map G).sum := by
  intro l
  induction l with
  | nil => intro _; simp
  | cons a l ih =>
    intro hl
    simp only [List.map_cons, List.sum_cons, mul_add]
    rw [hl a (List.mem_cons_self _ _), ih (fun e he => hl e (List.mem_cons_of_mem _ he))]

theorem sum_map_congr_mem (F G : Nat → Int) :
    ∀ l : List Nat, (∀ v ∈ l, F v = G v) → (l.map F).sum = (l.map G).sum := by
  intro l hl
  rw [List.map_congr_left hl]

theorem sum_map_single (F : Nat → Int) (s : Nat) :
    ∀ V : List Nat, V.Nodup → s ∈ V → (∀ v ∈ V, v ≠ s → F v = 0) → (V.map F).sum = F s := by
  intro V
  induction V with
  | nil => intro _ hs; exact absurd hs (List.not_mem_nil _)
  | cons a V ih =>
    intro nd hs hz
    have nd1 := List.nodup_cons.1 nd
    simp only [List.map_cons, List.sum_cons]
    by_cases has : a = s
    · subst has
      rw [sum_map_zero F V (fun v hv => hz v (List.mem_cons_of_mem _ hv)
        (fun h => nd1.1 (h ▸ hv)))]
      simp
    · have hs1 : s ∈ V := by
        rcases List.mem_cons.1 hs with h | h
        · exact absurd h.symm has
        · exact h
      rw [hz a (List.mem_cons_self _ _) has,
        ih nd1.2 hs1 (fun v hv => hz v (List.mem_cons_of_mem _ hv))]
      simp

theorem WF.incoming_perm {h : Heap} {V : List Nat} (w : WF h V) :
    (V.flatMap (fun v => (h.locs v).incoming)).Perm (allPipes h V) := by
  apply (List.perm_ext_iff_of_nodup ?_ w.nodupE).2
  · intro e
    constructor
    · intro he
      obtain ⟨v, hv, hev⟩ := List.mem_flatMap.1 he
      exact w.incoming_mem hv hev
    · intro he
      exact List.mem_flatMap.2 ⟨_, (w.dest_mem he).1, (w.dest_mem he).2⟩
  · apply List.nodup_flatMap.2
    refine ⟨w.nodupInc, ?_⟩
    apply List.Pairwise.imp_of_mem ?_ w.nodupV
    intro a b ha hb hab
    simp only [Function.onFun]
    intro e hea heb
    exact hab (((w.inc_ok a ha e hea).1).symm.trans (w.inc_ok b hb e heb).1)

theorem sum_out_eq {h : Heap} {V : List Nat} (w : WF h V) (c : Nat → Int) (fl : Nat → Int) :
    (V.map (fun v => c v * outflowOf h fl v)).sum
      = ((allPipes h V).map (fun e => c (h.pipes e).orig * fl e)).sum := by
  unfold allPipes
  rw [sum_flatMap_map]
  apply sum_map_congr_mem
  intro v hv
  unfold outflowOf
  apply mul_sum_map
  intro e he
  rw [(w.adj_ok v hv e he).1]

theorem sum_in_eq {h : Heap} {V : List Nat} (w : WF h V) (c : Nat → Int) (fl : Nat → Int) :
    (V.map (fun v => c v * inflowOf h fl v)).sum
      = ((allPipes h V).map (fun e => c (h.pipes e).dest * fl e)).sum := by
  rw [← (w.incoming_perm.map _).sum_eq, sum_flatMap_map]
  apply sum_map_congr_mem
  intro v hv
  unfold inflowOf
  apply mul_sum_map
  intro e he
  rw [(w.inc_ok v hv e he).1]

theorem sum_map_sub (F G : Nat → Int) :
    ∀ l : List Nat, (l.map (fun v => F v - G v)).sum = (l.map F).sum - (l.map G).sum := by
  intro l
  induction l with
  | nil => rfl
  | cons a l ih =>
    simp only [List.map_cons, List.sum_cons, ih]
    omega

/-- The value of a conserved flow is its net flow across any cut. -/
theorem value_eq_cut {h : Heap} {V : List Nat} (w : WF h V) {s t : Nat} (hs : s ∈ V)
    (S : Nat → Bool) (hSs : S s = true) (hSt : S t = false) (fl : Nat → Int)
    (hc : ∀ v ∈ V, v ≠ s → v ≠ t → inflowOf h fl v = outflowOf h fl v) :
    valueOf h fl s = ((allPipes h V).map (fun e =>
      (ind S (h.pipes e).orig - ind S (h.pipes e).dest) * fl e)).sum := by
  have h1 : (V.map (fun v => ind S v * outflowOf h fl v - ind S v * inflowOf h fl v)).sum
      = valueOf h fl s := by
    rw [sum_map_single _ s V w.nodupV hs]
    · simp [ind, hSs, valueOf]
    · intro v hv hvs
      by_cases hvt : v = t
      · simp [ind, hvt, hSt]
      · rw [hc v hv hvs hvt]; omega
  rw [← h1, sum_map_sub, sum_out_eq w, sum_in_eq w, ← sum_map_sub]
  apply sum_map_congr_mem
  intro e _
  ring

theorem sum_map_filter_ite (p : Nat → Bool) (F : Nat → Int) :
    ∀ l : List Nat, ((l.filter p).map F).sum = (l.map (fun e => if p e then F e else 0)).sum := by
  intro l
  induction l with
  | nil => rfl
  | cons a l ih =>
    by_cases hp : p a = true
    · simp [List.filter_cons, hp, ih]
    · simp [List.filter_cons, hp, ih]

/-- Weak duality: a feasible flow is worth at most the capacity of any cut. -/
theorem value_le_cut {h : Heap} {V : List Nat} (w : WF h V) {s t : Nat} (hs : s ∈ V)
    (S : Nat → Bool) (hSs : S s = true) (hSt : S t = false) (fl : Nat → Int)
    (hf : Feasible h V s t fl) : valueOf h fl s ≤ cutCapacity h V S := by
  rw [value_eq_cut w hs S hSs hSt fl hf.2]
  unfold cutCapacity
  rw [sum_map_filter_ite]
  apply sum_map_le_sum_map
  intro e he
  obtain ⟨b1, b2, b3⟩ := hf.1 e he
  by_cases ha : (h.pipes e).activated = true
  · by_cases ho : S (h.pipes e).orig = true <;> by_cases hd : S (h.pipes e).dest = true <;>
      simp [ind, ho, hd, ha] <;> omega
  · have ha1 : (h.pipes e).activated = false := by simpa using ha
    simp [ha1, b3 ha1]

/-- Strong duality at the end of `edmondsKarp` : the flow saturates the cut made
of the vertices visited by the last BFS. -/
theorem value_eq_cutCapacity {h h1 : Heap} {V : List Nat} {s t : Nat} (w : WF h1 V)
    (hs : s ∈ V) (post : EKPost h V s t h1) :
    flowValue h1 s = cutCapacity h1 V (fun v => (h1.locs v).visited) := by
  unfold flowValue
  rw [value_eq_cut w hs (fun v => (h1.locs v).visited) post.src post.snk (flowOf h1)
    (fun v hv h1s h1t => post.inv.conserve v hv h1s h1t)]
  unfold cutCapacity
  rw [sum_map_filter_ite]
  apply sum_map_congr_mem
  intro e he
  obtain ⟨b1, b2⟩ := post.inv.bounds e he
  have b3 := post.inv.disabled e he
  obtain ⟨o1, o2⟩ := w.orig_mem he
  obtain ⟨d1, d2⟩ := w.dest_mem he
  simp only [flowOf, ind]
  by_cases ho : (h1.locs (h1.pipes e).orig).visited = true <;>
    by_cases hd : (h1.locs (h1.pipes e).dest).visited = true
  · simp [ho, hd]
  · -- leaving the visited set: saturated if enabled, empty if disabled
    by_cases ha : (h1.pipes e).activated = true
    · have hsat : (h1.pipes e).flow = (h1.pipes e).weight := by
        by_contra hne
        have hlt : (h1.pipes e).flow < (h1.pipes e).weight := by omega
        exact hd ((post.closed _ o1 ho).1 e o2 ha hlt)
      simp [ho, hd, hsat, ha]
    · have ha1 : (h1.pipes e).activated = false := by simpa using ha
      simp [ho, hd, b3 ha1, ha1]
  · -- entering the visited set: no flow
    have hz : (h1.pipes e).flow = 0 := by
      by_cases ha : (h1.pipes e).activated = true
      · by_contra hne
        have hpos : 0 < (h1.pipes e).flow := by omega
        exact ho ((post.closed _ d1 hd).2 e d2 ha hpos)
      · exact b3 (by simpa using ha)
    simp [ho, hd, hz]
  · simp [ho, hd]

theorem no_augmentingPath {h h1 : Heap} {V : List Nat} {s t : Nat} (w : WF h1 V)
    (hs : s ∈ V) (post : EKPost h V s t h1) : ¬ AugmentingPath h1 s t := by
  intro hp
  have key : ∀ u, Relation.ReflTransGen (ResidualStep h1) s u →
      u ∈ V ∧ (h1.locs u).visited = true := by
    intro u hu
    induction hu with
    | refl => exact ⟨hs, post.src⟩
    | tail _ hstep ih =>
      obtain ⟨hb, hvis⟩ := ih
      rcases hstep with ⟨e, he, hd, ha, hr⟩ | ⟨e, he, ho, hr⟩
      · refine ⟨hd ▸ (w.adj_ok _ hb e he).2.1, ?_⟩
        rw [← hd]; exact (post.closed _ hb hvis).1 e he ha hr
      · refine ⟨ho ▸ (w.inc_ok _ hb e he).2.1, ?_⟩
        rw [← ho]
        cases ha : (h1.pipes e).activated
        · have := post.inv.disabled e (w.incoming_mem hb he) ha
          omega
        · exact (post.closed _ hb hvis).2 e he ha hr
  have := (key t hp).2
  rw [post.snk] at this; exact Bool.noConfusion this

end Project1

namespace Project1

/-! ## More fuel does not change a result -/

theorem bfsLoop_succ (t : Nat) :
    ∀ (fuel : Nat) (st : Heap × List Nat) (h : Heap),
      bfsLoop fuel t st = some h → bfsLoop (fuel + 1) t st = some h := by
  intro fuel
  induction fuel with
  | zero => intro st h he; simp [bfsLoop] at he
  | succ fuel ih =>
    rintro ⟨h0, q⟩ h he
    cases q with
    | nil => rw [bfsLoop_nil] at he ⊢; exact he
    | cons v q1 =>
      rw [bfsLoop_cons] at he ⊢
      by_cases hv : (h0.locs t).visited = true
      · rw [if_pos hv] at he ⊢; exact he
      · rw [if_neg hv] at he ⊢; exact ih _ _ he

theorem findAugmentingPath_succ (fuel : Nat) (g : Graph) (h : Heap) (s t : Nat)
    (r : Bool × Heap) (he : findAugmentingPath fuel g h s t = some r) :
    findAugmentingPath (fuel + 1) g h s t = some r := by
  unfold findAugmentingPath at he ⊢
  simp only at he ⊢
  cases hb : bfsLoop fuel t
      (setVisited (g.vertexSet.foldl (fun h v => setVisited h v false) h) s true, [s]) with
  | none => rw [hb] at he; simp at he
  | some h3 =>
    rw [hb] at he
    rw [bfsLoop_succ t fuel _ h3 hb]
    exact he

theorem minResidualWalk_succ (h : Heap) (s : Nat) :
    ∀ (fuel v : Nat) (f r : Int),
      minResidualWalk fuel h s v f = some r → minResidualWalk (fuel + 1) h s v f = some r := by
  intro fuel
  induction fuel with
  | zero => intro v f r he; simp [minResidualWalk] at he
  | succ fuel ih =>
    intro v f r he
    rw [minResidualWalk] at he ⊢
    by_cases hv : v = s
    · rw [if_pos hv] at he ⊢; exact he
    · rw [if_neg hv] at he ⊢
      cases hp : (h.locs v).path with
      | none => rw [hp] at he; simp at he
      | some e =>
        rw [hp] at he
        simp only at he ⊢
        by_cases hd : (h.pipes e).dest = v
        · rw [if_pos hd] at he ⊢; exact ih _ _ _ he
        · rw [if_neg hd] at he ⊢; exact ih _ _ _ he

theorem augmentWalk_succ (s : Nat) (f : Int) :
    ∀ (fuel : Nat) (h : Heap) (v : Nat) (r : Heap),
      augmentWalk fuel h s v f = some r → augmentWalk (fuel + 1) h s v f = some r := by
  intro fuel
  induction fuel with
  | zero => intro h v r he; simp [augmentWalk] at he
  | succ fuel ih =>
    intro h v r he
    rw [augmentWalk] at he ⊢
    by_cases hv : v = s
    · rw [if_pos hv] at he ⊢; exact he
    · rw [if_neg hv] at he ⊢
      cases hp : (h.locs v).path with
      | none => rw [hp] at he; simp at he
      | some e =>
        rw [hp] at he
        simp only at he ⊢
        by_cases hd : (h.pipes e).dest = v
        · rw [if_pos hd] at he ⊢; exact ih _ _ _ he
        · rw [if_neg hd] at he ⊢; exact ih _ _ _ he

theorem augmentLoop_succ (g : Graph) (s t : Nat) (fuel : Nat) :
    ∀ (n : Nat) (h r : Heap),
      augmentLoop n fuel g s t h = some r → augmentLoop (n + 1) (fuel + 1) g s t h = some r := by
  intro n
  induction n with
  | zero => intro h r he; simp [augmentLoop] at he
  | succ n ih =>
    intro h r he
    rw [augmentLoop] at he ⊢
    cases hf : findAugmentingPath fuel g h s t with
    | none => rw [hf] at he; simp at he
    | some x =>
      obtain ⟨b, h1⟩ := x
      rw [hf] at he
      rw [findAugmentingPath_succ fuel g h s t _ hf]
      cases b with
      | false => exact he
      | true =>
        simp only at he ⊢
        cases hm : findMinResidualAlongPath fuel h1 s t with
        | none => rw [hm] at he; simp at he
        | some f =>
          rw [hm] at he
          have hm1 : findMinResidualAlongPath (fuel + 1) h1 s t = some f :=
            minResidualWalk_succ h1 s fuel t INF f hm
          rw [hm1]
          simp only at he ⊢
          cases ha : augmentFlowAlongPath fuel h1 s t f with
          | none => rw [ha] at he; simp at he
          | some h2 =>
            rw [ha] at he
            have ha1 : augmentFlowAlongPath (fuel + 1) h1 s t f = some h2 :=
              augmentWalk_succ s f fuel h1 t h2 ha
            rw [ha1]
            simp only at he ⊢
            exact ih _ _ he

theorem edmondsKarp_succ (fuel : Nat) (g : Graph) (h : Heap) (source target : String)
    (r : Result Unit) (he : edmondsKarp fuel g h source target = r) (hr : r ≠ Result.stuck) :
    edmondsKarp (fuel + 1) g h source target = r := by
  unfold edmondsKarp at he ⊢
  cases hs : findVertex g h source with
  | none => rw [hs] at he; exact he
  | some s =>
    cases ht : findVertex g h target with
    | none => rw [hs, ht] at he; exact he
    | some t =>
      rw [hs, ht] at he
      simp only at he ⊢
      by_cases hst : s = t
      · rw [if_pos hst] at he ⊢; exact he
      · rw [if_neg hst] at he ⊢
        cases hl : augmentLoop fuel fuel g s t (resetFlows g h) with
        | none => rw [hl] at he; exact absurd he.symm hr
        | some h1 =>
          rw [hl] at he
          rw [augmentLoop_succ g s t fuel fuel _ h1 hl]
          exact he

theorem edmondsKarp_mono {fuel fuel1 : Nat} (hle : fuel ≤ fuel1) (g : Graph) (h : Heap)
    (source target : String) (r : Result Unit)
    (he : edmondsKarp fuel g h source target = r) (hr : r ≠ Result.stuck) :
    edmondsKarp fuel1 g h source target = r := by
  induction hle with
  | refl => exact he
  | step _ ih => exact edmondsKarp_succ _ g h source target r ih hr

end Project1

namespace Project1

/-! ## More fuel does not change the answer of a query -/

theorem Result.bind_mono {α β : Type} {A A1 : Result α} {B B1 : α → Heap → Result β}
    (hA : A ≠ Result.stuck → A1 = A)
    (hB : ∀ a h, B a h ≠ Result.stuck → B1 a h = B a h)
    (hr : A.bind B ≠ Result.stuck) : A1.bind B1 = A.bind B := by
  cases A with
  | ok a h =>
    rw [hA (by simp)]
    exact hB a h hr
  | invalidArgument h =>
    rw [hA (by simp)]
    rfl
  | stuck => exact absurd rfl hr

theorem getCitiesFlow_mono {fuel fuel1 : Nat} (hle : fuel ≤ fuel1) (this : Graph) (h : Heap)
    (allCities : Bool) (oneCity removeR : String)
    (hr : getCitiesFlow fuel this h allCities oneCity removeR ≠ Result.stuck) :
    getCitiesFlow fuel1 this h allCities oneCity removeR
      = getCitiesFlow fuel this h allCities oneCity removeR := by
  unfold getCitiesFlow at hr ⊢
  exact Result.bind_mono (fun hs => edmondsKarp_mono hle _ _ _ _ _ rfl hs)
    (fun _ _ _ => rfl) hr

theorem reservoirFlows_mono {fuel fuel1 : Nat} (hle : fuel ≤ fuel1) (this : Graph) (h : Heap)
    (code : String) (hr : reservoirFlows fuel this h code ≠ Result.stuck) :
    reservoirFlows fuel1 this h code = reservoirFlows fuel this h code := by
  unfold reservoirFlows at hr ⊢
  exact Result.bind_mono (getCitiesFlow_mono hle _ _ _ _ _)
    (fun _ _ hr1 => Result.bind_mono (getCitiesFlow_mono hle _ _ _ _ _) (fun _ _ _ => rfl) hr1) hr

theorem removeReservoirCompare_mono {fuel fuel1 : Nat} (hle : fuel ≤ fuel1) (this : Graph)
    (h : Heap) (code : String) (hr : removeReservoirCompare fuel this h code ≠ Result.stuck) :
    removeReservoirCompare fuel1 this h code = removeReservoirCompare fuel this h code := by
  unfold removeReservoirCompare at hr ⊢
  exact Result.bind_mono (reservoirFlows_mono hle _ _ _) (fun _ _ _ => rfl) hr

theorem stationFlows_mono {fuel fuel1 : Nat} (hle : fuel ≤ fuel1) (this : Graph) (h : Heap)
    (code : String) (hr : stationFlows fuel this h code ≠ Result.stuck) :
    stationFlows fuel1 this h code = stationFlows fuel this h code := by
  unfold stationFlows at hr ⊢
  exact Result.bind_mono (getCitiesFlow_mono hle _ _ _ _ _)
    (fun _ _ hr1 => Result.bind_mono (fun _ => rfl)
      (fun _ _ hr2 => Result.bind_mono (getCitiesFlow_mono hle _ _ _ _ _)
        (fun _ _ _ => rfl) hr2) hr1) hr

theorem removeStationCompare_mono {fuel fuel1 : Nat} (hle : fuel ≤ fuel1) (this : Graph)
    (h : Heap) (code : String) (hr : removeStationCompare fuel this h code ≠ Result.stuck) :
    removeStationCompare fuel1 this h code = removeStationCompare fuel this h code := by
  unfold removeStationCompare at hr ⊢
  exact Result.bind_mono (stationFlows_mono hle _ _ _) (fun _ _ _ => rfl) hr

theorem pipeFlows_mono {fuel fuel1 : Nat} (hle : fuel ≤ fuel1) (this : Graph) (h : Heap)
    (pipelines : List (String × String)) (hr : pipeFlows fuel this h pipelines ≠ Result.stuck) :
    pipeFlows fuel1 this h pipelines = pipeFlows fuel this h pipelines := by
  unfold pipeFlows at hr ⊢
  exact Result.bind_mono (getCitiesFlow_mono hle _ _ _ _ _)
    (fun _ _ hr1 => Result.bind_mono (fun _ => rfl)
      (fun _ _ hr2 => Result.bind_mono (getCitiesFlow_mono hle _ _ _ _ _)
        (fun _ _ _ => rfl) hr2) hr1) hr

theorem removeMultiplePipesCompare_mono {fuel fuel1 : Nat} (hle : fuel ≤ fuel1) (this : Graph)
    (h : Heap) (pipelines : List (String × String))
    (hr : removeMultiplePipesCompare fuel this h pipelines ≠ Result.stuck) :
    removeMultiplePipesCompare fuel1 this h pipelines
      = removeMultiplePipesCompare fuel this h pipelines := by
  unfold removeMultiplePipesCompare at hr ⊢
  exact Result.bind_mono (pipeFlows_mono hle _ _ _) (fun _ _ _ => rfl) hr

theorem removePipeCompare_mono {fuel fuel1 : Nat} (hle : fuel ≤ fuel1) (this : Graph)
    (h : Heap) (sourceCode destCode : String)
    (hr : removePipeCompare fuel this h sourceCode destCode ≠ Result.stuck) :
    removePipeCompare fuel1 this h sourceCode destCode
      = removePipeCompare fuel this h sourceCode destCode := by
  unfold removePipeCompare at hr ⊢
  exact Result.bind_mono (pipeFlows_mono hle _ _ _) (fun _ _ _ => rfl) hr

theorem Result.value_ne_stuck {α : Type} {r : Result α} {a : α} (h : r.value = some a) :
    r ≠ Result.stuck := by
  intro hs; rw [hs] at h; simp [Result.value] at h

end Project1

namespace Project1

/-! ## What the solver leaves alone (no assumption on the heap) -/

theorem SolverFrame.sf_refl (h : Heap) : SolverFrame h h :=
  ⟨rfl, rfl, fun _ => ⟨rfl, rfl, rfl, rfl, rfl, rfl, rfl⟩, fun _ => ⟨rfl, rfl, rfl, rfl, rfl⟩⟩

theorem SolverFrame.sf_trans {h1 h2 h3 : Heap} (a : SolverFrame h1 h2) (b : SolverFrame h2 h3) :
    SolverFrame h1 h3 := by
  refine ⟨b.nextLoc.trans a.nextLoc, b.nextPipe.trans a.nextPipe, fun v => ?_, fun e => ?_⟩
  · obtain ⟨a1, a2, a3, a4, a5, a6, a7⟩ := a.locs v
    obtain ⟨b1, b2, b3, b4, b5, b6, b7⟩ := b.locs v
    exact ⟨b1.trans a1, b2.trans a2, b3.trans a3, b4.trans a4, b5.trans a5, b6.trans a6,
      b7.trans a7⟩
  · obtain ⟨a1, a2, a3, a4, a5⟩ := a.pipes e
    obtain ⟨b1, b2, b3, b4, b5⟩ := b.pipes e
    exact ⟨b1.trans a1, b2.trans a2, b3.trans a3, b4.trans a4, b5.trans a5⟩

theorem SolverFrame.sameNet {h h1 : Heap} (a : SolverFrame h h1) : SameNet h h1 :=
  ⟨fun v => (a.locs v).2.2.1, fun v => (a.locs v).2.2.2.1, fun e => (a.pipes e).1,
   fun e => (a.pipes e).2.1, fun e => (a.pipes e).2.2.1, fun e => (a.pipes e).2.2.2.2,
   fun e => (a.pipes e).2.2.2.1⟩

theorem SolverFrame.sf_setVisited (h : Heap) (v : Nat) (b : Bool) :
    SolverFrame h (setVisited h v b) := by
  refine ⟨rfl, rfl, fun w => ?_, fun _ => ⟨rfl, rfl, rfl, rfl, rfl⟩⟩
  rw [setVisited_locs]
  split
  · rename_i hw; subst hw; exact ⟨rfl, rfl, rfl, rfl, rfl, rfl, rfl⟩
  · exact ⟨rfl, rfl, rfl, rfl, rfl, rfl, rfl⟩

theorem SolverFrame.sf_setPath (h : Heap) (v : Nat) (p : Option Nat) :
    SolverFrame h (setPath h v p) := by
  refine ⟨rfl, rfl, fun w => ?_, fun _ => ⟨rfl, rfl, rfl, rfl, rfl⟩⟩
  rw [setPath_locs]
  split
  · rename_i hw; subst hw; exact ⟨rfl, rfl, rfl, rfl, rfl, rfl, rfl⟩
  · exact ⟨rfl, rfl, rfl, rfl, rfl, rfl, rfl⟩

theorem SolverFrame.sf_setFlow (h : Heap) (e : Nat) (f : Int) :
    SolverFrame h (setFlow h e f) :=
  ⟨rfl, rfl, fun _ => ⟨rfl, rfl, rfl, rfl, rfl, rfl, rfl⟩,
   fun _ => ⟨by simp, by simp, by simp, by simp, by simp⟩⟩

theorem testAndVisit_frame (st : Heap × List Nat) (e w : Nat) (r : Int) :
    SolverFrame st.1 (testAndVisit st e w r).1 := by
  unfold testAndVisit
  split
  · exact (SolverFrame.sf_setVisited _ _ _).sf_trans (SolverFrame.sf_setPath _ _ _)
  · exact SolverFrame.sf_refl _

theorem processOutgoing_frame : ∀ (es : List Nat) (st : Heap × List Nat),
    SolverFrame st.1 (processOutgoing st es).1 := by
  intro es
  induction es with
  | nil => intro st; exact SolverFrame.sf_refl _
  | cons e es ih =>
    intro st
    rw [processOutgoing_cons]
    exact (testAndVisit_frame st e _ _).sf_trans (ih _)

theorem processIncoming_frame : ∀ (es : List Nat) (st : Heap × List Nat),
    SolverFrame st.1 (processIncoming st es).1 := by
  intro es
  induction es with
  | nil => intro st; exact SolverFrame.sf_refl _
  | cons e es ih =>
    intro st
    rw [processIncoming_cons]
    exact (testAndVisit_frame st e _ _).sf_trans (ih _)

theorem bfsLoop_frame (t : Nat) : ∀ (fuel : Nat) (st : Heap × List Nat) (h : Heap),
    bfsLoop fuel t st = some h → SolverFrame st.1 h := by
  intro fuel
  induction fuel with
  | zero => intro st h he; simp [bfsLoop] at he
  | succ fuel ih =>
    rintro ⟨h0, q⟩ h he
    cases q with
    | nil =>
      rw [bfsLoop_nil] at he
      cases he; exact SolverFrame.sf_refl _
    | cons v q1 =>
      rw [bfsLoop_cons] at he
      by_cases hv : (h0.locs t).visited = true
      · rw [if_pos hv] at he
        cases he; exact SolverFrame.sf_refl _
      · rw [if_neg hv] at he
        exact ((processOutgoing_frame _ (h0, q1)).sf_trans (processIncoming_frame _ _)).sf_trans
          (ih _ _ he)

theorem resetVisited_frame : ∀ (V : List Nat) (h : Heap),
    SolverFrame h (V.foldl (fun h v => setVisited h v false) h) := by
  intro V
  induction V with
  | nil => intro h; exact SolverFrame.sf_refl _
  | cons a V ih =>
    intro h
    exact (SolverFrame.sf_setVisited h a false).sf_trans (ih _)

theorem findAugmentingPath_frame (fuel : Nat) (g : Graph) (h : Heap) (s t : Nat)
    (r : Bool × Heap) (he : findAugmentingPath fuel g h s t = some r) : SolverFrame h r.2 := by
  unfold findAugmentingPath at he
  simp only at he
  cases hb : bfsLoop fuel t
      (setVisited (g.vertexSet.foldl (fun h v => setVisited h v false) h) s true, [s]) with
  | none => rw [hb] at he; simp at he
  | some h3 =>
    rw [hb] at he
    simp only [Option.some.injEq] at he
    rw [← he]
    exact ((resetVisited_frame _ h).sf_trans (SolverFrame.sf_setVisited _ _ _)).sf_trans
      (bfsLoop_frame t fuel _ h3 hb)

theorem applyPush_frame (f : Int) : ∀ (l : List (Nat × Bool)) (h : Heap),
    SolverFrame h (applyPush f l h) := by
  intro l
  induction l with
  | nil => intro h; exact SolverFrame.sf_refl h
  | cons p l ih =>
    intro h
    simp only [applyPush, List.foldl_cons] at ih ⊢
    exact (SolverFrame.sf_setFlow h _ _).sf_trans (ih _)

theorem augmentFlowAlongPath_frame (fuel : Nat) (h : Heap) (s t : Nat) (f : Int) (r : Heap)
    (he : augmentFlowAlongPath fuel h s t f = some r) : SolverFrame h r := by
  unfold augmentFlowAlongPath at he
  rw [augmentWalk_eq] at he
  cases hw : walkEdges fuel h s t with
  | none => rw [hw] at he; simp at he
  | some l =>
    rw [hw] at he
    simp only [Option.map_some', Option.some.injEq] at he
    rw [← he]
    exact applyPush_frame f l h

theorem augmentLoop_frame (g : Graph) (s t fuel : Nat) : ∀ (n : Nat) (h r : Heap),
    augmentLoop n fuel g s t h = some r → SolverFrame h r := by
  intro n
  induction n with
  | zero => intro h r he; simp [augmentLoop] at he
  | succ n ih =>
    intro h r he
    rw [augmentLoop] at he
    cases hf : findAugmentingPath fuel g h s t with
    | none => rw [hf] at he; simp at he
    | some x =>
      obtain ⟨b, h1⟩ := x
      rw [hf] at he
      have f1 := findAugmentingPath_frame fuel g h s t _ hf
      cases b with
      | false =>
        simp only [Option.some.injEq] at he
        rw [← he]; exact f1
      | true =>
        simp only at he
        cases hm : findMinResidualAlongPath fuel h1 s t with
        | none => rw [hm] at he; simp at he
        | some f =>
          rw [hm] at he
          simp only at he
          cases ha : augmentFlowAlongPath fuel h1 s t f with
          | none => rw [ha] at he; simp at he
          | some h2 =>
            rw [ha] at he
            simp only at he
            exact (f1.sf_trans (augmentFlowAlongPath_frame fuel h1 s t f h2 ha)).sf_trans (ih _ _ he)

theorem resetFlows_frame (g : Graph) (h : Heap) : SolverFrame h (resetFlows g h) := by
  have key : ∀ (es : List Nat) (h : Heap),
      SolverFrame h (es.foldl (fun h e => setFlow h e 0) h) := by
    intro es
    induction es with
    | nil => intro h; exact SolverFrame.sf_refl h
    | cons a es ih => intro h; exact (SolverFrame.sf_setFlow h a 0).sf_trans (ih _)
  have key2 : ∀ (V : List Nat) (h : Heap),
      SolverFrame h (V.foldl (fun h v => (h.locs v).adj.foldl (fun h e => setFlow h e 0) h) h) := by
    intro V
    induction V with
    | nil => intro h; exact SolverFrame.sf_refl h
    | cons a V ih => intro h; exact (key _ h).sf_trans (ih _)
  exact key2 g.vertexSet h

theorem edmondsKarp_frame (fuel : Nat) (g : Graph) (h : Heap) (source target : String)
    (h1 : Heap) (he : (edmondsKarp fuel g h source target).heap = some h1) :
    SolverFrame h h1 := by
  unfold edmondsKarp at he
  cases hs : findVertex g h source with
  | none =>
    rw [hs] at he
    simp only [Result.heap, Option.some.injEq] at he
    rw [← he]; exact SolverFrame.sf_refl h
  | some s =>
    cases ht : findVertex g h target with
    | none =>
      rw [hs, ht] at he
      simp only [Result.heap, Option.some.injEq] at he
      rw [← he]; exact SolverFrame.sf_refl h
    | some t =>
      rw [hs, ht] at he
      simp only at he
      by_cases hst : s = t
      · rw [if_pos hst] at he
        simp only [Result.heap, Option.some.injEq] at he
        rw [← he]; exact SolverFrame.sf_refl h
      · rw [if_neg hst] at he
        cases hl : augmentLoop fuel fuel g s t (resetFlows g h) with
        | none => rw [hl] at he; simp [Result.heap] at he
        | some h2 =>
          rw [hl] at he
          simp only [Result.heap, Option.some.injEq] at he
          rw [← he]
          exact (resetFlows_frame g h).sf_trans (augmentLoop_frame g s t fuel fuel _ h2 hl)

end Project1

namespace Project1

/-! ## What `getCitiesFlow` leaves alone -/

theorem QueryFrame.qf_refl (h : Heap) : QueryFrame h h :=
  ⟨le_refl _, le_refl _, fun _ _ => ⟨rfl, rfl, rfl, rfl, rfl⟩, fun _ _ _ he => he⟩

theorem QueryFrame.qf_trans {h1 h2 h3 : Heap} (a : QueryFrame h1 h2) (b : QueryFrame h2 h3) :
    QueryFrame h1 h3 := by
  refine ⟨le_trans a.nextLoc b.nextLoc, le_trans a.nextPipe b.nextPipe, fun e he => ?_,
    fun v hv e he => ?_⟩
  · obtain ⟨a1, a2, a3, a4, a5⟩ := a.pipes e he
    obtain ⟨b1, b2, b3, b4, b5⟩ := b.pipes e (lt_of_lt_of_le he a.nextPipe)
    exact ⟨b1.trans a1, b2.trans a2, b3.trans a3, b4.trans a4, b5.trans a5⟩
  · exact b.incoming v (lt_of_lt_of_le hv a.nextLoc) e (a.incoming v hv e he)

theorem SolverFrame.queryFrame {h h1 : Heap} (a : SolverFrame h h1) : QueryFrame h h1 :=
  ⟨le_of_eq a.nextLoc.symm, le_of_eq a.nextPipe.symm, fun e _ => a.pipes e,
   fun v _ e he => by rw [(a.locs v).2.2.2.1]; exact he⟩

theorem newLocation_frame (h : Heap) (id : Int) (code : String) (k : Kind) :
    QueryFrame h (newLocation h id code k).2 := by
  refine ⟨Nat.le_succ _, le_refl _, fun _ _ => ⟨rfl, rfl, rfl, rfl, rfl⟩, fun v hv e he => ?_⟩
  have hne : v ≠ h.nextLoc := Nat.ne_of_lt hv
  simp only [newLocation, Function.update_noteq hne]
  exact he

theorem Heap.setLoc_locs (h : Heap) (v w : Nat) (l : Location) :
    (h.setLoc v l).locs w = if w = v then l else h.locs w := by
  unfold Heap.setLoc
  by_cases hw : w = v
  · subst hw; simp
  · simp [Function.update, hw]

theorem Location.addEdge_pipes (h : Heap) (this d : Nat) (w : Int) (e : Nat) :
    (Location.addEdge h this d w).2.pipes e =
      if e = h.nextPipe then
        { dest := d, weight := w, orig := this, reverse := none, flow := 0, activated := true }
      else h.pipes e := by
  simp only [Location.addEdge, Heap.setLoc, Function.update]
  split <;> simp_all

theorem Location.addEdge_next (h : Heap) (this d : Nat) (w : Int) :
    (Location.addEdge h this d w).2.nextPipe = h.nextPipe + 1 ∧
    (Location.addEdge h this d w).2.nextLoc = h.nextLoc ∧
    (Location.addEdge h this d w).1 = h.nextPipe := ⟨rfl, rfl, rfl⟩

theorem Location.addEdge_incoming (h : Heap) (this d : Nat) (w : Int) (v : Nat) :
    ((Location.addEdge h this d w).2.locs v).incoming =
      if v = d then (h.locs v).incoming ++ [h.nextPipe] else (h.locs v).incoming := by
  simp only [Location.addEdge, Heap.setLoc_locs]
  by_cases hvd : v = d
  · subst hvd
    simp only [if_true]
    split <;> simp_all
  · simp only [hvd, if_false]
    split <;> simp_all

theorem Location.addEdge_qframe (h : Heap) (this d : Nat) (w : Int) :
    QueryFrame h (Location.addEdge h this d w).2 := by
  refine ⟨le_refl _, Nat.le_succ _, fun e he => ?_, fun v _ e he => ?_⟩
  · rw [Location.addEdge_pipes, if_neg (Nat.ne_of_lt he)]
    exact ⟨rfl, rfl, rfl, rfl, rfl⟩
  · rw [Location.addEdge_incoming]
    split
    · exact List.mem_append_left _ he
    · exact he

theorem addEdge_frame (g : Graph) (h : Heap) (source dest : String) (w : Int) :
    QueryFrame h (addEdge g h source dest w).2.2 := by
  unfold addEdge
  cases findVertex g h source with
  | none => exact QueryFrame.qf_refl h
  | some v1 =>
    cases findVertex g h dest with
    | none => exact QueryFrame.qf_refl h
    | some v2 => exact Location.addEdge_qframe h v1 v2 w

theorem addVertexReservoir_frame (g : Graph) (h : Heap) (name municipality : String) (id : Int)
    (code : String) (m : Int) :
    QueryFrame h (addVertexReservoir g h name municipality id code m).2.2 := by
  unfold addVertexReservoir
  split
  · exact QueryFrame.qf_refl h
  · exact newLocation_frame _ _ _ _

theorem addVertexCity_frame (g : Graph) (h : Heap) (name : String) (id : Int)
    (code : String) (d p : Int) :
    QueryFrame h (addVertexCity g h name id code d p).2.2 := by
  unfold addVertexCity
  split
  · exact QueryFrame.qf_refl h
  · exact newLocation_frame _ _ _ _

theorem addR0Edges_frame (toRemove : String) : ∀ (ps : List (String × Nat)) (g : Graph)
    (h : Heap), QueryFrame h (addR0Edges toRemove g h ps).2 := by
  intro ps
  induction ps with
  | nil => intro g h; exact QueryFrame.qf_refl h
  | cons p ps ih =>
    intro g h
    rw [addR0Edges]
    split
    · exact (addEdge_frame g h _ _ _).qf_trans (ih _ _)
    · split
      · exact (addEdge_frame g h _ _ _).qf_trans (ih _ _)
      · exact ih _ _

theorem addC0Edges_frame : ∀ (ps : List (String × Nat)) (g : Graph)
    (h : Heap), QueryFrame h (addC0Edges g h ps).2 := by
  intro ps
  induction ps with
  | nil => intro g h; exact QueryFrame.qf_refl h
  | cons p ps ih =>
    intro g h
    rw [addC0Edges]
    split
    · exact (addEdge_frame g h _ _ _).qf_trans (ih _ _)
    · exact ih _ _

theorem addR0C0_frame (g : Graph) (h : Heap) (toRemove : String) :
    QueryFrame h (addR0C0 g h toRemove).2 := by
  unfold addR0C0
  simp only
  have f1 := addVertexReservoir_frame g h "" "" 0 "R_0" 0
  split
  · have f2 := addVertexCity_frame (addVertexReservoir g h "" "" 0 "R_0" 0).2.1
      (addVertexReservoir g h "" "" 0 "R_0" 0).2.2 "" 0 "C_0" 0 0
    split
    · exact (f1.qf_trans f2).qf_trans ((addR0Edges_frame _ _ _ _).qf_trans (addC0Edges_frame _ _ _))
    · exact f1.qf_trans f2
  · exact f1

theorem setTotalFlow_frame (h : Heap) (v : Nat) (f : Int) :
    QueryFrame h (setTotalFlow h v f) := by
  unfold setTotalFlow
  split
  · refine ⟨le_refl _, le_refl _, fun _ _ => ⟨rfl, rfl, rfl, rfl, rfl⟩, fun w _ e he => ?_⟩
    rw [Heap.setLoc_locs]
    split
    · rename_i hw; subst hw; exact he
    · exact he
  · exact QueryFrame.qf_refl h

theorem collectCities_frame (g : Graph) : ∀ (ps : List (String × Nat)) (h : Heap)
    (acc : List CityInfo), QueryFrame h (collectCities g h ps acc).2 := by
  intro ps
  induction ps with
  | nil => intro h acc; exact QueryFrame.qf_refl h
  | cons p ps ih =>
    intro h acc
    rw [collectCities]
    split
    · exact (setTotalFlow_frame h _ _).qf_trans (ih _ _)
    · exact ih _ _

theorem Result.bind_eq_ok {α β : Type} {A : Result α} {B : α → Heap → Result β} {b : β}
    {h2 : Heap} (he : A.bind B = Result.ok b h2) :
    ∃ a h1, A = Result.ok a h1 ∧ B a h1 = Result.ok b h2 := by
  cases A with
  | ok a h1 => exact ⟨a, h1, rfl, he⟩
  | invalidArgument h1 => simp [Result.bind] at he
  | stuck => simp [Result.bind] at he

theorem Result.eq_ok_of_value {α : Type} {r : Result α} {a : α} (d : Heap)
    (hv : r.value = some a) : r = Result.ok a (r.heap.getD d) := by
  cases r with
  | ok b h =>
    simp only [Result.value, Option.some.injEq] at hv
    rw [hv]; rfl
  | invalidArgument h => simp [Result.value] at hv
  | stuck => simp [Result.value] at hv

theorem Result.heap_of_ok {α : Type} {A : Result α} {a : α} {h : Heap}
    (he : A = Result.ok a h) : A.heap = some h := by
  rw [he]; rfl

theorem getCitiesFlow_frame {fuel : Nat} {this : Graph} {h : Heap} {allCities : Bool}
    {oneCity removeR : String} {l : List CityInfo} {h1 : Heap}
    (he : getCitiesFlow fuel this h allCities oneCity removeR = Result.ok l h1) :
    QueryFrame h h1 := by
  unfold getCitiesFlow at he
  simp only at he
  obtain ⟨u, h2, e1, e2⟩ := Result.bind_eq_ok he
  have f1 := addR0C0_frame this h removeR
  have f2 := (edmondsKarp_frame fuel _ _ _ _ h2 (Result.heap_of_ok e1)).queryFrame
  by_cases ha : allCities = true
  · rw [if_pos ha] at e2
    simp only [Result.ok.injEq] at e2
    rw [← e2.2]
    exact (f1.qf_trans f2).qf_trans (collectCities_frame _ _ _ _)
  · rw [if_neg ha] at e2
    cases hm : mapFind (addR0C0 this h removeR).1.mapCities oneCity with
    | none => rw [hm] at e2; simp at e2
    | some city =>
      rw [hm] at e2
      simp only [Result.ok.injEq] at e2
      rw [← e2.2]
      exact (f1.qf_trans f2).qf_trans (setTotalFlow_frame _ _ _)

end Project1

namespace Project1

/-! ## Deactivation and re-activation -/

theorem setActivated_pipes (h : Heap) (e x : Nat) (b : Bool) :
    (setActivated h e b).pipes x = if x = e then { h.pipes e with activated := b } else h.pipes x := by
  unfold setActivated Heap.setPipe
  by_cases hx : x = e
  · subst hx; simp
  · simp [Function.update, hx]

theorem setActivatedAll_spec (b : Bool) : ∀ (l : List Nat) (h : Heap),
    (l.foldl (fun h e => setActivated h e b) h).locs = h.locs ∧
    (l.foldl (fun h e => setActivated h e b) h).nextLoc = h.nextLoc ∧
    (l.foldl (fun h e => setActivated h e b) h).nextPipe = h.nextPipe ∧
    ∀ e, ((l.foldl (fun h e => setActivated h e b) h).pipes e).orig = (h.pipes e).orig ∧
      ((l.foldl (fun h e => setActivated h e b) h).pipes e).dest = (h.pipes e).dest ∧
      ((l.foldl (fun h e => setActivated h e b) h).pipes e).weight = (h.pipes e).weight ∧
      ((l.foldl (fun h e => setActivated h e b) h).pipes e).reverse = (h.pipes e).reverse ∧
      ((l.foldl (fun h e => setActivated h e b) h).pipes e).flow = (h.pipes e).flow ∧
      ((l.foldl (fun h e => setActivated h e b) h).pipes e).activated
        = if e ∈ l then b else (h.pipes e).activated := by
  intro l
  induction l with
  | nil => intro h; exact ⟨rfl, rfl, rfl, fun e => ⟨rfl, rfl, rfl, rfl, rfl, by simp⟩⟩
  | cons a l ih =>
    intro h
    obtain ⟨i1, i2, i3, i4⟩ := ih (setActivated h a b)
    simp only [List.foldl_cons]
    refine ⟨i1, i2, i3, fun e => ?_⟩
    obtain ⟨j1, j2, j3, j4, j5, j6⟩ := i4 e
    rw [j1, j2, j3, j4, j5, j6, setActivated_pipes]
    by_cases hea : e = a
    · subst hea
      simp
    · simp [hea]

theorem setPipelines_eq (this : Graph) (b : Bool) : ∀ (ps : List (String × String)) (h : Heap),
    setPipelines this b h ps =
      (pipelineTargets this ps).map (fun l => l.foldl (fun h e => setActivated h e b) h) := by
  intro ps
  induction ps with
  | nil => intro h; rfl
  | cons p ps ih =>
    intro h
    rw [setPipelines, pipelineTargets]
    cases h1 : mapFind this.mapPipes (p.1 ++ "|" ++ p.2) with
    | none => rfl
    | some e =>
      simp only
      cases h2 : mapFind this.mapPipes (p.2 ++ "|" ++ p.1) with
      | none =>
        simp only [ih, Option.map_map]
        rfl
      | some r =>
        simp only [ih, Option.map_map]
        rfl

/-! ## What the impact queries leave alone -/

theorem ImpactFrame.if_refl (h : Heap) : ImpactFrame h h :=
  ⟨le_refl _, le_refl _, fun _ _ => ⟨rfl, rfl, rfl, rfl⟩, fun _ _ he => he⟩

theorem ImpactFrame.if_trans {h1 h2 h3 : Heap} (a : ImpactFrame h1 h2) (b : ImpactFrame h2 h3) :
    ImpactFrame h1 h3 := by
  refine ⟨le_trans a.nextLoc b.nextLoc, le_trans a.nextPipe b.nextPipe, fun e he => ?_,
    fun e he ha => ?_⟩
  · obtain ⟨a1, a2, a3, a4⟩ := a.pipes e he
    obtain ⟨b1, b2, b3, b4⟩ := b.pipes e (lt_of_lt_of_le he a.nextPipe)
    exact ⟨b1.trans a1, b2.trans a2, b3.trans a3, b4.trans a4⟩
  · exact b.enabled e (lt_of_lt_of_le he a.nextPipe) (a.enabled e he ha)

theorem QueryFrame.impactFrame {h h1 : Heap} (a : QueryFrame h h1) : ImpactFrame h h1 :=
  ⟨a.nextLoc, a.nextPipe,
   fun e he => ⟨(a.pipes e he).1, (a.pipes e he).2.1, (a.pipes e he).2.2.1,
     (a.pipes e he).2.2.2.1⟩,
   fun e he ha => by rw [(a.pipes e he).2.2.2.2]; exact ha⟩

/-- Solve, switch the pipes of `l1` off, solve again, switch the pipes of `l3`
on: when `l3` covers `l1` every pipe that was enabled is enabled again. -/
theorem perturb_frame {h h1 h3 : Heap} {l1 l3 : List Nat} (f1 : QueryFrame h h1)
    (f3 : QueryFrame (l1.foldl (fun h e => setActivated h e false) h1) h3)
    (hsub : ∀ e ∈ l1, e ∈ l3) :
    ImpactFrame h (l3.foldl (fun h e => setActivated h e true) h3) := by
  obtain ⟨a1, a2, a3, a4⟩ := setActivatedAll_spec false l1 h1
  obtain ⟨b1, b2, b3, b4⟩ := setActivatedAll_spec true l3 h3
  refine ⟨?_, ?_, fun e he => ?_, fun e he ha => ?_⟩
  · rw [b2]; exact le_trans f1.nextLoc (a2 ▸ f3.nextLoc)
  · rw [b3]; exact le_trans f1.nextPipe (a3 ▸ f3.nextPipe)
  · have he1 : e < h1.nextPipe := lt_of_lt_of_le he f1.nextPipe
    obtain ⟨p1, p2, p3, p4, _⟩ := f1.pipes e he
    obtain ⟨q1, q2, q3, q4, _⟩ := f3.pipes e (by rw [a3]; exact he1)
    obtain ⟨r1, r2, r3, r4, _, _⟩ := a4 e
    obtain ⟨s1, s2, s3, s4, _, _⟩ := b4 e
    exact ⟨s1.trans (q1.trans (r1.trans p1)), s2.trans (q2.trans (r2.trans p2)),
      s3.trans (q3.trans (r3.trans p3)), s4.trans (q4.trans (r4.trans p4))⟩
  · have he1 : e < h1.nextPipe := lt_of_lt_of_le he f1.nextPipe
    rw [(b4 e).2.2.2.2.2]
    by_cases hm : e ∈ l3
    · rw [if_pos hm]
    · rw [if_neg hm, (f3.pipes e (by rw [a3]; exact he1)).2.2.2.2, (a4 e).2.2.2.2.2,
        if_neg (fun h1m => hm (hsub e h1m)), (f1.pipes e he).2.2.2.2]
      exact ha

theorem compareResult_heap {og no res : List CityInfo} {h h1 : Heap}
    (he : compareResult og no h = Result.ok res h1) : h1 = h ∧ compareFlows og no = some res := by
  unfold compareResult at he
  cases hc : compareFlows og no with
  | none => rw [hc] at he; simp at he
  | some r =>
    rw [hc] at he
    simp only [Result.ok.injEq] at he
    exact ⟨he.2.symm, by rw [he.1]⟩

theorem removeReservoirCompare_frame {fuel : Nat} {this : Graph} {h : Heap} {code : String}
    {r : List CityInfo} {h1 : Heap}
    (he : removeReservoirCompare fuel this h code = Result.ok r h1) : ImpactFrame h h1 := by
  unfold removeReservoirCompare at he
  obtain ⟨p, h2, e1, e2⟩ := Result.bind_eq_ok he
  unfold reservoirFlows at e1
  obtain ⟨og, h3, e3, e4⟩ := Result.bind_eq_ok e1
  obtain ⟨no, h4, e5, e6⟩ := Result.bind_eq_ok e4
  simp only [Result.ok.injEq] at e6
  have hh := (compareResult_heap e2).1
  rw [hh, ← e6.2]
  exact ((getCitiesFlow_frame e3).qf_trans (getCitiesFlow_frame e5)).impactFrame

theorem pipes_frame {fuel : Nat} {this : Graph} {h : Heap} {pipelines : List (String × String)}
    {r : List CityInfo} {h1 : Heap}
    (he : ((pipeFlows fuel this h pipelines).bind fun p h3 =>
      (compareResult p.1 p.2 h3).bind fun res h4 =>
        (setPipelinesResult this true pipelines h4).bind fun _ h5 => Result.ok res h5)
      = Result.ok r h1) : ImpactFrame h h1 := by
  obtain ⟨p, h3, e1, e2⟩ := Result.bind_eq_ok he
  obtain ⟨res, h4, e3, e4⟩ := Result.bind_eq_ok e2
  obtain ⟨u, h5, e5, e6⟩ := Result.bind_eq_ok e4
  simp only [Result.ok.injEq] at e6
  unfold pipeFlows at e1
  obtain ⟨og, k1, c1, c2⟩ := Result.bind_eq_ok e1
  obtain ⟨u1, k2, c3, c4⟩ := Result.bind_eq_ok c2
  obtain ⟨no, k3, c5, c6⟩ := Result.bind_eq_ok c4
  simp only [Result.ok.injEq] at c6
  have hh := (compareResult_heap e3).1
  unfold setPipelinesResult at c3 e5
  rw [setPipelines_eq] at c3 e5
  cases ht : pipelineTargets this pipelines with
  | none => rw [ht] at c3; simp at c3
  | some l =>
    rw [ht] at c3 e5
    simp only [Option.map_some', Result.ok.injEq, true_and] at c3 e5
    rw [← e6.2, ← e5, hh, ← c6.2]
    rw [← c3] at c5
    exact perturb_frame (getCitiesFlow_frame c1) (getCitiesFlow_frame c5) (fun e he => he)

theorem removeMultiplePipesCompare_frame {fuel : Nat} {this : Graph} {h : Heap}
    {pipelines : List (String × String)} {r : List CityInfo} {h1 : Heap}
    (he : removeMultiplePipesCompare fuel this h pipelines = Result.ok r h1) :
    ImpactFrame h h1 :=
  pipes_frame he

theorem removePipeCompare_frame {fuel : Nat} {this : Graph} {h : Heap}
    {sourceCode destCode : String} {r : List CityInfo} {h1 : Heap}
    (he : removePipeCompare fuel this h sourceCode destCode = Result.ok r h1) :
    ImpactFrame h h1 :=
  pipes_frame he

theorem mapFind_mem {m : List (String × Nat)} {k : String} {v : Nat}
    (he : mapFind m k = some v) : ∃ p ∈ m, p.2 = v := by
  unfold mapFind at he
  cases hf : m.find? (fun p => p.1 == k) with
  | none => rw [hf] at he; simp at he
  | some p =>
    rw [hf] at he
    simp only [Option.map_some', Option.some.injEq] at he
    exact ⟨p, List.mem_of_find?_eq_some hf, he⟩

theorem removeStationCompare_frame {fuel : Nat} {this : Graph} {h : Heap} {code : String}
    {r : List CityInfo} {h1 : Heap} (hst : ∀ p ∈ this.mapStations, p.2 < h.nextLoc)
    (he : removeStationCompare fuel this h code = Result.ok r h1) : ImpactFrame h h1 := by
  unfold removeStationCompare at he
  obtain ⟨p, h3, e1, e2⟩ := Result.bind_eq_ok he
  obtain ⟨res, h4, e3, e4⟩ := Result.bind_eq_ok e2
  obtain ⟨u, h5, e5, e6⟩ := Result.bind_eq_ok e4
  simp only [Result.ok.injEq] at e6
  unfold stationFlows at e1
  obtain ⟨og, k1, c1, c2⟩ := Result.bind_eq_ok e1
  obtain ⟨u1, k2, c3, c4⟩ := Result.bind_eq_ok c2
  obtain ⟨no, k3, c5, c6⟩ := Result.bind_eq_ok c4
  simp only [Result.ok.injEq] at c6
  have hh := (compareResult_heap e3).1
  unfold setStation at c3 e5
  cases hm : mapFind this.mapStations code with
  | none => rw [hm] at c3; simp at c3
  | some st =>
    rw [hm] at c3 e5
    simp only [Result.ok.injEq, true_and] at c3 e5
    obtain ⟨q, hq, hq2⟩ := mapFind_mem hm
    have hlt : st < h.nextLoc := hq2 ▸ hst q hq
    have f1 := getCitiesFlow_frame c1
    rw [← c3] at c5
    have f3 := getCitiesFlow_frame c5
    rw [← e6.2, ← e5, hh, ← c6.2]
    apply perturb_frame f1 f3
    intro e hm1
    have := f3.incoming st (by
      rw [(setActivatedAll_spec false _ k1).2.1]
      exact lt_of_lt_of_le hlt f1.nextLoc) e (by
      rw [(setActivatedAll_spec false _ k1).1]; exact hm1)
    exact this

theorem stationsLoop_frame {fuel : Nat} {this : Graph} :
    ∀ (ps : List (String × Nat)) (acc : List (String × List CityInfo)) (h : Heap)
      (r : List (String × List CityInfo)) (h1 : Heap),
      (∀ p ∈ this.mapStations, p.2 < h.nextLoc) →
      stationsLoop fuel this ps acc h = Result.ok r h1 → ImpactFrame h h1 := by
  intro ps
  induction ps with
  | nil =>
    intro acc h r h1 _ he
    simp only [stationsLoop, Result.ok.injEq] at he
    rw [← he.2]; exact ImpactFrame.if_refl h
  | cons p ps ih =>
    intro acc h r h1 hst he
    rw [stationsLoop] at he
    obtain ⟨res, h2, e1, e2⟩ := Result.bind_eq_ok he
    have f1 := removeStationCompare_frame hst e1
    exact f1.if_trans (ih _ h2 r h1 (fun q hq => lt_of_lt_of_le (hst q hq) f1.nextLoc) e2)

theorem pipesLoop_frame {fuel : Nat} {this : Graph} :
    ∀ (ps : List (String × Nat)) (acc : List (String × List CityInfo)) (h : Heap)
      (r : List (String × List CityInfo)) (h1 : Heap),
      pipesLoop fuel this ps acc h = Result.ok r h1 → ImpactFrame h h1 := by
  intro ps
  induction ps with
  | nil =>
    intro acc h r h1 he
    simp only [pipesLoop, Result.ok.injEq] at he
    rw [← he.2]; exact ImpactFrame.if_refl h
  | cons p ps ih =>
    intro acc h r h1 he
    rw [pipesLoop] at he
    obtain ⟨res, h2, e1, e2⟩ := Result.bind_eq_ok he
    exact (removePipeCompare_frame e1).if_trans (ih _ h2 r h1 e2)

end Project1

namespace Project1

/-! ## Comparing two runs: the list relations -/

theorem OutSim.out_congr {c : Ctx} {hA hB kA kB : Heap}
    (dA : ∀ e, (kA.pipes e).dest = (hA.pipes e).dest)
    (dB : ∀ e, (kB.pipes e).dest = (hB.pipes e).dest) {la lb : List Nat}
    (r : OutSim c hA hB la lb) : OutSim c kA kB la lb := by
  induction r with
  | nil => exact OutSim.nil
  | both e la lb he _ ih => exact OutSim.both e la lb he ih
  | left e la lb hz _ ih => exact OutSim.left e la lb (by rw [dA]; exact hz) ih
  | right e la lb hz _ ih => exact OutSim.right e la lb (by rw [dB]; exact hz) ih

theorem InSim.in_congr {c : Ctx} {hA hB kA kB : Heap}
    (oA : ∀ e, (kA.pipes e).orig = (hA.pipes e).orig)
    (oB : ∀ e, (kB.pipes e).orig = (hB.pipes e).orig) {la lb : List Nat}
    (r : InSim c hA hB la lb) : InSim c kA kB la lb := by
  induction r with
  | nil => exact InSim.nil
  | both e la lb he _ ih => exact InSim.both e la lb he ih
  | left e la lb hz _ ih => exact InSim.left e la lb (by rw [oA]; exact hz) ih
  | right e la lb hz _ ih => exact InSim.right e la lb (by rw [oB]; exact hz) ih

theorem OutSim.out_append {c : Ctx} {hA hB : Heap} {la lb ma mb : List Nat}
    (r : OutSim c hA hB la lb) (r1 : OutSim c hA hB ma mb) :
    OutSim c hA hB (la ++ ma) (lb ++ mb) := by
  induction r with
  | nil => exact r1
  | both e la lb he _ ih => exact OutSim.both e _ _ he ih
  | left e la lb hz _ ih => exact OutSim.left e _ _ hz ih
  | right e la lb hz _ ih => exact OutSim.right e _ _ hz ih

theorem InSim.in_append {c : Ctx} {hA hB : Heap} {la lb ma mb : List Nat}
    (r : InSim c hA hB la lb) (r1 : InSim c hA hB ma mb) :
    InSim c hA hB (la ++ ma) (lb ++ mb) := by
  induction r with
  | nil => exact r1
  | both e la lb he _ ih => exact InSim.both e _ _ he ih
  | left e la lb hz _ ih => exact InSim.left e _ _ hz ih
  | right e la lb hz _ ih => exact InSim.right e _ _ hz ih

theorem QSim.q_append {c : Ctx} {la lb ma mb : List Nat}
    (r : QSim c la lb) (r1 : QSim c ma mb) : QSim c (la ++ ma) (lb ++ mb) := by
  induction r with
  | nil => exact r1
  | both e la lb he _ ih => exact QSim.both e _ _ he ih
  | left e la lb hz _ ih => exact QSim.left e _ _ hz ih
  | right e la lb hz _ ih => exact QSim.right e _ _ hz ih

/-! ## Comparing two runs: transport along solver steps -/

theorem SimS.shape_congr {c : Ctx} {hA hB kA kB : Heap} (S : SimS c hA hB)
    (fA : SameNet hA kA) (fB : SameNet hB kB) : SimS c kA kB := by
  have aA := fA.adj
  have aB := fB.adj
  have iA := fA.incoming
  have iB := fB.incoming
  have oA := fA.orig
  have oB := fB.orig
  have dA := fA.dest
  have dB := fB.dest
  refine ⟨S.phiInj, S.psiInj, ?_, ?_, ?_, ?_, ?_, ?_, ?_, S.yA, S.yB⟩
  · intro e he
    obtain ⟨p1, p2, p3, p4, p5, p6, p7⟩ := S.pipe e he
    rw [oA, dA, aA, oB, dB, fB.weight, fA.weight, fB.activated, fA.activated]
    exact ⟨p1, p2, p3, p4, p5, p6, p7⟩
  · intro x hx; rw [aA, aB]; exact (S.adj x hx).out_congr dA dB
  · intro x hx; rw [iA, iB]; exact (S.inc x hx).in_congr oA oB
  · intro x hx e he hE; rw [aA] at he; rw [oA]; exact S.origOk x hx e he hE
  · intro x hx e he hE; rw [iA] at he; rw [dA]; exact S.destOk x hx e he hE
  · intro z hz
    obtain ⟨z1, z2, z3⟩ := S.zA z hz
    refine ⟨z1, by rw [aA]; exact z2, fun e he => ?_⟩
    rw [iA] at he
    obtain ⟨q1, u, hu, hu2⟩ := z3 e he
    exact ⟨q1, u, hu, by rw [aA]; exact hu2⟩
  · intro z hz
    obtain ⟨z1, z2, z3⟩ := S.zB z hz
    refine ⟨z1, by rw [aB]; exact z2, fun e he => ?_⟩
    rw [iB] at he
    obtain ⟨q1, u, hu, hu2⟩ := z3 e he
    exact ⟨q1, u, hu, by rw [aB]; exact hu2⟩

theorem SimS.shape_frame {c : Ctx} {hA hB kA kB : Heap} (S : SimS c hA hB)
    (fA : SolverFrame hA kA) (fB : SolverFrame hB kB) : SimS c kA kB :=
  S.shape_congr fA.sameNet fB.sameNet

theorem SimFlow.flow_frame {c : Ctx} {hA hB kA kB : Heap} (F : SimFlow c hA hB)
    (pA : ∀ e, (kA.pipes e).flow = (hA.pipes e).flow)
    (pB : ∀ e, (kB.pipes e).flow = (hB.pipes e).flow)
    (iA : ∀ x, (kA.locs x).incoming = (hA.locs x).incoming)
    (iB : ∀ x, (kB.locs x).incoming = (hB.locs x).incoming) : SimFlow c kA kB := by
  refine ⟨fun e he => ?_, fun z hz e he => ?_, fun z hz e he => ?_⟩
  · rw [pA, pB]; exact F.flow e he
  · rw [iA] at he; rw [pA]; exact F.zeroA z hz e he
  · rw [iB] at he; rw [pB]; exact F.zeroB z hz e he

theorem SimY.stale_mono {c : Ctx} {hA hB kA kB : Heap} (Y : SimY c hA hB)
    (mA : ∀ x, (hA.locs x).visited = true → (kA.locs x).visited = true)
    (mB : ∀ x, (hB.locs x).visited = true → (kB.locs x).visited = true) : SimY c kA kB :=
  ⟨fun y hy => mA y (Y.yA y hy), fun y hy => mB y (Y.yB y hy)⟩

theorem Ctx.mem_VB {c : Ctx} {x : Nat} (hx : x ∈ c.VA) : c.φ x ∈ c.VB :=
  List.mem_map.2 ⟨x, hx, rfl⟩

theorem SimS.mem_adjB {c : Ctx} {hA hB : Heap} (S : SimS c hA hB) {e : Nat} (hE : c.E e) :
    c.ψ e ∈ (hB.locs (c.φ (hA.pipes e).orig)).adj := by
  obtain ⟨p1, p2, p3, _⟩ := S.pipe e hE
  have key : ∀ (la lb : List Nat), OutSim c hA hB la lb → e ∈ la → c.ψ e ∈ lb := by
    intro la lb r
    induction r with
    | nil => intro he; exact absurd he (List.not_mem_nil _)
    | both e1 la lb _ _ ih =>
      intro hx
      rcases List.mem_cons.1 hx with h | h
      · rw [h]; exact List.mem_cons_self _ _
      · exact List.mem_cons_of_mem _ (ih h)
    | left e1 la lb hz _ ih =>
      intro hx
      rcases List.mem_cons.1 hx with h | h
      · rw [← h] at hz
        exact absurd p2 (S.zA _ hz).1
      · exact ih h
    | right e1 la lb _ _ ih =>
      intro hx
      exact List.mem_cons_of_mem _ (ih hx)
  exact key _ _ (S.adj _ p1) p3

/-- The marking done by a successful `testAndVisit`. -/
theorem mark_frame (h : Heap) (w : Nat) (p : Option Nat) :
    SolverFrame h (setPath (setVisited h w true) w p) :=
  (SolverFrame.sf_setVisited h w true).sf_trans (SolverFrame.sf_setPath _ w p)

end Project1

namespace Project1

/-! ## Comparing two runs: one `testAndVisit` -/

theorem mark_visited (h : Heap) (w x : Nat) (p : Option Nat) :
    ((setPath (setVisited h w true) w p).locs x).visited
      = if x = w then true else (h.locs x).visited := by
  simp

theorem mark_path (h : Heap) (w x : Nat) (p : Option Nat) :
    ((setPath (setVisited h w true) w p).locs x).path
      = if x = w then p else (h.locs x).path := by
  simp

theorem mark_mono (h : Heap) (w : Nat) (p : Option Nat) (x : Nat)
    (hx : (h.locs x).visited = true) :
    ((setPath (setVisited h w true) w p).locs x).visited = true := by
  rw [mark_visited]; split
  · rfl
  · exact hx

theorem testAndVisit_mono (st : Heap × List Nat) (e w : Nat) (r : Int) (x : Nat)
    (hx : (st.1.locs x).visited = true) : ((testAndVisit st e w r).1.locs x).visited = true := by
  unfold testAndVisit
  split
  · exact mark_mono _ _ _ _ hx
  · exact hx

theorem SimRun.run_markA {c : Ctx} {hA hB : Heap} (R : SimRun c hA hB) (w : Nat) (p : Option Nat) :
    SimRun c (setPath (setVisited hA w true) w p) hB :=
  ⟨R.shape.shape_frame (mark_frame hA w p) (SolverFrame.sf_refl hB),
   R.stale.stale_mono (fun x hx => mark_mono hA w p x hx) (fun _ hx => hx),
   R.flows.flow_frame (fun _ => rfl) (fun _ => rfl) (fun x => by simp) (fun _ => rfl)⟩

theorem SimRun.run_markB {c : Ctx} {hA hB : Heap} (R : SimRun c hA hB) (w : Nat) (p : Option Nat) :
    SimRun c hA (setPath (setVisited hB w true) w p) :=
  ⟨R.shape.shape_frame (SolverFrame.sf_refl hA) (mark_frame hB w p),
   R.stale.stale_mono (fun _ hx => hx) (fun x hx => mark_mono hB w p x hx),
   R.flows.flow_frame (fun _ => rfl) (fun _ => rfl) (fun _ => rfl) (fun x => by simp)⟩

theorem SimMarks.marks_markA {c : Ctx} {s : Nat} {hA hB : Heap} (M : SimMarks c s hA hB) {z : Nat}
    (hz : z ∉ c.VA) (p : Option Nat) :
    SimMarks c s (setPath (setVisited hA z true) z p) hB := by
  refine ⟨mark_mono _ _ _ _ M.src, fun x hx => ?_, fun x hx hv hxs => ?_⟩
  · have hxz : x ≠ z := fun h => hz (h ▸ hx)
    rw [mark_visited, if_neg hxz]; exact M.vis x hx
  · have hxz : x ≠ z := fun h => hz (h ▸ hx)
    rw [mark_visited, if_neg hxz] at hv
    obtain ⟨e, hE, p1, p2, p3⟩ := M.tree x hx hv hxs
    refine ⟨e, hE, by rw [mark_path, if_neg hxz]; exact p1, p2, ?_⟩
    exact mark_mono _ _ _ _ p3

theorem SimMarks.marks_markB {c : Ctx} {s : Nat} {hA hB : Heap} (M : SimMarks c s hA hB) {z : Nat}
    (hz : z ∉ c.VB) (p : Option Nat) :
    SimMarks c s hA (setPath (setVisited hB z true) z p) := by
  refine ⟨M.src, fun x hx => ?_, fun x hx hv hxs => ?_⟩
  · have hxz : c.φ x ≠ z := fun h => hz (h ▸ Ctx.mem_VB hx)
    rw [mark_visited, if_neg hxz]; exact M.vis x hx
  · have hxz : c.φ x ≠ z := fun h => hz (h ▸ Ctx.mem_VB hx)
    obtain ⟨e, hE, p1, p2, p3⟩ := M.tree x hx hv hxs
    exact ⟨e, hE, p1, by rw [mark_path, if_neg hxz]; exact p2, p3⟩

theorem testAndVisit_junkA {c : Ctx} {s : Nat} {stA stB : Heap × List Nat} {e z : Nat}
    {r : Int} (B : SimBfs c s stA stB) (hq : c.ZA z) :
    SimBfs c s (testAndVisit stA e z r) stB := by
  have hz : z ∉ c.VA := (B.run.shape.zA z hq).1
  unfold testAndVisit
  split
  · refine ⟨B.run.run_markA z _, B.marks.marks_markA hz _, ?_, ?_⟩
    · have := B.queue.q_append (QSim.left z [] [] hq QSim.nil)
      simpa using this
    · intro x hx
      rcases List.mem_append.1 hx with h | h
      · exact mark_mono _ _ _ _ (B.qvis x h)
      · rw [List.mem_singleton.1 h, mark_visited, if_pos rfl]
  · exact B

theorem testAndVisit_junkB {c : Ctx} {s : Nat} {stA stB : Heap × List Nat} {e z : Nat}
    {r : Int} (B : SimBfs c s stA stB) (hq : c.ZB z) :
    SimBfs c s stA (testAndVisit stB e z r) := by
  have hz : z ∉ c.VB := (B.run.shape.zB z hq).1
  unfold testAndVisit
  split
  · refine ⟨B.run.run_markB z _, B.marks.marks_markB hz _, ?_, B.qvis⟩
    have := B.queue.q_append (QSim.right z [] [] hq QSim.nil)
    simpa using this
  · exact B

theorem testAndVisit_sim {c : Ctx} {s : Nat} {stA stB : Heap × List Nat} {e w : Nat} {r : Int}
    (B : SimBfs c s stA stB) (hw : w ∈ c.VA) (hE : c.E e)
    (hpar : (stA.1.locs w).visited = false →
      (stA.1.locs (if (stA.1.pipes e).dest = w then (stA.1.pipes e).orig
        else (stA.1.pipes e).dest)).visited = true) :
    SimBfs c s (testAndVisit stA e w r) (testAndVisit stB (c.ψ e) (c.φ w) r) := by
  have hv := B.marks.vis w hw
  have ha := (B.run.shape.pipe e hE).2.2.2.2.2.2
  by_cases h1 : (stA.1.locs w).visited = true
  · rw [testAndVisit_skip (Or.inl h1), testAndVisit_skip (Or.inl (hv.trans h1))]
    exact B
  by_cases h2 : 0 < r
  swap
  · rw [testAndVisit_skip (Or.inr (Or.inl (by omega))),
      testAndVisit_skip (Or.inr (Or.inl (by omega)))]
    exact B
  by_cases h3 : (stA.1.pipes e).activated = true
  swap
  · have h3f : (stA.1.pipes e).activated = false := by simpa using h3
    rw [testAndVisit_skip (Or.inr (Or.inr h3f)),
      testAndVisit_skip (Or.inr (Or.inr (ha.trans h3f)))]
    exact B
  have h1f : (stA.1.locs w).visited = false := by simpa using h1
  rw [testAndVisit_fire h1f h2 h3, testAndVisit_fire (hv.trans h1f) h2 (ha.trans h3)]
  refine ⟨(B.run.run_markA w _).run_markB _ _, ?_, B.queue.q_append (QSim.both w [] [] hw QSim.nil), ?_⟩
  swap
  · intro x hx
    rcases List.mem_append.1 hx with h | h
    · exact mark_mono _ _ _ _ (B.qvis x h)
    · rw [List.mem_singleton.1 h, mark_visited, if_pos rfl]
  refine ⟨mark_mono _ _ _ _ B.marks.src, fun x hx => ?_, fun x hx hvx hxs => ?_⟩
  · rw [mark_visited, mark_visited]
    by_cases hxw : x = w
    · rw [if_pos hxw, if_pos (by rw [hxw])]
    · have : c.φ x ≠ c.φ w := fun h => hxw (B.run.shape.phiInj x hx w hw h)
      rw [if_neg hxw, if_neg this]; exact B.marks.vis x hx
  · by_cases hxw : x = w
    · subst hxw
      refine ⟨e, hE, by rw [mark_path, if_pos rfl], by rw [mark_path, if_pos rfl], ?_⟩
      exact mark_mono _ _ _ _ (hpar h1f)
    · have hne : c.φ x ≠ c.φ w := fun h => hxw (B.run.shape.phiInj x hx w hw h)
      rw [mark_visited, if_neg hxw] at hvx
      obtain ⟨e1, hE1, p1, p2, p3⟩ := B.marks.tree x hx hvx hxs
      refine ⟨e1, hE1, by rw [mark_path, if_neg hxw]; exact p1,
        by rw [mark_path, if_neg hne]; exact p2, ?_⟩
      exact mark_mono _ _ _ _ p3

/-! ## Comparing two runs: the links of a dequeued vertex -/

theorem processOutgoing_sim {c : Ctx} {s x : Nat} {hA0 hB0 : Heap} (hx : x ∈ c.VA) :
    ∀ (la lb : List Nat), OutSim c hA0 hB0 la lb →
      ∀ (stA stB : Heap × List Nat), SolverFrame hA0 stA.1 → SolverFrame hB0 stB.1 →
        (∀ e ∈ la, e ∈ (hA0.locs x).adj) → (stA.1.locs x).visited = true →
        SimBfs c s stA stB →
        SimBfs c s (processOutgoing stA la) (processOutgoing stB lb) ∧
        ((processOutgoing stA la).1.locs x).visited = true ∧
        SolverFrame hA0 (processOutgoing stA la).1 ∧
        SolverFrame hB0 (processOutgoing stB lb).1 := by
  intro la lb r
  induction r with
  | nil => intro stA stB fA fB _ hv B; exact ⟨B, hv, fA, fB⟩
  | both e la lb hE _ ih =>
    intro stA stB fA fB hmem hv B
    rw [processOutgoing_cons, processOutgoing_cons]
    obtain ⟨p1, p2, p3, p4, p5, p6, p7⟩ := B.run.shape.pipe e hE
    have he : e ∈ (stA.1.locs x).adj := by
      rw [(fA.locs x).2.2.1]; exact hmem e (List.mem_cons_self _ _)
    have ho := B.run.shape.origOk x hx e he hE
    have step := testAndVisit_sim (r := (stA.1.pipes e).weight - (stA.1.pipes e).flow)
      B p2 hE (by
        intro _
        rw [if_pos rfl, ho]; exact hv)
    rw [p5, p6, B.run.flows.flow e hE]
    exact ih _ _ (fA.sf_trans (testAndVisit_frame _ _ _ _))
      (fB.sf_trans (testAndVisit_frame _ _ _ _))
      (fun e1 h1 => hmem e1 (List.mem_cons_of_mem _ h1))
      (testAndVisit_mono _ _ _ _ _ hv) step
  | left e la lb hz _ ih =>
    intro stA stB fA fB hmem hv B
    rw [processOutgoing_cons]
    have hz1 : c.ZA (stA.1.pipes e).dest := by rw [(fA.pipes e).2.1]; exact hz
    exact ih _ _ (fA.sf_trans (testAndVisit_frame _ _ _ _)) fB
      (fun e1 h1 => hmem e1 (List.mem_cons_of_mem _ h1))
      (testAndVisit_mono _ _ _ _ _ hv) (testAndVisit_junkA B hz1)
  | right e la lb hz _ ih =>
    intro stA stB fA fB hmem hv B
    rw [processOutgoing_cons]
    have hz1 : c.ZB (stB.1.pipes e).dest := by rw [(fB.pipes e).2.1]; exact hz
    exact ih _ _ fA (fB.sf_trans (testAndVisit_frame _ _ _ _)) hmem hv
      (testAndVisit_junkB B hz1)

theorem processIncoming_sim {c : Ctx} {s x : Nat} {hA0 hB0 : Heap} (hx : x ∈ c.VA) :
    ∀ (la lb : List Nat), InSim c hA0 hB0 la lb →
      ∀ (stA stB : Heap × List Nat), SolverFrame hA0 stA.1 → SolverFrame hB0 stB.1 →
        (∀ e ∈ la, e ∈ (hA0.locs x).incoming) → (stA.1.locs x).visited = true →
        SimBfs c s stA stB →
        SimBfs c s (processIncoming stA la) (processIncoming stB lb) ∧
        SolverFrame hA0 (processIncoming stA la).1 ∧
        SolverFrame hB0 (processIncoming stB lb).1 := by
  intro la lb r
  induction r with
  | nil => intro stA stB fA fB _ _ B; exact ⟨B, fA, fB⟩
  | both e la lb hE _ ih =>
    intro stA stB fA fB hmem hv B
    rw [processIncoming_cons, processIncoming_cons]
    obtain ⟨p1, p2, p3, p4, p5, p6, p7⟩ := B.run.shape.pipe e hE
    have he : e ∈ (stA.1.locs x).incoming := by
      rw [(fA.locs x).2.2.2.1]; exact hmem e (List.mem_cons_self _ _)
    have hd := B.run.shape.destOk x hx e he hE
    have step := testAndVisit_sim (r := (stA.1.pipes e).flow) B p1 hE (by
        intro hu
        have hne : (stA.1.pipes e).dest ≠ (stA.1.pipes e).orig := by
          intro h
          rw [hd] at h
          rw [← h, hv] at hu
          exact Bool.noConfusion hu
        rw [if_neg hne, hd]; exact hv)
    rw [p4, B.run.flows.flow e hE]
    exact ih _ _ (fA.sf_trans (testAndVisit_frame _ _ _ _))
      (fB.sf_trans (testAndVisit_frame _ _ _ _))
      (fun e1 h1 => hmem e1 (List.mem_cons_of_mem _ h1))
      (testAndVisit_mono _ _ _ _ _ hv) step
  | left e la lb hy _ ih =>
    intro stA stB fA fB hmem hv B
    rw [processIncoming_cons]
    have hy1 : c.YA (stA.1.pipes e).orig := by rw [(fA.pipes e).1]; exact hy
    rw [testAndVisit_skip (Or.inl (B.run.stale.yA _ hy1))]
    exact ih _ _ fA fB (fun e1 h1 => hmem e1 (List.mem_cons_of_mem _ h1)) hv B
  | right e la lb hy _ ih =>
    intro stA stB fA fB hmem hv B
    rw [processIncoming_cons]
    have hy1 : c.YB (stB.1.pipes e).orig := by rw [(fB.pipes e).1]; exact hy
    rw [testAndVisit_skip (Or.inl (B.run.stale.yB _ hy1))]
    exact ih _ _ fA fB hmem hv B

end Project1

namespace Project1

/-! ## Comparing two runs: the BFS loop -/

theorem bfsLoop_visited (fuel t : Nat) (h : Heap) (q : List Nat)
    (ht : (h.locs t).visited = true) : bfsLoop (fuel + 1) t (h, q) = some h := by
  cases q with
  | nil => rfl
  | cons v q1 => rw [bfsLoop_cons, if_pos ht]

theorem processIncoming_noflow : ∀ (es : List Nat) (st : Heap × List Nat),
    (∀ e ∈ es, (st.1.pipes e).flow = 0) → processIncoming st es = st := by
  intro es
  induction es with
  | nil => intro st _; rfl
  | cons e es ih =>
    intro st hz
    rw [processIncoming_cons,
      testAndVisit_skip (Or.inr (Or.inl (le_of_eq (hz e (List.mem_cons_self _ _)))))]
    exact ih st (fun e1 h1 => hz e1 (List.mem_cons_of_mem _ h1))

theorem pop_dead (h : Heap) (q : List Nat) (z : Nat) (hadj : (h.locs z).adj = [])
    (hz : ∀ e ∈ (h.locs z).incoming, (h.pipes e).flow = 0) :
    processIncoming (processOutgoing (h, q) (h.locs z).adj)
      ((processOutgoing (h, q) (h.locs z).adj).1.locs z).incoming = (h, q) := by
  rw [hadj, processOutgoing_nil]
  exact processIncoming_noflow _ _ hz

theorem bfsLoop_sim {c : Ctx} {s tA : Nat} (htA : tA ∈ c.VA) :
    ∀ (fA : Nat) (stA stB : Heap × List Nat) (kA : Heap),
      bfsLoop fA tA stA = some kA → SimBfs c s stA stB →
      ∃ F kB, (∀ f, F ≤ f → bfsLoop f (c.φ tA) stB = some kB) ∧
        SimRun c kA kB ∧ SimMarks c s kA kB := by
  intro fA
  induction fA with
  | zero => intro stA stB kA he _; simp [bfsLoop] at he
  | succ fA ih =>
    rintro ⟨hA, qA⟩ ⟨hB, qB⟩ kA he B
    have hvt := B.marks.vis tA htA
    by_cases hv : (hA.locs tA).visited = true
    · rw [bfsLoop_visited _ _ _ _ hv] at he
      cases he
      refine ⟨1, hB, fun f hf => ?_, B.run, B.marks⟩
      obtain ⟨f1, rfl⟩ := Nat.exists_eq_add_of_le hf
      rw [Nat.add_comm]
      exact bfsLoop_visited _ _ _ _ (hvt.trans hv)
    · have hvB : ¬ (hB.locs (c.φ tA)).visited = true := fun h => hv (hvt.symm.trans h)
      have R := B.run
      have M := B.marks
      have key : ∀ (qa qb : List Nat), QSim c qa qb → ∀ kA,
          bfsLoop (fA + 1) tA (hA, qa) = some kA →
          (∀ x ∈ qa, (hA.locs x).visited = true) →
          ∃ F kB, (∀ f, F ≤ f → bfsLoop f (c.φ tA) (hB, qb) = some kB) ∧
            SimRun c kA kB ∧ SimMarks c s kA kB := by
        intro qa qb Q
        induction Q with
        | nil =>
          intro kA he _
          rw [bfsLoop_nil] at he
          cases he
          refine ⟨1, hB, fun f hf => ?_, R, M⟩
          obtain ⟨f1, rfl⟩ := Nat.exists_eq_add_of_le hf
          rw [Nat.add_comm]; rfl
        | both x qa qb hx Q1 _ =>
          intro kA he hq
          rw [bfsLoop_cons, if_neg hv] at he
          have hxv := hq x (List.mem_cons_self _ _)
          have B0 : SimBfs c s (hA, qa) (hB, qb) :=
            ⟨R, M, Q1, fun y hy => hq y (List.mem_cons_of_mem _ hy)⟩
          obtain ⟨B1, v1, fA1, fB1⟩ := processOutgoing_sim (s := s) hx _ _ (R.shape.adj x hx)
            (hA, qa) (hB, qb) (SolverFrame.sf_refl _) (SolverFrame.sf_refl _)
            (fun _ h => h) hxv B0
          have hinc : ((processOutgoing (hA, qa) (hA.locs x).adj).1.locs x).incoming
              = (hA.locs x).incoming := (fA1.locs x).2.2.2.1
          have hincB : ((processOutgoing (hB, qb) (hB.locs (c.φ x)).adj).1.locs (c.φ x)).incoming
              = (hB.locs (c.φ x)).incoming := (fB1.locs _).2.2.2.1
          obtain ⟨B2, _, _⟩ := processIncoming_sim (s := s) hx _ _ (R.shape.inc x hx)
            _ _ fA1 fB1 (fun _ h => h) v1 B1
          rw [hinc] at he
          obtain ⟨F, kB, hF, r1, r2⟩ := ih _ _ kA he B2
          refine ⟨F + 1, kB, fun f hf => ?_, r1, r2⟩
          obtain ⟨f1, rfl⟩ := Nat.exists_eq_add_of_le hf
          have : F + 1 + f1 = (F + f1) + 1 := by omega
          rw [this, bfsLoop_cons, if_neg hvB, hincB]
          exact hF _ (Nat.le_add_right _ _)
        | left z qa qb hz Q1 _ =>
          intro kA he hq
          rw [bfsLoop_cons, if_neg hv,
            pop_dead hA qa z (R.shape.zA z hz).2.1 (R.flows.zeroA z hz)] at he
          exact ih _ _ kA he ⟨R, M, Q1, fun y hy => hq y (List.mem_cons_of_mem _ hy)⟩
        | right z qa qb hz _ ih1 =>
          intro kA he hq
          obtain ⟨F, kB, hF, r1, r2⟩ := ih1 kA he hq
          refine ⟨F + 1, kB, fun f hf => ?_, r1, r2⟩
          obtain ⟨f1, rfl⟩ := Nat.exists_eq_add_of_le hf
          have : F + 1 + f1 = (F + f1) + 1 := by omega
          rw [this, bfsLoop_cons, if_neg hvB,
            pop_dead hB qb z (R.shape.zB z hz).2.1 (R.flows.zeroB z hz)]
          exact hF _ (Nat.le_add_right _ _)
      exact key qA qB B.queue kA he B.qvis

end Project1

namespace Project1

/-! ## Comparing two runs: path search and augmentation -/

theorem minResidualWalk_le {h : Heap} {s : Nat} {fuel fuel1 v : Nat} {f r : Int}
    (hle : fuel ≤ fuel1) (he : minResidualWalk fuel h s v f = some r) :
    minResidualWalk fuel1 h s v f = some r := by
  induction hle with
  | refl => exact he
  | step _ ih => exact minResidualWalk_succ h s _ v f r ih

theorem augmentWalk_le {h : Heap} {s : Nat} {fuel fuel1 v : Nat} {f : Int} {r : Heap}
    (hle : fuel ≤ fuel1) (he : augmentWalk fuel h s v f = some r) :
    augmentWalk fuel1 h s v f = some r := by
  induction hle with
  | refl => exact he
  | step _ ih => exact augmentWalk_succ s f _ h v r ih

theorem augmentLoop_count (g : Graph) (s t fuel : Nat) : ∀ (n : Nat) (h r : Heap),
    augmentLoop n fuel g s t h = some r → augmentLoop (n + 1) fuel g s t h = some r := by
  intro n
  induction n with
  | zero => intro h r he; simp [augmentLoop] at he
  | succ n ih =>
    intro h r he
    rw [augmentLoop] at he ⊢
    cases hf : findAugmentingPath fuel g h s t with
    | none => rw [hf] at he; simp at he
    | some x =>
      obtain ⟨b, h1⟩ := x
      rw [hf] at he
      cases b with
      | false => exact he
      | true =>
        simp only at he ⊢
        cases hm : findMinResidualAlongPath fuel h1 s t with
        | none => rw [hm] at he; simp at he
        | some f =>
          rw [hm] at he
          simp only at he ⊢
          cases ha : augmentFlowAlongPath fuel h1 s t f with
          | none => rw [ha] at he; simp at he
          | some h2 =>
            rw [ha] at he
            simp only at he ⊢
            exact ih _ _ he

theorem augmentLoop_count_le (g : Graph) (s t fuel : Nat) {n n1 : Nat} (hle : n ≤ n1)
    {h r : Heap} (he : augmentLoop n fuel g s t h = some r) :
    augmentLoop n1 fuel g s t h = some r := by
  induction hle with
  | refl => exact he
  | step _ ih => exact augmentLoop_count g s t fuel _ h r ih

theorem findAugmentingPath_sim {c : Ctx} {s t : Nat} {gA gB : Graph}
    (hgA : gA.vertexSet = c.VA) (hgB : gB.vertexSet = c.VB) (hs : s ∈ c.VA) (ht : t ∈ c.VA)
    {fA : Nat} {hA hB kA : Heap} {b : Bool} (R : SimRun c hA hB)
    (he : findAugmentingPath fA gA hA s t = some (b, kA)) :
    ∃ F kB, (∀ f, F ≤ f → findAugmentingPath f gB hB (c.φ s) (c.φ t) = some (b, kB)) ∧
      SimRun c kA kB ∧ SimMarks c s kA kB ∧ (kA.locs t).visited = b := by
  unfold findAugmentingPath at he
  simp only at he
  rw [hgA] at he
  obtain ⟨pA, aA, iA, vA⟩ := resetVisited_spec c.VA hA
  obtain ⟨pB, aB, iB, vB⟩ := resetVisited_spec c.VB hB
  have fA0 : SolverFrame hA (setVisited (c.VA.foldl (fun h v => setVisited h v false) hA) s true) :=
    (resetVisited_frame c.VA hA).sf_trans (SolverFrame.sf_setVisited _ _ _)
  have fB0 : SolverFrame hB
      (setVisited (c.VB.foldl (fun h v => setVisited h v false) hB) (c.φ s) true) :=
    (resetVisited_frame c.VB hB).sf_trans (SolverFrame.sf_setVisited _ _ _)
  have B0 : SimBfs c s
      (setVisited (c.VA.foldl (fun h v => setVisited h v false) hA) s true, [s])
      (setVisited (c.VB.foldl (fun h v => setVisited h v false) hB) (c.φ s) true, [c.φ s]) := by
    refine ⟨⟨R.shape.shape_frame fA0 fB0, ⟨fun y hy => ?_, fun y hy => ?_⟩,
      R.flows.flow_frame (fun e => by simp [pA]) (fun e => by simp [pB])
        (fun x => (fA0.locs x).2.2.2.1) (fun x => (fB0.locs x).2.2.2.1)⟩,
      ⟨by simp, fun x hx => ?_, fun x hx hv hxs => ?_⟩,
      QSim.both s [] [] hs QSim.nil, fun x hx => ?_⟩
    · simp only [setVisited_locs]
      split
      · rfl
      · rw [vA, if_neg (R.shape.yA y hy)]; exact R.stale.yA y hy
    · simp only [setVisited_locs]
      split
      · rfl
      · rw [vB, if_neg (R.shape.yB y hy)]; exact R.stale.yB y hy
    · simp only [setVisited_locs]
      by_cases hxs : x = s
      · subst hxs; simp
      · have : c.φ x ≠ c.φ s := fun h => hxs (R.shape.phiInj x hx s hs h)
        rw [if_neg this, if_neg hxs, vA, vB, if_pos hx, if_pos (Ctx.mem_VB hx)]
    · exfalso
      simp only [setVisited_locs] at hv
      rw [if_neg hxs, vA, if_pos hx] at hv
      exact absurd hv (by simp)
    · rw [List.mem_singleton.1 hx]; simp
  cases hb : bfsLoop fA t
      (setVisited (c.VA.foldl (fun h v => setVisited h v false) hA) s true, [s]) with
  | none => rw [hb] at he; simp at he
  | some h3 =>
    rw [hb] at he
    simp only [Option.some.injEq, Prod.mk.injEq] at he
    obtain ⟨hb1, hb2⟩ := he
    subst hb2
    obtain ⟨F, kB, hF, r1, r2⟩ := bfsLoop_sim ht fA _ _ _ hb B0
    refine ⟨F, kB, fun f hf => ?_, r1, r2, hb1⟩
    unfold findAugmentingPath
    simp only
    rw [hgB, hF f hf]
    simp only
    rw [r2.vis t ht, hb1]

theorem SimRun.run_setFlow {c : Ctx} {hA hB : Heap} (R : SimRun c hA hB) {e : Nat} (hE : c.E e)
    (x : Int) : SimRun c (setFlow hA e x) (setFlow hB (c.ψ e) x) := by
  refine ⟨R.shape.shape_frame (SolverFrame.sf_setFlow _ _ _) (SolverFrame.sf_setFlow _ _ _),
    ⟨fun y hy => R.stale.yA y hy, fun y hy => R.stale.yB y hy⟩,
    ⟨fun e1 h1 => ?_, fun z hz e1 h1 => ?_, fun z hz e1 h1 => ?_⟩⟩
  · simp only [setFlow_pipes]
    by_cases h : e1 = e
    · subst h; simp
    · have : c.ψ e1 ≠ c.ψ e := fun hh => h (R.shape.psiInj e1 e h1 hE hh)
      rw [if_neg this, if_neg h]; exact R.flows.flow e1 h1
  · have h2 : e1 ∈ (hA.locs z).incoming := h1
    have : e1 ≠ e := fun hh => ((R.shape.zA z hz).2.2 e1 h2).1 (hh ▸ hE)
    simp only [setFlow_pipes]
    rw [if_neg this]; exact R.flows.zeroA z hz e1 h2
  · have h2 : e1 ∈ (hB.locs z).incoming := h1
    have : e1 ≠ c.ψ e := fun hh => ((R.shape.zB z hz).2.2 e1 h2).1 ⟨e, hE, hh.symm⟩
    simp only [setFlow_pipes]
    rw [if_neg this]; exact R.flows.zeroB z hz e1 h2

theorem SimMarks.marks_setFlow {c : Ctx} {s : Nat} {hA hB : Heap} (M : SimMarks c s hA hB)
    (e e1 : Nat) (x y : Int) : SimMarks c s (setFlow hA e x) (setFlow hB e1 y) := by
  refine ⟨M.src, M.vis, fun v hv hvis hvs => ?_⟩
  obtain ⟨e0, h1, h2, h3, h4⟩ := M.tree v hv hvis hvs
  refine ⟨e0, h1, h2, h3, ?_⟩
  simpa using h4

end Project1

namespace Project1

/-! ## Comparing two runs: the walks back along the path -/

theorem SimMarks.parent {c : Ctx} {s : Nat} {hA hB : Heap} (S : SimS c hA hB)
    (M : SimMarks c s hA hB) {v : Nat} (hv : v ∈ c.VA) (hvis : (hA.locs v).visited = true)
    (hvs : v ≠ s) :
    ∃ e, c.E e ∧ (hA.locs v).path = some e ∧ (hB.locs (c.φ v)).path = some (c.ψ e) ∧
      ((hB.pipes (c.ψ e)).dest = c.φ v ↔ (hA.pipes e).dest = v) ∧
      (hB.pipes (c.ψ e)).orig = c.φ (hA.pipes e).orig ∧
      (hB.pipes (c.ψ e)).dest = c.φ (hA.pipes e).dest ∧
      (hB.pipes (c.ψ e)).weight = (hA.pipes e).weight ∧
      (hA.pipes e).orig ∈ c.VA ∧ (hA.pipes e).dest ∈ c.VA ∧
      ((hA.pipes e).dest = v → (hA.locs (hA.pipes e).orig).visited = true) ∧
      (¬ (hA.pipes e).dest = v → (hA.locs (hA.pipes e).dest).visited = true) := by
  obtain ⟨e, hE, p1, p2, p3⟩ := M.tree v hv hvis hvs
  obtain ⟨q1, q2, _, q4, q5, q6, _⟩ := S.pipe e hE
  refine ⟨e, hE, p1, p2, ?_, q4, q5, q6, q1, q2, fun h => ?_, fun h => ?_⟩
  · rw [q5]
    exact ⟨fun h => S.phiInj _ q2 _ hv h, fun h => by rw [h]⟩
  · rwa [if_pos h] at p3
  · rwa [if_neg h] at p3

theorem minResidualWalk_sim {c : Ctx} {s : Nat} {hA hB : Heap} (R : SimRun c hA hB)
    (M : SimMarks c s hA hB) (hs : s ∈ c.VA) :
    ∀ (fuel v : Nat) (f r : Int), v ∈ c.VA → (hA.locs v).visited = true →
      minResidualWalk fuel hA s v f = some r →
      minResidualWalk fuel hB (c.φ s) (c.φ v) f = some r := by
  intro fuel
  induction fuel with
  | zero => intro v f r _ _ he; simp [minResidualWalk] at he
  | succ fuel ih =>
    intro v f r hv hvis he
    rw [minResidualWalk] at he ⊢
    by_cases hvs : v = s
    · rw [if_pos hvs] at he
      rw [if_pos (by rw [hvs])]
      exact he
    · have hne : c.φ v ≠ c.φ s := fun h => hvs (R.shape.phiInj v hv s hs h)
      rw [if_neg hvs] at he
      rw [if_neg hne]
      obtain ⟨e, hE, p1, p2, d, o1, d1, w1, mo, md, vo, vd⟩ := M.parent R.shape hv hvis hvs
      rw [p1] at he
      rw [p2]
      simp only at he ⊢
      have fl := R.flows.flow e hE
      by_cases hd : (hA.pipes e).dest = v
      · rw [if_pos hd] at he
        rw [if_pos (d.2 hd), o1, w1, fl]
        exact ih _ _ _ mo (vo hd) he
      · rw [if_neg hd] at he
        rw [if_neg (fun h => hd (d.1 h)), d1, fl]
        exact ih _ _ _ md (vd hd) he

theorem augmentWalk_sim {c : Ctx} {s : Nat} (hs : s ∈ c.VA) (f : Int) :
    ∀ (fuel : Nat) (hA hB : Heap) (v : Nat) (kA : Heap), SimRun c hA hB → SimMarks c s hA hB →
      v ∈ c.VA → (hA.locs v).visited = true →
      augmentWalk fuel hA s v f = some kA →
      ∃ kB, augmentWalk fuel hB (c.φ s) (c.φ v) f = some kB ∧ SimRun c kA kB ∧
        kA.locs = hA.locs := by
  intro fuel
  induction fuel with
  | zero => intro hA hB v kA _ _ _ _ he; simp [augmentWalk] at he
  | succ fuel ih =>
    intro hA hB v kA R M hv hvis he
    rw [augmentWalk] at he ⊢
    by_cases hvs : v = s
    · rw [if_pos hvs] at he
      rw [if_pos (by rw [hvs])]
      simp only [Option.some.injEq] at he
      subst he
      exact ⟨hB, rfl, R, rfl⟩
    · have hne : c.φ v ≠ c.φ s := fun h => hvs (R.shape.phiInj v hv s hs h)
      rw [if_neg hvs] at he
      rw [if_neg hne]
      obtain ⟨e, hE, p1, p2, d, o1, d1, w1, mo, md, vo, vd⟩ := M.parent R.shape hv hvis hvs
      rw [p1] at he
      rw [p2]
      simp only at he ⊢
      have fl := R.flows.flow e hE
      by_cases hd : (hA.pipes e).dest = v
      · rw [if_pos hd] at he
        rw [if_pos (d.2 hd), o1, fl]
        obtain ⟨kB, h1, h2, h3⟩ := ih _ _ _ kA (R.run_setFlow hE _) (M.marks_setFlow _ _ _ _) mo (vo hd) he
        exact ⟨kB, h1, h2, h3⟩
      · rw [if_neg hd] at he
        rw [if_neg (fun h => hd (d.1 h)), d1, fl]
        obtain ⟨kB, h1, h2, h3⟩ := ih _ _ _ kA (R.run_setFlow hE _) (M.marks_setFlow _ _ _ _) md (vd hd) he
        exact ⟨kB, h1, h2, h3⟩

/-! ## Comparing two runs: the solver -/

theorem augmentLoop_sim {c : Ctx} {s t : Nat} {gA gB : Graph}
    (hgA : gA.vertexSet = c.VA) (hgB : gB.vertexSet = c.VB) (hs : s ∈ c.VA) (ht : t ∈ c.VA)
    (fA : Nat) : ∀ (n : Nat) (hA hB kA : Heap), SimRun c hA hB →
      augmentLoop n fA gA s t hA = some kA →
      ∃ F kB, (∀ f, F ≤ f → augmentLoop n f gB (c.φ s) (c.φ t) hB = some kB) ∧
        SimRun c kA kB ∧ (kA.locs s).visited = true := by
  intro n
  induction n with
  | zero => intro hA hB kA _ he; simp [augmentLoop] at he
  | succ n ih =>
    intro hA hB kA R he
    rw [augmentLoop] at he
    cases hf : findAugmentingPath fA gA hA s t with
    | none => rw [hf] at he; simp at he
    | some x =>
      obtain ⟨b, h1⟩ := x
      rw [hf] at he
      obtain ⟨F1, k1, hF1, R1, M1, hb⟩ := findAugmentingPath_sim hgA hgB hs ht R hf
      cases b with
      | false =>
        simp only [Option.some.injEq] at he
        subst he
        refine ⟨F1, k1, fun f hf1 => ?_, R1, M1.src⟩
        rw [augmentLoop, hF1 f hf1]
      | true =>
        simp only at he
        cases hm : findMinResidualAlongPath fA h1 s t with
        | none => rw [hm] at he; simp at he
        | some r =>
          rw [hm] at he
          simp only at he
          cases ha : augmentFlowAlongPath fA h1 s t r with
          | none => rw [ha] at he; simp at he
          | some h2 =>
            rw [ha] at he
            simp only at he
            have hmB := minResidualWalk_sim R1 M1 hs fA t INF r ht hb hm
            obtain ⟨k2, haB, R2, _⟩ := augmentWalk_sim hs r fA h1 k1 t h2 R1 M1 ht hb ha
            obtain ⟨F2, kB, hF2, R3, hsrc⟩ := ih h2 k2 kA R2 he
            refine ⟨max F1 (max fA F2), kB, fun f hf1 => ?_, R3, hsrc⟩
            have l1 : F1 ≤ f := le_trans (le_max_left _ _) hf1
            have l2 : fA ≤ f := le_trans (le_trans (le_max_left _ _) (le_max_right _ _)) hf1
            have l3 : F2 ≤ f := le_trans (le_trans (le_max_right _ _) (le_max_right _ _)) hf1
            rw [augmentLoop, hF1 f l1]
            simp only
            have e1 : findMinResidualAlongPath f k1 (c.φ s) (c.φ t) = some r :=
              minResidualWalk_le l2 hmB
            have e2 : augmentFlowAlongPath f k1 (c.φ s) (c.φ t) r = some k2 :=
              augmentWalk_le l2 haB
            rw [e1]
            simp only
            rw [e2]
            exact hF2 f l3

theorem resetFlows_sim {c : Ctx} {gA gB : Graph} {hA hB : Heap}
    (hgA : gA.vertexSet = c.VA) (hgB : gB.vertexSet = c.VB)
    (S : SimS c hA hB) (Y : SimY c hA hB) :
    SimRun c (resetFlows gA hA) (resetFlows gB hB) := by
  obtain ⟨lA, _, flA⟩ := resetFlows_spec gA hA
  obtain ⟨lB, _, flB⟩ := resetFlows_spec gB hB
  refine ⟨S.shape_frame (resetFlows_frame gA hA) (resetFlows_frame gB hB),
    ⟨fun y hy => by rw [lA]; exact Y.yA y hy, fun y hy => by rw [lB]; exact Y.yB y hy⟩,
    ⟨fun e hE => ?_, fun z hz e he => ?_, fun z hz e he => ?_⟩⟩
  · obtain ⟨p1, _, p3, _⟩ := S.pipe e hE
    have mA : e ∈ allPipes hA gA.vertexSet := by
      rw [hgA]; exact Project1.mem_allPipes.2 ⟨_, p1, p3⟩
    have mB : c.ψ e ∈ allPipes hB gB.vertexSet := by
      rw [hgB]; exact Project1.mem_allPipes.2 ⟨_, Ctx.mem_VB p1, S.mem_adjB hE⟩
    rw [flA, flB, if_pos mA, if_pos mB]
  · rw [lA] at he
    obtain ⟨_, u, hu, hue⟩ := (S.zA z hz).2.2 e he
    rw [flA, if_pos]
    rw [hgA]; exact Project1.mem_allPipes.2 ⟨u, hu, hue⟩
  · rw [lB] at he
    obtain ⟨_, u, hu, hue⟩ := (S.zB z hz).2.2 e he
    rw [flB, if_pos]
    rw [hgB]; exact Project1.mem_allPipes.2 ⟨u, hu, hue⟩

theorem edmondsKarp_sim {c : Ctx} {s t : Nat} {gA gB : Graph} {hA hB kA : Heap}
    {source target : String} {fA : Nat}
    (hgA : gA.vertexSet = c.VA) (hgB : gB.vertexSet = c.VB)
    (fsA : findVertex gA hA source = some s) (ftA : findVertex gA hA target = some t)
    (fsB : findVertex gB hB source = some (c.φ s))
    (ftB : findVertex gB hB target = some (c.φ t))
    (S : SimS c hA hB) (Y : SimY c hA hB)
    (he : edmondsKarp fA gA hA source target = Result.ok () kA) :
    ∃ F kB, (∀ f, F ≤ f → edmondsKarp f gB hB source target = Result.ok () kB) ∧
      SimRun c kA kB ∧ (kA.locs s).visited = true := by
  have hs : s ∈ c.VA := hgA ▸ findVertex_mem fsA
  have ht : t ∈ c.VA := hgA ▸ findVertex_mem ftA
  unfold edmondsKarp at he
  rw [fsA, ftA] at he
  simp only at he
  by_cases hst : s = t
  · rw [if_pos hst] at he; cases he
  · rw [if_neg hst] at he
    have hne : c.φ s ≠ c.φ t := fun h => hst (S.phiInj s hs t ht h)
    cases hl : augmentLoop fA fA gA s t (resetFlows gA hA) with
    | none => rw [hl] at he; cases he
    | some k =>
      rw [hl] at he
      simp only [Result.ok.injEq, true_and] at he
      subst he
      obtain ⟨F, kB, hF, R, hsrc⟩ := augmentLoop_sim hgA hgB hs ht fA fA _ _ _
        (resetFlows_sim hgA hgB S Y) hl
      refine ⟨max F fA, kB, fun f hf => ?_, R, hsrc⟩
      have l1 : F ≤ f := le_trans (le_max_left _ _) hf
      have l2 : fA ≤ f := le_trans (le_max_right _ _) hf
      unfold edmondsKarp
      rw [fsB, ftB]
      simp only
      rw [if_neg hne, augmentLoop_count_le gB _ _ f l2 (hF f l1)]

end Project1

namespace Project1

/-! ## Comparing two runs: reading the result -/

theorem setTotalFlow_spec (h : Heap) (v : Nat) (f : Int) :
    (setTotalFlow h v f).pipes = h.pipes ∧
    ∀ x, ((setTotalFlow h v f).locs x).code = (h.locs x).code ∧
      ((setTotalFlow h v f).locs x).adj = (h.locs x).adj ∧
      ((setTotalFlow h v f).locs x).incoming = (h.locs x).incoming ∧
      ((setTotalFlow h v f).locs x).visited = (h.locs x).visited ∧
      ((setTotalFlow h v f).locs x).getName = (h.locs x).getName ∧
      ((setTotalFlow h v f).locs x).getDemand = (h.locs x).getDemand ∧
      ((setTotalFlow h v f).locs x).getMaximumDelivery = (h.locs x).getMaximumDelivery := by
  unfold setTotalFlow
  split
  · rename_i n d p t hk
    refine ⟨rfl, fun x => ?_⟩
    rw [Heap.setLoc_locs]
    split
    · rename_i hx
      subst hx
      simp [Location.getName, Location.getDemand, Location.getMaximumDelivery, hk]
    · exact ⟨rfl, rfl, rfl, rfl, rfl, rfl, rfl⟩
  · exact ⟨rfl, fun x => ⟨rfl, rfl, rfl, rfl, rfl, rfl, rfl⟩⟩

theorem setTotalFlow_sameNet (h : Heap) (v : Nat) (f : Int) : SameNet h (setTotalFlow h v f) := by
  obtain ⟨p, l⟩ := setTotalFlow_spec h v f
  exact ⟨fun x => (l x).2.1, fun x => (l x).2.2.1, fun e => by rw [p], fun e => by rw [p],
    fun e => by rw [p], fun e => by rw [p], fun e => by rw [p]⟩

theorem SimRun.run_setTotalFlow {c : Ctx} {hA hB : Heap} (R : SimRun c hA hB) (v w : Nat)
    (f g : Int) : SimRun c (setTotalFlow hA v f) (setTotalFlow hB w g) := by
  obtain ⟨pA, lA⟩ := setTotalFlow_spec hA v f
  obtain ⟨pB, lB⟩ := setTotalFlow_spec hB w g
  refine ⟨R.shape.shape_congr (setTotalFlow_sameNet _ _ _) (setTotalFlow_sameNet _ _ _),
    ⟨fun y hy => ?_, fun y hy => ?_⟩,
    R.flows.flow_frame (fun e => by rw [pA]) (fun e => by rw [pB]) (fun x => (lA x).2.2.1)
      (fun x => (lB x).2.2.1)⟩
  · rw [(lA y).2.2.2.1]; exact R.stale.yA y hy
  · rw [(lB y).2.2.2.1]; exact R.stale.yB y hy

theorem SimCode.code_setTotalFlow {c : Ctx} {n : Nat} {hA hB : Heap} (C : SimCode c n hA hB)
    (v w : Nat) (f g : Int) : SimCode c n (setTotalFlow hA v f) (setTotalFlow hB w g) := by
  obtain ⟨_, lA⟩ := setTotalFlow_spec hA v f
  obtain ⟨_, lB⟩ := setTotalFlow_spec hB w g
  refine ⟨fun x hx => ?_, fun z hz => ?_, fun z hz => ?_, fun x hx => ?_⟩
  · rw [(lA x).1, (lB _).1]; exact C.code x hx
  · rw [(lA z).1]; exact C.zA z hz
  · rw [(lB z).1]; exact C.zB z hz
  · rw [(lA x).1, (lB x).1, (lA x).2.2.2.2.1, (lB x).2.2.2.2.1, (lA x).2.2.2.2.2.1,
      (lB x).2.2.2.2.2.1, (lA x).2.2.2.2.2.2, (lB x).2.2.2.2.2.2]
    exact C.old x hx

theorem maxFlowInto_sim {c : Ctx} {n : Nat} {gA gB : Graph} {hA hB : Heap}
    (hgA : gA.vertexSet = c.VA) (hgB : gB.vertexSet = c.VB)
    (R : SimRun c hA hB) (C : SimCode c n hA hB) {code : String} (hc : code ≠ "C_0") :
    maxFlowInto gB hB code = maxFlowInto gA hA code := by
  have inner : ∀ (la lb : List Nat), OutSim c hA hB la lb → ∀ acc : Int,
      lb.foldl (fun acc e =>
        if (hB.locs (hB.pipes e).dest).code == code then acc + (hB.pipes e).flow else acc) acc
      = la.foldl (fun acc e =>
        if (hA.locs (hA.pipes e).dest).code == code then acc + (hA.pipes e).flow else acc) acc := by
    intro la lb r
    induction r with
    | nil => intro acc; rfl
    | both e la lb hE _ ih =>
      intro acc
      obtain ⟨_, p2, _, _, p5, _⟩ := R.shape.pipe e hE
      simp only [List.foldl_cons]
      rw [p5, C.code _ p2, R.flows.flow e hE]
      exact ih _
    | left e la lb hz _ ih =>
      intro acc
      simp only [List.foldl_cons]
      have : ((hA.locs (hA.pipes e).dest).code == code) = false := by
        rw [C.zA _ hz]; simpa using Ne.symm hc
      rw [this]
      exact ih _
    | right e la lb hz _ ih =>
      intro acc
      simp only [List.foldl_cons]
      have : ((hB.locs (hB.pipes e).dest).code == code) = false := by
        rw [C.zB _ hz]; simpa using Ne.symm hc
      rw [this]
      exact ih _
  have outer : ∀ (V : List Nat), (∀ x ∈ V, x ∈ c.VA) → ∀ acc : Int,
      (V.map c.φ).foldl (fun acc loc =>
        (hB.locs loc).adj.foldl (fun acc e =>
          if (hB.locs (hB.pipes e).dest).code == code then acc + (hB.pipes e).flow else acc) acc)
        acc
      = V.foldl (fun acc loc =>
        (hA.locs loc).adj.foldl (fun acc e =>
          if (hA.locs (hA.pipes e).dest).code == code then acc + (hA.pipes e).flow else acc) acc)
        acc := by
    intro V
    induction V with
    | nil => intro _ acc; rfl
    | cons x V ih =>
      intro hV acc
      simp only [List.map_cons, List.foldl_cons]
      rw [inner _ _ (R.shape.adj x (hV x (List.mem_cons_self _ _)))]
      exact ih (fun y hy => hV y (List.mem_cons_of_mem _ hy)) _
  unfold maxFlowInto
  rw [hgA, hgB]
  exact outer c.VA (fun _ h => h) 0

theorem collectCities_sim {c : Ctx} {n : Nat} {gA gB : Graph}
    (hgA : gA.vertexSet = c.VA) (hgB : gB.vertexSet = c.VB) :
    ∀ (psA psB : List (String × Nat)), List.Forall₂ (EntrySim n "C_0") psA psB →
      ∀ (hA hB : Heap) (acc : List CityInfo), SimRun c hA hB → SimCode c n hA hB →
      (collectCities gB hB psB acc).1 = (collectCities gA hA psA acc).1 := by
  intro psA psB r
  induction r with
  | nil => intro hA hB acc _ _; rfl
  | @cons pA pB psA psB hp _ ih =>
    intro hA hB acc R C
    obtain ⟨k1, k2⟩ := hp
    rw [collectCities, collectCities]
    by_cases hk : pA.1 = "C_0"
    · have hkB : pB.1 = "C_0" := k1 ▸ hk
      simp only [hk, hkB, bne_self_eq_false, Bool.false_eq_true, if_false]
      exact ih hA hB acc R C
    · have hkB : pB.1 ≠ "C_0" := k1 ▸ hk
      obtain ⟨k3, k4⟩ := k2 hk
      have e1 : (pA.1 != "C_0") = true := by simpa using hk
      have e2 : (pB.1 != "C_0") = true := by simpa using hkB
      rw [if_pos e1, if_pos e2]
      simp only
      have hm : maxFlowInto gB hB pB.1 = maxFlowInto gA hA pA.1 := by
        rw [← k1]; exact maxFlowInto_sim hgA hgB R C hk
      rw [hm, ← k3]
      have C1 := C.code_setTotalFlow pA.2 pA.2 (maxFlowInto gA hA pA.1) (maxFlowInto gA hA pA.1)
      obtain ⟨o1, o2, o3, _⟩ := C1.old pA.2 k4
      rw [o1, o2, o3]
      exact ih _ _ _ (R.run_setTotalFlow _ _ _ _) C1

end Project1

namespace Project1

/-! ## The source stays marked -/

theorem processOutgoing_keeps (x : Nat) : ∀ (es : List Nat) (st : Heap × List Nat),
    (st.1.locs x).visited = true → ((processOutgoing st es).1.locs x).visited = true := by
  intro es
  induction es with
  | nil => intro st h; exact h
  | cons e es ih =>
    intro st h
    rw [processOutgoing_cons]
    exact ih _ (testAndVisit_mono _ _ _ _ _ h)

theorem processIncoming_keeps (x : Nat) : ∀ (es : List Nat) (st : Heap × List Nat),
    (st.1.locs x).visited = true → ((processIncoming st es).1.locs x).visited = true := by
  intro es
  induction es with
  | nil => intro st h; exact h
  | cons e es ih =>
    intro st h
    rw [processIncoming_cons]
    exact ih _ (testAndVisit_mono _ _ _ _ _ h)

theorem bfsLoop_keeps (t x : Nat) : ∀ (fuel : Nat) (st : Heap × List Nat) (k : Heap),
    bfsLoop fuel t st = some k → (st.1.locs x).visited = true → (k.locs x).visited = true := by
  intro fuel
  induction fuel with
  | zero => intro st k he _; simp [bfsLoop] at he
  | succ fuel ih =>
    rintro ⟨h, q⟩ k he hv
    cases q with
    | nil => rw [bfsLoop_nil] at he; cases he; exact hv
    | cons v q1 =>
      rw [bfsLoop_cons] at he
      split at he
      · cases he; exact hv
      · exact ih _ k he (processIncoming_keeps x _ _ (processOutgoing_keeps x _ _ hv))

theorem findAugmentingPath_src {fuel : Nat} {g : Graph} {h : Heap} {s t : Nat} {r : Bool × Heap}
    (he : findAugmentingPath fuel g h s t = some r) : (r.2.locs s).visited = true := by
  unfold findAugmentingPath at he
  simp only at he
  cases hb : bfsLoop fuel t
      (setVisited (g.vertexSet.foldl (fun h v => setVisited h v false) h) s true, [s]) with
  | none => rw [hb] at he; simp at he
  | some h3 =>
    rw [hb] at he
    simp only [Option.some.injEq] at he
    rw [← he]
    exact bfsLoop_keeps t s fuel _ h3 hb (by simp)

theorem augmentWalk_locs (s : Nat) (f : Int) : ∀ (fuel : Nat) (h : Heap) (v : Nat) (k : Heap),
    augmentWalk fuel h s v f = some k → k.locs = h.locs := by
  intro fuel
  induction fuel with
  | zero => intro h v k he; simp [augmentWalk] at he
  | succ fuel ih =>
    intro h v k he
    rw [augmentWalk] at he
    split at he
    · cases he; rfl
    · split at he
      · cases he
      · split at he
        · exact (ih _ _ _ he).trans rfl
        · exact (ih _ _ _ he).trans rfl

theorem augmentLoop_src (g : Graph) (s t fuel : Nat) : ∀ (n : Nat) (h k : Heap),
    augmentLoop n fuel g s t h = some k → (k.locs s).visited = true := by
  intro n
  induction n with
  | zero => intro h k he; simp [augmentLoop] at he
  | succ n ih =>
    intro h k he
    rw [augmentLoop] at he
    cases hf : findAugmentingPath fuel g h s t with
    | none => rw [hf] at he; simp at he
    | some x =>
      obtain ⟨b, h1⟩ := x
      rw [hf] at he
      cases b with
      | false =>
        simp only [Option.some.injEq] at he
        rw [← he]; exact findAugmentingPath_src hf
      | true =>
        simp only at he
        cases hm : findMinResidualAlongPath fuel h1 s t with
        | none => rw [hm] at he; simp at he
        | some r =>
          rw [hm] at he
          simp only at he
          cases ha : augmentFlowAlongPath fuel h1 s t r with
          | none => rw [ha] at he; simp at he
          | some h2 =>
            rw [ha] at he
            exact ih _ _ he

theorem edmondsKarp_src {fuel : Nat} {g : Graph} {h k : Heap} {source target : String} {s : Nat}
    (fs : findVertex g h source = some s)
    (he : edmondsKarp fuel g h source target = Result.ok () k) :
    (k.locs s).visited = true := by
  unfold edmondsKarp at he
  rw [fs] at he
  cases ht : findVertex g h target with
  | none => rw [ht] at he; cases he
  | some t =>
    rw [ht] at he
    simp only at he
    split at he
    · cases he
    · cases hl : augmentLoop fuel fuel g s t (resetFlows g h) with
      | none => rw [hl] at he; cases he
      | some k1 =>
        rw [hl] at he
        simp only [Result.ok.injEq, true_and] at he
        rw [← he]
        exact augmentLoop_src g s t fuel fuel _ _ hl

end Project1

namespace Project1

/-! ## Adding the super source and the super sink -/

theorem mapFind_none {m : List (String × Nat)} {k : String} (hk : ∀ p ∈ m, p.1 ≠ k) :
    mapFind m k = none := by
  unfold mapFind
  rw [List.find?_eq_none.2 (fun p hp => by simpa using hk p hp)]
  rfl

theorem mapInsert_fresh {m : List (String × Nat)} {k : String} (v : Nat)
    (hk : ∀ p ∈ m, p.1 ≠ k) : mapInsert m k v = m ++ [(k, v)] := by
  unfold mapInsert
  rw [if_neg]
  simp only [List.any_eq_true, beq_iff_eq, not_exists, not_and]
  exact fun p hp => hk p hp

theorem addR0C0_eq (this : Graph) (h : Heap) (tr : String)
    (hR : ∀ p ∈ this.mapReservoirs, p.1 ≠ "R_0") (hC : ∀ p ∈ this.mapCities, p.1 ≠ "C_0") :
    addR0C0 this h tr =
      addC0Edges
        (addR0Edges tr (withTerminals this h.nextLoc) (allocTerminals h)
          (withTerminals this h.nextLoc).mapReservoirs).1
        (addR0Edges tr (withTerminals this h.nextLoc) (allocTerminals h)
          (withTerminals this h.nextLoc).mapReservoirs).2
        (addR0Edges tr (withTerminals this h.nextLoc) (allocTerminals h)
          (withTerminals this h.nextLoc).mapReservoirs).1.mapCities := by
  unfold addR0C0
  simp only [addVertexReservoir, mapFind_none hR, Option.isSome_none, Bool.false_eq_true,
    if_false, if_true, addVertexCity, mapFind_none hC, mapInsert_fresh _ hR,
    mapInsert_fresh _ hC]
  rfl

theorem newLocation_spec (h : Heap) (id : Int) (code : String) (k : Kind) :
    (newLocation h id code k).2.pipes = h.pipes ∧
    (newLocation h id code k).2.nextPipe = h.nextPipe ∧
    (newLocation h id code k).2.nextLoc = h.nextLoc + 1 ∧
    ∀ x, (newLocation h id code k).2.locs x =
      if x = h.nextLoc then
        { code := code, id := id, adj := [], incoming := [], visited := false,
          processing := false, indegree := 0, path := none, kind := k }
      else h.locs x := by
  refine ⟨rfl, rfl, rfl, fun x => ?_⟩
  simp only [newLocation, Function.update]
  split <;> simp_all

theorem allocTerminals_spec (h : Heap) :
    (allocTerminals h).pipes = h.pipes ∧ (allocTerminals h).nextPipe = h.nextPipe ∧
    (allocTerminals h).nextLoc = h.nextLoc + 2 ∧
    (∀ x, x < h.nextLoc → (allocTerminals h).locs x = h.locs x) ∧
    (allocTerminals h).locs h.nextLoc =
      { code := "R_0", id := 0, adj := [], incoming := [], visited := false,
        processing := false, indegree := 0, path := none, kind := Kind.reservoir "" "" 0 } ∧
    (allocTerminals h).locs (h.nextLoc + 1) =
      { code := "C_0", id := 0, adj := [], incoming := [], visited := false,
        processing := false, indegree := 0, path := none, kind := Kind.city "" 0 0 0 } := by
  unfold allocTerminals
  obtain ⟨a1, a2, a3, a4⟩ := newLocation_spec h 0 "R_0" (Kind.reservoir "" "" 0)
  obtain ⟨b1, b2, b3, b4⟩ := newLocation_spec (newLocation h 0 "R_0" (Kind.reservoir "" "" 0)).2
    0 "C_0" (Kind.city "" 0 0 0)
  refine ⟨by rw [b1, a1], by rw [b2, a2], by rw [b3, a3], fun x hx => ?_, ?_, ?_⟩
  · rw [b4, a3, if_neg (by omega), a4, if_neg (by omega)]
  · rw [b4, a3, if_neg (by omega), a4, if_pos rfl]
  · rw [b4, a3, if_pos rfl]

theorem Location.addEdge_locs (h : Heap) (this d : Nat) (w : Int) (x : Nat) :
    ((Location.addEdge h this d w).2.locs x).adj =
      (if x = this then (h.locs x).adj ++ [h.nextPipe] else (h.locs x).adj) ∧
    ((Location.addEdge h this d w).2.locs x).incoming =
      (if x = d then (h.locs x).incoming ++ [h.nextPipe] else (h.locs x).incoming) ∧
    ((Location.addEdge h this d w).2.locs x).code = (h.locs x).code ∧
    ((Location.addEdge h this d w).2.locs x).kind = (h.locs x).kind ∧
    ((Location.addEdge h this d w).2.locs x).visited = (h.locs x).visited := by
  simp only [Location.addEdge, Heap.setLoc_locs]
  by_cases h1 : x = d <;> by_cases h2 : x = this <;> simp_all

theorem Location.addEdge_kinds (h : Heap) (this d : Nat) (w : Int) (x : Nat) :
    ((Location.addEdge h this d w).2.locs x).getName = (h.locs x).getName ∧
    ((Location.addEdge h this d w).2.locs x).getDemand = (h.locs x).getDemand ∧
    ((Location.addEdge h this d w).2.locs x).getMaximumDelivery
      = (h.locs x).getMaximumDelivery := by
  have := (Location.addEdge_locs h this d w x).2.2.2.1
  simp [Location.getName, Location.getDemand, Location.getMaximumDelivery, this]

end Project1

namespace Project1

/-! ## What a query leaves behind in the heap -/

theorem Grown.init {V : List Nat} {h : Heap} (hV : ∀ v ∈ V, v < h.nextLoc) :
    Grown V h.nextLoc h.nextPipe h (allocTerminals h) := by
  obtain ⟨a1, a2, a3, a4, a5, a6⟩ := allocTerminals_spec h
  refine ⟨a3, by rw [a2], fun v hv => by rw [a4 v hv]; exact ⟨rfl, rfl, rfl, rfl⟩,
    fun e _ => by rw [a1]; exact ⟨rfl, rfl, rfl, rfl⟩,
    fun x hx => ⟨[], by rw [a4 x (hV x hx)]; simp, fun e he => absurd he (List.not_mem_nil _)⟩,
    fun x hx => ⟨[], by rw [a4 x (hV x hx)]; simp, fun e he => absurd he (List.not_mem_nil _)⟩,
    by rw [a6], ?_, by rw [a5], by rw [a6]⟩
  rw [a6]
  exact fun e he => absurd he (List.not_mem_nil _)

theorem Grown.stepR {V : List Nat} {n m : Nat} {h k : Heap} (G : Grown V n m h k)
    (hV : ∀ v ∈ V, v < n) {r : Nat} (hr : r ∈ V) (w : Int) :
    Grown V n m h (Location.addEdge k n r w).2 := by
  have L := Location.addEdge_locs k n r w
  have K := Location.addEdge_kinds k n r w
  have P := Location.addEdge_pipes k n r w
  have hrn : r < n := hV r hr
  refine ⟨G.nextLoc, Nat.le_succ_of_le G.nextPipe, fun v hv => ?_, fun e he => ?_,
    fun x hx => ?_, fun x hx => ?_, ?_, fun e he => ?_, ?_, ?_⟩
  · rw [(L v).2.2.1, (K v).1, (K v).2.1, (K v).2.2]; exact G.old v hv
  · rw [P, if_neg (by have := G.nextPipe; omega)]; exact G.pipes e he
  · obtain ⟨ex, h1, h2⟩ := G.adj x hx
    have hxn : x ≠ n := Nat.ne_of_lt (hV x hx)
    refine ⟨ex, by rw [(L x).1, if_neg hxn]; exact h1, fun e he => ?_⟩
    obtain ⟨q1, q2, q3⟩ := h2 e he
    rw [P, if_neg (Nat.ne_of_lt q3)]
    exact ⟨q1, q2, Nat.lt_succ_of_lt q3⟩
  · obtain ⟨ey, h1, h2⟩ := G.inc x hx
    have old : ∀ e ∈ ey, ((Location.addEdge k n r w).2.pipes e).orig = n ∧ m ≤ e ∧
        e < (Location.addEdge k n r w).2.nextPipe := by
      intro e he
      obtain ⟨q1, q2, q3⟩ := h2 e he
      rw [P, if_neg (Nat.ne_of_lt q3)]
      exact ⟨q1, q2, Nat.lt_succ_of_lt q3⟩
    by_cases hxr : x = r
    · refine ⟨ey ++ [k.nextPipe], by rw [(L x).2.1, if_pos hxr, h1, List.append_assoc],
        fun e he => ?_⟩
      rcases List.mem_append.1 he with he1 | he1
      · exact old e he1
      · rw [List.mem_singleton.1 he1, P, if_pos rfl]
        exact ⟨rfl, G.nextPipe, Nat.lt_succ_self _⟩
    · exact ⟨ey, by rw [(L x).2.1, if_neg hxr]; exact h1, old⟩
  · rw [(L (n + 1)).1, if_neg (by omega)]; exact G.sinkAdj
  · rw [(L (n + 1)).2.1, if_neg (by omega)] at he
    obtain ⟨q1, q2, u, hu, hue⟩ := G.sinkInc e he
    refine ⟨q1, Nat.lt_succ_of_lt q2, u, hu, ?_⟩
    rw [(L u).1, if_neg (Nat.ne_of_lt (hV u hu))]
    exact hue
  · rw [(L n).2.2.1]; exact G.codeR
  · rw [(L (n + 1)).2.2.1]; exact G.codeC

theorem Grown.stepC {V : List Nat} {n m : Nat} {h k : Heap} (G : Grown V n m h k)
    (hV : ∀ v ∈ V, v < n) {c : Nat} (hc : c ∈ V) (w : Int) :
    Grown V n m h (Location.addEdge k c (n + 1) w).2 := by
  have L := Location.addEdge_locs k c (n + 1) w
  have K := Location.addEdge_kinds k c (n + 1) w
  have P := Location.addEdge_pipes k c (n + 1) w
  have hcn : c < n := hV c hc
  refine ⟨G.nextLoc, Nat.le_succ_of_le G.nextPipe, fun v hv => ?_, fun e he => ?_,
    fun x hx => ?_, fun x hx => ?_, ?_, fun e he => ?_, ?_, ?_⟩
  · rw [(L v).2.2.1, (K v).1, (K v).2.1, (K v).2.2]; exact G.old v hv
  · rw [P, if_neg (by have := G.nextPipe; omega)]; exact G.pipes e he
  · obtain ⟨ex, h1, h2⟩ := G.adj x hx
    have old : ∀ e ∈ ex, ((Location.addEdge k c (n + 1) w).2.pipes e).dest = n + 1 ∧ m ≤ e ∧
        e < (Location.addEdge k c (n + 1) w).2.nextPipe := by
      intro e he
      obtain ⟨q1, q2, q3⟩ := h2 e he
      rw [P, if_neg (Nat.ne_of_lt q3)]
      exact ⟨q1, q2, Nat.lt_succ_of_lt q3⟩
    by_cases hxc : x = c
    · refine ⟨ex ++ [k.nextPipe], by rw [(L x).1, if_pos hxc, h1, List.append_assoc],
        fun e he => ?_⟩
      rcases List.mem_append.1 he with he1 | he1
      · exact old e he1
      · rw [List.mem_singleton.1 he1, P, if_pos rfl]
        exact ⟨rfl, G.nextPipe, Nat.lt_succ_self _⟩
    · exact ⟨ex, by rw [(L x).1, if_neg hxc]; exact h1, old⟩
  · obtain ⟨ey, h1, h2⟩ := G.inc x hx
    have hxn : x ≠ n + 1 := by have := hV x hx; omega
    refine ⟨ey, by rw [(L x).2.1, if_neg hxn]; exact h1, fun e he => ?_⟩
    obtain ⟨q1, q2, q3⟩ := h2 e he
    rw [P, if_neg (Nat.ne_of_lt q3)]
    exact ⟨q1, q2, Nat.lt_succ_of_lt q3⟩
  · rw [(L (n + 1)).1, if_neg (by omega)]; exact G.sinkAdj
  · rw [(L (n + 1)).2.1, if_pos rfl] at he
    rcases List.mem_append.1 he with he1 | he1
    · obtain ⟨q1, q2, u, hu, hue⟩ := G.sinkInc e he1
      refine ⟨q1, Nat.lt_succ_of_lt q2, u, hu, ?_⟩
      rw [(L u).1]
      split
      · exact List.mem_append_left _ hue
      · exact hue
    · rw [List.mem_singleton.1 he1]
      refine ⟨G.nextPipe, Nat.lt_succ_self _, c, hc, ?_⟩
      rw [(L c).1, if_pos rfl]
      exact List.mem_append_right _ (List.mem_singleton_self _)
  · rw [(L n).2.2.1]; exact G.codeR
  · rw [(L (n + 1)).2.2.1]; exact G.codeC

/-- Where `findVertex` looks up the reserved codes and the other codes, in a
graph with the two terminals. -/
theorem findVertex_terminals {V : List Nat} {n m : Nat} {h k : Heap} {g : Graph}
    (G : Grown V n m h k) (hg : g.vertexSet = V ++ [n] ++ [n + 1])
    (hV : ∀ v ∈ V, v < n ∧ (h.locs v).code ≠ "R_0" ∧ (h.locs v).code ≠ "C_0") :
    findVertex g k "R_0" = some n ∧ findVertex g k "C_0" = some (n + 1) ∧
    ∀ code, code ≠ "R_0" → code ≠ "C_0" → ∀ r, findVertex g k code = some r → r ∈ V := by
  have cV : ∀ v ∈ V, (k.locs v).code ≠ "R_0" ∧ (k.locs v).code ≠ "C_0" := by
    intro v hv
    rw [(G.old v (hV v hv).1).1]
    exact (hV v hv).2
  have n1 : List.find? (fun v => (k.locs v).code == "R_0") V = none :=
    List.find?_eq_none.2 (fun v hv => by simpa using (cV v hv).1)
  have n2 : List.find? (fun v => (k.locs v).code == "C_0") V = none :=
    List.find?_eq_none.2 (fun v hv => by simpa using (cV v hv).2)
  refine ⟨?_, ?_, fun code c1 c2 r hr => ?_⟩
  · unfold findVertex
    rw [hg, List.append_assoc, List.find?_append, n1]
    simp [G.codeR]
  · unfold findVertex
    rw [hg, List.append_assoc, List.find?_append, n2]
    simp [G.codeR, G.codeC]
  · have hm := findVertex_mem hr
    have hc : (k.locs r).code = code := by
      unfold findVertex at hr
      simpa using List.find?_some hr
    rw [hg] at hm
    simp only [List.mem_append, List.mem_singleton] at hm
    rcases hm with (hm | hm) | hm
    · exact hm
    · rw [hm, G.codeR] at hc; exact absurd hc.symm c1
    · rw [hm, G.codeC] at hc; exact absurd hc.symm c2

end Project1

namespace Project1

theorem addEdge_graph (g : Graph) (h : Heap) (source dest : String) (w : Int) :
    (addEdge g h source dest w).2.1.vertexSet = g.vertexSet ∧
    (addEdge g h source dest w).2.1.mapReservoirs = g.mapReservoirs ∧
    (addEdge g h source dest w).2.1.mapCities = g.mapCities := by
  unfold addEdge
  split <;> exact ⟨rfl, rfl, rfl⟩

theorem Grown.addEdgeR {V : List Nat} {n m : Nat} {h k : Heap} {g : Graph}
    (G : Grown V n m h k) (hg : g.vertexSet = V ++ [n] ++ [n + 1])
    (hV : ∀ v ∈ V, v < n ∧ (h.locs v).code ≠ "R_0" ∧ (h.locs v).code ≠ "C_0")
    {code : String} (c1 : code ≠ "R_0") (c2 : code ≠ "C_0") (w : Int) :
    Grown V n m h (addEdge g k "R_0" code w).2.2 := by
  obtain ⟨f1, _, f3⟩ := findVertex_terminals G hg hV
  unfold addEdge
  rw [f1]
  cases hf : findVertex g k code with
  | none => exact G
  | some r => exact G.stepR (fun v hv => (hV v hv).1) (f3 code c1 c2 r hf) w

theorem Grown.addEdgeC {V : List Nat} {n m : Nat} {h k : Heap} {g : Graph}
    (G : Grown V n m h k) (hg : g.vertexSet = V ++ [n] ++ [n + 1])
    (hV : ∀ v ∈ V, v < n ∧ (h.locs v).code ≠ "R_0" ∧ (h.locs v).code ≠ "C_0")
    {code : String} (c1 : code ≠ "R_0") (c2 : code ≠ "C_0") (w : Int) :
    Grown V n m h (addEdge g k code "C_0" w).2.2 := by
  obtain ⟨_, f2, f3⟩ := findVertex_terminals G hg hV
  unfold addEdge
  rw [f2]
  cases hf : findVertex g k code with
  | none => exact G
  | some r => exact G.stepC (fun v hv => (hV v hv).1) (f3 code c1 c2 r hf) w

theorem addR0Edges_grown {V : List Nat} {n m : Nat} {h : Heap} {tr : String}
    (htr : tr ≠ "R_0")
    (hV : ∀ v ∈ V, v < n ∧ (h.locs v).code ≠ "R_0" ∧ (h.locs v).code ≠ "C_0") :
    ∀ (ps : List (String × Nat)) (g : Graph) (k : Heap), (∀ p ∈ ps, p.1 ≠ "C_0") →
      g.vertexSet = V ++ [n] ++ [n + 1] → Grown V n m h k →
      Grown V n m h (addR0Edges tr g k ps).2 ∧
      (addR0Edges tr g k ps).1.vertexSet = g.vertexSet ∧
      (addR0Edges tr g k ps).1.mapCities = g.mapCities := by
  intro ps
  induction ps with
  | nil => intro g k _ _ G; exact ⟨G, rfl, rfl⟩
  | cons p ps ih =>
    intro g k hp hg G
    have hp1 := hp p (List.mem_cons_self _ _)
    have hps : ∀ q ∈ ps, q.1 ≠ "C_0" := fun q hq => hp q (List.mem_cons_of_mem _ hq)
    rw [addR0Edges]
    split
    · rename_i heq
      have c1 : p.1 ≠ "R_0" := fun hh => htr (by rw [← hh]; exact (beq_iff_eq.1 heq).symm)
      obtain ⟨a1, _, a3⟩ := addEdge_graph g k "R_0" p.1 0
      obtain ⟨b1, b2, b3⟩ := ih _ _ hps (a1.trans hg) (G.addEdgeR hg hV c1 hp1 0)
      exact ⟨b1, b2.trans a1, b3.trans a3⟩
    · split
      · rename_i hne
        have c1 : p.1 ≠ "R_0" := by simpa using hne
        obtain ⟨a1, _, a3⟩ := addEdge_graph g k "R_0" p.1 (k.locs p.2).getMaximumDelivery
        obtain ⟨b1, b2, b3⟩ := ih _ _ hps (a1.trans hg) (G.addEdgeR hg hV c1 hp1 _)
        exact ⟨b1, b2.trans a1, b3.trans a3⟩
      · exact ih g k hps hg G

theorem addC0Edges_grown {V : List Nat} {n m : Nat} {h : Heap}
    (hV : ∀ v ∈ V, v < n ∧ (h.locs v).code ≠ "R_0" ∧ (h.locs v).code ≠ "C_0") :
    ∀ (ps : List (String × Nat)) (g : Graph) (k : Heap), (∀ p ∈ ps, p.1 ≠ "R_0") →
      g.vertexSet = V ++ [n] ++ [n + 1] → Grown V n m h k →
      Grown V n m h (addC0Edges g k ps).2 ∧
      (addC0Edges g k ps).1.vertexSet = g.vertexSet ∧
      (addC0Edges g k ps).1.mapCities = g.mapCities := by
  intro ps
  induction ps with
  | nil => intro g k _ _ G; exact ⟨G, rfl, rfl⟩
  | cons p ps ih =>
    intro g k hp hg G
    have hp1 := hp p (List.mem_cons_self _ _)
    have hps : ∀ q ∈ ps, q.1 ≠ "R_0" := fun q hq => hp q (List.mem_cons_of_mem _ hq)
    rw [addC0Edges]
    split
    · rename_i hne
      have c2 : p.1 ≠ "C_0" := by simpa using hne
      obtain ⟨a1, _, a3⟩ := addEdge_graph g k p.1 "C_0" (k.locs p.2).getDemand
      obtain ⟨b1, b2, b3⟩ := ih _ _ hps (a1.trans hg) (G.addEdgeC hg hV hp1 c2 _)
      exact ⟨b1, b2.trans a1, b3.trans a3⟩
    · exact ih g k hps hg G

/-- The network built by `addR0C0` on a ready network. -/
theorem addR0C0_grown {this : Graph} {h : Heap} (rd : QueryReady this h) {tr : String}
    (htr : tr ≠ "R_0") :
    Grown this.vertexSet h.nextLoc h.nextPipe h (addR0C0 this h tr).2 ∧
    (addR0C0 this h tr).1.vertexSet = this.vertexSet ++ [h.nextLoc] ++ [h.nextLoc + 1] ∧
    (addR0C0 this h tr).1.mapCities = this.mapCities ++ [("C_0", h.nextLoc + 1)] := by
  obtain ⟨_, r2, _, r4, r5⟩ := rd
  rw [addR0C0_eq this h tr (fun p hp => (r4 p hp).1) (fun p hp => (r5 p hp).2.1)]
  have G0 : Grown this.vertexSet h.nextLoc h.nextPipe h (allocTerminals h) :=
    Grown.init (fun v hv => (r2 v hv).1)
  have hR : ∀ p ∈ (withTerminals this h.nextLoc).mapReservoirs, p.1 ≠ "C_0" := by
    intro p hp
    rcases List.mem_append.1 hp with h1 | h1
    · exact (r4 p h1).2.1
    · rw [List.mem_singleton.1 h1]; show "R_0" ≠ "C_0"; decide
  obtain ⟨G1, v1, m1⟩ := addR0Edges_grown htr r2 _ (withTerminals this h.nextLoc) _ hR rfl G0
  have hC : ∀ p ∈ (addR0Edges tr (withTerminals this h.nextLoc) (allocTerminals h)
      (withTerminals this h.nextLoc).mapReservoirs).1.mapCities, p.1 ≠ "R_0" := by
    rw [m1]
    intro p hp
    rcases List.mem_append.1 hp with h1 | h1
    · exact (r5 p h1).1
    · rw [List.mem_singleton.1 h1]; show "C_0" ≠ "R_0"; decide
  obtain ⟨G2, v2, m2⟩ := addC0Edges_grown r2 _ _ _ hC v1 G1
  exact ⟨G2, v2.trans v1, m2.trans m1⟩

theorem Grown.g_congr {V : List Nat} {n m : Nat} {h k k1 : Heap} (G : Grown V n m h k)
    (N : SameNet k k1) (nl : k1.nextLoc = k.nextLoc) (np : k1.nextPipe = k.nextPipe)
    (hc : ∀ v, (k1.locs v).code = (k.locs v).code ∧
      (k1.locs v).getName = (k.locs v).getName ∧
      (k1.locs v).getDemand = (k.locs v).getDemand ∧
      (k1.locs v).getMaximumDelivery = (k.locs v).getMaximumDelivery) :
    Grown V n m h k1 := by
  refine ⟨nl.trans G.nextLoc, by rw [np]; exact G.nextPipe, fun v hv => ?_, fun e he => ?_,
    fun x hx => ?_, fun x hx => ?_, ?_, fun e he => ?_, ?_, ?_⟩
  · obtain ⟨a, b, c, d⟩ := hc v
    rw [a, b, c, d]; exact G.old v hv
  · rw [N.orig, N.dest, N.weight, N.activated]; exact G.pipes e he
  · obtain ⟨ex, h1, h2⟩ := G.adj x hx
    refine ⟨ex, by rw [N.adj]; exact h1, fun e he => ?_⟩
    rw [N.dest, np]; exact h2 e he
  · obtain ⟨ey, h1, h2⟩ := G.inc x hx
    refine ⟨ey, by rw [N.incoming]; exact h1, fun e he => ?_⟩
    rw [N.orig, np]; exact h2 e he
  · rw [N.adj]; exact G.sinkAdj
  · rw [N.incoming] at he
    obtain ⟨q1, q2, u, hu, hue⟩ := G.sinkInc e he
    exact ⟨q1, by rw [np]; exact q2, u, hu, by rw [N.adj]; exact hue⟩
  · rw [(hc n).1]; exact G.codeR
  · rw [(hc (n + 1)).1]; exact G.codeC

theorem Grown.solver {V : List Nat} {n m : Nat} {h k k1 : Heap} (G : Grown V n m h k)
    (F : SolverFrame k k1) : Grown V n m h k1 := by
  refine G.g_congr F.sameNet F.nextLoc F.nextPipe (fun v => ?_)
  obtain ⟨a, _, _, _, _, _, b⟩ := F.locs v
  simp only [Location.getName, Location.getDemand, Location.getMaximumDelivery, a, b]
  exact ⟨trivial, trivial, trivial, trivial⟩

theorem setTotalFlow_next (h : Heap) (v : Nat) (f : Int) :
    (setTotalFlow h v f).nextLoc = h.nextLoc ∧ (setTotalFlow h v f).nextPipe = h.nextPipe := by
  unfold setTotalFlow
  split <;> exact ⟨rfl, rfl⟩

theorem collectCities_grown {V : List Nat} {n m : Nat} {h : Heap} (g : Graph) (x : Nat) :
    ∀ (ps : List (String × Nat)) (k : Heap) (acc : List CityInfo), Grown V n m h k →
      (k.locs x).visited = true →
      Grown V n m h (collectCities g k ps acc).2 ∧
      ((collectCities g k ps acc).2.locs x).visited = true := by
  intro ps
  induction ps with
  | nil => intro k acc G hv; exact ⟨G, hv⟩
  | cons p ps ih =>
    intro k acc G hv
    rw [collectCities]
    split
    · obtain ⟨_, l⟩ := setTotalFlow_spec k p.2 (maxFlowInto g k p.1)
      obtain ⟨n1, n2⟩ := setTotalFlow_next k p.2 (maxFlowInto g k p.1)
      refine ih _ _ (G.g_congr (setTotalFlow_sameNet _ _ _) n1 n2
        (fun v => ⟨(l v).1, (l v).2.2.2.2.1, (l v).2.2.2.2.2.1, (l v).2.2.2.2.2.2⟩)) ?_
      rw [(l x).2.2.2.1]; exact hv
    · exact ih k acc G hv

end Project1

namespace Project1

/-! ## Comparing two runs: adding the links of the terminals -/

theorem OutSim.out_mono {c : Ctx} {hA hB kA kB : Heap} {E : Nat → Prop}
    (hE : ∀ e, c.E e → E e) {la lb : List Nat} (r : OutSim c hA hB la lb) :
    (∀ e ∈ la, (kA.pipes e).dest = (hA.pipes e).dest) →
    (∀ e ∈ lb, (kB.pipes e).dest = (hB.pipes e).dest) →
    OutSim (c.withE E) kA kB la lb := by
  induction r with
  | nil => intro _ _; exact OutSim.nil
  | both e la lb he _ ih =>
    intro dA dB
    exact OutSim.both (c := c.withE E) e la lb (hE e he)
      (ih (fun x hx => dA x (List.mem_cons_of_mem _ hx))
        (fun x hx => dB x (List.mem_cons_of_mem _ hx)))
  | left e la lb hz _ ih =>
    intro dA dB
    refine OutSim.left (c := c.withE E) e la lb ?_
      (ih (fun x hx => dA x (List.mem_cons_of_mem _ hx)) dB)
    rw [dA e (List.mem_cons_self _ _)]; exact hz
  | right e la lb hz _ ih =>
    intro dA dB
    refine OutSim.right (c := c.withE E) e la lb ?_
      (ih dA (fun x hx => dB x (List.mem_cons_of_mem _ hx)))
    rw [dB e (List.mem_cons_self _ _)]; exact hz

theorem InSim.in_mono {c : Ctx} {hA hB kA kB : Heap} {E : Nat → Prop}
    (hE : ∀ e, c.E e → E e) {la lb : List Nat} (r : InSim c hA hB la lb) :
    (∀ e ∈ la, (kA.pipes e).orig = (hA.pipes e).orig) →
    (∀ e ∈ lb, (kB.pipes e).orig = (hB.pipes e).orig) →
    InSim (c.withE E) kA kB la lb := by
  induction r with
  | nil => intro _ _; exact InSim.nil
  | both e la lb he _ ih =>
    intro dA dB
    exact InSim.both (c := c.withE E) e la lb (hE e he)
      (ih (fun x hx => dA x (List.mem_cons_of_mem _ hx))
        (fun x hx => dB x (List.mem_cons_of_mem _ hx)))
  | left e la lb hz _ ih =>
    intro dA dB
    refine InSim.left (c := c.withE E) e la lb ?_
      (ih (fun x hx => dA x (List.mem_cons_of_mem _ hx)) dB)
    rw [dA e (List.mem_cons_self _ _)]; exact hz
  | right e la lb hz _ ih =>
    intro dA dB
    refine InSim.right (c := c.withE E) e la lb ?_
      (ih dA (fun x hx => dB x (List.mem_cons_of_mem _ hx)))
    rw [dB e (List.mem_cons_self _ _)]; exact hz

theorem findVertex_sim {c : Ctx} {n : Nat} {gA gB : Graph} {hA hB : Heap}
    (hgA : gA.vertexSet = c.VA) (hgB : gB.vertexSet = c.VB) (C : SimCode c n hA hB)
    (code : String) : findVertex gB hB code = (findVertex gA hA code).map c.φ := by
  have key : ∀ (V : List Nat), (∀ x ∈ V, x ∈ c.VA) →
      List.find? (fun v => (hB.locs v).code == code) (V.map c.φ)
        = (List.find? (fun v => (hA.locs v).code == code) V).map c.φ := by
    intro V
    induction V with
    | nil => intro _; rfl
    | cons x V ih =>
      intro hV
      simp only [List.map_cons, List.find?_cons]
      rw [C.code x (hV x (List.mem_cons_self _ _))]
      cases (hA.locs x).code == code with
      | true => rfl
      | false => exact ih (fun y hy => hV y (List.mem_cons_of_mem _ hy))
  unfold findVertex
  rw [hgA, hgB]
  exact key c.VA (fun _ h => h)

end Project1

namespace Project1

/-- One more pair of corresponding pipes: run `A` links `v` to `w` with its next
pipe, run `B` links the corresponding vertices with its next pipe. -/
theorem SimBuild.extend {c : Ctx} {hA hB kA kB : Heap} {v w : Nat} {cap : Int}
    (B : SimBuild c hA hB) (hv : v ∈ c.VA) (hw : w ∈ c.VA)
    (pA : ∀ e, kA.pipes e = if e = hA.nextPipe then
      { dest := w, weight := cap, orig := v, reverse := none, flow := 0, activated := true }
      else hA.pipes e)
    (pB : ∀ e, kB.pipes e = if e = hB.nextPipe then
      { dest := c.φ w, weight := cap, orig := c.φ v, reverse := none, flow := 0,
        activated := true }
      else hB.pipes e)
    (aA : ∀ x, (kA.locs x).adj =
      if x = v then (hA.locs x).adj ++ [hA.nextPipe] else (hA.locs x).adj)
    (aB : ∀ x, (kB.locs x).adj =
      if x = c.φ v then (hB.locs x).adj ++ [hB.nextPipe] else (hB.locs x).adj)
    (iA : ∀ x, (kA.locs x).incoming =
      if x = w then (hA.locs x).incoming ++ [hA.nextPipe] else (hA.locs x).incoming)
    (iB : ∀ x, (kB.locs x).incoming =
      if x = c.φ w then (hB.locs x).incoming ++ [hB.nextPipe] else (hB.locs x).incoming)
    (vA : ∀ x, (kA.locs x).visited = (hA.locs x).visited)
    (vB : ∀ x, (kB.locs x).visited = (hB.locs x).visited)
    (nA : kA.nextPipe = hA.nextPipe + 1) (nB : kB.nextPipe = hB.nextPipe + 1) :
    SimBuild (c.withE (fun e => c.E e ∨ e = hA.nextPipe)) kA kB := by
  have S := B.shape
  have hpsi : c.ψ hA.nextPipe = hB.nextPipe := by
    have := B.psi hA.nextPipe (le_refl _); omega
  have oldA : ∀ e, e < hA.nextPipe → kA.pipes e = hA.pipes e :=
    fun e he => by rw [pA, if_neg (Nat.ne_of_lt he)]
  have oldB : ∀ e, e < hB.nextPipe → kB.pipes e = hB.pipes e :=
    fun e he => by rw [pB, if_neg (Nat.ne_of_lt he)]
  have newA : kA.pipes hA.nextPipe =
      { dest := w, weight := cap, orig := v, reverse := none, flow := 0, activated := true } := by
    rw [pA, if_pos rfl]
  have newB : kB.pipes hB.nextPipe =
      { dest := c.φ w, weight := cap, orig := c.φ v, reverse := none, flow := 0,
        activated := true } := by
    rw [pB, if_pos rfl]
  have subA : ∀ x e, e ∈ (hA.locs x).adj → e ∈ (kA.locs x).adj := by
    intro x e he; rw [aA]; split
    · exact List.mem_append_left _ he
    · exact he
  have subB : ∀ x e, e ∈ (hB.locs x).adj → e ∈ (kB.locs x).adj := by
    intro x e he; rw [aB]; split
    · exact List.mem_append_left _ he
    · exact he
  have memA : ∀ x e, e ∈ (kA.locs x).adj → e ∈ (hA.locs x).adj ∨ (e = hA.nextPipe ∧ x = v) := by
    intro x e he; rw [aA] at he; split at he
    · rename_i hx
      rcases List.mem_append.1 he with h | h
      · exact Or.inl h
      · exact Or.inr ⟨List.mem_singleton.1 h, hx⟩
    · exact Or.inl he
  have memB : ∀ x e, e ∈ (kB.locs x).adj →
      e ∈ (hB.locs x).adj ∨ (e = hB.nextPipe ∧ x = c.φ v) := by
    intro x e he; rw [aB] at he; split at he
    · rename_i hx
      rcases List.mem_append.1 he with h | h
      · exact Or.inl h
      · exact Or.inr ⟨List.mem_singleton.1 h, hx⟩
    · exact Or.inl he
  have minA : ∀ x e, e ∈ (kA.locs x).incoming →
      e ∈ (hA.locs x).incoming ∨ (e = hA.nextPipe ∧ x = w) := by
    intro x e he; rw [iA] at he; split at he
    · rename_i hx
      rcases List.mem_append.1 he with h | h
      · exact Or.inl h
      · exact Or.inr ⟨List.mem_singleton.1 h, hx⟩
    · exact Or.inl he
  have minB : ∀ x e, e ∈ (kB.locs x).incoming →
      e ∈ (hB.locs x).incoming ∨ (e = hB.nextPipe ∧ x = c.φ w) := by
    intro x e he; rw [iB] at he; split at he
    · rename_i hx
      rcases List.mem_append.1 he with h | h
      · exact Or.inl h
      · exact Or.inr ⟨List.mem_singleton.1 h, hx⟩
    · exact Or.inl he
  have hVB : ∀ x ∈ c.VA, c.φ x ∈ c.VB := fun x hx => Ctx.mem_VB hx
  have shape : SimS (c.withE (fun e => c.E e ∨ e = hA.nextPipe)) kA kB := by
    refine ⟨S.phiInj, ?_, ?_, ?_, ?_, ?_, ?_, ?_, ?_, S.yA, S.yB⟩
    · intro e e1 he he1 heq
      have heq1 : c.ψ e = c.ψ e1 := heq
      rcases he with he | he <;> rcases he1 with he1 | he1
      · exact S.psiInj e e1 he he1 heq1
      · have := (B.boundE e he).2
        rw [heq1, he1, hpsi] at this
        exact absurd this (lt_irrefl _)
      · have := (B.boundE e1 he1).2
        rw [← heq1, he, hpsi] at this
        exact absurd this (lt_irrefl _)
      · rw [he, he1]
    · intro e he
      show (kA.pipes e).orig ∈ c.VA ∧ (kA.pipes e).dest ∈ c.VA ∧
        e ∈ (kA.locs (kA.pipes e).orig).adj ∧
        (kB.pipes (c.ψ e)).orig = c.φ (kA.pipes e).orig ∧
        (kB.pipes (c.ψ e)).dest = c.φ (kA.pipes e).dest ∧
        (kB.pipes (c.ψ e)).weight = (kA.pipes e).weight ∧
        (kB.pipes (c.ψ e)).activated = (kA.pipes e).activated
      rcases he with he | he
      · obtain ⟨b1, b2⟩ := B.boundE e he
        obtain ⟨p1, p2, p3, p4, p5, p6, p7⟩ := S.pipe e he
        rw [oldA e b1, oldB _ b2]
        exact ⟨p1, p2, subA _ _ p3, p4, p5, p6, p7⟩
      · rw [he, hpsi, newA, newB]
        refine ⟨hv, hw, ?_, rfl, rfl, rfl, rfl⟩
        show hA.nextPipe ∈ (kA.locs v).adj
        rw [aA, if_pos rfl]
        exact List.mem_append_right _ (List.mem_singleton_self _)
    · intro x hx
      show OutSim (c.withE _) kA kB (kA.locs x).adj (kB.locs (c.φ x)).adj
      have base : OutSim (c.withE (fun e => c.E e ∨ e = hA.nextPipe)) kA kB
          (hA.locs x).adj (hB.locs (c.φ x)).adj :=
        (S.adj x hx).out_mono (fun e he => Or.inl he)
          (fun e he => by rw [oldA e ((B.listsA x hx).1 e he)])
          (fun e he => by rw [oldB e ((B.listsB _ (hVB x hx)).1 e he)])
      rw [aA, aB]
      by_cases hxv : x = v
      · rw [if_pos hxv, if_pos (by rw [hxv])]
        have one := @OutSim.both (c.withE (fun e => c.E e ∨ e = hA.nextPipe)) kA kB
          hA.nextPipe [] [] (Or.inr rfl) OutSim.nil
        have one1 : OutSim (c.withE (fun e => c.E e ∨ e = hA.nextPipe)) kA kB
            [hA.nextPipe] [hB.nextPipe] := by
          have h2 : (c.withE (fun e => c.E e ∨ e = hA.nextPipe)).ψ hA.nextPipe = hB.nextPipe :=
            hpsi
          rw [h2] at one; exact one
        exact base.out_append one1
      · rw [if_neg hxv, if_neg (fun h => hxv (S.phiInj x hx v hv h))]
        exact base
    · intro x hx
      show InSim (c.withE _) kA kB (kA.locs x).incoming (kB.locs (c.φ x)).incoming
      have base : InSim (c.withE (fun e => c.E e ∨ e = hA.nextPipe)) kA kB
          (hA.locs x).incoming (hB.locs (c.φ x)).incoming :=
        (S.inc x hx).in_mono (fun e he => Or.inl he)
          (fun e he => by rw [oldA e ((B.listsA x hx).2 e he)])
          (fun e he => by rw [oldB e ((B.listsB _ (hVB x hx)).2 e he)])
      rw [iA, iB]
      by_cases hxw : x = w
      · rw [if_pos hxw, if_pos (by rw [hxw])]
        have one := @InSim.both (c.withE (fun e => c.E e ∨ e = hA.nextPipe)) kA kB
          hA.nextPipe [] [] (Or.inr rfl) InSim.nil
        have one1 : InSim (c.withE (fun e => c.E e ∨ e = hA.nextPipe)) kA kB
            [hA.nextPipe] [hB.nextPipe] := by
          have h2 : (c.withE (fun e => c.E e ∨ e = hA.nextPipe)).ψ hA.nextPipe = hB.nextPipe :=
            hpsi
          rw [h2] at one; exact one
        exact base.in_append one1
      · rw [if_neg hxw, if_neg (fun h => hxw (S.phiInj x hx w hw h))]
        exact base
    · intro x hx e he hE
      rcases memA x e he with h1 | ⟨h1, h2⟩
      · rw [oldA e ((B.listsA x hx).1 e h1)]
        rcases hE with hE | hE
        · exact S.origOk x hx e h1 hE
        · have := (B.listsA x hx).1 e h1
          rw [hE] at this
          exact absurd this (lt_irrefl _)
      · rw [h1, newA, h2]
    · intro x hx e he hE
      rcases minA x e he with h1 | ⟨h1, h2⟩
      · rw [oldA e ((B.listsA x hx).2 e h1)]
        rcases hE with hE | hE
        · exact S.destOk x hx e h1 hE
        · have := (B.listsA x hx).2 e h1
          rw [hE] at this
          exact absurd this (lt_irrefl _)
      · rw [h1, newA, h2]
    · intro z hz
      obtain ⟨z1, z2, z3⟩ := S.zA z hz
      have hzv : z ≠ v := fun h => z1 (h ▸ hv)
      have hzw : z ≠ w := fun h => z1 (h ▸ hw)
      refine ⟨z1, by rw [aA, if_neg hzv]; exact z2, fun e he => ?_⟩
      rw [iA, if_neg hzw] at he
      obtain ⟨q1, u, hu, hue⟩ := z3 e he
      refine ⟨fun hE => ?_, u, hu, subA _ _ hue⟩
      rcases hE with hE | hE
      · exact q1 hE
      · have := B.sinkA z hz e he
        rw [hE] at this
        exact absurd this (lt_irrefl _)
    · intro z hz
      obtain ⟨z1, z2, z3⟩ := S.zB z hz
      have hzv : z ≠ c.φ v := fun h => z1 (h ▸ hVB v hv)
      have hzw : z ≠ c.φ w := fun h => z1 (h ▸ hVB w hw)
      refine ⟨z1, by rw [aB, if_neg hzv]; exact z2, fun e he => ?_⟩
      rw [iB, if_neg hzw] at he
      obtain ⟨q1, u, hu, hue⟩ := z3 e he
      refine ⟨fun hE => ?_, u, hu, subB _ _ hue⟩
      obtain ⟨e0, hE0, he0⟩ := hE
      have he1 : c.ψ e0 = e := he0
      rcases hE0 with hE0 | hE0
      · exact q1 ⟨e0, hE0, he1⟩
      · have := B.sinkB z hz e he
        rw [← he1, hE0, hpsi] at this
        exact absurd this (lt_irrefl _)
  refine ⟨shape, ⟨fun y hy => ?_, fun y hy => ?_⟩, fun e he => ?_, fun e he => ?_,
    fun x hx => ⟨fun e he => ?_, fun e he => ?_⟩, fun x hx => ⟨fun e he => ?_, fun e he => ?_⟩,
    fun z hz e he => ?_, fun z hz e he => ?_⟩
  · rw [vA]; exact B.stale.yA y hy
  · rw [vB]; exact B.stale.yB y hy
  · have := B.psi e (by omega)
    show c.ψ e + kA.nextPipe = e + kB.nextPipe
    omega
  · show e < kA.nextPipe ∧ c.ψ e < kB.nextPipe
    rcases he with he | he
    · have := B.boundE e he; omega
    · rw [he, hpsi]; omega
  · rcases memA x e he with h1 | ⟨h1, _⟩
    · have := (B.listsA x hx).1 e h1; omega
    · omega
  · rcases minA x e he with h1 | ⟨h1, _⟩
    · have := (B.listsA x hx).2 e h1; omega
    · omega
  · rcases memB x e he with h1 | ⟨h1, _⟩
    · have := (B.listsB x hx).1 e h1; omega
    · omega
  · rcases minB x e he with h1 | ⟨h1, _⟩
    · have := (B.listsB x hx).2 e h1; omega
    · omega
  · have hzw : z ≠ w := fun h => (S.zA z hz).1 (h ▸ hw)
    rw [iA, if_neg hzw] at he
    have := B.sinkA z hz e he; omega
  · have hzw : z ≠ c.φ w := fun h => (S.zB z hz).1 (h ▸ hVB w hw)
    rw [iB, if_neg hzw] at he
    have := B.sinkB z hz e he; omega

end Project1

namespace Project1

theorem SimCode.code_congr {c : Ctx} {n : Nat} {hA hB kA kB : Heap} (C : SimCode c n hA hB)
    (E : Nat → Prop)
    (cA : ∀ v, (kA.locs v).code = (hA.locs v).code ∧
      (kA.locs v).getName = (hA.locs v).getName ∧
      (kA.locs v).getDemand = (hA.locs v).getDemand ∧
      (kA.locs v).getMaximumDelivery = (hA.locs v).getMaximumDelivery)
    (cB : ∀ v, (kB.locs v).code = (hB.locs v).code ∧
      (kB.locs v).getName = (hB.locs v).getName ∧
      (kB.locs v).getDemand = (hB.locs v).getDemand ∧
      (kB.locs v).getMaximumDelivery = (hB.locs v).getMaximumDelivery) :
    SimCode (c.withE E) n kA kB := by
  refine ⟨fun x hx => ?_, fun z hz => ?_, fun z hz => ?_, fun v hv => ?_⟩
  · rw [(cA x).1, (cB _).1]; exact C.code x hx
  · rw [(cA z).1]; exact C.zA z hz
  · rw [(cB z).1]; exact C.zB z hz
  · obtain ⟨a1, a2, a3, a4⟩ := cA v
    obtain ⟨b1, b2, b3, b4⟩ := cB v
    rw [a1, a2, a3, a4, b1, b2, b3, b4]
    exact C.old v hv

theorem Location.addEdge_codes (h : Heap) (this d : Nat) (w : Int) (v : Nat) :
    ((Location.addEdge h this d w).2.locs v).code = (h.locs v).code ∧
    ((Location.addEdge h this d w).2.locs v).getName = (h.locs v).getName ∧
    ((Location.addEdge h this d w).2.locs v).getDemand = (h.locs v).getDemand ∧
    ((Location.addEdge h this d w).2.locs v).getMaximumDelivery
      = (h.locs v).getMaximumDelivery :=
  ⟨(Location.addEdge_locs h this d w v).2.2.1, Location.addEdge_kinds h this d w v⟩

/-- Both runs add the same link, or both add none. -/
theorem addEdge_sim {c : Ctx} {n : Nat} {gA gB : Graph} {hA hB : Heap}
    (hgA : gA.vertexSet = c.VA) (hgB : gB.vertexSet = c.VB)
    (B : SimBuild c hA hB) (C : SimCode c n hA hB) (source dest : String) (w : Int) :
    ∃ E, SimBuild (c.withE E) (addEdge gA hA source dest w).2.2
        (addEdge gB hB source dest w).2.2 ∧
      SimCode (c.withE E) n (addEdge gA hA source dest w).2.2
        (addEdge gB hB source dest w).2.2 := by
  have f1 := findVertex_sim hgA hgB C source
  have f2 := findVertex_sim hgA hgB C dest
  unfold addEdge
  rw [f1, f2]
  cases h1 : findVertex gA hA source with
  | none => exact ⟨c.E, B, C⟩
  | some v1 =>
    cases h2 : findVertex gA hA dest with
    | none => exact ⟨c.E, B, C⟩
    | some v2 =>
      have hv1 : v1 ∈ c.VA := hgA ▸ findVertex_mem h1
      have hv2 : v2 ∈ c.VA := hgA ▸ findVertex_mem h2
      refine ⟨fun e => c.E e ∨ e = hA.nextPipe, ?_, ?_⟩
      · exact B.extend hv1 hv2 (Location.addEdge_pipes hA v1 v2 w)
          (Location.addEdge_pipes hB (c.φ v1) (c.φ v2) w)
          (fun x => (Location.addEdge_locs hA v1 v2 w x).1)
          (fun x => (Location.addEdge_locs hB (c.φ v1) (c.φ v2) w x).1)
          (fun x => (Location.addEdge_locs hA v1 v2 w x).2.1)
          (fun x => (Location.addEdge_locs hB (c.φ v1) (c.φ v2) w x).2.1)
          (fun x => (Location.addEdge_locs hA v1 v2 w x).2.2.2.2)
          (fun x => (Location.addEdge_locs hB (c.φ v1) (c.φ v2) w x).2.2.2.2)
          rfl rfl
      · exact C.code_congr _ (Location.addEdge_codes hA v1 v2 w)
          (Location.addEdge_codes hB (c.φ v1) (c.φ v2) w)

theorem addR0Edges_sim (tr : String) (n : Nat) :
    ∀ (psA psB : List (String × Nat)), List.Forall₂ (EntrySim n "R_0") psA psB →
      ∀ (c : Ctx) (gA gB : Graph) (hA hB : Heap),
        gA.vertexSet = c.VA → gB.vertexSet = c.VB → SimBuild c hA hB → SimCode c n hA hB →
        ∃ E, SimBuild (c.withE E) (addR0Edges tr gA hA psA).2 (addR0Edges tr gB hB psB).2 ∧
          SimCode (c.withE E) n (addR0Edges tr gA hA psA).2 (addR0Edges tr gB hB psB).2 ∧
          (addR0Edges tr gA hA psA).1.vertexSet = gA.vertexSet ∧
          (addR0Edges tr gB hB psB).1.vertexSet = gB.vertexSet ∧
          (addR0Edges tr gA hA psA).1.mapCities = gA.mapCities ∧
          (addR0Edges tr gB hB psB).1.mapCities = gB.mapCities := by
  intro psA psB r
  induction r with
  | nil => intro c gA gB hA hB _ _ B C; exact ⟨c.E, B, C, rfl, rfl, rfl, rfl⟩
  | @cons pA pB psA psB hp _ ih =>
    intro c gA gB hA hB hgA hgB B C
    obtain ⟨k1, k2⟩ := hp
    rw [addR0Edges, addR0Edges, ← k1]
    by_cases t1 : (pA.1 == tr) = true
    · rw [if_pos t1, if_pos t1]
      obtain ⟨E1, B1, C1⟩ := addEdge_sim hgA hgB B C "R_0" pA.1 0
      obtain ⟨a1, _, a3⟩ := addEdge_graph gA hA "R_0" pA.1 0
      obtain ⟨b1, _, b3⟩ := addEdge_graph gB hB "R_0" pA.1 0
      obtain ⟨E2, B2, C2, v1, v2, m1, m2⟩ :=
        ih (c.withE E1) _ _ _ _ (a1.trans hgA) (b1.trans hgB) B1 C1
      exact ⟨E2, B2, C2, v1.trans a1, v2.trans b1, m1.trans a3, m2.trans b3⟩
    · rw [if_neg t1, if_neg t1]
      by_cases t2 : (pA.1 != "R_0") = true
      · rw [if_pos t2, if_pos t2]
        obtain ⟨k3, k4⟩ := k2 (by simpa using t2)
        have hw : (hB.locs pB.2).getMaximumDelivery = (hA.locs pA.2).getMaximumDelivery := by
          rw [← k3]; exact (C.old pA.2 k4).2.2.2
        rw [hw]
        obtain ⟨E1, B1, C1⟩ :=
          addEdge_sim hgA hgB B C "R_0" pA.1 (hA.locs pA.2).getMaximumDelivery
        obtain ⟨a1, _, a3⟩ := addEdge_graph gA hA "R_0" pA.1 (hA.locs pA.2).getMaximumDelivery
        obtain ⟨b1, _, b3⟩ := addEdge_graph gB hB "R_0" pA.1 (hA.locs pA.2).getMaximumDelivery
        obtain ⟨E2, B2, C2, v1, v2, m1, m2⟩ :=
          ih (c.withE E1) _ _ _ _ (a1.trans hgA) (b1.trans hgB) B1 C1
        exact ⟨E2, B2, C2, v1.trans a1, v2.trans b1, m1.trans a3, m2.trans b3⟩
      · rw [if_neg t2, if_neg t2]
        exact ih c gA gB hA hB hgA hgB B C

theorem addC0Edges_sim (n : Nat) :
    ∀ (psA psB : List (String × Nat)), List.Forall₂ (EntrySim n "C_0") psA psB →
      ∀ (c : Ctx) (gA gB : Graph) (hA hB : Heap),
        gA.vertexSet = c.VA → gB.vertexSet = c.VB → SimBuild c hA hB → SimCode c n hA hB →
        ∃ E, SimBuild (c.withE E) (addC0Edges gA hA psA).2 (addC0Edges gB hB psB).2 ∧
          SimCode (c.withE E) n (addC0Edges gA hA psA).2 (addC0Edges gB hB psB).2 ∧
          (addC0Edges gA hA psA).1.vertexSet = gA.vertexSet ∧
          (addC0Edges gB hB psB).1.vertexSet = gB.vertexSet ∧
          (addC0Edges gA hA psA).1.mapCities = gA.mapCities ∧
          (addC0Edges gB hB psB).1.mapCities = gB.mapCities := by
  intro psA psB r
  induction r with
  | nil => intro c gA gB hA hB _ _ B C; exact ⟨c.E, B, C, rfl, rfl, rfl, rfl⟩
  | @cons pA pB psA psB hp _ ih =>
    intro c gA gB hA hB hgA hgB B C
    obtain ⟨k1, k2⟩ := hp
    rw [addC0Edges, addC0Edges, ← k1]
    by_cases t2 : (pA.1 != "C_0") = true
    · rw [if_pos t2, if_pos t2]
      obtain ⟨k3, k4⟩ := k2 (by simpa using t2)
      have hw : (hB.locs pB.2).getDemand = (hA.locs pA.2).getDemand := by
        rw [← k3]; exact (C.old pA.2 k4).2.2.1
      rw [hw]
      obtain ⟨E1, B1, C1⟩ := addEdge_sim hgA hgB B C pA.1 "C_0" (hA.locs pA.2).getDemand
      obtain ⟨a1, _, a3⟩ := addEdge_graph gA hA pA.1 "C_0" (hA.locs pA.2).getDemand
      obtain ⟨b1, _, b3⟩ := addEdge_graph gB hB pA.1 "C_0" (hA.locs pA.2).getDemand
      obtain ⟨E2, B2, C2, v1, v2, m1, m2⟩ :=
        ih (c.withE E1) _ _ _ _ (a1.trans hgA) (b1.trans hgB) B1 C1
      exact ⟨E2, B2, C2, v1.trans a1, v2.trans b1, m1.trans a3, m2.trans b3⟩
    · rw [if_neg t2, if_neg t2]
      exact ih c gA gB hA hB hgA hgB B C

end Project1

namespace Project1

/-! ## Comparing a second query with the first: the starting point -/

theorem OutSim.out_ext {c : Ctx} {hA hB : Heap} : ∀ (l ex : List Nat),
    (∀ e ∈ l, c.E e ∧ c.ψ e = e) → (∀ e ∈ ex, c.ZB (hB.pipes e).dest) →
    OutSim c hA hB l (l ++ ex) := by
  intro l
  induction l with
  | nil =>
    intro ex _ hz
    induction ex with
    | nil => exact OutSim.nil
    | cons e ex ih =>
      exact OutSim.right e [] ex (hz e (List.mem_cons_self _ _))
        (ih (fun x hx => hz x (List.mem_cons_of_mem _ hx)))
  | cons e l ih =>
    intro ex hl hz
    have h1 := @OutSim.both c hA hB e l (l ++ ex)
      (hl e (List.mem_cons_self _ _)).1 (ih ex (fun x hx => hl x (List.mem_cons_of_mem _ hx)) hz)
    rw [(hl e (List.mem_cons_self _ _)).2] at h1
    exact h1

theorem InSim.in_ext {c : Ctx} {hA hB : Heap} : ∀ (l ey : List Nat),
    (∀ e ∈ l, c.E e ∧ c.ψ e = e) → (∀ e ∈ ey, c.YB (hB.pipes e).orig) →
    InSim c hA hB l (l ++ ey) := by
  intro l
  induction l with
  | nil =>
    intro ey _ hz
    induction ey with
    | nil => exact InSim.nil
    | cons e ey ih =>
      exact InSim.right e [] ey (hz e (List.mem_cons_self _ _))
        (ih (fun x hx => hz x (List.mem_cons_of_mem _ hx)))
  | cons e l ih =>
    intro ey hl hz
    have h1 := @InSim.both c hA hB e l (l ++ ey)
      (hl e (List.mem_cons_self _ _)).1 (ih ey (fun x hx => hl x (List.mem_cons_of_mem _ hx)) hz)
    rw [(hl e (List.mem_cons_self _ _)).2] at h1
    exact h1

theorem queryCtx_mem_VA {V : List Nat} {h h1 : Heap} {x : Nat} :
    x ∈ (queryCtx V h h1).VA ↔ x ∈ V ∨ x = h.nextLoc ∨ x = h.nextLoc + 1 := by
  simp [queryCtx, or_assoc]

theorem queryCtx_phi_old {V : List Nat} {h h1 : Heap} {x : Nat} (hx : x < h.nextLoc) :
    (queryCtx V h h1).φ x = x := by
  simp [queryCtx, hx]

theorem queryCtx_phi_new {V : List Nat} {h h1 : Heap} {x : Nat} (hx : h.nextLoc ≤ x) :
    (queryCtx V h h1).φ x = x + 2 := by
  simp only [queryCtx]
  rw [if_neg (by omega)]

theorem queryCtx_psi_old {V : List Nat} {h h1 : Heap} {e : Nat} (he : e < h.nextPipe) :
    (queryCtx V h h1).ψ e = e := by
  simp [queryCtx, he]

theorem queryCtx_mem_VB {V : List Nat} {h h1 : Heap} (hV : ∀ v ∈ V, v < h.nextLoc) {x : Nat} :
    x ∈ (queryCtx V h h1).VB ↔ x ∈ V ∨ x = h.nextLoc + 2 ∨ x = h.nextLoc + 3 := by
  unfold Ctx.VB
  rw [List.mem_map]
  constructor
  · rintro ⟨y, hy, rfl⟩
    rcases queryCtx_mem_VA.1 hy with h1 | h1 | h1
    · rw [queryCtx_phi_old (hV y h1)]; exact Or.inl h1
    · rw [queryCtx_phi_new (by omega), h1]; exact Or.inr (Or.inl rfl)
    · rw [queryCtx_phi_new (by omega), h1]; exact Or.inr (Or.inr rfl)
  · rintro (h1 | h1 | h1)
    · exact ⟨x, queryCtx_mem_VA.2 (Or.inl h1), queryCtx_phi_old (hV x h1)⟩
    · exact ⟨h.nextLoc, queryCtx_mem_VA.2 (Or.inr (Or.inl rfl)),
        by rw [queryCtx_phi_new (le_refl _), h1]⟩
    · exact ⟨h.nextLoc + 1, queryCtx_mem_VA.2 (Or.inr (Or.inr rfl)),
        by rw [queryCtx_phi_new (by omega), h1]⟩

theorem queryCtx_VB {V : List Nat} {h h1 : Heap} (hV : ∀ v ∈ V, v < h.nextLoc) :
    (queryCtx V h h1).VB = V ++ [h.nextLoc + 2] ++ [h.nextLoc + 3] := by
  have hm : V.map (queryCtx V h h1).φ = V := by
    have : ∀ (l : List Nat), (∀ v ∈ l, v < h.nextLoc) → l.map (queryCtx V h h1).φ = l := by
      intro l
      induction l with
      | nil => intro _; rfl
      | cons a l ih =>
        intro hl
        rw [List.map_cons, queryCtx_phi_old (hl a (List.mem_cons_self _ _)),
          ih (fun v hv => hl v (List.mem_cons_of_mem _ hv))]
    exact this V hV
  unfold Ctx.VB
  show (V ++ [h.nextLoc] ++ [h.nextLoc + 1]).map (queryCtx V h h1).φ = _
  rw [List.map_append, List.map_append, hm]
  simp only [List.map_cons, List.map_nil]
  rw [queryCtx_phi_new (le_refl _), queryCtx_phi_new (Nat.le_succ _)]

end Project1

namespace Project1

/-- The heap a first query leaves behind, with fresh terminals, corresponds to
the heap the first query started from, with fresh terminals. -/
theorem query_init {this : Graph} {h h1 : Heap} (rd : QueryReady this h)
    (G : Grown this.vertexSet h.nextLoc h.nextPipe h h1)
    (hvis : (h1.locs h.nextLoc).visited = true) :
    SimBuild (queryCtx this.vertexSet h h1) (allocTerminals h) (allocTerminals h1) ∧
    SimCode (queryCtx this.vertexSet h h1) h.nextLoc (allocTerminals h) (allocTerminals h1) := by
  obtain ⟨wf, r2, r3, r4, r5⟩ := rd
  have hV : ∀ v ∈ this.vertexSet, v < h.nextLoc := fun v hv => (r2 v hv).1
  obtain ⟨a1, a2, a3, a4, a5, a6⟩ := allocTerminals_spec h
  obtain ⟨b1, b2, b3, b4, b5, b6⟩ := allocTerminals_spec h1
  rw [G.nextLoc] at b4 b5 b6
  have b4o : ∀ x, x < h.nextLoc → (allocTerminals h1).locs x = h1.locs x :=
    fun x hx => b4 x (by omega)
  have b4s : (allocTerminals h1).locs (h.nextLoc + 1) = h1.locs (h.nextLoc + 1) :=
    b4 _ (by omega)
  have b4r : (allocTerminals h1).locs h.nextLoc = h1.locs h.nextLoc := b4 _ (by omega)
  have hE : ∀ x ∈ this.vertexSet, ∀ e ∈ (h.locs x).adj,
      (queryCtx this.vertexSet h h1).E e ∧ e < h.nextPipe := by
    intro x hx e he
    have : e ∈ allPipes h this.vertexSet := Project1.mem_allPipes.2 ⟨x, hx, he⟩
    exact ⟨this, r3 e this⟩
  have hEi : ∀ x ∈ this.vertexSet, ∀ e ∈ (h.locs x).incoming,
      (queryCtx this.vertexSet h h1).E e ∧ e < h.nextPipe := by
    intro x hx e he
    obtain ⟨_, q2, q3⟩ := wf.inc_ok x hx e he
    exact hE _ q2 e q3
  have hEb : ∀ e, (queryCtx this.vertexSet h h1).E e → e < h.nextPipe := fun e he => r3 e he
  have hphiInj : ∀ x y, (queryCtx this.vertexSet h h1).φ x = (queryCtx this.vertexSet h h1).φ y
      → x = y := by
    intro x y hxy
    simp only [queryCtx] at hxy
    split at hxy <;> split at hxy <;> omega
  have hnotVB : h.nextLoc + 1 ∉ (queryCtx this.vertexSet h h1).VB := by
    rw [queryCtx_mem_VB hV]
    rintro (q | q | q)
    · have := hV _ q; omega
    · omega
    · omega
  have hnotVB0 : h.nextLoc ∉ (queryCtx this.vertexSet h h1).VB := by
    rw [queryCtx_mem_VB hV]
    rintro (q | q | q)
    · have := hV _ q; omega
    · omega
    · omega
  have shape : SimS (queryCtx this.vertexSet h h1) (allocTerminals h) (allocTerminals h1) := by
    refine ⟨fun x _ y _ hxy => hphiInj x y hxy, ?_, ?_, ?_, ?_, ?_, ?_,
      fun z hz => absurd hz (fun hh => hh), ?_, fun y hy => absurd hy (fun hh => hh), ?_⟩
    · intro e e1 _ _ heq
      simp only [queryCtx] at heq
      split at heq <;> split at heq <;> omega
    · intro e he
      obtain ⟨x, hx, hxe⟩ := Project1.mem_allPipes.1 he
      obtain ⟨q1, q2, _⟩ := wf.adj_ok x hx e hxe
      have hem := r3 e he
      obtain ⟨g1, g2, g3, g4⟩ := G.pipes e hem
      rw [queryCtx_psi_old hem, a1, b1, q1, g1, g2, g3, g4, q1,
        queryCtx_phi_old (hV x hx), queryCtx_phi_old (hV _ q2), a4 x (hV x hx)]
      exact ⟨queryCtx_mem_VA.2 (Or.inl hx), queryCtx_mem_VA.2 (Or.inl q2), hxe, rfl, rfl, rfl,
        rfl⟩
    · intro x hx
      rcases queryCtx_mem_VA.1 hx with q | q | q
      · obtain ⟨ex, e1, e2⟩ := G.adj x q
        rw [queryCtx_phi_old (hV x q), a4 x (hV x q), b4o x (hV x q), e1]
        refine OutSim.out_ext _ _ (fun e he => ?_) (fun e he => ?_)
        · obtain ⟨k1, k2⟩ := hE x q e he
          exact ⟨k1, queryCtx_psi_old k2⟩
        · rw [b1, (e2 e he).1]; rfl
      · rw [q, queryCtx_phi_new (le_refl _), a5, b5]; exact OutSim.nil
      · rw [q, queryCtx_phi_new (Nat.le_succ _), a6, b6]; exact OutSim.nil
    · intro x hx
      rcases queryCtx_mem_VA.1 hx with q | q | q
      · obtain ⟨ey, e1, e2⟩ := G.inc x q
        rw [queryCtx_phi_old (hV x q), a4 x (hV x q), b4o x (hV x q), e1]
        refine InSim.in_ext _ _ (fun e he => ?_) (fun e he => ?_)
        · obtain ⟨k1, k2⟩ := hEi x q e he
          exact ⟨k1, queryCtx_psi_old k2⟩
        · rw [b1, (e2 e he).1]; rfl
      · rw [q, queryCtx_phi_new (le_refl _), a5, b5]; exact InSim.nil
      · rw [q, queryCtx_phi_new (Nat.le_succ _), a6, b6]; exact InSim.nil
    · intro x hx e he _
      rcases queryCtx_mem_VA.1 hx with q | q | q
      · rw [a4 x (hV x q)] at he
        rw [a1]; exact (wf.adj_ok x q e he).1
      · rw [q, a5] at he; exact absurd he (List.not_mem_nil _)
      · rw [q, a6] at he; exact absurd he (List.not_mem_nil _)
    · intro x hx e he _
      rcases queryCtx_mem_VA.1 hx with q | q | q
      · rw [a4 x (hV x q)] at he
        rw [a1]; exact (wf.inc_ok x q e he).1
      · rw [q, a5] at he; exact absurd he (List.not_mem_nil _)
      · rw [q, a6] at he; exact absurd he (List.not_mem_nil _)
    · intro z hz
      have hz1 : z = h.nextLoc + 1 := hz
      subst hz1
      refine ⟨hnotVB, by rw [b4s]; exact G.sinkAdj, fun e he => ?_⟩
      rw [b4s] at he
      obtain ⟨s1, _, u, hu, hue⟩ := G.sinkInc e he
      refine ⟨?_, u, (queryCtx_mem_VB hV).2 (Or.inl hu), by rw [b4o u (hV u hu)]; exact hue⟩
      rintro ⟨e0, he0, he1⟩
      have := hEb e0 he0
      rw [queryCtx_psi_old this] at he1
      omega
    · intro y hy
      have hy1 : y = h.nextLoc := hy
      rw [hy1]; exact hnotVB0
  have build : SimBuild (queryCtx this.vertexSet h h1) (allocTerminals h) (allocTerminals h1) := by
    refine ⟨shape, ⟨fun y hy => absurd hy (fun hh => hh), fun y hy => ?_⟩, fun e he => ?_,
      fun e he => ?_, fun x hx => ?_, fun x hx => ?_, fun z hz => absurd hz (fun hh => hh),
      fun z hz e he => ?_⟩
    · have hy1 : y = h.nextLoc := hy
      rw [hy1, b4r]; exact hvis
    · rw [a2] at he
      rw [a2, b2]
      have := G.nextPipe
      simp only [queryCtx]
      rw [if_neg (by omega)]
      omega
    · have := hEb e he
      rw [queryCtx_psi_old this, a2, b2]
      have := G.nextPipe
      omega
    · rw [a2]
      rcases queryCtx_mem_VA.1 hx with q | q | q
      · rw [a4 x (hV x q)]
        exact ⟨fun e he => (hE x q e he).2, fun e he => (hEi x q e he).2⟩
      · rw [q, a5]
        exact ⟨fun e he => absurd he (List.not_mem_nil _),
          fun e he => absurd he (List.not_mem_nil _)⟩
      · rw [q, a6]
        exact ⟨fun e he => absurd he (List.not_mem_nil _),
          fun e he => absurd he (List.not_mem_nil _)⟩
    · rw [b2]
      have hnp := G.nextPipe
      rcases (queryCtx_mem_VB hV).1 hx with q | q | q
      · rw [b4o x (hV x q)]
        obtain ⟨ex, e1, e2⟩ := G.adj x q
        obtain ⟨ey, i1, i2⟩ := G.inc x q
        rw [e1, i1]
        refine ⟨fun e he => ?_, fun e he => ?_⟩
        · rcases List.mem_append.1 he with k | k
          · have := (hE x q e k).2; omega
          · exact (e2 e k).2.2
        · rcases List.mem_append.1 he with k | k
          · have := (hEi x q e k).2; omega
          · exact (i2 e k).2.2
      · rw [q, b5]
        exact ⟨fun e he => absurd he (List.not_mem_nil _),
          fun e he => absurd he (List.not_mem_nil _)⟩
      · rw [q, b6]
        exact ⟨fun e he => absurd he (List.not_mem_nil _),
          fun e he => absurd he (List.not_mem_nil _)⟩
    · have hz1 : z = h.nextLoc + 1 := hz
      rw [hz1, b4s] at he
      rw [b2]
      exact (G.sinkInc e he).2.1
  refine ⟨build, fun x hx => ?_, fun z hz => absurd hz (fun hh => hh), fun z hz => ?_,
    fun v hv => ?_⟩
  · rcases queryCtx_mem_VA.1 hx with q | q | q
    · rw [queryCtx_phi_old (hV x q), a4 x (hV x q), b4o x (hV x q)]
      exact (G.old x (hV x q)).1
    · rw [q, queryCtx_phi_new (le_refl _), a5, b5]
    · rw [q, queryCtx_phi_new (Nat.le_succ _), a6, b6]
  · have hz1 : z = h.nextLoc + 1 := hz
    rw [hz1, b4s]; exact G.codeC
  · rw [a4 v hv, b4o v hv]; exact G.old v hv

end Project1

namespace Project1

/-! ## A second query returns what the first one returned -/

theorem forall₂_snoc {α : Type} {R : α → α → Prop} {a b : α} (hab : R a b) :
    ∀ (l : List α), (∀ p ∈ l, R p p) → List.Forall₂ R (l ++ [a]) (l ++ [b]) := by
  intro l
  induction l with
  | nil => intro _; exact List.Forall₂.cons hab List.Forall₂.nil
  | cons x l ih =>
    intro hl
    exact List.Forall₂.cons (hl x (List.mem_cons_self _ _))
      (ih (fun p hp => hl p (List.mem_cons_of_mem _ hp)))

/-- The heap left by a query on a ready network. -/
theorem getCitiesFlow_grown {this : Graph} {h : Heap} (rd : QueryReady this h)
    {fuel : Nat} {oneCity tr : String} {l1 : List CityInfo} {h1 : Heap} (htr : tr ≠ "R_0")
    (he : getCitiesFlow fuel this h true oneCity tr = Result.ok l1 h1) :
    Grown this.vertexSet h.nextLoc h.nextPipe h h1 ∧ (h1.locs h.nextLoc).visited = true ∧
    ∃ kA, edmondsKarp fuel (addR0C0 this h tr).1 (addR0C0 this h tr).2 "R_0" "C_0"
        = Result.ok () kA ∧
      l1 = (collectCities (addR0C0 this h tr).1 kA (addR0C0 this h tr).1.mapCities []).1 := by
  obtain ⟨G, vs, _⟩ := addR0C0_grown rd htr
  unfold getCitiesFlow at he
  simp only at he
  obtain ⟨u, kA, e1, e2⟩ := Result.bind_eq_ok he
  simp only [if_true, Result.ok.injEq] at e2
  obtain ⟨f1, _, _⟩ := findVertex_terminals G vs rd.2.1
  have hsrc := edmondsKarp_src f1 e1
  have G1 := G.solver (edmondsKarp_frame _ _ _ _ _ kA (Result.heap_of_ok e1))
  obtain ⟨G2, v2⟩ := collectCities_grown (addR0C0 this h tr).1 h.nextLoc
    (addR0C0 this h tr).1.mapCities kA [] G1 hsrc
  rw [e2.2] at G2 v2
  exact ⟨G2, v2, kA, e1, e2.1.symm⟩

theorem SolverFrame.codes {h k : Heap} (F : SolverFrame h k) (v : Nat) :
    (k.locs v).code = (h.locs v).code ∧
    (k.locs v).getName = (h.locs v).getName ∧
    (k.locs v).getDemand = (h.locs v).getDemand ∧
    (k.locs v).getMaximumDelivery = (h.locs v).getMaximumDelivery := by
  obtain ⟨a, _, _, _, _, _, b⟩ := F.locs v
  simp only [Location.getName, Location.getDemand, Location.getMaximumDelivery, a, b]
  exact ⟨trivial, trivial, trivial, trivial⟩

/-- The networks built by `addR0C0` for the first and for the second query
correspond. -/
theorem addR0C0_sim {this : Graph} {h h1 : Heap} (rd : QueryReady this h)
    (G : Grown this.vertexSet h.nextLoc h.nextPipe h h1)
    (hvis : (h1.locs h.nextLoc).visited = true) :
    ∃ E, SimBuild ((queryCtx this.vertexSet h h1).withE E)
        (addR0C0 this h "").2 (addR0C0 this h1 "").2 ∧
      SimCode ((queryCtx this.vertexSet h h1).withE E) h.nextLoc
        (addR0C0 this h "").2 (addR0C0 this h1 "").2 ∧
      (addR0C0 this h "").1.vertexSet = ((queryCtx this.vertexSet h h1).withE E).VA ∧
      (addR0C0 this h1 "").1.vertexSet = ((queryCtx this.vertexSet h h1).withE E).VB ∧
      List.Forall₂ (EntrySim h.nextLoc "C_0") (addR0C0 this h "").1.mapCities
        (addR0C0 this h1 "").1.mapCities := by
  obtain ⟨B0, C0⟩ := query_init rd G hvis
  obtain ⟨wf, r2, r3, r4, r5⟩ := rd
  have hV : ∀ v ∈ this.vertexSet, v < h.nextLoc := fun v hv => (r2 v hv).1
  have kR : ∀ p ∈ this.mapReservoirs, p.1 ≠ "R_0" := fun p hp => (r4 p hp).1
  have kC : ∀ p ∈ this.mapCities, p.1 ≠ "C_0" := fun p hp => (r5 p hp).2.1
  rw [addR0C0_eq this h "" kR kC, addR0C0_eq this h1 "" kR kC, G.nextLoc]
  have hgA : (withTerminals this h.nextLoc).vertexSet = (queryCtx this.vertexSet h h1).VA := rfl
  have hgB : (withTerminals this (h.nextLoc + 2)).vertexSet
      = (queryCtx this.vertexSet h h1).VB := by
    rw [queryCtx_VB hV]; rfl
  have lR : List.Forall₂ (EntrySim h.nextLoc "R_0") (withTerminals this h.nextLoc).mapReservoirs
      (withTerminals this (h.nextLoc + 2)).mapReservoirs :=
    forall₂_snoc ⟨rfl, fun hh => absurd rfl hh⟩ _
      (fun p hp => ⟨rfl, fun _ => ⟨rfl, (r4 p hp).2.2⟩⟩)
  obtain ⟨E1, B1, C1, v1A, v1B, m1A, m1B⟩ := addR0Edges_sim "" h.nextLoc _ _ lR
    (queryCtx this.vertexSet h h1) _ _ _ _ hgA hgB B0 C0
  have lC : List.Forall₂ (EntrySim h.nextLoc "C_0")
      (addR0Edges "" (withTerminals this h.nextLoc) (allocTerminals h)
        (withTerminals this h.nextLoc).mapReservoirs).1.mapCities
      (addR0Edges "" (withTerminals this (h.nextLoc + 2)) (allocTerminals h1)
        (withTerminals this (h.nextLoc + 2)).mapReservoirs).1.mapCities := by
    rw [m1A, m1B]
    exact forall₂_snoc ⟨rfl, fun hh => absurd rfl hh⟩ _
      (fun p hp => ⟨rfl, fun _ => ⟨rfl, (r5 p hp).2.2⟩⟩)
  obtain ⟨E2, B2, C2, v2A, v2B, m2A, m2B⟩ := addC0Edges_sim h.nextLoc _ _ lC
    ((queryCtx this.vertexSet h h1).withE E1) _ _ _ _ (v1A.trans hgA) (v1B.trans hgB) B1 C1
  refine ⟨E2, B2, C2, v2A.trans (v1A.trans hgA), v2B.trans (v1B.trans hgB), ?_⟩
  rw [m2A, m2B]; exact lC

/-- On a ready network, a second `getCitiesFlow(true)` returns the list the first
one returned. -/
theorem getCitiesFlow_again {this : Graph} {h : Heap} (rd : QueryReady this h)
    {fuel : Nat} {l1 : List CityInfo} {h1 : Heap}
    (he : getCitiesFlow fuel this h true "" "" = Result.ok l1 h1) :
    ∃ F, ∀ f, F ≤ f → (getCitiesFlow f this h1 true "" "").value = some l1 := by
  have htr : ("" : String) ≠ "R_0" := by decide
  obtain ⟨G, hvis, kA, eA, hl⟩ := getCitiesFlow_grown rd htr he
  obtain ⟨GA, vsA, _⟩ := addR0C0_grown rd htr
  obtain ⟨f1, f2, _⟩ := findVertex_terminals GA vsA rd.2.1
  obtain ⟨E, B, C, hgA, hgB, lC⟩ := addR0C0_sim rd G hvis
  have g1 := findVertex_sim hgA hgB C "R_0"
  have g2 := findVertex_sim hgA hgB C "C_0"
  rw [f1] at g1
  rw [f2] at g2
  obtain ⟨F, kB, hF, R, _⟩ := edmondsKarp_sim hgA hgB f1 f2 g1 g2 B.shape B.stale eA
  refine ⟨F, fun f hf => ?_⟩
  have eB := hF f hf
  have frA := edmondsKarp_frame _ _ _ _ _ kA (Result.heap_of_ok eA)
  have frB := edmondsKarp_frame _ _ _ _ _ kB (Result.heap_of_ok eB)
  have C3 : SimCode ((queryCtx this.vertexSet h h1).withE E) h.nextLoc kA kB :=
    C.code_congr E frA.codes frB.codes
  have hcol := collectCities_sim hgA hgB _ _ lC kA kB [] R C3
  unfold getCitiesFlow
  simp only
  rw [eB]
  simp only [Result.bind, if_true, Result.value]
  rw [hl, ← hcol]

end Project1

namespace Project1

/-! ## Adding a link keeps the network well formed -/

theorem flatMap_congr_mem {f g : Nat → List Nat} : ∀ (V : List Nat),
    (∀ v ∈ V, f v = g v) → V.flatMap f = V.flatMap g := by
  intro V
  induction V with
  | nil => intro _; rfl
  | cons x V ih =>
    intro hV
    simp only [List.flatMap_cons]
    rw [hV x (List.mem_cons_self _ _), ih (fun v hv => hV v (List.mem_cons_of_mem _ hv))]

theorem nodup_flatMap_snoc {f g : Nat → List Nat} {a e : Nat}
    (hg : ∀ v, g v = if v = a then f v ++ [e] else f v) :
    ∀ (V : List Nat), V.Nodup → (V.flatMap f).Nodup → e ∉ V.flatMap f →
      (V.flatMap g).Nodup := by
  intro V
  induction V with
  | nil => intro _ _ _; exact List.nodup_nil
  | cons x V ih =>
    intro hV hn he
    simp only [List.flatMap_cons] at hn he ⊢
    obtain ⟨hx, hV1⟩ := List.nodup_cons.1 hV
    obtain ⟨n1, n2, n3⟩ := List.nodup_append.1 hn
    have he1 : e ∉ f x := fun h => he (List.mem_append_left _ h)
    have he2 : e ∉ V.flatMap f := fun h => he (List.mem_append_right _ h)
    by_cases hxa : x = a
    · have hsame : V.flatMap g = V.flatMap f := by
        refine flatMap_congr_mem V (fun v hv => ?_)
        rw [hg v, if_neg]
        rintro rfl
        exact hx (hxa ▸ hv)
      rw [hsame, hg x, if_pos hxa]
      refine List.nodup_append.2 ⟨?_, n2, ?_⟩
      · refine List.nodup_append.2 ⟨n1, List.nodup_singleton _, ?_⟩
        intro y hy hy1
        rw [List.mem_singleton.1 hy1] at hy
        exact he1 hy
      · intro y hy hy1
        rcases List.mem_append.1 hy with h | h
        · exact n3 h hy1
        · rw [List.mem_singleton.1 h] at hy1
          exact he2 hy1
    · rw [hg x, if_neg hxa]
      refine List.nodup_append.2 ⟨n1, ih hV1 n2 he2, ?_⟩
      intro y hy hy1
      obtain ⟨v, hv, hyv⟩ := List.mem_flatMap.1 hy1
      rw [hg v] at hyv
      split at hyv
      · rcases List.mem_append.1 hyv with h | h
        · exact n3 hy (List.mem_flatMap.2 ⟨v, hv, h⟩)
        · rw [List.mem_singleton.1 h] at hy
          exact he1 hy
      · exact n3 hy (List.mem_flatMap.2 ⟨v, hv, hyv⟩)

/-- Model-level `Location::addEdge` between two vertices of the network keeps
it well formed, allocated and with non-negative capacities. -/
theorem NetOK.link {h : Heap} {V : List Nat} (N : NetOK h V) {a d : Nat}
    (ha : a ∈ V) (hd : d ∈ V) {w : Int} (hw : 0 ≤ w) :
    NetOK (Location.addEdge h a d w).2 V := by
  have L := Location.addEdge_locs h a d w
  have P := Location.addEdge_pipes h a d w
  have wf := N.wf
  have old : ∀ e, e < h.nextPipe → (Location.addEdge h a d w).2.pipes e = h.pipes e :=
    fun e he => by rw [P, if_neg (Nat.ne_of_lt he)]
  have new : (Location.addEdge h a d w).2.pipes h.nextPipe =
      { dest := d, weight := w, orig := a, reverse := none, flow := 0, activated := true } := by
    rw [P, if_pos rfl]
  have bAdj : ∀ v ∈ V, ∀ e ∈ (h.locs v).adj, e < h.nextPipe :=
    fun v hv e he => N.bound e (Project1.mem_allPipes.2 ⟨v, hv, he⟩)
  have bInc : ∀ v ∈ V, ∀ e ∈ (h.locs v).incoming, e < h.nextPipe := by
    intro v hv e he
    obtain ⟨_, q2, q3⟩ := wf.inc_ok v hv e he
    exact bAdj _ q2 e q3
  have memA : ∀ v e, e ∈ ((Location.addEdge h a d w).2.locs v).adj →
      e ∈ (h.locs v).adj ∨ (e = h.nextPipe ∧ v = a) := by
    intro v e he; rw [(L v).1] at he; split at he
    · rename_i hx
      rcases List.mem_append.1 he with k | k
      · exact Or.inl k
      · exact Or.inr ⟨List.mem_singleton.1 k, hx⟩
    · exact Or.inl he
  have memI : ∀ v e, e ∈ ((Location.addEdge h a d w).2.locs v).incoming →
      e ∈ (h.locs v).incoming ∨ (e = h.nextPipe ∧ v = d) := by
    intro v e he; rw [(L v).2.1] at he; split at he
    · rename_i hx
      rcases List.mem_append.1 he with k | k
      · exact Or.inl k
      · exact Or.inr ⟨List.mem_singleton.1 k, hx⟩
    · exact Or.inl he
  have subA : ∀ v e, e ∈ (h.locs v).adj → e ∈ ((Location.addEdge h a d w).2.locs v).adj := by
    intro v e he; rw [(L v).1]; split
    · exact List.mem_append_left _ he
    · exact he
  have subI : ∀ v e, e ∈ (h.locs v).incoming →
      e ∈ ((Location.addEdge h a d w).2.locs v).incoming := by
    intro v e he; rw [(L v).2.1]; split
    · exact List.mem_append_left _ he
    · exact he
  have newA : h.nextPipe ∈ ((Location.addEdge h a d w).2.locs a).adj := by
    rw [(L a).1, if_pos rfl]; exact List.mem_append_right _ (List.mem_singleton_self _)
  have newI : h.nextPipe ∈ ((Location.addEdge h a d w).2.locs d).incoming := by
    rw [(L d).2.1, if_pos rfl]; exact List.mem_append_right _ (List.mem_singleton_self _)
  have hfresh : h.nextPipe ∉ allPipes h V := fun hh => lt_irrefl _ (N.bound _ hh)
  refine ⟨⟨wf.nodupV, ?_, ?_, ?_, ?_⟩, ?_, ?_⟩
  · exact nodup_flatMap_snoc (fun v => (L v).1) V wf.nodupV wf.nodupE hfresh
  · intro v hv e he
    rcases memA v e he with k | ⟨k1, k2⟩
    · obtain ⟨q1, q2, q3⟩ := wf.adj_ok v hv e k
      rw [old e (bAdj v hv e k)]
      exact ⟨q1, q2, subI _ _ q3⟩
    · rw [k1, new, k2]
      exact ⟨rfl, hd, newI⟩
  · intro v hv e he
    rcases memI v e he with k | ⟨k1, k2⟩
    · obtain ⟨q1, q2, q3⟩ := wf.inc_ok v hv e k
      rw [old e (bInc v hv e k)]
      exact ⟨q1, q2, subA _ _ q3⟩
    · rw [k1, new, k2]
      exact ⟨rfl, ha, newA⟩
  · intro v hv
    rw [(L v).2.1]
    split
    · refine List.nodup_append.2 ⟨wf.nodupInc v hv, List.nodup_singleton _, ?_⟩
      intro y hy hy1
      rw [List.mem_singleton.1 hy1] at hy
      exact lt_irrefl _ (bInc v hv _ hy)
    · exact wf.nodupInc v hv
  · intro e he
    obtain ⟨v, hv, hve⟩ := Project1.mem_allPipes.1 he
    show e < h.nextPipe + 1
    rcases memA v e hve with k | ⟨k1, _⟩
    · exact Nat.lt_succ_of_lt (bAdj v hv e k)
    · rw [k1]; exact Nat.lt_succ_self _
  · intro e he
    obtain ⟨v, hv, hve⟩ := Project1.mem_allPipes.1 he
    rcases memA v e hve with k | ⟨k1, _⟩
    · rw [old e (bAdj v hv e k)]
      exact N.caps e (Project1.mem_allPipes.2 ⟨v, hv, k⟩)
    · rw [k1, new]; exact hw

/-- Graph-level `addEdge` keeps the network well formed. -/
theorem NetOK.graphAddEdge {g : Graph} {h : Heap} (N : NetOK h g.vertexSet)
    (source dest : String) {w : Int} (hw : 0 ≤ w) :
    NetOK (Project1.addEdge g h source dest w).2.2 g.vertexSet := by
  unfold Project1.addEdge
  cases h1 : findVertex g h source with
  | none => exact N
  | some v1 =>
    cases h2 : findVertex g h dest with
    | none => exact N
    | some v2 => exact N.link (findVertex_mem h1) (findVertex_mem h2) hw

theorem addEdge_kind (g : Graph) (h : Heap) (source dest : String) (w : Int) (v : Nat) :
    ((addEdge g h source dest w).2.2.locs v).kind = (h.locs v).kind := by
  unfold addEdge
  cases findVertex g h source with
  | none => rfl
  | some v1 =>
    cases findVertex g h dest with
    | none => rfl
    | some v2 => exact (Location.addEdge_locs h v1 v2 w v).2.2.2.1

end Project1

namespace Project1

/-! ## The first query returns -/

theorem allPipes_alloc {h : Heap} {V : List Nat} (hV : ∀ v ∈ V, v < h.nextLoc) :
    allPipes (allocTerminals h) (V ++ [h.nextLoc] ++ [h.nextLoc + 1]) = allPipes h V := by
  obtain ⟨_, _, _, a4, a5, a6⟩ := allocTerminals_spec h
  unfold allPipes
  rw [List.flatMap_append, List.flatMap_append]
  simp only [List.flatMap_cons, List.flatMap_nil, a5, a6, List.append_nil]
  exact flatMap_congr_mem V (fun v hv => by rw [a4 v (hV v hv)])

theorem NetOK.alloc {h : Heap} {V : List Nat} (N : NetOK h V) (hV : ∀ v ∈ V, v < h.nextLoc) :
    NetOK (allocTerminals h) (V ++ [h.nextLoc] ++ [h.nextLoc + 1]) := by
  obtain ⟨a1, a2, _, a4, a5, a6⟩ := allocTerminals_spec h
  have wf := N.wf
  have hmem : ∀ x, x ∈ V ++ [h.nextLoc] ++ [h.nextLoc + 1] ↔
      x ∈ V ∨ x = h.nextLoc ∨ x = h.nextLoc + 1 := by
    intro x; simp [or_assoc]
  refine ⟨⟨?_, ?_, ?_, ?_, ?_⟩, ?_, ?_⟩
  · rw [List.append_assoc]
    refine List.nodup_append.2 ⟨wf.nodupV, by simp, ?_⟩
    intro x hx hx1
    have := hV x hx
    simp only [List.cons_append, List.nil_append, List.mem_cons, List.mem_singleton,
      List.not_mem_nil, or_false] at hx1
    omega
  · rw [allPipes_alloc hV]; exact wf.nodupE
  · intro v hv e he
    rcases (hmem v).1 hv with q | q | q
    · rw [a4 v (hV v q)] at he
      obtain ⟨q1, q2, q3⟩ := wf.adj_ok v q e he
      rw [a1, a4 _ (hV _ q2)]
      exact ⟨q1, (hmem _).2 (Or.inl q2), q3⟩
    · rw [q, a5] at he; exact absurd he (List.not_mem_nil _)
    · rw [q, a6] at he; exact absurd he (List.not_mem_nil _)
  · intro v hv e he
    rcases (hmem v).1 hv with q | q | q
    · rw [a4 v (hV v q)] at he
      obtain ⟨q1, q2, q3⟩ := wf.inc_ok v q e he
      rw [a1, a4 _ (hV _ q2)]
      exact ⟨q1, (hmem _).2 (Or.inl q2), q3⟩
    · rw [q, a5] at he; exact absurd he (List.not_mem_nil _)
    · rw [q, a6] at he; exact absurd he (List.not_mem_nil _)
  · intro v hv
    rcases (hmem v).1 hv with q | q | q
    · rw [a4 v (hV v q)]; exact wf.nodupInc v q
    · rw [q, a5]; exact List.nodup_nil
    · rw [q, a6]; exact List.nodup_nil
  · rw [allPipes_alloc hV, a2]; exact N.bound
  · intro e he
    rw [allPipes_alloc hV] at he
    rw [a1]; exact N.caps e he

theorem getMaximumDelivery_of_kind {l l1 : Location} (hk : l1.kind = l.kind) :
    l1.getMaximumDelivery = l.getMaximumDelivery := by
  simp only [Location.getMaximumDelivery, hk]

theorem getDemand_of_kind {l l1 : Location} (hk : l1.kind = l.kind) :
    l1.getDemand = l.getDemand := by
  simp only [Location.getDemand, hk]

theorem addR0Edges_ok (tr : String) : ∀ (ps : List (String × Nat)) (g : Graph) (k : Heap),
    NetOK k g.vertexSet → (∀ p ∈ ps, 0 ≤ (k.locs p.2).getMaximumDelivery) →
    NetOK (addR0Edges tr g k ps).2 (addR0Edges tr g k ps).1.vertexSet ∧
    ∀ v, ((addR0Edges tr g k ps).2.locs v).kind = (k.locs v).kind := by
  intro ps
  induction ps with
  | nil => intro g k N _; exact ⟨N, fun _ => rfl⟩
  | cons p ps ih =>
    intro g k N hp
    have step : ∀ w : Int, 0 ≤ w →
        NetOK (addR0Edges tr (addEdge g k "R_0" p.1 w).2.1 (addEdge g k "R_0" p.1 w).2.2 ps).2
          (addR0Edges tr (addEdge g k "R_0" p.1 w).2.1
            (addEdge g k "R_0" p.1 w).2.2 ps).1.vertexSet ∧
        ∀ v, ((addR0Edges tr (addEdge g k "R_0" p.1 w).2.1
            (addEdge g k "R_0" p.1 w).2.2 ps).2.locs v).kind = (k.locs v).kind := by
      intro w hw
      have N1 := N.graphAddEdge "R_0" p.1 hw
      rw [← (addEdge_graph g k "R_0" p.1 w).1] at N1
      obtain ⟨b1, b2⟩ := ih _ _ N1 (fun q hq => by
        rw [getMaximumDelivery_of_kind (addEdge_kind g k "R_0" p.1 w q.2)]
        exact hp q (List.mem_cons_of_mem _ hq))
      exact ⟨b1, fun v => (b2 v).trans (addEdge_kind g k "R_0" p.1 w v)⟩
    rw [addR0Edges]
    split
    · exact step 0 (le_refl _)
    · split
      · exact step _ (hp p (List.mem_cons_self _ _))
      · exact ih g k N (fun q hq => hp q (List.mem_cons_of_mem _ hq))

theorem addC0Edges_ok : ∀ (ps : List (String × Nat)) (g : Graph) (k : Heap),
    NetOK k g.vertexSet → (∀ p ∈ ps, 0 ≤ (k.locs p.2).getDemand) →
    NetOK (addC0Edges g k ps).2 (addC0Edges g k ps).1.vertexSet := by
  intro ps
  induction ps with
  | nil => intro g k N _; exact N
  | cons p ps ih =>
    intro g k N hp
    rw [addC0Edges]
    split
    · have hw := hp p (List.mem_cons_self _ _)
      have N1 := N.graphAddEdge p.1 "C_0" hw
      rw [← (addEdge_graph g k p.1 "C_0" (k.locs p.2).getDemand).1] at N1
      exact ih _ _ N1 (fun q hq => by
        rw [getDemand_of_kind (addEdge_kind g k p.1 "C_0" _ q.2)]
        exact hp q (List.mem_cons_of_mem _ hq))
    · exact ih g k N (fun q hq => hp q (List.mem_cons_of_mem _ hq))

/-- The network built by `addR0C0` on a ready network with non-negative
quantities is one the solver can run on. -/
theorem addR0C0_ok {this : Graph} {h : Heap} (rd : QueryReady this h)
    (caps : QueryCaps this h) (tr : String) :
    NetOK (addR0C0 this h tr).2 (addR0C0 this h tr).1.vertexSet := by
  obtain ⟨wf, r2, r3, r4, r5⟩ := rd
  obtain ⟨c1, c2, c3⟩ := caps
  have hV : ∀ v ∈ this.vertexSet, v < h.nextLoc := fun v hv => (r2 v hv).1
  obtain ⟨_, _, _, a4, a5, a6⟩ := allocTerminals_spec h
  rw [addR0C0_eq this h tr (fun p hp => (r4 p hp).1) (fun p hp => (r5 p hp).2.1)]
  have N0 : NetOK (allocTerminals h) (withTerminals this h.nextLoc).vertexSet :=
    NetOK.alloc ⟨wf, r3, c1⟩ hV
  have hR : ∀ p ∈ (withTerminals this h.nextLoc).mapReservoirs,
      0 ≤ ((allocTerminals h).locs p.2).getMaximumDelivery := by
    intro p hp
    rcases List.mem_append.1 hp with k | k
    · rw [a4 _ (r4 p k).2.2]; exact c2 p k
    · rw [List.mem_singleton.1 k, a5]; exact le_refl _
  obtain ⟨N1, k1⟩ := addR0Edges_ok tr _ _ _ N0 hR
  refine addC0Edges_ok _ _ _ N1 (fun p hp => ?_)
  rw [getDemand_of_kind (k1 p.2)]
  have hm : (addR0Edges tr (withTerminals this h.nextLoc) (allocTerminals h)
      (withTerminals this h.nextLoc).mapReservoirs).1.mapCities
      = this.mapCities ++ [("C_0", h.nextLoc + 1)] := by
    have key : ∀ (ps : List (String × Nat)) (g : Graph) (k : Heap),
        (addR0Edges tr g k ps).1.mapCities = g.mapCities := by
      intro ps
      induction ps with
      | nil => intro g k; rfl
      | cons q ps ih =>
        intro g k
        rw [addR0Edges]
        split
        · exact (ih _ _).trans (addEdge_graph g k "R_0" q.1 0).2.2
        · split
          · exact (ih _ _).trans (addEdge_graph g k "R_0" q.1 _).2.2
          · exact ih g k
    exact key _ _ _
  rw [hm] at hp
  rcases List.mem_append.1 hp with k | k
  · rw [a4 _ (r5 p k).2.2]; exact c3 p k
  · rw [List.mem_singleton.1 k, a6]; exact le_refl _

end Project1

namespace Project1

/-- On a ready network with non-negative quantities `getCitiesFlow(true)` returns
once the fuel is large enough. -/
theorem getCitiesFlow_returns {this : Graph} {h : Heap} (rd : QueryReady this h)
    (caps : QueryCaps this h) :
    ∃ F, ∀ f, F ≤ f → ∃ l h1, getCitiesFlow f this h true "" "" = Result.ok l h1 := by
  have htr : ("" : String) ≠ "R_0" := by decide
  have N := addR0C0_ok rd caps ""
  obtain ⟨G, vs, _⟩ := addR0C0_grown rd htr
  obtain ⟨f1, f2, _⟩ := findVertex_terminals G vs rd.2.1
  refine ⟨fuelBound (addR0C0 this h "").2 (addR0C0 this h "").1.vertexSet h.nextLoc,
    fun f hf => ?_⟩
  obtain ⟨h1, e1, _⟩ := edmondsKarp_spec N.wf N.caps f1 f2 (Nat.ne_of_lt (Nat.lt_succ_self _))
    f hf
  unfold getCitiesFlow
  simp only
  rw [e1]
  exact ⟨_, _, rfl⟩

/-- On a ready network with non-negative quantities two consecutive
`getCitiesFlow(true)` return, and return the same list. -/
theorem getCitiesFlow_twice {this : Graph} {h : Heap} (rd : QueryReady this h)
    (caps : QueryCaps this h) :
    ∃ F l, ∀ f, F ≤ f →
      (getCitiesFlow f this h true "" "").value = some l ∧
      (getCitiesFlow f this ((getCitiesFlow f this h true "" "").heap.getD h)
        true "" "").value = some l := by
  obtain ⟨F1, hF1⟩ := getCitiesFlow_returns rd caps
  obtain ⟨l, h1, e1⟩ := hF1 F1 (le_refl _)
  obtain ⟨F2, hF2⟩ := getCitiesFlow_again rd e1
  refine ⟨max F1 F2, l, fun f hf => ?_⟩
  have e2 : getCitiesFlow f this h true "" "" = Result.ok l h1 := by
    rw [getCitiesFlow_mono (le_trans (le_max_left F1 F2) hf) this h true "" ""
      (by rw [e1]; exact fun hh => by cases hh)]
    exact e1
  rw [e2]
  exact ⟨rfl, hF2 f (le_trans (le_max_right F1 F2) hf)⟩

end Project1

namespace Project1

/-! ## Lookup maps, building steps, unmet demand -/

theorem mapFind_isSome_iff (m : List (String × Nat)) (k : String) :
    (mapFind m k).isSome = true ↔ ∃ p ∈ m, p.1 = k := by
  unfold mapFind
  rw [Option.isSome_map', List.find?_isSome]
  constructor
  · rintro ⟨p, hp, hk⟩; exact ⟨p, hp, by simpa using hk⟩
  · rintro ⟨p, hp, hk⟩; exact ⟨p, hp, by simpa using hk⟩

theorem mapFind_append_fresh (m : List (String × Nat)) (k : String) (v : Nat)
    (hk : ∀ p ∈ m, p.1 ≠ k) :
    mapFind (m ++ [(k, v)]) k = some v ∧
    ∀ k1, k1 ≠ k → mapFind (m ++ [(k, v)]) k1 = mapFind m k1 := by
  unfold mapFind
  constructor
  · rw [List.find?_append, List.find?_eq_none.2 (fun p hp => by simpa using hk p hp)]
    simp
  · intro k1 hk1
    rw [List.find?_append]
    have hb : (k == k1) = false := by simpa using Ne.symm hk1
    have : List.find? (fun p => p.1 == k1) [(k, v)] = none := by
      simp [List.find?, hb]
    rw [this, Option.or_none]

theorem mapFind_mapInsert_same (k : String) (v : Nat) : ∀ (m : List (String × Nat)),
    mapFind (mapInsert m k v) k = some v := by
  intro m
  by_cases hk : ∃ p ∈ m, p.1 = k
  · have hany : m.any (fun p => p.1 == k) = true := by
      simpa [List.any_eq_true] using hk
    unfold mapInsert
    rw [if_pos hany]
    clear hany
    induction m with
    | nil => obtain ⟨p, hp, _⟩ := hk; exact absurd hp (List.not_mem_nil _)
    | cons a m ih =>
      by_cases ha : a.1 = k
      · simp [mapFind, List.find?, ha]
      · have hk1 : ∃ p ∈ m, p.1 = k := by
          obtain ⟨p, hp, hpk⟩ := hk
          rcases List.mem_cons.1 hp with h | h
          · exact absurd (h ▸ hpk) ha
          · exact ⟨p, h, hpk⟩
        have := ih hk1
        simp only [mapFind, List.map_cons, List.find?_cons] at this ⊢
        have hb : (a.1 == k) = false := by simpa using ha
        simp only [hb, Bool.false_eq_true, if_false]
        exact this
  · have hk1 : ∀ p ∈ m, p.1 ≠ k := fun p hp h => hk ⟨p, hp, h⟩
    rw [mapInsert_fresh v hk1]
    exact (mapFind_append_fresh m k v hk1).1

theorem mapFind_mapInsert_other (k : String) (v : Nat) {k1 : String} (hk1 : k1 ≠ k) :
    ∀ (m : List (String × Nat)), mapFind (mapInsert m k v) k1 = mapFind m k1 := by
  intro m
  by_cases hk : ∃ p ∈ m, p.1 = k
  · have hany : m.any (fun p => p.1 == k) = true := by
      simpa [List.any_eq_true] using hk
    unfold mapInsert
    rw [if_pos hany]
    clear hany hk
    induction m with
    | nil => rfl
    | cons a m ih =>
      simp only [mapFind, List.map_cons, List.find?_cons] at ih ⊢
      by_cases ha : a.1 = k
      · have h1 : (a.1 == k) = true := by simpa using ha
        have h2 : (k == k1) = false := by simpa using Ne.symm hk1
        have h3 : (a.1 == k1) = false := by rw [ha]; exact h2
        simp only [h1, if_true, h2, h3]
        exact ih
      · have h1 : (a.1 == k) = false := by simpa using ha
        simp only [h1, Bool.false_eq_true, if_false]
        cases a.1 == k1 with
        | true => rfl
        | false => exact ih
  · have hk2 : ∀ p ∈ m, p.1 ≠ k := fun p hp h => hk ⟨p, hp, h⟩
    rw [mapInsert_fresh v hk2]
    exact (mapFind_append_fresh m k v hk2).2 k1 hk1

theorem findVertex_eq_none (g : Graph) (h : Heap) (code : String) :
    findVertex g h code = none ↔ ∀ v ∈ g.vertexSet, (h.locs v).code ≠ code := by
  unfold findVertex
  rw [List.find?_eq_none]
  constructor
  · intro hh v hv; simpa using hh v hv
  · intro hh v hv; simpa using hh v hv

theorem findVertex_code {g : Graph} {h : Heap} {code : String} {v : Nat}
    (hv : findVertex g h code = some v) : (h.locs v).code = code := by
  unfold findVertex at hv
  simpa using List.find?_some hv

theorem unmet_loop (l : List CityInfo) : ∀ acc : List CityInfo,
    l.foldl (fun acc info => if info.totalFlow < info.demand then acc ++ [info] else acc) acc
      = acc ++ l.filter (fun c => decide (c.demand > c.totalFlow)) := by
  induction l with
  | nil => intro acc; simp
  | cons a l ih =>
    intro acc
    simp only [List.foldl_cons, List.filter_cons]
    by_cases ha : a.totalFlow < a.demand
    · rw [if_pos ha, ih, if_pos (by simpa using ha)]
      simp
    · rw [if_neg ha, ih, if_neg (by simpa using ha)]

end Project1

namespace Project1

/-! ## Removing links: what the loops compute -/

theorem RemovalFrame.rf_refl (h : Heap) : RemovalFrame h h :=
  ⟨rfl, rfl, rfl, fun _ => ⟨rfl, rfl, rfl, rfl, rfl, rfl, rfl⟩⟩

theorem RemovalFrame.rf_trans {h1 h2 h3 : Heap} (a : RemovalFrame h1 h2)
    (b : RemovalFrame h2 h3) : RemovalFrame h1 h3 := by
  refine ⟨b.pipes.trans a.pipes, b.nextLoc.trans a.nextLoc, b.nextPipe.trans a.nextPipe,
    fun v => ?_⟩
  obtain ⟨a1, a2, a3, a4, a5, a6, a7⟩ := a.locs v
  obtain ⟨b1, b2, b3, b4, b5, b6, b7⟩ := b.locs v
  exact ⟨b1.trans a1, b2.trans a2, b3.trans a3, b4.trans a4, b5.trans a5, b6.trans a6,
    b7.trans a7⟩

theorem RemovalFrame.destCoded {h h1 : Heap} (a : RemovalFrame h h1) (c : String) :
    Project1.destCoded h1 c = Project1.destCoded h c := by
  funext e
  simp only [Project1.destCoded, a.pipes, (a.locs _).1]

theorem RemovalFrame.origCoded {h h1 : Heap} (a : RemovalFrame h h1) (c : String) :
    Project1.origCoded h1 c = Project1.origCoded h c := by
  funext e
  simp only [Project1.origCoded, a.pipes, (a.locs _).1]

/-- Setting the `adj` list of a vertex. -/
theorem setAdj_spec (h : Heap) (v : Nat) (l : List Nat) :
    RemovalFrame h (h.setLoc v { h.locs v with adj := l }) ∧
    (∀ x, ((h.setLoc v { h.locs v with adj := l }).locs x).adj
      = if x = v then l else (h.locs x).adj) ∧
    (∀ x, ((h.setLoc v { h.locs v with adj := l }).locs x).incoming = (h.locs x).incoming) := by
  refine ⟨⟨rfl, rfl, rfl, fun x => ?_⟩, fun x => ?_, fun x => ?_⟩
  · rw [Heap.setLoc_locs]; split
    · rename_i hx; subst hx; exact ⟨rfl, rfl, rfl, rfl, rfl, rfl, rfl⟩
    · exact ⟨rfl, rfl, rfl, rfl, rfl, rfl, rfl⟩
  · rw [Heap.setLoc_locs]; split
    · rfl
    · rfl
  · rw [Heap.setLoc_locs]; split
    · rename_i hx; subst hx; rfl
    · rfl

theorem Location.deleteEdge_spec (h : Heap) (this edge : Nat) :
    RemovalFrame h (Location.deleteEdge h this edge) ∧
    (∀ x, ((Location.deleteEdge h this edge).locs x).adj = (h.locs x).adj) ∧
    (∀ x, ((Location.deleteEdge h this edge).locs x).incoming =
      if x = (h.pipes edge).dest then
        (h.locs x).incoming.filter (fun e => !Project1.origCoded h (h.locs this).code e)
      else (h.locs x).incoming) := by
  unfold Location.deleteEdge
  refine ⟨⟨rfl, rfl, rfl, fun x => ?_⟩, fun x => ?_, fun x => ?_⟩
  · simp only [Heap.setLoc_locs]; split
    · rename_i hx; subst hx; exact ⟨rfl, rfl, rfl, rfl, rfl, rfl, rfl⟩
    · exact ⟨rfl, rfl, rfl, rfl, rfl, rfl, rfl⟩
  · simp only [Heap.setLoc_locs]; split
    · rename_i hx; subst hx; rfl
    · rfl
  · simp only [Heap.setLoc_locs]; split
    · rename_i hx; subst hx; rfl
    · rfl

end Project1

namespace Project1

theorem filter_not_of_any_false {p : Nat → Bool} : ∀ (l : List Nat),
    l.any p = false → l.filter (fun e => !p e) = l := by
  intro l hl
  rw [List.filter_eq_self]
  intro a ha
  have := List.any_eq_false.1 hl a ha
  simpa using this

/-- The loop of `Location::removeEdge`, started in a heap `h` that differs from
`h0` by removals only. -/
theorem Location.removeEdgeLoop_spec (this : Nat) (inn : String) (h0 : Heap) :
    ∀ (es : List Nat) (h : Heap) (kept : List Nat) (r : Bool), RemovalFrame h0 h →
      (Location.removeEdgeLoop this inn h kept es r).1
        = (r || es.any (Project1.destCoded h0 inn)) ∧
      RemovalFrame h0 (Location.removeEdgeLoop this inn h kept es r).2 ∧
      (∀ x, x ≠ this →
        ((Location.removeEdgeLoop this inn h kept es r).2.locs x).adj = (h.locs x).adj) ∧
      ((Location.removeEdgeLoop this inn h kept es r).2.locs this).adj =
        (if es.any (Project1.destCoded h0 inn) then
          kept ++ es.filter (fun e => !Project1.destCoded h0 inn e)
        else (h.locs this).adj) ∧
      (∀ x, ((Location.removeEdgeLoop this inn h kept es r).2.locs x).incoming =
        if es.any (fun e => Project1.destCoded h0 inn e && decide ((h0.pipes e).dest = x)) then
          (h.locs x).incoming.filter (fun e => !Project1.origCoded h0 (h0.locs this).code e)
        else (h.locs x).incoming) := by
  intro es
  induction es with
  | nil =>
    intro h kept r F
    simp only [Location.removeEdgeLoop, List.any_nil, Bool.or_false, Bool.false_eq_true,
      if_false]
    exact ⟨trivial, F, fun _ _ => trivial, trivial, fun _ => trivial⟩
  | cons e es ih =>
    intro h kept r F
    have hM : ((h.locs (h.pipes e).dest).code == inn) = Project1.destCoded h0 inn e := by
      have := congrFun (F.destCoded inn) e
      exact this
    rw [Location.removeEdgeLoop]
    by_cases hm : Project1.destCoded h0 inn e = true
    · rw [hM, if_pos hm]
      obtain ⟨s1, s2, s3⟩ := setAdj_spec h this (kept ++ es)
      obtain ⟨d1, d2, d3⟩ := Location.deleteEdge_spec
        (h.setLoc this { h.locs this with adj := kept ++ es }) this e
      have F2 : RemovalFrame h0 (Location.deleteEdge
          (h.setLoc this { h.locs this with adj := kept ++ es }) this e) :=
        F.rf_trans (s1.rf_trans d1)
      have F1 : RemovalFrame h0 (h.setLoc this { h.locs this with adj := kept ++ es }) :=
        F.rf_trans s1
      obtain ⟨i1, i2, i3, i4, i5⟩ := ih _ kept true F2
      refine ⟨?_, i2, fun x hx => ?_, ?_, fun x => ?_⟩
      · rw [i1]; simp [hm]
      · rw [i3 x hx, d2, s2, if_neg hx]
      · rw [i4, d2, s2, if_pos rfl]
        simp only [List.any_cons, hm, Bool.true_or, if_true, List.filter_cons, Bool.not_true,
          Bool.false_eq_true, if_false]
        split
        · rfl
        · rename_i hany
          rw [filter_not_of_any_false es (by simpa using hany)]
      · rw [i5, d3, s3, F1.origCoded, (F1.locs this).1, F1.pipes]
        simp only [List.any_cons, hm, Bool.true_and]
        by_cases hx : x = (h0.pipes e).dest
        · subst hx
          simp only [decide_True, Bool.true_or, if_true, List.filter_filter, Bool.and_self]
          split <;> rfl
        · have : decide ((h0.pipes e).dest = x) = false := by
            simpa using fun hh => hx hh.symm
          simp only [this, Bool.false_or, if_neg hx]
    · have hm1 : Project1.destCoded h0 inn e = false := by simpa using hm
      rw [hM, if_neg hm]
      obtain ⟨i1, i2, i3, i4, i5⟩ := ih h (kept ++ [e]) r F
      refine ⟨?_, i2, i3, ?_, fun x => ?_⟩
      · rw [i1]; simp [hm1]
      · rw [i4]
        simp only [List.any_cons, hm1, Bool.false_or, List.filter_cons, Bool.not_false, if_true,
          List.append_assoc, List.singleton_append]
      · rw [i5]
        simp only [List.any_cons, hm1, Bool.false_and, Bool.false_or]

/-- What `Location::removeEdge` computes: the links of `this` that end at a vertex
coded `inn` leave `adj` of `this`, and every link starting at a vertex with the
code of `this` leaves `incoming` of the vertices they ended at. -/
theorem Location.removeEdge_spec (h : Heap) (this : Nat) (inn : String) :
    (Location.removeEdge h this inn).1 = (h.locs this).adj.any (Project1.destCoded h inn) ∧
    RemovalFrame h (Location.removeEdge h this inn).2 ∧
    (∀ x, ((Location.removeEdge h this inn).2.locs x).adj =
      if x = this then (h.locs x).adj.filter (fun e => !Project1.destCoded h inn e)
      else (h.locs x).adj) ∧
    (∀ x, ((Location.removeEdge h this inn).2.locs x).incoming =
      if (h.locs this).adj.any
          (fun e => Project1.destCoded h inn e && decide ((h.pipes e).dest = x)) then
        (h.locs x).incoming.filter (fun e => !Project1.origCoded h (h.locs this).code e)
      else (h.locs x).incoming) := by
  obtain ⟨i1, i2, i3, i4, i5⟩ := Location.removeEdgeLoop_spec this inn h (h.locs this).adj h []
    false (RemovalFrame.rf_refl h)
  unfold Location.removeEdge
  refine ⟨by rw [i1]; simp, i2, fun x => ?_, i5⟩
  by_cases hx : x = this
  · rw [if_pos hx, hx, i4]
    split
    · simp
    · rename_i hany
      rw [filter_not_of_any_false _ (by simpa using hany)]
  · rw [if_neg hx, i3 x hx]

end Project1

namespace Project1

/-- The loop of `Location::removeOutgoingEdges`, started in a heap `h` that
differs from `h0` by removals only. -/
theorem Location.removeOutgoingLoop_spec (this : Nat) (h0 : Heap) :
    ∀ (es : List Nat) (h : Heap), RemovalFrame h0 h →
      RemovalFrame h0 (Location.removeOutgoingLoop this h es) ∧
      (∀ x, x ≠ this → ((Location.removeOutgoingLoop this h es).locs x).adj = (h.locs x).adj) ∧
      ((Location.removeOutgoingLoop this h es).locs this).adj =
        (if es = [] then (h.locs this).adj else []) ∧
      (∀ x, ((Location.removeOutgoingLoop this h es).locs x).incoming =
        if es.any (fun e => decide ((h0.pipes e).dest = x)) then
          (h.locs x).incoming.filter (fun e => !Project1.origCoded h0 (h0.locs this).code e)
        else (h.locs x).incoming) := by
  intro es
  induction es with
  | nil =>
    intro h F
    simp only [Location.removeOutgoingLoop, List.any_nil, Bool.false_eq_true, if_false, if_true]
    exact ⟨F, fun _ _ => trivial, trivial, fun _ => trivial⟩
  | cons e es ih =>
    intro h F
    rw [Location.removeOutgoingLoop]
    obtain ⟨s1, s2, s3⟩ := setAdj_spec h this es
    obtain ⟨d1, d2, d3⟩ := Location.deleteEdge_spec
      (h.setLoc this { h.locs this with adj := es }) this e
    have F1 : RemovalFrame h0 (h.setLoc this { h.locs this with adj := es }) := F.rf_trans s1
    have F2 : RemovalFrame h0 (Location.deleteEdge
        (h.setLoc this { h.locs this with adj := es }) this e) := F1.rf_trans d1
    obtain ⟨i1, i2, i3, i4⟩ := ih _ F2
    refine ⟨i1, fun x hx => ?_, ?_, fun x => ?_⟩
    · rw [i2 x hx, d2, s2, if_neg hx]
    · rw [i3, d2, s2, if_pos rfl, if_neg (List.cons_ne_nil _ _)]
      split
      · rename_i hes; exact hes
      · rfl
    · rw [i4, d3, s3, F1.origCoded, (F1.locs this).1, F1.pipes]
      simp only [List.any_cons]
      by_cases hx : x = (h0.pipes e).dest
      · subst hx
        simp only [decide_True, Bool.true_or, if_true, List.filter_filter, Bool.and_self]
        split <;> rfl
      · have : decide ((h0.pipes e).dest = x) = false := by
          simpa using fun hh => hx hh.symm
        simp only [this, Bool.false_or, if_neg hx]

/-- What `Location::removeOutgoingEdges` computes. -/
theorem Location.removeOutgoingEdges_spec (h : Heap) (this : Nat) :
    RemovalFrame h (Location.removeOutgoingEdges h this) ∧
    (∀ x, ((Location.removeOutgoingEdges h this).locs x).adj =
      if x = this then [] else (h.locs x).adj) ∧
    (∀ x, ((Location.removeOutgoingEdges h this).locs x).incoming =
      if (h.locs this).adj.any (fun e => decide ((h.pipes e).dest = x)) then
        (h.locs x).incoming.filter (fun e => !Project1.origCoded h (h.locs this).code e)
      else (h.locs x).incoming) := by
  obtain ⟨i1, i2, i3, i4⟩ := Location.removeOutgoingLoop_spec this h (h.locs this).adj h
    (RemovalFrame.rf_refl h)
  unfold Location.removeOutgoingEdges
  refine ⟨i1, fun x => ?_, i4⟩
  by_cases hx : x = this
  · rw [if_pos hx, hx, i3]
    split
    · rename_i hes; exact hes
    · rfl
  · rw [if_neg hx, i2 x hx]

/-- The loop of `Graph::removeVertex` that calls `removeEdge(v->getCode())` on every
vertex of `V`. -/
theorem removeIncoming_spec (h0 : Heap) (v : Nat) :
    ∀ (V : List Nat) (h : Heap), RemovalFrame h0 h →
      RemovalFrame h0
        (V.foldl (fun h u => (Location.removeEdge h u (h.locs v).code).2) h) ∧
      (∀ x, ((V.foldl (fun h u => (Location.removeEdge h u (h.locs v).code).2) h).locs x).adj =
        if x ∈ V then
          (h.locs x).adj.filter (fun e => !Project1.destCoded h0 (h0.locs v).code e)
        else (h.locs x).adj) ∧
      (∀ x, (h0.locs x).code ≠ (h0.locs v).code →
        ((V.foldl (fun h u => (Location.removeEdge h u (h.locs v).code).2) h).locs x).incoming
          = (h.locs x).incoming) ∧
      (∀ x, ∀ e ∈
        ((V.foldl (fun h u => (Location.removeEdge h u (h.locs v).code).2) h).locs x).incoming,
        e ∈ (h.locs x).incoming) := by
  intro V
  induction V with
  | nil =>
    intro h F
    exact ⟨F, fun x => by simp, fun _ _ => rfl, fun _ _ he => he⟩
  | cons u V ih =>
    intro h F
    simp only [List.foldl_cons]
    obtain ⟨_, r2, r3, r4⟩ := Location.removeEdge_spec h u (h.locs v).code
    have F1 := F.rf_trans r2
    obtain ⟨i1, i2, i3, i4⟩ := ih _ F1
    have hc : (h.locs v).code = (h0.locs v).code := (F.locs v).1
    have hd : Project1.destCoded h (h.locs v).code = Project1.destCoded h0 (h0.locs v).code := by
      rw [hc]; exact F.destCoded _
    refine ⟨i1, fun x => ?_, fun x hx => ?_, fun x e he => ?_⟩
    · rw [i2, r3, hd]
      by_cases hxu : x = u
      · subst hxu
        simp only [if_true, List.mem_cons, true_or, List.filter_filter, Bool.and_self]
        split <;> rfl
      · simp [hxu]
    · rw [i3 x hx, r4, if_neg]
      intro hany
      obtain ⟨e, _, he⟩ := List.any_eq_true.1 hany
      simp only [Bool.and_eq_true, decide_eq_true_eq] at he
      obtain ⟨he1, he2⟩ := he
      rw [hd] at he1
      simp only [Project1.destCoded, beq_iff_eq] at he1
      rw [F.pipes] at he2
      rw [he2] at he1
      exact hx he1
    · have := i4 x e he
      rw [r4] at this
      split at this
      · exact (List.mem_filter.1 this).1
      · exact this

end Project1

namespace Project1

/-! ## Links and codes in an addressable network -/

theorem coded_dest {g : Graph} {h : Heap} (wf : WF h g.vertexSet) (ad : Addressable g h)
    {c : String} {v : Nat} (hv : findVertex g h c = some v) {u e : Nat}
    (hu : u ∈ g.vertexSet) (he : e ∈ (h.locs u).adj) :
    Project1.destCoded h c e = true ↔ (h.pipes e).dest = v := by
  obtain ⟨_, q2, q3⟩ := wf.adj_ok u hu e he
  constructor
  · intro hc
    have hc1 : (h.locs (h.pipes e).dest).code = c := by
      simpa [Project1.destCoded] using hc
    have := ad _ q2 (Or.inr (List.ne_nil_of_mem q3))
    rw [hc1, hv] at this
    exact (Option.some.inj this).symm
  · intro hd
    simp only [Project1.destCoded, hd, findVertex_code hv, beq_self_eq_true]

theorem coded_orig {g : Graph} {h : Heap} (wf : WF h g.vertexSet) (ad : Addressable g h)
    {c : String} {v : Nat} (hv : findVertex g h c = some v) {x e : Nat}
    (hx : x ∈ g.vertexSet) (he : e ∈ (h.locs x).incoming) :
    Project1.origCoded h c e = true ↔ (h.pipes e).orig = v := by
  obtain ⟨_, q2, q3⟩ := wf.inc_ok x hx e he
  constructor
  · intro hc
    have hc1 : (h.locs (h.pipes e).orig).code = c := by
      simpa [Project1.origCoded] using hc
    have := ad _ q2 (Or.inl (List.ne_nil_of_mem q3))
    rw [hc1, hv] at this
    exact (Option.some.inj this).symm
  · intro hd
    simp only [Project1.origCoded, hd, findVertex_code hv, beq_self_eq_true]

theorem filter_congr_mem {p q : Nat → Bool} : ∀ (l : List Nat),
    (∀ e ∈ l, p e = q e) → l.filter p = l.filter q := by
  intro l
  induction l with
  | nil => intro _; rfl
  | cons a l ih =>
    intro hl
    simp only [List.filter_cons]
    rw [hl a (List.mem_cons_self _ _), ih (fun e he => hl e (List.mem_cons_of_mem _ he))]

/-- In an addressable well-formed network, `Graph::removeEdge(A, B)` with `A` found
at `a` takes from `incoming` of a vertex `x` exactly the links from `a`, and
only when `x` is coded `B`. -/
theorem removeEdge_incoming {g : Graph} {h : Heap} (wf : WF h g.vertexSet)
    (ad : Addressable g h) {A B : String} {a : Nat} (ha : findVertex g h A = some a)
    {x : Nat} (hx : x ∈ g.vertexSet) :
    ((Location.removeEdge h a B).2.locs x).incoming =
      (h.locs x).incoming.filter
        (fun e => !(decide ((h.pipes e).orig = a) && ((h.locs x).code == B))) := by
  obtain ⟨_, _, _, r4⟩ := Location.removeEdge_spec h a B
  have hca : findVertex g h (h.locs a).code = some a := by rw [findVertex_code ha]; exact ha
  rw [r4]
  split
  · rename_i hany
    obtain ⟨e0, _, he0⟩ := List.any_eq_true.1 hany
    simp only [Bool.and_eq_true, decide_eq_true_eq, Project1.destCoded, beq_iff_eq] at he0
    have hxB : (h.locs x).code = B := by rw [← he0.2]; exact he0.1
    refine filter_congr_mem _ (fun e he => ?_)
    have k := coded_orig wf ad hca hx he
    have hb : ((h.locs x).code == B) = true := by simpa using hxB
    rw [hb, Bool.and_true]
    cases hq : Project1.origCoded h (h.locs a).code e with
    | true => rw [decide_eq_true (k.1 hq)]
    | false =>
      have : ¬ (h.pipes e).orig = a := fun hh => by
        rw [k.2 hh] at hq; cases hq
      rw [decide_eq_false this]
  · rename_i hany
    symm
    rw [List.filter_eq_self]
    intro e he
    by_contra hcon
    simp only [Bool.not_eq_true', Bool.not_eq_false', Bool.and_eq_true, decide_eq_true_eq,
      beq_iff_eq, Bool.not_eq_false] at hcon
    obtain ⟨q1, _, q3⟩ := wf.inc_ok x hx e he
    apply hany
    rw [List.any_eq_true]
    refine ⟨e, hcon.1 ▸ q3, ?_⟩
    simp only [Bool.and_eq_true, decide_eq_true_eq, Project1.destCoded, beq_iff_eq]
    exact ⟨by rw [q1]; exact hcon.2, q1⟩

end Project1

namespace Project1

/-! ## Bidirectional links, and what removals leave in place -/

/-- What a successful `addBidirectionalEdge` and a successful `addEdge` create. -/
theorem addBidirectionalEdge_shape (g : Graph) (h : Heap) (source dest : String) (w : Int)
    (v1 v2 : Nat) (hs : findVertex g h source = some v1) (hd : findVertex g h dest = some v2) :
    (addBidirectionalEdge g h source dest w).1 = true ∧
    (addBidirectionalEdge g h source dest w).2.2.nextPipe = h.nextPipe + 2 ∧
    ((addBidirectionalEdge g h source dest w).2.2.pipes h.nextPipe).orig = v1 ∧
    ((addBidirectionalEdge g h source dest w).2.2.pipes h.nextPipe).dest = v2 ∧
    ((addBidirectionalEdge g h source dest w).2.2.pipes h.nextPipe).weight = w ∧
    ((addBidirectionalEdge g h source dest w).2.2.pipes h.nextPipe).activated = true ∧
    ((addBidirectionalEdge g h source dest w).2.2.pipes h.nextPipe).reverse
      = some (h.nextPipe + 1) ∧
    ((addBidirectionalEdge g h source dest w).2.2.pipes (h.nextPipe + 1)).orig = v2 ∧
    ((addBidirectionalEdge g h source dest w).2.2.pipes (h.nextPipe + 1)).dest = v1 ∧
    ((addBidirectionalEdge g h source dest w).2.2.pipes (h.nextPipe + 1)).weight = w ∧
    ((addBidirectionalEdge g h source dest w).2.2.pipes (h.nextPipe + 1)).activated = true ∧
    ((addBidirectionalEdge g h source dest w).2.2.pipes (h.nextPipe + 1)).reverse
      = some h.nextPipe ∧
    (∀ e, e ≠ h.nextPipe → e ≠ h.nextPipe + 1 →
      (addBidirectionalEdge g h source dest w).2.2.pipes e = h.pipes e) ∧
    (∀ x, ((addBidirectionalEdge g h source dest w).2.2.locs x).adj =
      (h.locs x).adj ++ (if x = v1 then [h.nextPipe] else [])
        ++ (if x = v2 then [h.nextPipe + 1] else [])) ∧
    (∀ x, ((addBidirectionalEdge g h source dest w).2.2.locs x).incoming =
      (h.locs x).incoming ++ (if x = v2 then [h.nextPipe] else [])
        ++ (if x = v1 then [h.nextPipe + 1] else [])) ∧
    mapFind (addBidirectionalEdge g h source dest w).2.1.mapPipes (dest ++ "|" ++ source)
      = some (h.nextPipe + 1) ∧
    (source ++ "|" ++ dest ≠ dest ++ "|" ++ source →
      mapFind (addBidirectionalEdge g h source dest w).2.1.mapPipes (source ++ "|" ++ dest)
        = some h.nextPipe) ∧
    (∀ k, k ≠ source ++ "|" ++ dest → k ≠ dest ++ "|" ++ source →
      mapFind (addBidirectionalEdge g h source dest w).2.1.mapPipes k = mapFind g.mapPipes k) ∧
    ((addEdge g h source dest w).2.2.pipes h.nextPipe).reverse = none ∧
    mapFind (addEdge g h source dest w).2.1.mapPipes (source ++ "|" ++ dest)
      = some h.nextPipe := by
  have P1 := Location.addEdge_pipes h v1 v2 w
  have P2 := Location.addEdge_pipes (Location.addEdge h v1 v2 w).2 v2 v1 w
  have L1 := Location.addEdge_locs h v1 v2 w
  have L2 := Location.addEdge_locs (Location.addEdge h v1 v2 w).2 v2 v1 w
  have n1 : (Location.addEdge h v1 v2 w).2.nextPipe = h.nextPipe + 1 := rfl
  have ne : h.nextPipe ≠ h.nextPipe + 1 := Nat.ne_of_lt (Nat.lt_succ_self _)
  have e1 : (addBidirectionalEdge g h source dest w).2.2 =
      setReverse (setReverse (Location.addEdge (Location.addEdge h v1 v2 w).2 v2 v1 w).2
        h.nextPipe (some (h.nextPipe + 1))) (h.nextPipe + 1) (some h.nextPipe) := by
    unfold addBidirectionalEdge; rw [hs, hd]; rfl
  have e2 : (addBidirectionalEdge g h source dest w).2.1.mapPipes =
      mapInsert (mapInsert g.mapPipes (source ++ "|" ++ dest) h.nextPipe)
        (dest ++ "|" ++ source) (h.nextPipe + 1) := by
    unfold addBidirectionalEdge; rw [hs, hd]; rfl
  have e3 : (addBidirectionalEdge g h source dest w).1 = true := by
    unfold addBidirectionalEdge; rw [hs, hd]
  have e4 : (addEdge g h source dest w).2.2 = (Location.addEdge h v1 v2 w).2 := by
    unfold addEdge; rw [hs, hd]
  have e5 : (addEdge g h source dest w).2.1.mapPipes =
      mapInsert g.mapPipes (source ++ "|" ++ dest) h.nextPipe := by
    unfold addEdge; rw [hs, hd]; rfl
  have pp : ∀ e, (setReverse (setReverse
      (Location.addEdge (Location.addEdge h v1 v2 w).2 v2 v1 w).2
        h.nextPipe (some (h.nextPipe + 1))) (h.nextPipe + 1) (some h.nextPipe)).pipes e =
      if e = h.nextPipe + 1 then
        { dest := v1, weight := w, orig := v2, reverse := some h.nextPipe, flow := 0,
          activated := true }
      else if e = h.nextPipe then
        { dest := v2, weight := w, orig := v1, reverse := some (h.nextPipe + 1), flow := 0,
          activated := true }
      else h.pipes e := by
    intro e
    simp only [setReverse, Heap.setPipe, Function.update, P2, P1, n1]
    by_cases q1 : e = h.nextPipe + 1
    · subst q1; simp
    · by_cases q2 : e = h.nextPipe
      · subst q2; simp [ne]
      · simp [q1, q2]
  have ll : ∀ x, (setReverse (setReverse
      (Location.addEdge (Location.addEdge h v1 v2 w).2 v2 v1 w).2
        h.nextPipe (some (h.nextPipe + 1))) (h.nextPipe + 1) (some h.nextPipe)).locs x =
      (Location.addEdge (Location.addEdge h v1 v2 w).2 v2 v1 w).2.locs x := fun _ => rfl
  rw [e1, e2, e4, e5]
  refine ⟨e3, rfl, ?_, ?_, ?_, ?_, ?_, ?_, ?_, ?_, ?_, ?_, ?_, ?_, ?_, ?_, ?_, ?_, ?_, ?_⟩
  · rw [pp, if_neg ne, if_pos rfl]
  · rw [pp, if_neg ne, if_pos rfl]
  · rw [pp, if_neg ne, if_pos rfl]
  · rw [pp, if_neg ne, if_pos rfl]
  · rw [pp, if_neg ne, if_pos rfl]
  · rw [pp, if_pos rfl]
  · rw [pp, if_pos rfl]
  · rw [pp, if_pos rfl]
  · rw [pp, if_pos rfl]
  · rw [pp, if_pos rfl]
  · intro e q1 q2; rw [pp, if_neg q2, if_neg q1]
  · intro x
    rw [ll, (L2 x).1, (L1 x).1, n1]
    split_ifs <;> simp_all
  · intro x
    rw [ll, (L2 x).2.1, (L1 x).2.1, n1]
    split_ifs <;> simp_all
  · exact mapFind_mapInsert_same _ _ _
  · intro hk
    rw [mapFind_mapInsert_other _ _ hk]
    exact mapFind_mapInsert_same _ _ _
  · intro k k1 k2
    rw [mapFind_mapInsert_other _ _ k2, mapFind_mapInsert_other _ _ k1]
  · rw [P1, if_pos rfl]
  · exact mapFind_mapInsert_same _ _ _

theorem findVertex_congr {g g1 : Graph} {h h1 : Heap} (hg : g1.vertexSet = g.vertexSet)
    (hc : ∀ x, (h1.locs x).code = (h.locs x).code) (c : String) :
    findVertex g1 h1 c = findVertex g h c := by
  unfold findVertex
  rw [hg]
  congr 1
  funext v
  rw [hc]

theorem addBidirectionalEdge_codes (g : Graph) (h : Heap) (source dest : String) (w : Int) :
    (addBidirectionalEdge g h source dest w).2.1.vertexSet = g.vertexSet ∧
    ∀ x, ((addBidirectionalEdge g h source dest w).2.2.locs x).code = (h.locs x).code := by
  unfold addBidirectionalEdge
  cases findVertex g h source with
  | none => exact ⟨rfl, fun _ => rfl⟩
  | some v1 =>
    cases findVertex g h dest with
    | none => exact ⟨rfl, fun _ => rfl⟩
    | some v2 =>
      refine ⟨rfl, fun x => ?_⟩
      exact ((Location.addEdge_locs (Location.addEdge h v1 v2 w).2 v2 v1 w x).2.2.1).trans
        (Location.addEdge_locs h v1 v2 w x).2.2.1

end Project1

namespace Project1

/-! ## `Graph::removeEdge` and `Graph::removeVertex` on addressable networks -/

theorem removeEdge_none {g : Graph} {h : Heap} {A : String} (B : String)
    (hA : findVertex g h A = none) : removeEdge g h A B = (false, h) := by
  unfold removeEdge; rw [hA]

theorem removeEdge_some {g : Graph} {h : Heap} {A : String} (B : String) {a : Nat}
    (hA : findVertex g h A = some a) : removeEdge g h A B = Location.removeEdge h a B := by
  unfold removeEdge; rw [hA]

theorem removeEdge_true_iff (g : Graph) (h : Heap) (A B : String) :
    (removeEdge g h A B).1 = true ↔
      ∃ a, findVertex g h A = some a ∧
        ∃ e ∈ (h.locs a).adj, (h.locs (h.pipes e).dest).code = B := by
  cases hA : findVertex g h A with
  | none =>
    rw [removeEdge_none B hA]
    constructor
    · intro hh; cases hh
    · rintro ⟨a, ha, _⟩; cases ha
  | some a =>
    rw [removeEdge_some B hA, (Location.removeEdge_spec h a B).1, List.any_eq_true]
    constructor
    · rintro ⟨e, he, hc⟩
      exact ⟨a, rfl, e, he, by simpa [Project1.destCoded] using hc⟩
    · rintro ⟨a1, ha1, e, he, hc⟩
      cases ha1
      exact ⟨e, he, by simpa [Project1.destCoded] using hc⟩

/-- What `Graph::removeEdge(A, B)` leaves in the lists when `A` is found at `a`. -/
theorem removeEdge_shape {g : Graph} {h : Heap} (wf : WF h g.vertexSet)
    (ad : Addressable g h) {A : String} (B : String) {a : Nat}
    (hA : findVertex g h A = some a) :
    ((removeEdge g h A B).2.locs a).adj
        = (h.locs a).adj.filter (fun e => !Project1.destCoded h B e) ∧
    (∀ e ∈ ((removeEdge g h A B).2.locs a).adj, (h.locs (h.pipes e).dest).code ≠ B) ∧
    (∀ x, x ≠ a → ((removeEdge g h A B).2.locs x).adj = (h.locs x).adj) ∧
    (∀ x ∈ g.vertexSet, ((removeEdge g h A B).2.locs x).incoming =
      (h.locs x).incoming.filter
        (fun e => !(decide ((h.pipes e).orig = a) && ((h.locs x).code == B)))) ∧
    (∀ x ∈ g.vertexSet, (h.locs x).code = B →
      ∀ e ∈ ((removeEdge g h A B).2.locs x).incoming, (h.pipes e).orig ≠ a) := by
  obtain ⟨_, _, r3, _⟩ := Location.removeEdge_spec h a B
  rw [removeEdge_some B hA]
  have k1 : ((Location.removeEdge h a B).2.locs a).adj
      = (h.locs a).adj.filter (fun e => !Project1.destCoded h B e) := by
    rw [r3 a, if_pos rfl]
  have k4 : ∀ x ∈ g.vertexSet, ((Location.removeEdge h a B).2.locs x).incoming =
      (h.locs x).incoming.filter
        (fun e => !(decide ((h.pipes e).orig = a) && ((h.locs x).code == B))) :=
    fun x hx => removeEdge_incoming wf ad hA hx
  refine ⟨k1, ?_, ?_, k4, ?_⟩
  · intro e he hc
    rw [k1, List.mem_filter] at he
    have : Project1.destCoded h B e = true := by simpa [Project1.destCoded] using hc
    rw [this] at he
    exact Bool.noConfusion he.2
  · intro x hx
    rw [r3 x, if_neg hx]
  · intro x hx hc e he ho
    rw [k4 x hx, List.mem_filter] at he
    have hb : ((h.locs x).code == B) = true := by simpa using hc
    rw [decide_eq_true ho, hb] at he
    exact Bool.noConfusion he.2

/-- After a bidirectional link between two differently coded vertices is added,
`Graph::removeEdge(source, dest)` takes out the forward pipe and leaves the
backward pipe where it was. -/
theorem removeEdge_after_bidirectional (g : Graph) (h : Heap) (source dest : String) (w : Int)
    (a b : Nat) (hs : findVertex g h source = some a) (hd : findVertex g h dest = some b)
    (hne : source ≠ dest) :
    (removeEdge (addBidirectionalEdge g h source dest w).2.1
      (addBidirectionalEdge g h source dest w).2.2 source dest).1 = true ∧
    h.nextPipe ∉ ((removeEdge (addBidirectionalEdge g h source dest w).2.1
      (addBidirectionalEdge g h source dest w).2.2 source dest).2.locs a).adj ∧
    h.nextPipe ∉ ((removeEdge (addBidirectionalEdge g h source dest w).2.1
      (addBidirectionalEdge g h source dest w).2.2 source dest).2.locs b).incoming ∧
    h.nextPipe + 1 ∈ ((removeEdge (addBidirectionalEdge g h source dest w).2.1
      (addBidirectionalEdge g h source dest w).2.2 source dest).2.locs b).adj ∧
    h.nextPipe + 1 ∈ ((removeEdge (addBidirectionalEdge g h source dest w).2.1
      (addBidirectionalEdge g h source dest w).2.2 source dest).2.locs a).incoming ∧
    ((removeEdge (addBidirectionalEdge g h source dest w).2.1
      (addBidirectionalEdge g h source dest w).2.2 source dest).2.pipes (h.nextPipe + 1)).orig
        = b ∧
    ((removeEdge (addBidirectionalEdge g h source dest w).2.1
      (addBidirectionalEdge g h source dest w).2.2 source dest).2.pipes (h.nextPipe + 1)).dest
        = a ∧
    ((removeEdge (addBidirectionalEdge g h source dest w).2.1
      (addBidirectionalEdge g h source dest w).2.2 source dest).2.pipes (h.nextPipe + 1)).reverse
        = some h.nextPipe := by
  obtain ⟨_, _, o1, d1, _, _, _, o2, d2, _, _, rv2, _, hadj, hinc, _⟩ :=
    addBidirectionalEdge_shape g h source dest w a b hs hd
  obtain ⟨cg, cc⟩ := addBidirectionalEdge_codes g h source dest w
  have ca : (h.locs a).code = source := findVertex_code hs
  have cb : (h.locs b).code = dest := findVertex_code hd
  have hab : a ≠ b := fun hh => hne (by rw [← ca, ← cb, hh])
  have hba : b ≠ a := fun hh => hab hh.symm
  have fs : findVertex (addBidirectionalEdge g h source dest w).2.1
      (addBidirectionalEdge g h source dest w).2.2 source = some a := by
    rw [findVertex_congr cg cc]; exact hs
  rw [removeEdge_some dest fs]
  obtain ⟨r1, F, r3, r4⟩ :=
    Location.removeEdge_spec (addBidirectionalEdge g h source dest w).2.2 a dest
  generalize (addBidirectionalEdge g h source dest w).2.2 = h1 at *
  have dc1 : Project1.destCoded h1 dest h.nextPipe = true := by
    simp [Project1.destCoded, d1, cc, cb]
  have oc1 : Project1.origCoded h1 (h1.locs a).code h.nextPipe = true := by
    simp [Project1.origCoded, o1]
  have oc2 : Project1.origCoded h1 (h1.locs a).code (h.nextPipe + 1) = false := by
    simp only [Project1.origCoded, o2, cc, ca, cb]
    simpa using Ne.symm hne
  have m1 : h.nextPipe ∈ (h1.locs a).adj := by
    rw [hadj a]; simp
  have m2 : h.nextPipe + 1 ∈ (h1.locs b).adj := by
    rw [hadj b]; simp
  have m3 : h.nextPipe + 1 ∈ (h1.locs a).incoming := by
    rw [hinc a]; simp
  refine ⟨?_, ?_, ?_, ?_, ?_, ?_, ?_, ?_⟩
  · rw [r1, List.any_eq_true]
    exact ⟨_, m1, dc1⟩
  · rw [r3 a, if_pos rfl, List.mem_filter, dc1]
    exact fun hh => Bool.noConfusion hh.2
  · rw [r4 b]
    have hany : (h1.locs a).adj.any
        (fun e => Project1.destCoded h1 dest e && decide ((h1.pipes e).dest = b)) = true := by
      rw [List.any_eq_true]
      exact ⟨_, m1, by rw [dc1, d1]; simp⟩
    rw [if_pos hany, List.mem_filter, oc1]
    exact fun hh => Bool.noConfusion hh.2
  · rw [r3 b, if_neg hba]; exact m2
  · rw [r4 a]
    split
    · rw [List.mem_filter, oc2]; exact ⟨m3, rfl⟩
    · exact m3
  · rw [F.pipes]; exact o2
  · rw [F.pipes]; exact d2
  · rw [F.pipes]; exact rv2

end Project1

namespace Project1

/-! ## `Graph::removeVertex` -/

theorem removeVertex_none {g : Graph} {h : Heap} {inn : String}
    (hv : findVertex g h inn = none) : removeVertex g h inn = (false, g, h) := by
  unfold removeVertex; rw [hv]

theorem removeVertex_some {g : Graph} {h : Heap} {inn : String} {v : Nat}
    (hv : findVertex g h inn = some v) :
    removeVertex g h inn =
      (true, { g with vertexSet := g.vertexSet.erase v },
        g.vertexSet.foldl (fun h u => (Location.removeEdge h u (h.locs v).code).2)
          (Location.removeOutgoingEdges h v)) := by
  unfold removeVertex; rw [hv]

/-- The lists of a surviving vertex after `Graph::removeVertex` took out `v`. -/
theorem removeVertex_lists {g : Graph} {h : Heap} (wf : WF h g.vertexSet)
    (ad : Addressable g h) {inn : String} {v : Nat} (hv : findVertex g h inn = some v)
    {u : Nat} (hu : u ∈ g.vertexSet) (huv : u ≠ v) :
    ((removeVertex g h inn).2.2.locs u).adj
      = (h.locs u).adj.filter (fun e => decide ((h.pipes e).dest ≠ v)) ∧
    ((removeVertex g h inn).2.2.locs u).incoming
      = (h.locs u).incoming.filter (fun e => decide ((h.pipes e).orig ≠ v)) := by
  rw [removeVertex_some hv]
  obtain ⟨F1, a1, i1⟩ := Location.removeOutgoingEdges_spec h v
  obtain ⟨_, a2, i2, s2⟩ := removeIncoming_spec h v g.vertexSet _ F1
  have hcv : findVertex g h (h.locs v).code = some v := by rw [findVertex_code hv]; exact hv
  constructor
  · show ((g.vertexSet.foldl (fun h u => (Location.removeEdge h u (h.locs v).code).2)
      (Location.removeOutgoingEdges h v)).locs u).adj = _
    rw [a2 u, if_pos hu, a1 u, if_neg huv]
    refine filter_congr_mem _ (fun e he => ?_)
    have k := coded_dest wf ad hcv hu he
    cases hq : Project1.destCoded h (h.locs v).code e with
    | true => simp [k.1 hq]
    | false =>
      have : ¬ (h.pipes e).dest = v := fun hh => by rw [k.2 hh] at hq; cases hq
      simp [this]
  · show ((g.vertexSet.foldl (fun h u => (Location.removeEdge h u (h.locs v).code).2)
      (Location.removeOutgoingEdges h v)).locs u).incoming = _
    by_cases hc : (h.locs u).code = (h.locs v).code
    · have hnil : (h.locs u).incoming = [] := by
        by_contra hne
        have := ad u hu (Or.inr hne)
        rw [hc, hcv] at this
        exact huv (Option.some.inj this).symm
      have h1nil : ((Location.removeOutgoingEdges h v).locs u).incoming = [] := by
        rw [i1 u, hnil]; split <;> rfl
      rw [hnil, List.filter_nil, List.eq_nil_iff_forall_not_mem]
      intro e he
      have := s2 u e he
      rw [h1nil] at this
      cases this
    · rw [i2 u hc, i1 u]
      split
      · refine filter_congr_mem _ (fun e he => ?_)
        have k := coded_orig wf ad hcv hu he
        cases hq : Project1.origCoded h (h.locs v).code e with
        | true => simp [k.1 hq]
        | false =>
          have : ¬ (h.pipes e).orig = v := fun hh => by rw [k.2 hh] at hq; cases hq
          simp [this]
      · rename_i hany
        symm
        rw [List.filter_eq_self]
        intro e he
        obtain ⟨q1, _, q3⟩ := wf.inc_ok u hu e he
        simp only [decide_eq_true_eq]
        intro ho
        apply hany
        rw [List.any_eq_true]
        exact ⟨e, by rw [← ho]; exact q3, by simpa using q1⟩

/-- Full description of `Graph::removeVertex` when the code is found. -/
theorem removeVertex_shape {g : Graph} {h : Heap} (wf : WF h g.vertexSet)
    (ad : Addressable g h) {inn : String} {v : Nat} (hv : findVertex g h inn = some v) :
    (removeVertex g h inn).1 = true ∧
    (removeVertex g h inn).2.1.vertexSet = g.vertexSet.erase v ∧
    v ∉ (removeVertex g h inn).2.1.vertexSet ∧
    (∀ u, u ∈ (removeVertex g h inn).2.1.vertexSet ↔ u ∈ g.vertexSet ∧ u ≠ v) ∧
    (removeVertex g h inn).2.2.pipes = h.pipes ∧
    (∀ u ∈ (removeVertex g h inn).2.1.vertexSet,
      ((removeVertex g h inn).2.2.locs u).adj
        = (h.locs u).adj.filter (fun e => decide ((h.pipes e).dest ≠ v)) ∧
      ((removeVertex g h inn).2.2.locs u).incoming
        = (h.locs u).incoming.filter (fun e => decide ((h.pipes e).orig ≠ v)) ∧
      (∀ e ∈ ((removeVertex g h inn).2.2.locs u).adj, (h.pipes e).dest ≠ v) ∧
      (∀ e ∈ ((removeVertex g h inn).2.2.locs u).incoming, (h.pipes e).orig ≠ v)) := by
  have hmem : ∀ u, u ∈ g.vertexSet.erase v ↔ u ∈ g.vertexSet ∧ u ≠ v := fun u => by
    rw [wf.nodupV.mem_erase_iff]; exact and_comm
  have L := fun u (hu : u ∈ g.vertexSet) (huv : u ≠ v) => removeVertex_lists wf ad hv hu huv
  obtain ⟨F1, _, _⟩ := Location.removeOutgoingEdges_spec h v
  obtain ⟨F2, _⟩ := removeIncoming_spec h v g.vertexSet _ F1
  have hp : (removeVertex g h inn).2.2.pipes = h.pipes := by
    rw [removeVertex_some hv]; exact F2.pipes
  have hV : (removeVertex g h inn).2.1.vertexSet = g.vertexSet.erase v := by
    rw [removeVertex_some hv]
  refine ⟨by rw [removeVertex_some hv], hV, ?_, ?_, hp, ?_⟩
  · rw [hV, hmem]; exact fun hh => hh.2 rfl
  · intro u; rw [hV]; exact hmem u
  · intro u hu
    rw [hV, hmem] at hu
    obtain ⟨l1, l2⟩ := L u hu.1 hu.2
    refine ⟨l1, l2, ?_, ?_⟩
    · intro e he
      rw [l1, List.mem_filter] at he
      simpa using he.2
    · intro e he
      rw [l2, List.mem_filter] at he
      simpa using he.2

end Project1

namespace Project1

/-! ## The sinks described by the result of `getCitiesFlow` -/

theorem setTotalFlow_sinks (h : Heap) (v : Nat) (f : Int) (x : Nat) :
    ((setTotalFlow h v f).locs x).sink = (h.locs x).sink := by
  obtain ⟨_, s⟩ := setTotalFlow_spec h v f
  obtain ⟨s1, _, _, _, s5, s6, _⟩ := s x
  simp only [Location.sink, s1, s5, s6]

/-- The records built by the loop of `getCitiesFlow` describe, in order, the entries of
the city map other than `C_0`. -/
theorem collectCities_sinks (g : Graph) : ∀ (ps : List (String × Nat)) (h : Heap)
    (acc : List CityInfo),
    (collectCities g h ps acc).1.map CityInfo.sink =
      acc.map CityInfo.sink ++
        (ps.filter (fun p => p.1 != "C_0")).map (fun p => (h.locs p.2).sink) ∧
    (collectCities g h ps acc).2.nextLoc = h.nextLoc ∧
    ∀ x, ((collectCities g h ps acc).2.locs x).sink = (h.locs x).sink := by
  intro ps
  induction ps with
  | nil => intro h acc; simp [collectCities]
  | cons p ps ih =>
    intro h acc
    rw [collectCities]
    by_cases hp : (p.1 != "C_0") = true
    · rw [if_pos hp]
      simp only
      obtain ⟨a, b, c⟩ := ih (setTotalFlow h p.2 (maxFlowInto g h p.1))
        (acc ++ [{ cityName := ((setTotalFlow h p.2 (maxFlowInto g h p.1)).locs p.2).getName,
                   cityCode := ((setTotalFlow h p.2 (maxFlowInto g h p.1)).locs p.2).code,
                   demand := ((setTotalFlow h p.2 (maxFlowInto g h p.1)).locs p.2).getDemand,
                   totalFlow := maxFlowInto g h p.1, affectedTotalFlow := 0 }])
      refine ⟨?_, b.trans (setTotalFlow_next h _ _).1, fun x => (c x).trans (setTotalFlow_sinks h _ _ x)⟩
      rw [a, List.filter_cons, if_pos hp, List.map_append, List.map_cons, List.append_assoc]
      congr 1
      simp only [List.map_cons, List.map_nil, List.singleton_append, CityInfo.sink]
      have e1 := setTotalFlow_sinks h p.2 (maxFlowInto g h p.1) p.2
      simp only [Location.sink, Prod.mk.injEq] at e1
      rw [e1.1, e1.2.1, e1.2.2]
      congr 1
      refine List.map_congr_left (fun q _ => ?_)
      exact setTotalFlow_sinks h _ _ q.2
    · rw [if_neg hp, List.filter_cons, if_neg hp]
      exact ih h acc

end Project1

namespace Project1

/-! ## The two lists compared by the impact queries -/

theorem setPipelinesResult_sinks {this : Graph} {b : Bool} {ps : List (String × String)}
    {h h1 : Heap} (he : setPipelinesResult this b ps h = Result.ok () h1) :
    SinkFrame h h1 ∧ ∃ l, pipelineTargets this ps = some l := by
  unfold setPipelinesResult at he
  rw [setPipelines_eq] at he
  cases ht : pipelineTargets this ps with
  | none => rw [ht] at he; cases he
  | some l =>
    rw [ht] at he
    simp only [Option.map_some', Result.ok.injEq, true_and] at he
    obtain ⟨a, b, _⟩ := setActivatedAll_spec b l h
    refine ⟨?_, l, rfl⟩
    rw [← he]
    exact ⟨le_of_eq b.symm, fun v _ => by rw [a]⟩

theorem setPipelinesResult_ok {this : Graph} (b : Bool) {ps : List (String × String)}
    {l : List Nat} (ht : pipelineTargets this ps = some l) (h : Heap) :
    setPipelinesResult this b ps h
      = Result.ok () (l.foldl (fun h e => setActivated h e b) h) := by
  unfold setPipelinesResult
  rw [setPipelines_eq, ht]
  rfl

end Project1

namespace Project1

/-! ## The search only follows enabled links -/

theorem Marked.marked_mono {h0 h k : Heap} {s w : Nat} (m : Marked h0 h s w)
    (hv : ∀ x, (h.locs x).visited = true → (k.locs x).visited = true) : Marked h0 k s w := by
  rcases m with m | m
  · exact Or.inl m
  · exact Or.inr ⟨hv w m.1, m.2⟩

theorem Search.marked_visited {h0 : Heap} {s : Nat} {st : Heap × List Nat} (S : Search h0 s st)
    (hs : (h0.locs s).visited = true) {v : Nat} (m : Marked h0 st.1 s v) :
    (st.1.locs v).visited = true := by
  rcases m with m | m
  · rw [m]; exact S.mono s hs
  · exact m.1

theorem testAndVisit_search {h0 : Heap} {s v : Nat} {st : Heap × List Nat} (S : Search h0 s st)
    (mv : Marked h0 st.1 s v) {e w : Nat} (r : Int) (hw : w < h0.nextLoc)
    (hstep : (st.1.locs w).visited = false →
      (if (h0.pipes e).dest = w then (h0.pipes e).orig else (h0.pipes e).dest) = v) :
    Search h0 s (testAndVisit st e w r) := by
  unfold testAndVisit
  split
  · rename_i hg
    simp only [Bool.and_eq_true, Bool.not_eq_true', decide_eq_true_eq] at hg
    obtain ⟨⟨g1, _⟩, g3⟩ := hg
    have hm : ∀ x, (st.1.locs x).visited = true →
        ((setPath (setVisited st.1 w true) w (some e)).locs x).visited = true :=
      fun x hx => mark_mono _ _ _ _ hx
    have hw0 : (h0.locs w).visited = false := by
      cases hq : (h0.locs w).visited with
      | false => rfl
      | true => rw [S.mono w hq] at g1; cases g1
    have hp : (setPath (setVisited st.1 w true) w (some e)).pipes = h0.pipes := S.pipes
    have F := mark_frame st.1 w (some e)
    have mw : Marked h0 (setPath (setVisited st.1 w true) w (some e)) s w :=
      Or.inr ⟨by rw [mark_visited, if_pos rfl], hw0⟩
    refine ⟨hp, F.nextLoc.trans S.nextLoc, fun x => ((F.locs x).2.2.1).trans (S.adj x),
      fun x => ((F.locs x).2.2.2.1).trans (S.incoming x), fun x hx => hm x (S.mono x hx), ?_, ?_⟩
    · intro x mx hxs
      by_cases hxw : x = w
      · subst hxw
        refine ⟨e, by rw [mark_path, if_pos rfl], by rw [hp, ← S.pipes]; exact g3, ?_⟩
        rw [hp, hstep g1]
        exact mv.marked_mono hm
      · have mx0 : Marked h0 st.1 s x := by
          rcases mx with mx | mx
          · exact Or.inl mx
          · rw [mark_visited, if_neg hxw] at mx
            exact Or.inr mx
        obtain ⟨e1, p1, a1, n1⟩ := S.tree x mx0 hxs
        refine ⟨e1, by rw [mark_path, if_neg hxw]; exact p1, by rw [hp, ← S.pipes]; exact a1, ?_⟩
        rw [hp, ← S.pipes]
        exact n1.marked_mono hm
    · intro x hx
      rcases List.mem_append.1 hx with hx | hx
      · exact ⟨(S.queue x hx).1.marked_mono hm, (S.queue x hx).2⟩
      · rw [List.mem_singleton] at hx
        subst hx
        exact ⟨mw, hw⟩
  · exact S

theorem Search.drop {h0 : Heap} {s v : Nat} {h : Heap} {q : List Nat}
    (S : Search h0 s (h, v :: q)) : Search h0 s (h, q) :=
  ⟨S.pipes, S.nextLoc, S.adj, S.incoming, S.mono, S.tree,
    fun x hx => S.queue x (List.mem_cons_of_mem _ hx)⟩

theorem processOutgoing_search {h0 : Heap} {s v : Nat} (ok : HeapOK h0)
    (hv : v < h0.nextLoc) :
    ∀ (es : List Nat) (st : Heap × List Nat), (∀ e ∈ es, e ∈ (h0.locs v).adj) →
      Search h0 s st → Marked h0 st.1 s v →
      Search h0 s (processOutgoing st es) ∧ Marked h0 (processOutgoing st es).1 s v := by
  intro es
  induction es with
  | nil => intro st _ S m; exact ⟨S, m⟩
  | cons e es ih =>
    intro st hes S m
    rw [processOutgoing_cons]
    obtain ⟨o1, o2, _⟩ := (ok v hv).1 e (hes e (List.mem_cons_self _ _))
    have S1 : Search h0 s (testAndVisit st e (st.1.pipes e).dest
        ((st.1.pipes e).weight - (st.1.pipes e).flow)) := by
      refine testAndVisit_search S m _ (by rw [S.pipes]; exact o2) (fun _ => ?_)
      rw [S.pipes, if_pos rfl]; exact o1
    exact ih _ (fun x hx => hes x (List.mem_cons_of_mem _ hx)) S1
      (m.marked_mono (fun x hx => testAndVisit_mono st _ _ _ x hx))

theorem processIncoming_search {h0 : Heap} {s v : Nat} (ok : HeapOK h0)
    (hv : v < h0.nextLoc) (hs : (h0.locs s).visited = true) :
    ∀ (es : List Nat) (st : Heap × List Nat), (∀ e ∈ es, e ∈ (h0.locs v).incoming) →
      Search h0 s st → Marked h0 st.1 s v →
      Search h0 s (processIncoming st es) ∧ Marked h0 (processIncoming st es).1 s v := by
  intro es
  induction es with
  | nil => intro st _ S m; exact ⟨S, m⟩
  | cons e es ih =>
    intro st hes S m
    rw [processIncoming_cons]
    obtain ⟨o1, o2, _⟩ := (ok v hv).2 e (hes e (List.mem_cons_self _ _))
    have S1 : Search h0 s (testAndVisit st e (st.1.pipes e).orig (st.1.pipes e).flow) := by
      refine testAndVisit_search S m _ (by rw [S.pipes]; exact o2) (fun hu => ?_)
      rw [S.pipes] at hu ⊢
      have hne : (h0.pipes e).dest ≠ (h0.pipes e).orig := by
        intro hh
        rw [← hh, o1, S.marked_visited hs m] at hu
        cases hu
      rw [if_neg hne]; exact o1
    exact ih _ (fun x hx => hes x (List.mem_cons_of_mem _ hx)) S1
      (m.marked_mono (fun x hx => testAndVisit_mono st _ _ _ x hx))

theorem bfsLoop_search {h0 : Heap} {s : Nat} (t : Nat) (ok : HeapOK h0)
    (hs : (h0.locs s).visited = true) :
    ∀ (fuel : Nat) (st : Heap × List Nat) (r : Heap), Search h0 s st →
      bfsLoop fuel t st = some r → Search h0 s (r, []) := by
  intro fuel
  induction fuel with
  | zero => intro st r _ he; simp [bfsLoop] at he
  | succ n ih =>
    intro st r S he
    obtain ⟨h, q⟩ := st
    cases q with
    | nil =>
      rw [bfsLoop_nil] at he
      cases he
      exact S
    | cons v q1 =>
      rw [bfsLoop_cons] at he
      split at he
      · cases he
        exact ⟨S.pipes, S.nextLoc, S.adj, S.incoming, S.mono, S.tree,
          fun x hx => absurd hx (List.not_mem_nil _)⟩
      · obtain ⟨mv, hv⟩ := S.queue v (List.mem_cons_self _ _)
        obtain ⟨S1, m1⟩ := processOutgoing_search ok hv (h.locs v).adj (h, q1)
          (fun e he => by rw [← S.adj v]; exact he) S.drop mv
        obtain ⟨S2, _⟩ := processIncoming_search ok hv hs
          ((processOutgoing (h, q1) (h.locs v).adj).1.locs v).incoming _
          (fun e he => by rw [← S1.incoming v]; exact he) S1 m1
        exact ih _ r S2 he

end Project1

namespace Project1

/-! ## Disabled links keep their flow during a solve -/

theorem HeapOK.of_frame {h h1 : Heap} (ok : HeapOK h) (F : SolverFrame h h1) : HeapOK h1 := by
  intro v hv
  rw [F.nextLoc] at hv
  obtain ⟨a, b⟩ := ok v hv
  constructor
  · intro e he
    rw [(F.locs v).2.2.1] at he
    obtain ⟨q1, q2, q3⟩ := a e he
    exact ⟨by rw [(F.pipes e).1]; exact q1, by rw [(F.pipes e).2.1, F.nextLoc]; exact q2,
      by rw [F.nextPipe]; exact q3⟩
  · intro e he
    rw [(F.locs v).2.2.2.1] at he
    obtain ⟨q1, q2, q3⟩ := b e he
    exact ⟨by rw [(F.pipes e).2.1]; exact q1, by rw [(F.pipes e).1, F.nextLoc]; exact q2,
      by rw [F.nextPipe]; exact q3⟩

/-- When `findAugmentingPath` returns, the pipes are untouched, every vertex marked by
the search has an enabled `path` link leading to a marked vertex, and the target is
marked when the search reports success. -/
theorem findAugmentingPath_search {fuel : Nat} {g : Graph} {h : Heap} {s t : Nat}
    (ok : HeapOK h) (hs : s < h.nextLoc) {r : Bool × Heap}
    (he : findAugmentingPath fuel g h s t = some r) :
    r.2.pipes = h.pipes ∧
    ∃ h0, OpenTree h0 r.2 s ∧ (r.1 = true → t ∈ g.vertexSet → t ≠ s → Marked h0 r.2 s t) := by
  unfold findAugmentingPath at he
  simp only at he
  cases hb : bfsLoop fuel t
      (setVisited (g.vertexSet.foldl (fun h v => setVisited h v false) h) s true, [s]) with
  | none => rw [hb] at he; simp at he
  | some h3 =>
    rw [hb] at he
    simp only [Option.some.injEq] at he
    obtain ⟨p0, _, _, v0⟩ := resetVisited_spec g.vertexSet h
    have F0 : SolverFrame h
        (setVisited (g.vertexSet.foldl (fun h v => setVisited h v false) h) s true) :=
      (resetVisited_frame _ h).sf_trans (SolverFrame.sf_setVisited _ _ _)
    have ok0 := ok.of_frame F0
    have hs0 : ((setVisited (g.vertexSet.foldl (fun h v => setVisited h v false) h) s true).locs
        s).visited = true := by
      rw [setVisited_locs, if_pos rfl]
    have S0 : Search (setVisited (g.vertexSet.foldl (fun h v => setVisited h v false) h) s true) s
        (setVisited (g.vertexSet.foldl (fun h v => setVisited h v false) h) s true, [s]) := by
      refine ⟨rfl, rfl, fun _ => rfl, fun _ => rfl, fun _ hx => hx, ?_, ?_⟩
      · intro w mw hws
        rcases mw with mw | mw
        · exact absurd mw hws
        · rw [mw.1] at mw; cases mw.2
      · intro v hv
        rw [List.mem_singleton] at hv
        subst hv
        exact ⟨Or.inl rfl, by rw [F0.nextLoc]; exact hs⟩
    have S := bfsLoop_search t ok0 hs0 fuel _ h3 S0 hb
    rw [← he]
    refine ⟨S.pipes.trans (by
      show (g.vertexSet.foldl (fun h v => setVisited h v false) h).pipes = h.pipes
      exact p0), _, S.tree, fun hv ht hts => Or.inr ⟨hv, ?_⟩⟩
    rw [setVisited_locs, if_neg hts, v0, if_pos ht]

theorem augmentWalk_disabled {h0 h3 : Heap} {s : Nat} (T : OpenTree h0 h3 s) (f : Int) :
    ∀ (fuel : Nat) (hc : Heap) (v : Nat) (r : Heap), Marked h0 h3 s v →
      hc.locs = h3.locs →
      (∀ e, (hc.pipes e).dest = (h3.pipes e).dest ∧ (hc.pipes e).orig = (h3.pipes e).orig) →
      augmentWalk fuel hc s v f = some r →
      ∀ e, (h3.pipes e).activated = false → (r.pipes e).flow = (hc.pipes e).flow := by
  intro fuel
  induction fuel with
  | zero => intro hc v r _ _ _ he; simp [augmentWalk] at he
  | succ n ih =>
    intro hc v r mv hl hp he x hx
    rw [augmentWalk] at he
    by_cases hvs : v = s
    · rw [if_pos hvs] at he
      cases he; rfl
    · rw [if_neg hvs] at he
      obtain ⟨e, p1, a1, n1⟩ := T v mv hvs
      rw [hl, p1] at he
      simp only at he
      have hxe : x ≠ e := fun hh => by rw [hh, a1] at hx; cases hx
      have step : ∀ (y : Int) (w : Nat), Marked h0 h3 s w →
          augmentWalk n (setFlow hc e y) s w f = some r →
          (r.pipes x).flow = (hc.pipes x).flow := by
        intro y w mw hw
        have := ih (setFlow hc e y) w r mw (by rw [setFlow_locs]; exact hl)
          (fun e1 => by
            rw [setFlow_pipes]
            split
            · rename_i h1; subst h1; exact hp e1
            · exact hp e1) hw x hx
        rw [this, setFlow_pipes, if_neg hxe]
      rw [(hp e).1, (hp e).2] at he
      by_cases hd : (h3.pipes e).dest = v
      · rw [if_pos hd] at he n1
        exact step _ _ n1 he
      · rw [if_neg hd] at he n1
        exact step _ _ n1 he

theorem augmentLoop_disabled {g : Graph} {s t fuel : Nat} (ht : t ∈ g.vertexSet) (hts : t ≠ s) :
    ∀ (n : Nat) (h r : Heap), HeapOK h → s < h.nextLoc →
      augmentLoop n fuel g s t h = some r →
      ∀ e, (h.pipes e).activated = false → (r.pipes e).flow = (h.pipes e).flow := by
  intro n
  induction n with
  | zero => intro h r _ _ he; simp [augmentLoop] at he
  | succ n ih =>
    intro h r ok hs he x hx
    rw [augmentLoop] at he
    cases hf : findAugmentingPath fuel g h s t with
    | none => rw [hf] at he; simp at he
    | some y =>
      obtain ⟨b, h1⟩ := y
      rw [hf] at he
      have f1 := findAugmentingPath_frame fuel g h s t _ hf
      obtain ⟨p1, h0, T, mt⟩ := findAugmentingPath_search ok hs hf
      simp only at p1 T mt f1
      cases b with
      | false =>
        simp only [Option.some.injEq] at he
        rw [← he, p1]
      | true =>
        simp only at he
        cases hm : findMinResidualAlongPath fuel h1 s t with
        | none => rw [hm] at he; simp at he
        | some f =>
          rw [hm] at he
          simp only at he
          cases ha : augmentFlowAlongPath fuel h1 s t f with
          | none => rw [ha] at he; simp at he
          | some h2 =>
            rw [ha] at he
            simp only at he
            have f2 := augmentFlowAlongPath_frame fuel h1 s t f h2 ha
            have F := f1.sf_trans f2
            have hx1 : (h1.pipes x).activated = false := by rw [p1]; exact hx
            have k := augmentWalk_disabled T f fuel h1 t h2 (mt rfl ht hts) rfl
              (fun _ => ⟨rfl, rfl⟩) ha x hx1
            have hx2 : (h2.pipes x).activated = false := by
              rw [(F.pipes x).2.2.2.2]; exact hx
            rw [ih h2 r (ok.of_frame F) (by rw [F.nextLoc]; exact hs) he x hx2, k, p1]

/-- After `edmondsKarp` returns, a disabled link owned by a vertex of the graph has
flow 0. -/
theorem edmondsKarp_disabled {fuel : Nat} {g : Graph} {h : Heap} {source target : String}
    {h1 : Heap} (ok : HeapOK h) (al : ∀ v ∈ g.vertexSet, v < h.nextLoc)
    (he : edmondsKarp fuel g h source target = Result.ok () h1) :
    ∀ e ∈ allPipes h g.vertexSet, (h.pipes e).activated = false →
      (h1.pipes e).flow = 0 := by
  intro e hown hdis
  unfold edmondsKarp at he
  cases hs : findVertex g h source with
  | none => rw [hs] at he; cases he
  | some s =>
    cases ht : findVertex g h target with
    | none => rw [hs, ht] at he; cases he
    | some t =>
      rw [hs, ht] at he
      simp only at he
      by_cases hst : s = t
      · rw [if_pos hst] at he; cases he
      · rw [if_neg hst] at he
        cases hl : augmentLoop fuel fuel g s t (resetFlows g h) with
        | none => rw [hl] at he; cases he
        | some h2 =>
          rw [hl] at he
          simp only [Result.ok.injEq, true_and] at he
          obtain ⟨_, _, z⟩ := resetFlows_spec g h
          have F := resetFlows_frame g h
          rw [← he, augmentLoop_disabled (findVertex_mem ht) (fun hh => hst hh.symm) fuel _ h2
            (ok.of_frame F) (by rw [F.nextLoc]; exact al s (findVertex_mem hs)) hl e
            (by rw [(F.pipes e).2.2.2.2]; exact hdis), z e, if_pos hown]

end Project1

namespace Project1

/-! ## Consistency of the heap while a query builds its network -/

theorem Built.b_refl {g : Graph} {h : Heap} (ok : HeapOK h) (al : ∀ v ∈ g.vertexSet, v < h.nextLoc) :
    Built g h g h :=
  ⟨ok, al, fun _ hv => hv, fun _ _ _ he => he, QueryFrame.qf_refl h⟩

theorem Built.b_trans {g1 g2 g3 : Graph} {h1 h2 h3 : Heap} (a : Built g1 h1 g2 h2)
    (b : Built g2 h2 g3 h3) : Built g1 h1 g3 h3 :=
  ⟨b.ok, b.alloc, fun v hv => b.verts v (a.verts v hv),
    fun v hv e he => b.adj v (lt_of_lt_of_le hv a.frame.nextLoc) e (a.adj v hv e he),
    a.frame.qf_trans b.frame⟩

theorem HeapOK.of_same {h h1 : Heap} (ok : HeapOK h) (hp : h1.pipes = h.pipes)
    (n1 : h1.nextLoc = h.nextLoc) (n2 : h1.nextPipe = h.nextPipe)
    (ha : ∀ v, (h1.locs v).adj = (h.locs v).adj)
    (hi : ∀ v, (h1.locs v).incoming = (h.locs v).incoming) : HeapOK h1 := by
  intro v hv
  rw [n1] at hv
  rw [ha, hi, hp, n1, n2]
  exact ok v hv

theorem newLocation_ok {h : Heap} (ok : HeapOK h) (id : Int) (code : String) (k : Kind) :
    HeapOK (newLocation h id code k).2 := by
  obtain ⟨p, n2, n3, l⟩ := newLocation_spec h id code k
  intro v hv
  rw [l v, p, n2, n3]
  by_cases hvn : v = h.nextLoc
  · rw [if_pos hvn]
    exact ⟨fun e he => absurd he (List.not_mem_nil _), fun e he => absurd he (List.not_mem_nil _)⟩
  · rw [if_neg hvn]
    rw [n3] at hv
    have hv1 : v < h.nextLoc := by omega
    obtain ⟨a, b⟩ := ok v hv1
    exact ⟨fun e he => ⟨(a e he).1, Nat.lt_succ_of_lt (a e he).2.1, (a e he).2.2⟩,
      fun e he => ⟨(b e he).1, Nat.lt_succ_of_lt (b e he).2.1, (b e he).2.2⟩⟩

theorem newLocation_built {g : Graph} {h : Heap} (ok : HeapOK h)
    (al : ∀ v ∈ g.vertexSet, v < h.nextLoc) (id : Int) (code : String) (k : Kind)
    {g1 : Graph} (hg : g1.vertexSet = g.vertexSet ++ [(newLocation h id code k).1]) :
    Built g h g1 (newLocation h id code k).2 := by
  obtain ⟨_, _, n3, l⟩ := newLocation_spec h id code k
  refine ⟨newLocation_ok ok id code k, ?_, ?_, ?_, newLocation_frame h id code k⟩
  · intro v hv
    rw [hg, List.mem_append, List.mem_singleton] at hv
    rw [n3]
    rcases hv with hv | hv
    · exact Nat.lt_succ_of_lt (al v hv)
    · rw [hv]; exact Nat.lt_succ_self _
  · intro v hv
    rw [hg]; exact List.mem_append_left _ hv
  · intro v hv e he
    rw [l v, if_neg (Nat.ne_of_lt hv)]; exact he

theorem addVertexReservoir_built {g : Graph} {h : Heap} (ok : HeapOK h)
    (al : ∀ v ∈ g.vertexSet, v < h.nextLoc) (name municipality : String) (id : Int)
    (code : String) (m : Int) :
    Built g h (addVertexReservoir g h name municipality id code m).2.1
      (addVertexReservoir g h name municipality id code m).2.2 := by
  unfold addVertexReservoir
  split
  · exact Built.b_refl ok al
  · exact newLocation_built ok al _ _ _ rfl

theorem addVertexCity_built {g : Graph} {h : Heap} (ok : HeapOK h)
    (al : ∀ v ∈ g.vertexSet, v < h.nextLoc) (name : String) (id : Int)
    (code : String) (d p : Int) :
    Built g h (addVertexCity g h name id code d p).2.1
      (addVertexCity g h name id code d p).2.2 := by
  unfold addVertexCity
  split
  · exact Built.b_refl ok al
  · exact newLocation_built ok al _ _ _ rfl

theorem Location.addEdge_ok {h : Heap} (ok : HeapOK h) {a b : Nat} (ha : a < h.nextLoc)
    (hb : b < h.nextLoc) (w : Int) : HeapOK (Location.addEdge h a b w).2 := by
  intro v hv
  obtain ⟨n1, n2, _⟩ := Location.addEdge_next h a b w
  rw [n2] at hv
  obtain ⟨l1, l2, _⟩ := Location.addEdge_locs h a b w v
  obtain ⟨o1, o2⟩ := ok v hv
  rw [l1, l2, n1, n2]
  have old : ∀ e, e < h.nextPipe → (Location.addEdge h a b w).2.pipes e = h.pipes e :=
    fun e he => by rw [Location.addEdge_pipes, if_neg (Nat.ne_of_lt he)]
  have new : (Location.addEdge h a b w).2.pipes h.nextPipe =
      { dest := b, weight := w, orig := a, reverse := none, flow := 0, activated := true } := by
    rw [Location.addEdge_pipes, if_pos rfl]
  constructor
  · intro e he
    have hold : e ∈ (h.locs v).adj →
        ((Location.addEdge h a b w).2.pipes e).orig = v ∧
        ((Location.addEdge h a b w).2.pipes e).dest < h.nextLoc ∧ e < h.nextPipe + 1 :=
      fun he1 => by
        obtain ⟨q1, q2, q3⟩ := o1 e he1
        rw [old e q3]
        exact ⟨q1, q2, Nat.lt_succ_of_lt q3⟩
    split at he
    · rename_i hva
      rcases List.mem_append.1 he with he | he
      · exact hold he
      · rw [List.mem_singleton] at he
        rw [he, new]
        exact ⟨hva.symm, hb, Nat.lt_succ_self _⟩
    · exact hold he
  · intro e he
    have hold : e ∈ (h.locs v).incoming →
        ((Location.addEdge h a b w).2.pipes e).dest = v ∧
        ((Location.addEdge h a b w).2.pipes e).orig < h.nextLoc ∧ e < h.nextPipe + 1 :=
      fun he1 => by
        obtain ⟨q1, q2, q3⟩ := o2 e he1
        rw [old e q3]
        exact ⟨q1, q2, Nat.lt_succ_of_lt q3⟩
    split at he
    · rename_i hvb
      rcases List.mem_append.1 he with he | he
      · exact hold he
      · rw [List.mem_singleton] at he
        rw [he, new]
        exact ⟨hvb.symm, ha, Nat.lt_succ_self _⟩
    · exact hold he

theorem addEdge_built {g : Graph} {h : Heap} (ok : HeapOK h)
    (al : ∀ v ∈ g.vertexSet, v < h.nextLoc) (source dest : String) (w : Int) :
    Built g h (addEdge g h source dest w).2.1 (addEdge g h source dest w).2.2 := by
  have hV := (addEdge_graph g h source dest w).1
  have hF := addEdge_frame g h source dest w
  refine ⟨?_, ?_, fun v hv => by rw [hV]; exact hv, ?_, hF⟩
  · unfold addEdge
    cases hs : findVertex g h source with
    | none => exact ok
    | some v1 =>
      cases hd : findVertex g h dest with
      | none => exact ok
      | some v2 => exact Location.addEdge_ok ok (al _ (findVertex_mem hs)) (al _ (findVertex_mem hd)) w
  · intro v hv
    rw [hV] at hv
    exact lt_of_lt_of_le (al v hv) hF.nextLoc
  · intro v _ e he
    unfold addEdge
    cases findVertex g h source with
    | none => exact he
    | some v1 =>
      cases findVertex g h dest with
      | none => exact he
      | some v2 =>
        show e ∈ ((Location.addEdge h v1 v2 w).2.locs v).adj
        rw [(Location.addEdge_locs h v1 v2 w v).1]
        split
        · exact List.mem_append_left _ he
        · exact he

theorem addR0Edges_built (toRemove : String) : ∀ (ps : List (String × Nat)) (g : Graph)
    (h : Heap), HeapOK h → (∀ v ∈ g.vertexSet, v < h.nextLoc) →
      Built g h (addR0Edges toRemove g h ps).1 (addR0Edges toRemove g h ps).2 := by
  intro ps
  induction ps with
  | nil => intro g h ok al; exact Built.b_refl ok al
  | cons p ps ih =>
    intro g h ok al
    rw [addR0Edges]
    split
    · have B := addEdge_built ok al "R_0" p.1 0
      exact B.b_trans (ih _ _ B.ok B.alloc)
    · split
      · have B := addEdge_built ok al "R_0" p.1 (h.locs p.2).getMaximumDelivery
        exact B.b_trans (ih _ _ B.ok B.alloc)
      · exact ih _ _ ok al

theorem addC0Edges_built : ∀ (ps : List (String × Nat)) (g : Graph)
    (h : Heap), HeapOK h → (∀ v ∈ g.vertexSet, v < h.nextLoc) →
      Built g h (addC0Edges g h ps).1 (addC0Edges g h ps).2 := by
  intro ps
  induction ps with
  | nil => intro g h ok al; exact Built.b_refl ok al
  | cons p ps ih =>
    intro g h ok al
    rw [addC0Edges]
    split
    · have B := addEdge_built ok al p.1 "C_0" (h.locs p.2).getDemand
      exact B.b_trans (ih _ _ B.ok B.alloc)
    · exact ih _ _ ok al

theorem addR0C0_built {g : Graph} {h : Heap} (ok : HeapOK h)
    (al : ∀ v ∈ g.vertexSet, v < h.nextLoc) (toRemove : String) :
    Built g h (addR0C0 g h toRemove).1 (addR0C0 g h toRemove).2 := by
  unfold addR0C0
  simp only
  have B1 := addVertexReservoir_built ok al "" "" 0 "R_0" 0
  split
  · have B2 := addVertexCity_built B1.ok B1.alloc "" 0 "C_0" 0 0
    split
    · have B3 := addR0Edges_built toRemove
        (addVertexCity (addVertexReservoir g h "" "" 0 "R_0" 0).2.1
          (addVertexReservoir g h "" "" 0 "R_0" 0).2.2 "" 0 "C_0" 0 0).2.1.mapReservoirs
        _ _ B2.ok B2.alloc
      exact ((B1.b_trans B2).b_trans B3).b_trans (addC0Edges_built _ _ _ B3.ok B3.alloc)
    · exact B1.b_trans B2
  · exact B1

theorem collectCities_same (g : Graph) : ∀ (ps : List (String × Nat)) (h : Heap)
    (acc : List CityInfo),
    (collectCities g h ps acc).2.pipes = h.pipes ∧
    (collectCities g h ps acc).2.nextLoc = h.nextLoc ∧
    (collectCities g h ps acc).2.nextPipe = h.nextPipe ∧
    (∀ v, ((collectCities g h ps acc).2.locs v).adj = (h.locs v).adj) ∧
    (∀ v, ((collectCities g h ps acc).2.locs v).incoming = (h.locs v).incoming) := by
  intro ps
  induction ps with
  | nil => intro h acc; exact ⟨rfl, rfl, rfl, fun _ => rfl, fun _ => rfl⟩
  | cons p ps ih =>
    intro h acc
    rw [collectCities]
    split
    · obtain ⟨a, b⟩ := setTotalFlow_spec h p.2 (maxFlowInto g h p.1)
      obtain ⟨n1, n2⟩ := setTotalFlow_next h p.2 (maxFlowInto g h p.1)
      obtain ⟨i1, i2, i3, i4, i5⟩ := ih (setTotalFlow h p.2 (maxFlowInto g h p.1))
        (acc ++ [{ cityName := ((setTotalFlow h p.2 (maxFlowInto g h p.1)).locs p.2).getName,
                   cityCode := ((setTotalFlow h p.2 (maxFlowInto g h p.1)).locs p.2).code,
                   demand := ((setTotalFlow h p.2 (maxFlowInto g h p.1)).locs p.2).getDemand,
                   totalFlow := maxFlowInto g h p.1, affectedTotalFlow := 0 }])
      exact ⟨i1.trans a, i2.trans n1, i3.trans n2, fun v => (i4 v).trans (b v).2.1,
        fun v => (i5 v).trans (b v).2.2.1⟩
    · exact ih h acc

/-- One `getCitiesFlow(true, ...)` on a consistent heap: the heap stays consistent, the
lists of the caller nodes only grow, and a disabled link owned by a vertex of the caller
is still disabled and has flow 0 when the call returns. -/
theorem getCitiesFlow_disabled {fuel : Nat} {this : Graph} {h : Heap} {oneCity removeR : String}
    {l : List CityInfo} {h1 : Heap} (ok : HeapOK h)
    (al : ∀ v ∈ this.vertexSet, v < h.nextLoc)
    (he : getCitiesFlow fuel this h true oneCity removeR = Result.ok l h1) :
    HeapOK h1 ∧ (∀ v ∈ this.vertexSet, v < h1.nextLoc) ∧
    (∀ e ∈ allPipes h this.vertexSet, e ∈ allPipes h1 this.vertexSet) ∧
    (∀ e ∈ allPipes h this.vertexSet, (h.pipes e).activated = false →
      (h1.pipes e).activated = false ∧ (h1.pipes e).flow = 0) := by
  have B := addR0C0_built ok al removeR
  unfold getCitiesFlow at he
  simp only at he
  obtain ⟨u, h2, e1, e2⟩ := Result.bind_eq_ok he
  have F := edmondsKarp_frame fuel _ _ _ _ h2 (Result.heap_of_ok e1)
  rw [if_pos trivial] at e2
  simp only [Result.ok.injEq] at e2
  obtain ⟨c1, c2, c3, c4, c5⟩ := collectCities_same (addR0C0 this h removeR).1
    (addR0C0 this h removeR).1.mapCities h2 []
  have ok2 := B.ok.of_frame F
  have ok3 := ok2.of_same c1 c2 c3 c4 c5
  rw [e2.2] at c1 c2 c4 ok3
  have own : ∀ e ∈ allPipes h this.vertexSet, ∃ v ∈ this.vertexSet,
      e ∈ ((addR0C0 this h removeR).2.locs v).adj ∧ e < h.nextPipe := by
    intro e he
    obtain ⟨v, hv, hev⟩ := mem_allPipes.1 he
    exact ⟨v, hv, B.adj v (al v hv) e hev, ((ok v (al v hv)).1 e hev).2.2⟩
  refine ⟨ok3, fun v hv => ?_, fun e he => ?_, fun e he hd => ?_⟩
  · rw [c2, F.nextLoc]
    exact lt_of_lt_of_le (al v hv) B.frame.nextLoc
  · obtain ⟨v, hv, hev, _⟩ := own e he
    rw [mem_allPipes]
    exact ⟨v, hv, by rw [c4, (F.locs v).2.2.1]; exact hev⟩
  · obtain ⟨v, hv, hev, hlt⟩ := own e he
    have hd1 : ((addR0C0 this h removeR).2.pipes e).activated = false := by
      rw [(B.frame.pipes e hlt).2.2.2.2]; exact hd
    rw [c1, (F.pipes e).2.2.2.2]
    refine ⟨hd1, ?_⟩
    have e1u : edmondsKarp fuel (addR0C0 this h removeR).1 (addR0C0 this h removeR).2 "R_0" "C_0"
        = Result.ok () h2 := e1
    exact edmondsKarp_disabled B.ok B.alloc e1u e
      (mem_allPipes.2 ⟨v, B.verts v hv, hev⟩) hd1

end Project1

namespace Project1

/-! ## The perturbed solve of the pipe queries -/

theorem HeapOK.of_ends {h h1 : Heap} (ok : HeapOK h) (hl : h1.locs = h.locs)
    (n1 : h1.nextLoc = h.nextLoc) (n2 : h1.nextPipe = h.nextPipe)
    (hp : ∀ e, (h1.pipes e).orig = (h.pipes e).orig ∧ (h1.pipes e).dest = (h.pipes e).dest) :
    HeapOK h1 := by
  intro v hv
  rw [n1] at hv
  obtain ⟨a, b⟩ := ok v hv
  rw [hl, n1, n2]
  exact ⟨fun e he => by rw [(hp e).1, (hp e).2]; exact a e he,
    fun e he => by rw [(hp e).1, (hp e).2]; exact b e he⟩

/-- The two solves of `removePipeCompare` / `removeMultiplePipesCompare` on a consistent
heap: the second solve starts with the named pipes disabled, and those owned by a
vertex of the network are disabled with flow 0 when it returns. -/
theorem pipeFlows_disabled {fuel : Nat} {this : Graph} {h : Heap} {ps : List (String × String)}
    {p : List CityInfo × List CityInfo} {h3 : Heap} (ok : HeapOK h)
    (al : ∀ v ∈ this.vertexSet, v < h.nextLoc)
    (he : pipeFlows fuel this h ps = Result.ok p h3) :
    ∃ og h1 l, getCitiesFlow fuel this h true "" "" = Result.ok og h1 ∧
      pipelineTargets this ps = some l ∧
      getCitiesFlow fuel this (l.foldl (fun h e => setActivated h e false) h1) true "" ""
        = Result.ok p.2 h3 ∧
      (∀ e ∈ l, ((l.foldl (fun h e => setActivated h e false) h1).pipes e).activated = false) ∧
      (∀ e ∈ l, e ∈ allPipes h this.vertexSet →
        (h3.pipes e).activated = false ∧ (h3.pipes e).flow = 0) := by
  unfold pipeFlows at he
  obtain ⟨og, h1, e1, e2⟩ := Result.bind_eq_ok he
  obtain ⟨u, h2, e3, e4⟩ := Result.bind_eq_ok e2
  obtain ⟨no, h4, e5, e6⟩ := Result.bind_eq_ok e4
  simp only [Result.ok.injEq] at e6
  obtain ⟨_, l, hl⟩ := setPipelinesResult_sinks e3
  rw [setPipelinesResult_ok false hl] at e3
  simp only [Result.ok.injEq, true_and] at e3
  obtain ⟨ok1, al1, own1, _⟩ := getCitiesFlow_disabled ok al e1
  obtain ⟨a1, a2, a3, a4⟩ := setActivatedAll_spec false l h1
  have ok2 : HeapOK (l.foldl (fun h e => setActivated h e false) h1) :=
    ok1.of_ends a1 a2 a3 (fun e => ⟨(a4 e).1, (a4 e).2.1⟩)
  have dis : ∀ e ∈ l,
      ((l.foldl (fun h e => setActivated h e false) h1).pipes e).activated = false :=
    fun e hel => by rw [(a4 e).2.2.2.2.2, if_pos hel]
  rw [← e3] at e5
  obtain ⟨_, _, _, d2⟩ := getCitiesFlow_disabled ok2 (fun v hv => by rw [a2]; exact al1 v hv) e5
  refine ⟨og, h1, l, e1, hl, by rw [← e6.1]; exact e6.2 ▸ e5, dis, fun e hel hown => ?_⟩
  rw [← e6.2]
  refine d2 e ?_ (dis e hel)
  have := own1 e hown
  simp only [allPipes] at this ⊢
  rw [a1]; exact this

end Project1

namespace Project1

/-! ## The search with residuals -/

theorem Reached.reached_mono {h0 h k : Heap} {s w e : Nat} (R : Reached h0 h s w e)
    (hp : k.pipes = h.pipes) (ha : ∀ x, (k.locs x).adj = (h.locs x).adj)
    (hi : ∀ x, (k.locs x).incoming = (h.locs x).incoming)
    (hv : ∀ x, (h.locs x).visited = true → (k.locs x).visited = true) :
    Reached h0 k s w e := by
  unfold Reached at R ⊢
  rw [hp, ha, hi]
  obtain ⟨a, b⟩ := R
  refine ⟨a, ?_⟩
  rcases b with ⟨b1, b2, b3, b4⟩ | ⟨b1, b2, b3, b4, b5⟩
  · exact Or.inl ⟨b1, b2.marked_mono hv, b3, b4⟩
  · exact Or.inr ⟨b1, b2, b3.marked_mono hv, b4, b5⟩

theorem ResidualTree.openTree {h0 h : Heap} {s : Nat} (T : ResidualTree h0 h s) :
    OpenTree h0 h s := by
  intro w mw hws
  obtain ⟨_, e, p, a, b⟩ := T w mw hws
  refine ⟨e, p, a, ?_⟩
  rcases b with ⟨b1, b2, _, _⟩ | ⟨b1, _, b3, _, _⟩
  · rw [if_pos b1]; exact b2
  · rw [if_neg b1]; exact b3

theorem testAndVisit_hunt {h0 : Heap} {s v : Nat} {st : Heap × List Nat} (H : Hunt h0 s st)
    (mv : Marked h0 st.1 s v) {e w : Nat} (r : Int) (hw : w < h0.nextLoc)
    (hlink : (st.1.locs w).visited = false →
      ((h0.pipes e).dest = w ∧ (h0.pipes e).orig = v ∧ e ∈ (h0.locs v).adj ∧
        (0 < r → (h0.pipes e).flow < (h0.pipes e).weight)) ∨
      ((h0.pipes e).dest ≠ w ∧ (h0.pipes e).orig = w ∧ (h0.pipes e).dest = v ∧
        e ∈ (h0.locs v).incoming ∧ (0 < r → 0 < (h0.pipes e).flow))) :
    Hunt h0 s (testAndVisit st e w r) := by
  have hstep : (st.1.locs w).visited = false →
      (if (h0.pipes e).dest = w then (h0.pipes e).orig else (h0.pipes e).dest) = v := by
    intro hu
    rcases hlink hu with ⟨a, b, _⟩ | ⟨a, _, c, _⟩
    · rw [if_pos a]; exact b
    · rw [if_neg a]; exact c
  have B := testAndVisit_search H.base mv r hw hstep
  refine ⟨B, ?_⟩
  have S := H.base
  unfold testAndVisit at B ⊢
  split
  · rename_i hg
    simp only [Bool.and_eq_true, Bool.not_eq_true', decide_eq_true_eq] at hg
    obtain ⟨⟨g1, g2⟩, g3⟩ := hg
    have hm : ∀ x, (st.1.locs x).visited = true →
        ((setPath (setVisited st.1 w true) w (some e)).locs x).visited = true :=
      fun x hx => mark_mono _ _ _ _ hx
    have hp : (setPath (setVisited st.1 w true) w (some e)).pipes = st.1.pipes := rfl
    have F := mark_frame st.1 w (some e)
    have ha : ∀ x, ((setPath (setVisited st.1 w true) w (some e)).locs x).adj
        = (st.1.locs x).adj := fun x => (F.locs x).2.2.1
    have hi : ∀ x, ((setPath (setVisited st.1 w true) w (some e)).locs x).incoming
        = (st.1.locs x).incoming := fun x => (F.locs x).2.2.2.1
    intro x mx hxs
    by_cases hxw : x = w
    · subst hxw
      refine ⟨by rw [F.nextLoc, S.nextLoc]; exact hw, e, by rw [mark_path, if_pos rfl], ?_⟩
      unfold Reached
      rw [hp, S.pipes, ha, hi, S.adj, S.incoming]
      refine ⟨by rw [← S.pipes]; exact g3, ?_⟩
      rcases hlink g1 with ⟨a, b, c, d⟩ | ⟨a, b, c, d, f⟩
      · exact Or.inl ⟨a, by rw [b]; exact mv.marked_mono hm, d g2, by rw [b]; exact c⟩
      · exact Or.inr ⟨a, b, by rw [c]; exact mv.marked_mono hm, f g2, by rw [c]; exact d⟩
    · have mx0 : Marked h0 st.1 s x := by
        rcases mx with mx | mx
        · exact Or.inl mx
        · rw [mark_visited, if_neg hxw] at mx
          exact Or.inr mx
      obtain ⟨q0, e1, p1, R1⟩ := H.tree x mx0 hxs
      exact ⟨by rw [F.nextLoc]; exact q0, e1, by rw [mark_path, if_neg hxw]; exact p1,
        R1.reached_mono hp ha hi hm⟩
  · exact H.tree

theorem Hunt.h_drop {h0 : Heap} {s v : Nat} {h : Heap} {q : List Nat}
    (H : Hunt h0 s (h, v :: q)) : Hunt h0 s (h, q) :=
  ⟨H.base.drop, H.tree⟩

theorem processOutgoing_hunt {h0 : Heap} {s v : Nat} (ok : HeapOK h0)
    (hv : v < h0.nextLoc) :
    ∀ (es : List Nat) (st : Heap × List Nat), (∀ e ∈ es, e ∈ (h0.locs v).adj) →
      Hunt h0 s st → Marked h0 st.1 s v →
      Hunt h0 s (processOutgoing st es) ∧ Marked h0 (processOutgoing st es).1 s v := by
  intro es
  induction es with
  | nil => intro st _ S m; exact ⟨S, m⟩
  | cons e es ih =>
    intro st hes H m
    rw [processOutgoing_cons]
    have hev := hes e (List.mem_cons_self _ _)
    obtain ⟨o1, o2, _⟩ := (ok v hv).1 e hev
    have S := H.base
    have H1 : Hunt h0 s (testAndVisit st e (st.1.pipes e).dest
        ((st.1.pipes e).weight - (st.1.pipes e).flow)) := by
      refine testAndVisit_hunt H m _ (by rw [S.pipes]; exact o2) (fun _ => Or.inl ?_)
      rw [S.pipes]
      exact ⟨rfl, o1, hev, fun hr => by omega⟩
    exact ih _ (fun x hx => hes x (List.mem_cons_of_mem _ hx)) H1
      (m.marked_mono (fun x hx => testAndVisit_mono st _ _ _ x hx))

theorem processIncoming_hunt {h0 : Heap} {s v : Nat} (ok : HeapOK h0)
    (hv : v < h0.nextLoc) (hs : (h0.locs s).visited = true) :
    ∀ (es : List Nat) (st : Heap × List Nat), (∀ e ∈ es, e ∈ (h0.locs v).incoming) →
      Hunt h0 s st → Marked h0 st.1 s v →
      Hunt h0 s (processIncoming st es) ∧ Marked h0 (processIncoming st es).1 s v := by
  intro es
  induction es with
  | nil => intro st _ S m; exact ⟨S, m⟩
  | cons e es ih =>
    intro st hes H m
    rw [processIncoming_cons]
    have hev := hes e (List.mem_cons_self _ _)
    obtain ⟨o1, o2, _⟩ := (ok v hv).2 e hev
    have S := H.base
    have H1 : Hunt h0 s (testAndVisit st e (st.1.pipes e).orig (st.1.pipes e).flow) := by
      refine testAndVisit_hunt H m _ (by rw [S.pipes]; exact o2) (fun hu => Or.inr ?_)
      rw [S.pipes] at hu ⊢
      have hne : (h0.pipes e).dest ≠ (h0.pipes e).orig := by
        intro hh
        rw [← hh, o1, S.marked_visited hs m] at hu
        cases hu
      exact ⟨hne, rfl, o1, hev, fun hr => hr⟩
    exact ih _ (fun x hx => hes x (List.mem_cons_of_mem _ hx)) H1
      (m.marked_mono (fun x hx => testAndVisit_mono st _ _ _ x hx))

theorem bfsLoop_hunt {h0 : Heap} {s : Nat} (t : Nat) (ok : HeapOK h0)
    (hs : (h0.locs s).visited = true) :
    ∀ (fuel : Nat) (st : Heap × List Nat) (r : Heap), Hunt h0 s st →
      bfsLoop fuel t st = some r → Hunt h0 s (r, []) := by
  intro fuel
  induction fuel with
  | zero => intro st r _ he; simp [bfsLoop] at he
  | succ n ih =>
    intro st r H he
    obtain ⟨h, q⟩ := st
    cases q with
    | nil =>
      rw [bfsLoop_nil] at he
      cases he
      exact H
    | cons v q1 =>
      rw [bfsLoop_cons] at he
      have S := H.base
      split at he
      · cases he
        exact ⟨⟨S.pipes, S.nextLoc, S.adj, S.incoming, S.mono, S.tree,
          fun x hx => absurd hx (List.not_mem_nil _)⟩, H.tree⟩
      · obtain ⟨mv, hv⟩ := S.queue v (List.mem_cons_self _ _)
        obtain ⟨H1, m1⟩ := processOutgoing_hunt ok hv (h.locs v).adj (h, q1)
          (fun e he => by rw [← S.adj v]; exact he) H.h_drop mv
        obtain ⟨H2, _⟩ := processIncoming_hunt ok hv hs
          ((processOutgoing (h, q1) (h.locs v).adj).1.locs v).incoming _
          (fun e he => by rw [← H1.base.incoming v]; exact he) H1 m1
        exact ih _ r H2 he

/-- When `findAugmentingPath` returns on a consistent heap: the pipes and the link
lists are untouched, a vertex of the graph other than `s` is marked visited exactly
when the search marked it, and every vertex the search marked was reached from a marked
vertex over an enabled link with positive residual in the direction taken. -/
theorem findAugmentingPath_hunt {fuel : Nat} {g : Graph} {h : Heap} {s t : Nat}
    (ok : HeapOK h) (hs : s < h.nextLoc) {r : Bool × Heap}
    (he : findAugmentingPath fuel g h s t = some r) :
    r.2.pipes = h.pipes ∧ r.1 = (r.2.locs t).visited ∧
    ∃ h0, ResidualTree h0 r.2 s ∧
      (∀ x ∈ g.vertexSet, x ≠ s → (r.2.locs x).visited = true → Marked h0 r.2 s x) := by
  unfold findAugmentingPath at he
  simp only at he
  cases hb : bfsLoop fuel t
      (setVisited (g.vertexSet.foldl (fun h v => setVisited h v false) h) s true, [s]) with
  | none => rw [hb] at he; simp at he
  | some h3 =>
    rw [hb] at he
    simp only [Option.some.injEq] at he
    obtain ⟨p0, _, _, v0⟩ := resetVisited_spec g.vertexSet h
    have F0 : SolverFrame h
        (setVisited (g.vertexSet.foldl (fun h v => setVisited h v false) h) s true) :=
      (resetVisited_frame _ h).sf_trans (SolverFrame.sf_setVisited _ _ _)
    have ok0 := ok.of_frame F0
    have hs0 : ((setVisited (g.vertexSet.foldl (fun h v => setVisited h v false) h) s true).locs
        s).visited = true := by
      rw [setVisited_locs, if_pos rfl]
    have S0 : Hunt (setVisited (g.vertexSet.foldl (fun h v => setVisited h v false) h) s true) s
        (setVisited (g.vertexSet.foldl (fun h v => setVisited h v false) h) s true, [s]) := by
      refine ⟨⟨rfl, rfl, fun _ => rfl, fun _ => rfl, fun _ hx => hx, ?_, ?_⟩, ?_⟩
      · intro w mw hws
        rcases mw with mw | mw
        · exact absurd mw hws
        · rw [mw.1] at mw; cases mw.2
      · intro v hv
        rw [List.mem_singleton] at hv
        subst hv
        exact ⟨Or.inl rfl, by rw [F0.nextLoc]; exact hs⟩
      · intro w mw hws
        rcases mw with mw | mw
        · exact absurd mw hws
        · rw [mw.1] at mw; cases mw.2
    have H := bfsLoop_hunt t ok0 hs0 fuel _ h3 S0 hb
    rw [← he]
    refine ⟨H.base.pipes.trans (by
      show (g.vertexSet.foldl (fun h v => setVisited h v false) h).pipes = h.pipes
      exact p0), rfl, _, H.tree, fun x hx hxs hv => Or.inr ⟨hv, ?_⟩⟩
    rw [setVisited_locs, if_neg hxs, v0, if_pos hx]

end Project1

namespace Project1

/-! ## Links that a solve cannot touch -/

/-- The walk of `augmentFlowAlongPath` changes the flow of no pipe other than the
`path` links of the marked vertices. -/
theorem augmentWalk_untouched {h0 h3 : Heap} {s : Nat} (T : OpenTree h0 h3 s) (f : Int) :
    ∀ (fuel : Nat) (hc : Heap) (v : Nat) (r : Heap), Marked h0 h3 s v →
      hc.locs = h3.locs →
      (∀ e, (hc.pipes e).dest = (h3.pipes e).dest ∧ (hc.pipes e).orig = (h3.pipes e).orig) →
      augmentWalk fuel hc s v f = some r →
      ∀ x, (∀ w, Marked h0 h3 s w → w ≠ s → (h3.locs w).path ≠ some x) →
        (r.pipes x).flow = (hc.pipes x).flow := by
  intro fuel
  induction fuel with
  | zero => intro hc v r _ _ _ he; simp [augmentWalk] at he
  | succ n ih =>
    intro hc v r mv hl hp he x hx
    rw [augmentWalk] at he
    by_cases hvs : v = s
    · rw [if_pos hvs] at he
      cases he; rfl
    · rw [if_neg hvs] at he
      obtain ⟨e, p1, _, n1⟩ := T v mv hvs
      rw [hl, p1] at he
      simp only at he
      have hxe : x ≠ e := fun hh => hx v mv hvs (by rw [hh]; exact p1)
      have step : ∀ (y : Int) (w : Nat), Marked h0 h3 s w →
          augmentWalk n (setFlow hc e y) s w f = some r →
          (r.pipes x).flow = (hc.pipes x).flow := by
        intro y w mw hw
        have := ih (setFlow hc e y) w r mw (by rw [setFlow_locs]; exact hl)
          (fun e1 => by
            rw [setFlow_pipes]
            split
            · rename_i h1; subst h1; exact hp e1
            · exact hp e1) hw x hx
        rw [this, setFlow_pipes, if_neg hxe]
      rw [(hp e).1, (hp e).2] at he
      by_cases hd : (h3.pipes e).dest = v
      · rw [if_pos hd] at he n1
        exact step _ _ n1 he
      · rw [if_neg hd] at he n1
        exact step _ _ n1 he

/-- One turn of the loop of `edmondsKarp` that augments: what the search found and
what the walk may change. -/
theorem augment_turn {fuel : Nat} {g : Graph} {h h1 h2 : Heap} {s t : Nat} {f : Int}
    (ok : HeapOK h) (hs : s < h.nextLoc) (ht : t ∈ g.vertexSet) (hts : t ≠ s)
    (hf : findAugmentingPath fuel g h s t = some (true, h1))
    (ha : augmentFlowAlongPath fuel h1 s t f = some h2) :
    h1.pipes = h.pipes ∧ SolverFrame h h1 ∧ SolverFrame h h2 ∧
    ∃ h0, ResidualTree h0 h1 s ∧
      (∀ x ∈ g.vertexSet, x ≠ s → (h1.locs x).visited = true → Marked h0 h1 s x) ∧
      ∀ x, (∀ w, Marked h0 h1 s w → w ≠ s → (h1.locs w).path ≠ some x) →
        (h2.pipes x).flow = (h.pipes x).flow := by
  have f1 := findAugmentingPath_frame fuel g h s t _ hf
  obtain ⟨p1, vt, h0, T, M⟩ := findAugmentingPath_hunt ok hs hf
  simp only at p1 vt T M f1
  have f2 := augmentFlowAlongPath_frame fuel h1 s t f h2 ha
  refine ⟨p1, f1, f1.sf_trans f2, h0, T, M, fun x hx => ?_⟩
  have k := augmentWalk_untouched T.openTree f fuel h1 t h2 (M t ht hts vt.symm) rfl
    (fun _ => ⟨rfl, rfl⟩) ha x hx
  rw [k, p1]

theorem Paired.p_frame {h h1 : Heap} (pr : Paired h) (F : SolverFrame h h1) : Paired h1 := by
  intro v hv
  rw [F.nextLoc] at hv
  obtain ⟨a, b⟩ := pr v hv
  constructor
  · intro e he
    rw [(F.locs v).2.2.1] at he
    rw [(F.pipes e).2.1, (F.locs _).2.2.2.1]
    exact a e he
  · intro e he
    rw [(F.locs v).2.2.2.1] at he
    rw [(F.pipes e).1, (F.locs _).2.2.1]
    exact b e he

theorem Marked.allocated {h0 h : Heap} {s w : Nat} (T : ResidualTree h0 h s)
    (hs : s < h.nextLoc) (m : Marked h0 h s w) : w < h.nextLoc := by
  by_cases hws : w = s
  · rw [hws]; exact hs
  · exact (T w m hws).1

/-- A cut-off node is not among the marked vertices of a search. -/
theorem CutOff.not_marked {h0 h : Heap} {s S : Nat} (pr : Paired h)
    (hs : s < h.nextLoc) (hSs : S ≠ s) (C : CutOff h S) (T : ResidualTree h0 h s) :
    ¬ Marked h0 h s S := by
  intro mS
  obtain ⟨_, e, _, a, R⟩ := T S mS hSs
  rcases R with ⟨r1, r2, _, r4⟩ | ⟨_, r2, r3, r4, r5⟩
  · have hv := r2.allocated T hs
    have := (pr _ hv).1 e r4
    rw [r1] at this
    rw [C.entering e this] at a
    cases a
  · have hv := r3.allocated T hs
    have := (pr _ hv).2 e r5
    rw [r2] at this
    rw [C.leaving e this] at r4
    exact lt_irrefl _ r4

theorem CutOff.of_pipes {h h1 : Heap} {S : Nat} (C : CutOff h S) (hp : h1.pipes = h.pipes)
    (F : SolverFrame h h1) : CutOff h1 S :=
  ⟨fun e he => by rw [hp]; exact C.entering e (by rw [← (F.locs S).2.2.2.1]; exact he),
    fun e he => by rw [hp]; exact C.leaving e (by rw [← (F.locs S).2.2.1]; exact he)⟩

/-- A search started on a heap where `S` is cut off leaves `S` unvisited. -/
theorem findAugmentingPath_cutOff {fuel : Nat} {g : Graph} {h : Heap} {s t S : Nat}
    (ok : HeapOK h) (pr : Paired h) (hs : s < h.nextLoc) (hS : S ∈ g.vertexSet) (hSs : S ≠ s)
    (C : CutOff h S) {r : Bool × Heap} (he : findAugmentingPath fuel g h s t = some r) :
    (r.2.locs S).visited = false := by
  have F := findAugmentingPath_frame fuel g h s t _ he
  obtain ⟨p1, _, h0, T, M⟩ := findAugmentingPath_hunt ok hs he
  cases hv : (r.2.locs S).visited with
  | false => rfl
  | true =>
    exact absurd (M S hS hSs hv)
      ((C.of_pipes p1 F).not_marked (pr.p_frame F)
        (by rw [F.nextLoc]; exact hs) hSs T)

/-- The loop of `edmondsKarp` on a heap where `S` is cut off: every search leaves `S`
unvisited, and `S` is still cut off when the loop returns. -/
theorem augmentLoop_cutOff {g : Graph} {s t S fuel : Nat} (ht : t ∈ g.vertexSet)
    (hts : t ≠ s) (hS : S ∈ g.vertexSet) (hSs : S ≠ s) :
    ∀ (n : Nat) (h r : Heap), HeapOK h → Paired h → s < h.nextLoc → S < h.nextLoc →
      CutOff h S → augmentLoop n fuel g s t h = some r →
      CutOff r S ∧
      ∃ tr, bfsTrace n fuel g s t h = some tr ∧ tr.getLast? = some r ∧
        ∀ k ∈ tr, (k.locs S).visited = false := by
  intro n
  induction n with
  | zero => intro h r _ _ _ _ _ he; simp [augmentLoop] at he
  | succ n ih =>
    intro h r ok pr hs hSa C he
    rw [augmentLoop] at he
    rw [bfsTrace]
    cases hf : findAugmentingPath fuel g h s t with
    | none => rw [hf] at he; simp at he
    | some y =>
      obtain ⟨b, h1⟩ := y
      rw [hf] at he
      have v1 := findAugmentingPath_cutOff ok pr hs hS hSs C hf
      have f1 := findAugmentingPath_frame fuel g h s t _ hf
      simp only at v1 f1
      cases b with
      | false =>
        simp only [Option.some.injEq] at he
        obtain ⟨p1, _⟩ := findAugmentingPath_hunt ok hs hf
        simp only at p1
        rw [← he]
        exact ⟨C.of_pipes p1 f1, [h1], rfl, rfl, fun k hk => by
          rw [List.mem_singleton.1 hk]; exact v1⟩
      | true =>
        simp only at he ⊢
        cases hm : findMinResidualAlongPath fuel h1 s t with
        | none => rw [hm] at he; simp at he
        | some f =>
          rw [hm] at he
          simp only at he ⊢
          cases ha : augmentFlowAlongPath fuel h1 s t f with
          | none => rw [ha] at he; simp at he
          | some h2 =>
            rw [ha] at he
            simp only at he ⊢
            obtain ⟨p1, F1, F, h0, T, _, U⟩ := augment_turn ok hs ht hts hf ha
            have C1 := C.of_pipes p1 F1
            have nm := C1.not_marked (pr.p_frame F1)
              (by rw [F1.nextLoc]; exact hs) hSs T
            have ok1 := ok.of_frame F1
            have C2 : CutOff h2 S := by
              refine ⟨fun e he2 => ?_, fun e he2 => ?_⟩
              · rw [(F.pipes e).2.2.2.2]
                exact C.entering e (by rw [← (F.locs S).2.2.2.1]; exact he2)
              · have he0 : e ∈ (h.locs S).adj := by rw [← (F.locs S).2.2.1]; exact he2
                rw [U e, C.leaving e he0]
                intro w mw hws hp
                obtain ⟨_, e1, pe, _, R⟩ := T w mw hws
                rw [hp] at pe
                have hxe : e = e1 := Option.some.inj pe
                rw [← hxe] at R
                have hor : (h1.pipes e).orig = S := by
                  rw [p1]; exact ((ok S hSa).1 e he0).1
                rcases R with ⟨_, r2, _, _⟩ | ⟨_, r2, _, _, _⟩
                · rw [hor] at r2; exact nm r2
                · rw [hor] at r2; rw [r2] at nm; exact nm mw
            obtain ⟨c, tr, t1, t2, t3⟩ := ih h2 r (ok.of_frame F) (pr.p_frame F)
              (by rw [F.nextLoc]; exact hs) (by rw [F.nextLoc]; exact hSa) C2 he
            refine ⟨c, h1 :: tr, by rw [t1]; rfl, ?_, fun k hk => ?_⟩
            · rw [List.getLast?_cons, t2]; rfl
            · rcases List.mem_cons.1 hk with q | q
              · rw [q]; exact v1
              · exact t3 k q

end Project1

namespace Project1

/-! ## What a build by `addR0C0` keeps -/

theorem mem_mapInsert {m : List (String × Nat)} {k : String} {v : Nat} {p : String × Nat}
    (hp : p ∈ mapInsert m k v) : p.1 = k ∨ p ∈ m := by
  unfold mapInsert at hp
  split at hp
  · obtain ⟨q, hq, rfl⟩ := List.mem_map.1 hp
    by_cases hk : (q.1 == k) = true
    · rw [if_pos hk]; exact Or.inl rfl
    · rw [if_neg hk]; exact Or.inr hq
  · rcases List.mem_append.1 hp with hp | hp
    · exact Or.inr hp
    · rw [List.mem_singleton.1 hp]; exact Or.inl rfl

theorem addEdge_rec {P : Heap → Prop} {g : Graph} {h : Heap}
    (al : ∀ v ∈ g.vertexSet, v < h.nextLoc) (source dest : String) (w : Int) (p0 : P h)
    (link : ∀ a d, a < h.nextLoc → d < h.nextLoc → (h.locs d).code = dest →
      P (Location.addEdge h a d w).2) :
    P (addEdge g h source dest w).2.2 ∧
    ∀ v ∈ (addEdge g h source dest w).2.1.vertexSet, v < (addEdge g h source dest w).2.2.nextLoc := by
  constructor
  · unfold addEdge
    cases hs : findVertex g h source with
    | none => exact p0
    | some v1 =>
      cases hd : findVertex g h dest with
      | none => exact p0
      | some v2 =>
        exact link v1 v2 (al _ (findVertex_mem hs)) (al _ (findVertex_mem hd)) (findVertex_code hd)
  · intro v hv
    rw [(addEdge_graph g h source dest w).1] at hv
    exact lt_of_lt_of_le (al v hv) (addEdge_frame g h source dest w).nextLoc

/-- Induction over the loop of `addR0C0` on the Source map: a property of the heap kept
by every `Location::addEdge` towards a node coded like a key of the map holds at the
end of the loop. -/
theorem addR0Edges_rec (tr : String) {P : Heap → Prop} (R : List (String × Nat))
    (link : ∀ (k : Heap) (a d : Nat) (w : Int), P k → a < k.nextLoc → d < k.nextLoc →
      ((k.locs d).code = "C_0" ∨ (k.locs d).code = "R_0" ∨ ∃ p ∈ R, p.1 = (k.locs d).code) →
      ((k.locs d).code = tr → tr ≠ "C_0" → w = 0) → P (Location.addEdge k a d w).2) :
    ∀ (ps : List (String × Nat)) (g : Graph) (k : Heap),
      (∀ v ∈ g.vertexSet, v < k.nextLoc) → P k → (∀ p ∈ ps, p.1 = "R_0" ∨ ∃ q ∈ R, q.1 = p.1) →
      P (addR0Edges tr g k ps).2 ∧
      ∀ v ∈ (addR0Edges tr g k ps).1.vertexSet, v < (addR0Edges tr g k ps).2.nextLoc := by
  intro ps
  induction ps with
  | nil => intro g k al p0 _; exact ⟨p0, al⟩
  | cons p ps ih =>
    intro g k al p0 hk
    have hk1 := hk p (List.mem_cons_self _ _)
    have hks : ∀ q ∈ ps, q.1 = "R_0" ∨ ∃ r ∈ R, r.1 = q.1 :=
      fun q hq => hk q (List.mem_cons_of_mem _ hq)
    have hcode : ∀ d, (k.locs d).code = p.1 →
        (k.locs d).code = "C_0" ∨ (k.locs d).code = "R_0" ∨ ∃ q ∈ R, q.1 = (k.locs d).code := by
      intro d hd
      rw [hd]
      exact Or.inr hk1
    rw [addR0Edges]
    split
    · obtain ⟨a1, a2⟩ := addEdge_rec al "R_0" p.1 0 p0
        (fun a d ha hd hc => link k a d 0 p0 ha hd (hcode d hc) (fun _ _ => rfl))
      exact ih _ _ a2 a1 hks
    · split
      · rename_i hne _
        obtain ⟨a1, a2⟩ := addEdge_rec al "R_0" p.1 (k.locs p.2).getMaximumDelivery p0
          (fun a d ha hd hc => link k a d _ p0 ha hd (hcode d hc)
            (fun ht _ => absurd (beq_iff_eq.2 (hc.symm.trans ht)) hne))
        exact ih _ _ a2 a1 hks
      · exact ih g k al p0 hks

/-- Induction over the loop of `addR0C0` on the Sink map. -/
theorem addC0Edges_rec (tr : String) {P : Heap → Prop} (R : List (String × Nat))
    (link : ∀ (k : Heap) (a d : Nat) (w : Int), P k → a < k.nextLoc → d < k.nextLoc →
      ((k.locs d).code = "C_0" ∨ (k.locs d).code = "R_0" ∨ ∃ p ∈ R, p.1 = (k.locs d).code) →
      ((k.locs d).code = tr → tr ≠ "C_0" → w = 0) → P (Location.addEdge k a d w).2) :
    ∀ (ps : List (String × Nat)) (g : Graph) (k : Heap),
      (∀ v ∈ g.vertexSet, v < k.nextLoc) → P k →
      P (addC0Edges g k ps).2 ∧
      ∀ v ∈ (addC0Edges g k ps).1.vertexSet, v < (addC0Edges g k ps).2.nextLoc := by
  intro ps
  induction ps with
  | nil => intro g k al p0; exact ⟨p0, al⟩
  | cons p ps ih =>
    intro g k al p0
    rw [addC0Edges]
    split
    · obtain ⟨a1, a2⟩ := addEdge_rec al p.1 "C_0" (k.locs p.2).getDemand p0
        (fun a d ha hd hc => link k a d _ p0 ha hd (Or.inl hc)
          (fun ht hne => absurd (ht.symm.trans hc) hne))
      exact ih _ _ a2 a1
    · exact ih g k al p0

/-- Induction over `addR0C0` : a property of the heap that is kept when a node coded
`R_0` or `C_0` is allocated, and when `Location::addEdge` links two allocated nodes, the
destination being coded `C_0`, `R_0` or like a key of the Source map, with capacity 0
when it is coded `tr`, holds for the heap `addR0C0` returns. -/
theorem addR0C0_rec (tr : String) {P : Heap → Prop} {g : Graph} {h : Heap}
    (al : ∀ v ∈ g.vertexSet, v < h.nextLoc) (p0 : P h)
    (node : ∀ (k : Heap) (id : Int) (code : String) (kd : Kind), P k →
      (code = "R_0" ∨ code = "C_0") → P (newLocation k id code kd).2)
    (link : ∀ (k : Heap) (a d : Nat) (w : Int), P k → a < k.nextLoc → d < k.nextLoc →
      ((k.locs d).code = "C_0" ∨ (k.locs d).code = "R_0" ∨
        ∃ p ∈ g.mapReservoirs, p.1 = (k.locs d).code) →
      ((k.locs d).code = tr → tr ≠ "C_0" → w = 0) → P (Location.addEdge k a d w).2) :
    P (addR0C0 g h tr).2 := by
  unfold addR0C0
  simp only
  generalize hr1 : addVertexReservoir g h "" "" 0 "R_0" 0 = r1
  have A1 : P r1.2.2 ∧ (∀ v ∈ r1.2.1.vertexSet, v < r1.2.2.nextLoc) ∧
      (∀ p ∈ r1.2.1.mapReservoirs, p.1 = "R_0" ∨ ∃ q ∈ g.mapReservoirs, q.1 = p.1) := by
    rw [← hr1]
    unfold addVertexReservoir
    split
    · exact ⟨p0, al, fun p hp => Or.inr ⟨p, hp, rfl⟩⟩
    · refine ⟨node h 0 "R_0" _ p0 (Or.inl rfl), fun v hv => ?_, fun p hp => ?_⟩
      · simp only [List.mem_append, List.mem_singleton] at hv
        show v < h.nextLoc + 1
        rcases hv with hv | hv
        · exact Nat.lt_succ_of_lt (al v hv)
        · rw [hv]; exact Nat.lt_succ_self _
      · rcases mem_mapInsert hp with q | q
        · exact Or.inl q
        · exact Or.inr ⟨p, q, rfl⟩
  obtain ⟨a1, a2, a3⟩ := A1
  split
  · generalize hr2 : addVertexCity r1.2.1 r1.2.2 "" 0 "C_0" 0 0 = r2
    have A2 : P r2.2.2 ∧ (∀ v ∈ r2.2.1.vertexSet, v < r2.2.2.nextLoc) ∧
        r2.2.1.mapReservoirs = r1.2.1.mapReservoirs := by
      rw [← hr2]
      unfold addVertexCity
      split
      · exact ⟨a1, a2, rfl⟩
      · refine ⟨node _ 0 "C_0" _ a1 (Or.inr rfl), fun v hv => ?_, rfl⟩
        simp only [List.mem_append, List.mem_singleton] at hv
        show v < r1.2.2.nextLoc + 1
        rcases hv with hv | hv
        · exact Nat.lt_succ_of_lt (a2 v hv)
        · rw [hv]; exact Nat.lt_succ_self _
    obtain ⟨b1, b2, b3⟩ := A2
    split
    · obtain ⟨c1, c2⟩ := addR0Edges_rec tr g.mapReservoirs link r2.2.1.mapReservoirs r2.2.1
        r2.2.2 b2 b1 (by rw [b3]; exact a3)
      exact (addC0Edges_rec tr g.mapReservoirs link _ _ _ c2 c1).1
    · exact b1
  · exact a1

/-! ### Links listed at both ends -/

theorem Paired.newLoc {h : Heap} (pr : Paired h) (ok : HeapOK h) (id : Int) (code : String)
    (k : Kind) : Paired (newLocation h id code k).2 := by
  obtain ⟨p, _, n3, l⟩ := newLocation_spec h id code k
  intro v hv
  rw [l v, p]
  by_cases hvn : v = h.nextLoc
  · rw [if_pos hvn]
    exact ⟨fun e he => absurd he (List.not_mem_nil _), fun e he => absurd he (List.not_mem_nil _)⟩
  · rw [if_neg hvn]
    rw [n3] at hv
    have hv1 : v < h.nextLoc := by omega
    obtain ⟨a, b⟩ := pr v hv1
    obtain ⟨oa, ob⟩ := ok v hv1
    constructor
    · intro e he
      rw [l, if_neg (Nat.ne_of_lt (oa e he).2.1)]
      exact a e he
    · intro e he
      rw [l, if_neg (Nat.ne_of_lt (ob e he).2.1)]
      exact b e he

theorem Paired.p_link {h : Heap} (pr : Paired h) (ok : HeapOK h) (a d : Nat) (w : Int) :
    Paired (Location.addEdge h a d w).2 := by
  intro v hv
  rw [(Location.addEdge_next h a d w).2.1] at hv
  obtain ⟨pa, pb⟩ := pr v hv
  obtain ⟨oa, ob⟩ := ok v hv
  have L := Location.addEdge_locs h a d w
  have old : ∀ e, e < h.nextPipe → (Location.addEdge h a d w).2.pipes e = h.pipes e :=
    fun e he => by rw [Location.addEdge_pipes, if_neg (Nat.ne_of_lt he)]
  have new : (Location.addEdge h a d w).2.pipes h.nextPipe =
      { dest := d, weight := w, orig := a, reverse := none, flow := 0, activated := true } := by
    rw [Location.addEdge_pipes, if_pos rfl]
  have subA : ∀ x e, e ∈ (h.locs x).adj → e ∈ ((Location.addEdge h a d w).2.locs x).adj := by
    intro x e he; rw [(L x).1]; split
    · exact List.mem_append_left _ he
    · exact he
  have subI : ∀ x e, e ∈ (h.locs x).incoming →
      e ∈ ((Location.addEdge h a d w).2.locs x).incoming := by
    intro x e he; rw [(L x).2.1]; split
    · exact List.mem_append_left _ he
    · exact he
  constructor
  · intro e he
    rw [(L v).1] at he
    have hold : e ∈ (h.locs v).adj →
        e ∈ ((Location.addEdge h a d w).2.locs ((Location.addEdge h a d w).2.pipes e).dest).incoming :=
      fun he1 => by rw [old e (oa e he1).2.2]; exact subI _ _ (pa e he1)
    split at he
    · rcases List.mem_append.1 he with he | he
      · exact hold he
      · rw [List.mem_singleton.1 he, new]
        show h.nextPipe ∈ ((Location.addEdge h a d w).2.locs d).incoming
        rw [(L d).2.1, if_pos rfl]
        exact List.mem_append_right _ (List.mem_singleton_self _)
    · exact hold he
  · intro e he
    rw [(L v).2.1] at he
    have hold : e ∈ (h.locs v).incoming →
        e ∈ ((Location.addEdge h a d w).2.locs ((Location.addEdge h a d w).2.pipes e).orig).adj :=
      fun he1 => by rw [old e (ob e he1).2.2]; exact subA _ _ (pb e he1)
    split at he
    · rcases List.mem_append.1 he with he | he
      · exact hold he
      · rw [List.mem_singleton.1 he, new]
        show h.nextPipe ∈ ((Location.addEdge h a d w).2.locs a).adj
        rw [(L a).1, if_pos rfl]
        exact List.mem_append_right _ (List.mem_singleton_self _)
    · exact hold he

/-- The build of `addR0C0` on a consistent heap whose links are listed at both ends: the
heap returned is consistent, its links are listed at both ends, no pipe allocated before
is changed, and a node whose code is neither reserved nor a key of the Source map gets
no new entering link. -/
theorem addR0C0_apart {g : Graph} {h : Heap} (tr : String) (ok : HeapOK h) (pr : Paired h)
    (al : ∀ v ∈ g.vertexSet, v < h.nextLoc) {S : Nat} (hS : S < h.nextLoc)
    (c1 : (h.locs S).code ≠ "R_0") (c2 : (h.locs S).code ≠ "C_0")
    (c3 : ∀ p ∈ g.mapReservoirs, p.1 ≠ (h.locs S).code) :
    HeapOK (addR0C0 g h tr).2 ∧ Paired (addR0C0 g h tr).2 ∧
    ((addR0C0 g h tr).2.locs S).incoming = (h.locs S).incoming ∧
    ((addR0C0 g h tr).2.locs S).code = (h.locs S).code ∧
    (∀ e, e < h.nextPipe → (addR0C0 g h tr).2.pipes e = h.pipes e) := by
  have key := addR0C0_rec tr
    (P := fun k => HeapOK k ∧ Paired k ∧ h.nextLoc ≤ k.nextLoc ∧ h.nextPipe ≤ k.nextPipe ∧
      (k.locs S).incoming = (h.locs S).incoming ∧ (k.locs S).code = (h.locs S).code ∧
      ∀ e, e < h.nextPipe → k.pipes e = h.pipes e)
    al ⟨ok, pr, le_refl _, le_refl _, rfl, rfl, fun _ _ => rfl⟩
    (fun k id code kd ⟨q1, q2, q3, q4, q5, q6, q7⟩ _ => by
      obtain ⟨p, n2, n3, l⟩ := newLocation_spec k id code kd
      have hne : S ≠ k.nextLoc := Nat.ne_of_lt (lt_of_lt_of_le hS q3)
      refine ⟨newLocation_ok q1 id code kd, q2.newLoc q1 id code kd, by rw [n3]; omega,
        by rw [n2]; exact q4, ?_, ?_, fun e he => by rw [p]; exact q7 e he⟩
      · rw [l, if_neg hne]; exact q5
      · rw [l, if_neg hne]; exact q6)
    (fun k a d w ⟨q1, q2, q3, q4, q5, q6, q7⟩ ha hd hc _ => by
      obtain ⟨n1, n2, _⟩ := Location.addEdge_next k a d w
      obtain ⟨_, l2, l3, _⟩ := Location.addEdge_locs k a d w S
      have hne : S ≠ d := by
        rintro rfl
        rw [q6] at hc
        rcases hc with hc | hc | ⟨p, hp, hpc⟩
        · exact c2 hc
        · exact c1 hc
        · exact c3 p hp hpc
      refine ⟨Location.addEdge_ok q1 ha hd w, q2.p_link q1 a d w, by rw [n2]; exact q3,
        by rw [n1]; omega, ?_, by rw [l3]; exact q6, fun e he => ?_⟩
      · rw [l2, if_neg hne]; exact q5
      · rw [Location.addEdge_pipes, if_neg (by omega)]; exact q7 e he)
  exact ⟨key.1, key.2.1, key.2.2.2.2.1, key.2.2.2.2.2.1, key.2.2.2.2.2.2⟩

end Project1

namespace Project1

/-! ## The perturbed solves of the Source and Relay queries -/

theorem edmondsKarp_parts {fuel : Nat} {g : Graph} {h : Heap} {source target : String}
    {h1 : Heap} (he : edmondsKarp fuel g h source target = Result.ok () h1) :
    ∃ s t, findVertex g h source = some s ∧ findVertex g h target = some t ∧ s ≠ t ∧
      augmentLoop fuel fuel g s t (resetFlows g h) = some h1 := by
  unfold edmondsKarp at he
  cases hs : findVertex g h source with
  | none => rw [hs] at he; cases he
  | some s =>
    cases ht : findVertex g h target with
    | none => rw [hs, ht] at he; cases he
    | some t =>
      rw [hs, ht] at he
      simp only at he
      by_cases hst : s = t
      · rw [if_pos hst] at he; cases he
      · rw [if_neg hst] at he
        cases hl : augmentLoop fuel fuel g s t (resetFlows g h) with
        | none => rw [hl] at he; cases he
        | some h2 =>
          rw [hl] at he
          simp only [Result.ok.injEq, true_and] at he
          exact ⟨s, t, rfl, rfl, hst, by rw [← he]; exact hl⟩

theorem Paired.p_same {h h1 : Heap} (pr : Paired h) (hp : h1.pipes = h.pipes)
    (n1 : h1.nextLoc = h.nextLoc) (ha : ∀ v, (h1.locs v).adj = (h.locs v).adj)
    (hi : ∀ v, (h1.locs v).incoming = (h.locs v).incoming) : Paired h1 := by
  intro v hv
  rw [n1] at hv
  obtain ⟨a, b⟩ := pr v hv
  constructor
  · intro e he
    rw [ha] at he
    rw [hp, hi]; exact a e he
  · intro e he
    rw [hi] at he
    rw [hp, ha]; exact b e he

theorem Paired.p_ends {h h1 : Heap} (pr : Paired h) (hl : h1.locs = h.locs)
    (n1 : h1.nextLoc = h.nextLoc)
    (hp : ∀ e, (h1.pipes e).orig = (h.pipes e).orig ∧ (h1.pipes e).dest = (h.pipes e).dest) :
    Paired h1 := by
  intro v hv
  rw [n1] at hv
  obtain ⟨a, b⟩ := pr v hv
  rw [hl]
  exact ⟨fun e he => by rw [(hp e).2]; exact a e he, fun e he => by rw [(hp e).1]; exact b e he⟩

/-- One `getCitiesFlow(true, ...)` on a consistent heap whose links are listed at both
ends: the links are still listed at both ends, and a node whose code is neither reserved
nor a key of the Source map has the same entering links and the same code. -/
theorem getCitiesFlow_apart {fuel : Nat} {this : Graph} {h : Heap} {oneCity tr : String}
    {l : List CityInfo} {h1 : Heap} (ok : HeapOK h) (pr : Paired h)
    (al : ∀ v ∈ this.vertexSet, v < h.nextLoc) {S : Nat} (hS : S < h.nextLoc)
    (c1 : (h.locs S).code ≠ "R_0") (c2 : (h.locs S).code ≠ "C_0")
    (c3 : ∀ p ∈ this.mapReservoirs, p.1 ≠ (h.locs S).code)
    (he : getCitiesFlow fuel this h true oneCity tr = Result.ok l h1) :
    Paired h1 ∧ (h1.locs S).incoming = (h.locs S).incoming ∧
    (h1.locs S).code = (h.locs S).code := by
  obtain ⟨_, a2, a3, a4, _⟩ := addR0C0_apart tr ok pr al hS c1 c2 c3
  unfold getCitiesFlow at he
  simp only at he
  obtain ⟨u, h2, e1, e2⟩ := Result.bind_eq_ok he
  have F := edmondsKarp_frame fuel _ _ _ _ h2 (Result.heap_of_ok e1)
  rw [if_pos trivial] at e2
  simp only [Result.ok.injEq] at e2
  obtain ⟨k1, k2, _, k4, k5⟩ := collectCities_same (addR0C0 this h tr).1
    (addR0C0 this h tr).1.mapCities h2 []
  have cc := collectCities_sinks (addR0C0 this h tr).1 (addR0C0 this h tr).1.mapCities h2 []
  rw [e2.2] at k1 k2 k4 k5 cc
  refine ⟨(a2.p_frame F).p_same k1 k2 k4 k5, ?_, ?_⟩
  · rw [k5, (F.locs S).2.2.2.1]; exact a3
  · rw [← a4, ← (F.locs S).1]
    exact congrArg Prod.fst (cc.2.2 S)

/-- One `getCitiesFlow(true, ...)` started with every link entering the node `S`
disabled: no search of the solve visits `S`, and the links leaving `S` carry no flow
when the call returns. -/
theorem getCitiesFlow_cutOff {fuel : Nat} {this : Graph} {h : Heap} {oneCity tr : String}
    {l : List CityInfo} {h1 : Heap} (ok : HeapOK h) (pr : Paired h)
    (al : ∀ v ∈ this.vertexSet, v < h.nextLoc) {S : Nat} (hS : S ∈ this.vertexSet)
    (c1 : (h.locs S).code ≠ "R_0") (c2 : (h.locs S).code ≠ "C_0")
    (c3 : ∀ p ∈ this.mapReservoirs, p.1 ≠ (h.locs S).code)
    (off : ∀ e ∈ (h.locs S).incoming, (h.pipes e).activated = false)
    (he : getCitiesFlow fuel this h true oneCity tr = Result.ok l h1) :
    (∃ s t tc, findVertex (addR0C0 this h tr).1 (addR0C0 this h tr).2 "R_0" = some s ∧
      findVertex (addR0C0 this h tr).1 (addR0C0 this h tr).2 "C_0" = some t ∧
      bfsTrace fuel fuel (addR0C0 this h tr).1 s t
        (resetFlows (addR0C0 this h tr).1 (addR0C0 this h tr).2) = some tc ∧
      ∀ x ∈ tc, (x.locs S).visited = false) ∧
    ∀ e ∈ (h1.locs S).adj, (h1.pipes e).flow = 0 := by
  have hSa := al S hS
  obtain ⟨a1, a2, a3, a4, a5⟩ := addR0C0_apart tr ok pr al hSa c1 c2 c3
  have B := addR0C0_built ok al tr
  unfold getCitiesFlow at he
  simp only at he
  obtain ⟨u, h2, e1, e2⟩ := Result.bind_eq_ok he
  rw [if_pos trivial] at e2
  simp only [Result.ok.injEq] at e2
  obtain ⟨k1, _, _, k4, _⟩ := collectCities_same (addR0C0 this h tr).1
    (addR0C0 this h tr).1.mapCities h2 []
  rw [e2.2] at k1 k4
  obtain ⟨s, t, hs, ht, hst, hl⟩ := edmondsKarp_parts e1
  obtain ⟨rl, _, z⟩ := resetFlows_spec (addR0C0 this h tr).1 (addR0C0 this h tr).2
  have F := resetFlows_frame (addR0C0 this h tr).1 (addR0C0 this h tr).2
  have hSV := B.verts S hS
  have hSk : S < (addR0C0 this h tr).2.nextLoc := B.alloc S hSV
  have hSs : S ≠ s := by
    rintro rfl
    exact c1 (a4.symm.trans (findVertex_code hs))
  have C : CutOff (resetFlows (addR0C0 this h tr).1 (addR0C0 this h tr).2) S := by
    refine ⟨fun e hin => ?_, fun e hout => ?_⟩
    · rw [rl, a3] at hin
      rw [(F.pipes e).2.2.2.2, a5 e ((ok S hSa).2 e hin).2.2]
      exact off e hin
    · rw [rl] at hout
      rw [z e, if_pos (mem_allPipes.2 ⟨S, hSV, hout⟩)]
  obtain ⟨C2, tc, t1, _, t3⟩ := augmentLoop_cutOff (findVertex_mem ht)
    (fun hh => hst hh.symm) hSV hSs fuel _ h2 (a1.of_frame F) (a2.p_frame F)
    (by rw [F.nextLoc]; exact B.alloc s (findVertex_mem hs))
    (by rw [F.nextLoc]; exact hSk) C hl
  refine ⟨⟨s, t, tc, hs, ht, t1, t3⟩, fun e hout => ?_⟩
  rw [k4] at hout
  rw [k1]
  exact C2.leaving e hout

/-- The two solves of `removeStationCompare` for a Relay `S` whose code is neither
reserved nor a key of the Source map, on a consistent heap whose links are listed at both
ends: in the second solve no search visits `S`, and when it returns every link leaving
or entering `S` carries no flow. -/
theorem stationFlows_cutOff {fuel : Nat} {this : Graph} {h : Heap} {code : String}
    {p : List CityInfo × List CityInfo} {h3 : Heap} (ok : HeapOK h) (pr : Paired h)
    (al : ∀ v ∈ this.vertexSet, v < h.nextLoc) {S : Nat} (hS : S ∈ this.vertexSet)
    (hst : mapFind this.mapStations code = some S)
    (c1 : (h.locs S).code ≠ "R_0") (c2 : (h.locs S).code ≠ "C_0")
    (c3 : ∀ q ∈ this.mapReservoirs, q.1 ≠ (h.locs S).code)
    (own : ∀ e ∈ (h.locs S).incoming, e ∈ allPipes h this.vertexSet)
    (he : stationFlows fuel this h code = Result.ok p h3) :
    ∃ og h1, getCitiesFlow fuel this h true "" "" = Result.ok og h1 ∧
      getCitiesFlow fuel this ((h1.locs S).incoming.foldl (fun h e => setActivated h e false) h1)
        true "" "" = Result.ok p.2 h3 ∧
      (∃ s t tc,
        findVertex
          (addR0C0 this ((h1.locs S).incoming.foldl (fun h e => setActivated h e false) h1) "").1
          (addR0C0 this ((h1.locs S).incoming.foldl (fun h e => setActivated h e false) h1) "").2
          "R_0" = some s ∧
        findVertex
          (addR0C0 this ((h1.locs S).incoming.foldl (fun h e => setActivated h e false) h1) "").1
          (addR0C0 this ((h1.locs S).incoming.foldl (fun h e => setActivated h e false) h1) "").2
          "C_0" = some t ∧
        bfsTrace fuel fuel
          (addR0C0 this ((h1.locs S).incoming.foldl (fun h e => setActivated h e false) h1) "").1
          s t
          (resetFlows
            (addR0C0 this
              ((h1.locs S).incoming.foldl (fun h e => setActivated h e false) h1) "").1
            (addR0C0 this
              ((h1.locs S).incoming.foldl (fun h e => setActivated h e false) h1) "").2)
          = some tc ∧
        ∀ x ∈ tc, (x.locs S).visited = false) ∧
      (∀ e ∈ (h3.locs S).adj, (h3.pipes e).flow = 0) ∧
      (∀ e ∈ (h3.locs S).incoming, (h3.pipes e).activated = false ∧ (h3.pipes e).flow = 0) := by
  unfold stationFlows at he
  obtain ⟨og, h1, e1, e2⟩ := Result.bind_eq_ok he
  obtain ⟨u, h2, e3, e4⟩ := Result.bind_eq_ok e2
  obtain ⟨no, h4, e5, e6⟩ := Result.bind_eq_ok e4
  simp only [Result.ok.injEq] at e6
  unfold setStation at e3
  rw [hst] at e3
  simp only [Result.ok.injEq, true_and] at e3
  have hSa := al S hS
  obtain ⟨ok1, al1, own1, _⟩ := getCitiesFlow_disabled ok al e1
  obtain ⟨pr1, i1, d1⟩ := getCitiesFlow_apart ok pr al hSa c1 c2 c3 e1
  obtain ⟨s1, s2, s3, s4⟩ := setActivatedAll_spec false (h1.locs S).incoming h1
  rw [e3] at s1 s2 s3 s4
  have ok2 : HeapOK h2 := ok1.of_ends s1 s2 s3 (fun e => ⟨(s4 e).1, (s4 e).2.1⟩)
  have pr2 : Paired h2 := pr1.p_ends s1 s2 (fun e => ⟨(s4 e).1, (s4 e).2.1⟩)
  have al2 : ∀ v ∈ this.vertexSet, v < h2.nextLoc := fun v hv => by rw [s2]; exact al1 v hv
  have off2 : ∀ e ∈ (h2.locs S).incoming, (h2.pipes e).activated = false := by
    intro e hin
    rw [s1] at hin
    rw [(s4 e).2.2.2.2.2, if_pos hin]
  have own2 : ∀ e ∈ (h2.locs S).incoming, e ∈ allPipes h2 this.vertexSet := by
    intro e hin
    rw [s1, i1] at hin
    have := own1 e (own e hin)
    unfold allPipes at this ⊢
    rw [s1]; exact this
  have d2 : (h2.locs S).code = (h.locs S).code := by rw [s1]; exact d1
  rw [← e3] at e5
  have e5b := e5
  rw [e3] at e5b
  obtain ⟨T, out⟩ := getCitiesFlow_cutOff ok2 pr2 al2 hS (by rw [d2]; exact c1)
    (by rw [d2]; exact c2) (fun q hq => by rw [d2]; exact c3 q hq) off2 e5b
  obtain ⟨_, i3, _⟩ := getCitiesFlow_apart ok2 pr2 al2 (al2 S hS) (by rw [d2]; exact c1)
    (by rw [d2]; exact c2) (fun q hq => by rw [d2]; exact c3 q hq) e5b
  obtain ⟨_, _, _, dis⟩ := getCitiesFlow_disabled ok2 al2 e5b
  rw [← e3] at T
  rw [← e6.2, ← e6.1]
  refine ⟨og, h1, e1, e5, T, out, fun e hin => ?_⟩
  rw [i3] at hin
  exact dis e (own2 e hin) (off2 e hin)

end Project1

namespace Project1

/-! ## The links of the super source and of the super sink -/

theorem linkAll_cons (h : Heap) (t : Nat × Nat × Int) (ts : List (Nat × Nat × Int)) :
    linkAll h (t :: ts) = linkAll (Location.addEdge h t.1 t.2.1 t.2.2).2 ts := rfl

theorem linkAll_append (h : Heap) (as bs : List (Nat × Nat × Int)) :
    linkAll h (as ++ bs) = linkAll (linkAll h as) bs := by
  unfold linkAll
  rw [List.foldl_append]

theorem positions_append (f : Nat × Nat × Int → Bool) :
    ∀ (as bs : List (Nat × Nat × Int)) (m : Nat),
      positions f m (as ++ bs) = positions f m as ++ positions f (m + as.length) bs := by
  intro as
  induction as with
  | nil => intro bs m; simp [positions]
  | cons a as ih =>
    intro bs m
    have e1 : m + 1 + as.length = m + (a :: as).length := by rw [List.length_cons]; omega
    rw [List.cons_append, positions, positions, ih bs (m + 1), e1]
    split <;> rfl

theorem positions_none (f : Nat × Nat × Int → Bool) :
    ∀ (ts : List (Nat × Nat × Int)) (m : Nat), (∀ t ∈ ts, f t = false) →
      positions f m ts = [] := by
  intro ts
  induction ts with
  | nil => intro m _; rfl
  | cons t ts ih =>
    intro m hf
    simp only [positions]
    rw [hf t (List.mem_cons_self _ _)]
    simp only [Bool.false_eq_true, if_false]
    exact ih (m + 1) (fun u hu => hf u (List.mem_cons_of_mem _ hu))

/-- What the pipe indices listed by `positions` are. -/
theorem mem_positions (f : Nat × Nat × Int → Bool) :
    ∀ (ts : List (Nat × Nat × Int)) (m e : Nat),
      e ∈ positions f m ts ↔ ∃ i t, ts[i]? = some t ∧ f t = true ∧ e = m + i := by
  intro ts
  induction ts with
  | nil => intro m e; simp [positions]
  | cons t ts ih =>
    intro m e
    have step : e ∈ positions f (m + 1) ts ↔
        ∃ i u, (t :: ts)[i + 1]? = some u ∧ f u = true ∧ e = m + (i + 1) := by
      rw [ih (m + 1) e]
      constructor
      · rintro ⟨i, u, h1, h2, h3⟩
        exact ⟨i, u, by simpa using h1, h2, by omega⟩
      · rintro ⟨i, u, h1, h2, h3⟩
        exact ⟨i, u, by simpa using h1, h2, by omega⟩
    simp only [positions]
    constructor
    · intro he
      by_cases hf : f t = true
      · rw [if_pos hf] at he
        rcases List.mem_cons.1 he with he | he
        · exact ⟨0, t, by simp, hf, by omega⟩
        · obtain ⟨i, u, h1, h2, h3⟩ := step.1 he
          exact ⟨i + 1, u, h1, h2, h3⟩
      · rw [if_neg hf] at he
        obtain ⟨i, u, h1, h2, h3⟩ := step.1 he
        exact ⟨i + 1, u, h1, h2, h3⟩
    · rintro ⟨i, u, h1, h2, h3⟩
      cases i with
      | zero =>
        simp only [List.getElem?_cons_zero, Option.some.injEq] at h1
        rw [h1, if_pos h2, h3]
        exact List.mem_cons_self _ _
      | succ i =>
        have := step.2 ⟨i, u, h1, h2, h3⟩
        split
        · exact List.mem_cons_of_mem _ this
        · exact this

theorem positions_length (f : Nat × Nat × Int → Bool) :
    ∀ (ts : List (Nat × Nat × Int)) (m : Nat),
      (positions f m ts).length = ts.countP f := by
  intro ts
  induction ts with
  | nil => intro m; rfl
  | cons t ts ih =>
    intro m
    simp only [positions, List.countP_cons]
    by_cases hf : f t = true
    · rw [if_pos hf, if_pos hf, List.length_cons, ih]
    · rw [if_neg hf, if_neg hf, ih]; rfl

/-- The heap after the calls of `Location::addEdge` for a list of links: one pipe per
link, allocated in order, appended to the outgoing list of its origin and to the
incoming list of its destination; nothing else changes but `indegree`. -/
theorem linkAll_spec : ∀ (ts : List (Nat × Nat × Int)) (h : Heap),
    (linkAll h ts).nextPipe = h.nextPipe + ts.length ∧
    (linkAll h ts).nextLoc = h.nextLoc ∧
    (∀ e, e < h.nextPipe → (linkAll h ts).pipes e = h.pipes e) ∧
    (∀ i t, ts[i]? = some t → (linkAll h ts).pipes (h.nextPipe + i) = freshPipe t) ∧
    (∀ x, ((linkAll h ts).locs x).adj =
      (h.locs x).adj ++ positions (fun t => t.1 == x) h.nextPipe ts) ∧
    (∀ x, ((linkAll h ts).locs x).incoming =
      (h.locs x).incoming ++ positions (fun t => t.2.1 == x) h.nextPipe ts) ∧
    (∀ x, ((linkAll h ts).locs x).code = (h.locs x).code ∧
      ((linkAll h ts).locs x).kind = (h.locs x).kind ∧
      ((linkAll h ts).locs x).visited = (h.locs x).visited) := by
  intro ts
  induction ts with
  | nil =>
    intro h
    refine ⟨rfl, rfl, fun _ _ => rfl, fun i t hi => by simp at hi, fun x => by simp [linkAll, positions],
      fun x => by simp [linkAll, positions], fun x => ⟨rfl, rfl, rfl⟩⟩
  | cons t ts ih =>
    intro h
    obtain ⟨i1, i2, i3, i4, i5, i6, i7⟩ := ih (Location.addEdge h t.1 t.2.1 t.2.2).2
    obtain ⟨n1, n2, _⟩ := Location.addEdge_next h t.1 t.2.1 t.2.2
    have L := Location.addEdge_locs h t.1 t.2.1 t.2.2
    rw [linkAll_cons]
    refine ⟨by rw [i1, n1, List.length_cons]; omega, by rw [i2, n2], fun e he => ?_,
      fun i u hi => ?_, fun x => ?_, fun x => ?_, fun x => ?_⟩
    · rw [i3 e (by rw [n1]; omega), Location.addEdge_pipes, if_neg (by omega)]
    · cases i with
      | zero =>
        simp only [List.getElem?_cons_zero, Option.some.injEq] at hi
        rw [Nat.add_zero, i3 _ (by rw [n1]; omega), Location.addEdge_pipes, if_pos rfl, ← hi]
        rfl
      | succ i =>
        have := i4 i u (by simpa using hi)
        rw [n1] at this
        have e1 : h.nextPipe + (i + 1) = h.nextPipe + 1 + i := by omega
        rw [e1]; exact this
    · rw [i5 x, (L x).1, n1]
      simp only [positions]
      by_cases hx : x = t.1
      · rw [if_pos hx, if_pos (by simpa using hx.symm)]
        simp
      · rw [if_neg hx, if_neg (by simpa using fun hh : t.1 = x => hx hh.symm)]
    · rw [i6 x, (L x).2.1, n1]
      simp only [positions]
      by_cases hx : x = t.2.1
      · rw [if_pos hx, if_pos (by simpa using hx.symm)]
        simp
      · rw [if_neg hx, if_neg (by simpa using fun hh : t.2.1 = x => hx hh.symm)]
    · obtain ⟨a, b, c⟩ := i7 x
      exact ⟨a.trans (L x).2.2.1, b.trans (L x).2.2.2.1, c.trans (L x).2.2.2.2⟩

theorem addEdge_found {g : Graph} {h : Heap} {source dest : String} {a d : Nat}
    (hs : findVertex g h source = some a) (hd : findVertex g h dest = some d) (w : Int) :
    (addEdge g h source dest w).2.2 = (Location.addEdge h a d w).2 := by
  unfold addEdge
  rw [hs, hd]

theorem addEdge_lookup (g : Graph) (h : Heap) (source dest : String) (w : Int) :
    (∀ c, findVertex (addEdge g h source dest w).2.1 (addEdge g h source dest w).2.2 c
      = findVertex g h c) ∧
    ∀ v, ((addEdge g h source dest w).2.2.locs v).kind = (h.locs v).kind := by
  refine ⟨fun c => findVertex_congr (addEdge_graph g h source dest w).1 (fun x => ?_) c,
    addEdge_kind g h source dest w⟩
  unfold addEdge
  cases findVertex g h source with
  | none => rfl
  | some v1 =>
    cases findVertex g h dest with
    | none => rfl
    | some v2 => exact (Location.addEdge_locs h v1 v2 w x).2.2.1

/-- The loop of `addR0C0` over the Source map, when `findVertex` returns `n` for `R_0`
and the registered node for every key: it is `Location::addEdge` for one link per entry
whose key is `tr` or is not `R_0`. -/
theorem addR0Edges_links (tr : String) (n : Nat) (g0 : Graph) (k0 : Heap)
    (hn : findVertex g0 k0 "R_0" = some n) :
    ∀ (ps : List (String × Nat)) (g : Graph) (k : Heap),
      (∀ c, findVertex g k c = findVertex g0 k0 c) →
      (∀ v, (k.locs v).kind = (k0.locs v).kind) →
      (∀ p ∈ ps, (p.1 == tr || p.1 != "R_0") = true → findVertex g0 k0 p.1 = some p.2) →
      (addR0Edges tr g k ps).2 = linkAll k
        ((ps.filter (fun p => p.1 == tr || p.1 != "R_0")).map
          (fun p => (n, p.2, if p.1 == tr then 0 else (k0.locs p.2).getMaximumDelivery))) ∧
      (∀ c, findVertex (addR0Edges tr g k ps).1 (addR0Edges tr g k ps).2 c
        = findVertex g0 k0 c) ∧
      (∀ v, ((addR0Edges tr g k ps).2.locs v).kind = (k0.locs v).kind) ∧
      (addR0Edges tr g k ps).1.mapCities = g.mapCities ∧
      (addR0Edges tr g k ps).1.vertexSet = g.vertexSet := by
  intro ps
  induction ps with
  | nil => intro g k hc hk _; exact ⟨rfl, hc, hk, rfl, rfl⟩
  | cons p ps ih =>
    intro g k hc hk hf
    have hfs : ∀ q ∈ ps, (q.1 == tr || q.1 != "R_0") = true → findVertex g0 k0 q.1 = some q.2 :=
      fun q hq => hf q (List.mem_cons_of_mem _ hq)
    have step : ∀ w : Int, (p.1 == tr || p.1 != "R_0") = true →
        (addR0Edges tr (addEdge g k "R_0" p.1 w).2.1 (addEdge g k "R_0" p.1 w).2.2 ps).2
          = linkAll k ((n, p.2, w) ::
            (ps.filter (fun p => p.1 == tr || p.1 != "R_0")).map
              (fun p => (n, p.2, if p.1 == tr then 0 else (k0.locs p.2).getMaximumDelivery))) ∧
        (∀ c, findVertex
            (addR0Edges tr (addEdge g k "R_0" p.1 w).2.1 (addEdge g k "R_0" p.1 w).2.2 ps).1
            (addR0Edges tr (addEdge g k "R_0" p.1 w).2.1 (addEdge g k "R_0" p.1 w).2.2 ps).2 c
          = findVertex g0 k0 c) ∧
        (∀ v, ((addR0Edges tr (addEdge g k "R_0" p.1 w).2.1
            (addEdge g k "R_0" p.1 w).2.2 ps).2.locs v).kind = (k0.locs v).kind) ∧
        (addR0Edges tr (addEdge g k "R_0" p.1 w).2.1
            (addEdge g k "R_0" p.1 w).2.2 ps).1.mapCities = g.mapCities ∧
        (addR0Edges tr (addEdge g k "R_0" p.1 w).2.1
            (addEdge g k "R_0" p.1 w).2.2 ps).1.vertexSet = g.vertexSet := by
      intro w hp
      obtain ⟨a1, a2⟩ := addEdge_lookup g k "R_0" p.1 w
      obtain ⟨b1, b2, b3, b4, b5⟩ := ih (addEdge g k "R_0" p.1 w).2.1
        (addEdge g k "R_0" p.1 w).2.2 (fun c => (a1 c).trans (hc c))
        (fun v => (a2 v).trans (hk v)) hfs
      obtain ⟨g1, _, g3⟩ := addEdge_graph g k "R_0" p.1 w
      refine ⟨?_, b2, b3, b4.trans g3, b5.trans g1⟩
      rw [b1, linkAll_cons]
      rw [addEdge_found ((hc _).trans hn)
        ((hc _).trans (hf p (List.mem_cons_self _ _) hp)) w]
    rw [addR0Edges]
    by_cases h1 : (p.1 == tr) = true
    · rw [if_pos h1]
      simp only
      have hp : (p.1 == tr || p.1 != "R_0") = true := by rw [h1]; rfl
      rw [List.filter_cons, if_pos hp, List.map_cons, if_pos h1]
      exact step 0 hp
    · rw [if_neg h1]
      by_cases h2 : (p.1 != "R_0") = true
      · rw [if_pos h2]
        simp only
        have hp : (p.1 == tr || p.1 != "R_0") = true := by rw [h2]; simp
        rw [List.filter_cons, if_pos hp, List.map_cons, if_neg h1,
          ← getMaximumDelivery_of_kind (hk p.2)]
        exact step _ hp
      · rw [if_neg h2]
        have hp : ¬ (p.1 == tr || p.1 != "R_0") = true := by
          simp only [Bool.or_eq_true, not_or]
          exact ⟨h1, h2⟩
        rw [List.filter_cons, if_neg hp]
        exact ih g k hc hk hfs

/-- The loop of `addR0C0` over the Sink map, when `findVertex` returns `t` for `C_0`
and the registered node for every other key. -/
theorem addC0Edges_links (t : Nat) (g0 : Graph) (k0 : Heap)
    (ht : findVertex g0 k0 "C_0" = some t) :
    ∀ (ps : List (String × Nat)) (g : Graph) (k : Heap),
      (∀ c, findVertex g k c = findVertex g0 k0 c) →
      (∀ v, (k.locs v).kind = (k0.locs v).kind) →
      (∀ p ∈ ps, (p.1 != "C_0") = true → findVertex g0 k0 p.1 = some p.2) →
      (addC0Edges g k ps).2 = linkAll k
        ((ps.filter (fun p => p.1 != "C_0")).map
          (fun p => (p.2, t, (k0.locs p.2).getDemand))) ∧
      (addC0Edges g k ps).1.mapCities = g.mapCities ∧
      (addC0Edges g k ps).1.vertexSet = g.vertexSet := by
  intro ps
  induction ps with
  | nil => intro g k _ _ _; exact ⟨rfl, rfl, rfl⟩
  | cons p ps ih =>
    intro g k hc hk hf
    have hfs : ∀ q ∈ ps, (q.1 != "C_0") = true → findVertex g0 k0 q.1 = some q.2 :=
      fun q hq => hf q (List.mem_cons_of_mem _ hq)
    rw [addC0Edges]
    by_cases h2 : (p.1 != "C_0") = true
    · rw [if_pos h2]
      simp only
      rw [List.filter_cons, if_pos h2, List.map_cons, ← getDemand_of_kind (hk p.2)]
      obtain ⟨a1, a2⟩ := addEdge_lookup g k p.1 "C_0" (k.locs p.2).getDemand
      obtain ⟨b1, b4, b5⟩ := ih (addEdge g k p.1 "C_0" (k.locs p.2).getDemand).2.1
        (addEdge g k p.1 "C_0" (k.locs p.2).getDemand).2.2 (fun c => (a1 c).trans (hc c))
        (fun v => (a2 v).trans (hk v)) hfs
      obtain ⟨g1, _, g3⟩ := addEdge_graph g k p.1 "C_0" (k.locs p.2).getDemand
      refine ⟨?_, b4.trans g3, b5.trans g1⟩
      rw [b1, linkAll_cons]
      rw [addEdge_found ((hc _).trans (hf p (List.mem_cons_self _ _) h2))
        ((hc _).trans ht) _]
    · rw [if_neg h2, List.filter_cons, if_neg h2]
      exact ih g k hc hk hfs

theorem find?_congr_mem {p q : Nat → Bool} : ∀ (V : List Nat), (∀ v ∈ V, p v = q v) →
    V.find? p = V.find? q := by
  intro V
  induction V with
  | nil => intro _; rfl
  | cons a V ih =>
    intro hV
    simp only [List.find?_cons]
    rw [hV a (List.mem_cons_self _ _), ih (fun v hv => hV v (List.mem_cons_of_mem _ hv))]

/-- A code found among the nodes of the caller is found at the same node once the two
terminals are appended. -/
theorem findVertex_withTerminals {this : Graph} {h : Heap} {c : String} {v : Nat}
    (hV : ∀ x ∈ this.vertexSet, x < h.nextLoc) (hv : findVertex this h c = some v) :
    findVertex (withTerminals this h.nextLoc) (allocTerminals h) c = some v := by
  obtain ⟨_, _, _, a4, _, _⟩ := allocTerminals_spec h
  unfold findVertex at hv ⊢
  have e1 : List.find? (fun x => ((allocTerminals h).locs x).code == c) this.vertexSet
      = some v := by
    rw [← hv]
    exact find?_congr_mem _ (fun x hx => by rw [a4 x (hV x hx)])
  show List.find? _ (this.vertexSet ++ [h.nextLoc] ++ [h.nextLoc + 1]) = some v
  rw [List.append_assoc, List.find?_append, e1]
  rfl

theorem positions_all (f : Nat × Nat × Int → Bool) :
    ∀ (ts : List (Nat × Nat × Int)) (m : Nat), (∀ t ∈ ts, f t = true) →
      positions f m ts = List.range' m ts.length := by
  intro ts
  induction ts with
  | nil => intro m _; rfl
  | cons t ts ih =>
    intro m hf
    simp only [positions]
    rw [if_pos (hf t (List.mem_cons_self _ _)),
      ih (m + 1) (fun u hu => hf u (List.mem_cons_of_mem _ hu))]
    rfl

theorem filter_all {α : Type} {p : α → Bool} : ∀ (l : List α), (∀ x ∈ l, p x = true) →
    l.filter p = l := by
  intro l hl
  exact List.filter_eq_self.2 hl

/-- The heap built by `addR0C0` on a ready network whose maps are sound, for a code
`tr` other than `R_0` : the two terminals are allocated, then `Location::addEdge` runs
once for each link of `superLinks`. -/
theorem addR0C0_links {this : Graph} {h : Heap} (rd : QueryReady this h)
    (ms : MapsSound this h) {tr : String} (htr : tr ≠ "R_0") :
    (addR0C0 this h tr).2 = linkAll (allocTerminals h)
      (superLinks h this.mapReservoirs this.mapCities tr h.nextLoc) ∧
    (addR0C0 this h tr).1.vertexSet = this.vertexSet ++ [h.nextLoc] ++ [h.nextLoc + 1] ∧
    (addR0C0 this h tr).1.mapCities = this.mapCities ++ [("C_0", h.nextLoc + 1)] := by
  obtain ⟨_, r2, _, r4, r5⟩ := rd
  obtain ⟨_, _, m3, m4⟩ := ms
  have hV : ∀ x ∈ this.vertexSet, x < h.nextLoc := fun x hx => (r2 x hx).1
  obtain ⟨_, _, _, a4, _, _⟩ := allocTerminals_spec h
  obtain ⟨f1, f2, _⟩ := findVertex_terminals
    (g := withTerminals this h.nextLoc) (Grown.init hV) rfl r2
  rw [addR0C0_eq this h tr (fun p hp => (r4 p hp).1) (fun p hp => (r5 p hp).2.1)]
  have hRs : ∀ p ∈ (withTerminals this h.nextLoc).mapReservoirs,
      (p.1 == tr || p.1 != "R_0") = true →
      findVertex (withTerminals this h.nextLoc) (allocTerminals h) p.1 = some p.2 := by
    intro p hp hc
    rcases List.mem_append.1 hp with k | k
    · exact findVertex_withTerminals hV (m3 p k)
    · rw [List.mem_singleton.1 k] at hc
      simp only [bne_self_eq_false, Bool.or_false, beq_iff_eq] at hc
      exact absurd hc.symm htr
  obtain ⟨b1, b2, b3, b4, b5⟩ := addR0Edges_links tr h.nextLoc _ _ f1
    (withTerminals this h.nextLoc).mapReservoirs (withTerminals this h.nextLoc)
    (allocTerminals h) (fun _ => rfl) (fun _ => rfl) hRs
  have hCs : ∀ p ∈ (addR0Edges tr (withTerminals this h.nextLoc) (allocTerminals h)
      (withTerminals this h.nextLoc).mapReservoirs).1.mapCities,
      (p.1 != "C_0") = true →
      findVertex (withTerminals this h.nextLoc) (allocTerminals h) p.1 = some p.2 := by
    rw [b4]
    intro p hp hc
    rcases List.mem_append.1 hp with k | k
    · exact findVertex_withTerminals hV (m4 p k)
    · rw [List.mem_singleton.1 k] at hc
      simp at hc
  obtain ⟨c1, c4, c5⟩ := addC0Edges_links (h.nextLoc + 1) _ _ f2 _ _ _ b2 b3 hCs
  refine ⟨?_, c5.trans b5, c4.trans b4⟩
  rw [c1, b1, ← linkAll_append, b4]
  congr 1
  unfold superLinks
  congr 1
  · show List.map _ (List.filter _ (this.mapReservoirs ++ [("R_0", h.nextLoc)])) = _
    rw [List.filter_append, filter_all this.mapReservoirs (fun p hp => by
      have := (r4 p hp).1
      simp [this])]
    have : List.filter (fun p : String × Nat => p.1 == tr || p.1 != "R_0")
        [("R_0", h.nextLoc)] = [] := by
      simp only [List.filter_cons, List.filter_nil]
      rw [if_neg]
      simp only [bne_self_eq_false, Bool.or_false, beq_iff_eq]
      exact fun hh => htr hh.symm
    rw [this, List.append_nil]
    refine List.map_congr_left (fun p hp => ?_)
    rw [a4 _ (r4 p hp).2.2]
  · show List.map _ (List.filter _ (this.mapCities ++ [("C_0", h.nextLoc + 1)])) = _
    rw [List.filter_append, filter_all this.mapCities (fun p hp => by
      have := (r5 p hp).2.1
      simp [this])]
    have : List.filter (fun p : String × Nat => p.1 != "C_0")
        [("C_0", h.nextLoc + 1)] = [] := by
      simp
    rw [this, List.append_nil]
    refine List.map_congr_left (fun p hp => ?_)
    rw [a4 _ (r5 p hp).2.2]

/-- The network built by `addR0C0` on a ready network whose maps are sound, link by
link. -/
theorem addR0C0_described {this : Graph} {h : Heap} (rd : QueryReady this h)
    (ms : MapsSound this h) {tr : String} (htr : tr ≠ "R_0") :
    (addR0C0 this h tr).2.nextLoc = h.nextLoc + 2 ∧
    (addR0C0 this h tr).2.nextPipe
      = h.nextPipe + this.mapReservoirs.length + this.mapCities.length ∧
    (∀ e, e < h.nextPipe → (addR0C0 this h tr).2.pipes e = h.pipes e) ∧
    (∀ i p, this.mapReservoirs[i]? = some p →
      (addR0C0 this h tr).2.pipes (h.nextPipe + i) =
        { dest := p.2, weight := if p.1 = tr then 0 else (h.locs p.2).getMaximumDelivery,
          orig := h.nextLoc, reverse := none, flow := 0, activated := true }) ∧
    (∀ j p, this.mapCities[j]? = some p →
      (addR0C0 this h tr).2.pipes (h.nextPipe + this.mapReservoirs.length + j) =
        { dest := h.nextLoc + 1, weight := (h.locs p.2).getDemand,
          orig := p.2, reverse := none, flow := 0, activated := true }) ∧
    ((addR0C0 this h tr).2.locs h.nextLoc).adj
      = List.range' h.nextPipe this.mapReservoirs.length ∧
    ((addR0C0 this h tr).2.locs h.nextLoc).incoming = [] ∧
    ((addR0C0 this h tr).2.locs (h.nextLoc + 1)).adj = [] ∧
    ((addR0C0 this h tr).2.locs (h.nextLoc + 1)).incoming
      = List.range' (h.nextPipe + this.mapReservoirs.length) this.mapCities.length ∧
    (∀ x, x < h.nextLoc →
      ((addR0C0 this h tr).2.locs x).adj = (h.locs x).adj ++
        positions (fun t => t.1 == x) (h.nextPipe + this.mapReservoirs.length)
          (this.mapCities.map (fun p => (p.2, h.nextLoc + 1, (h.locs p.2).getDemand))) ∧
      ((addR0C0 this h tr).2.locs x).incoming = (h.locs x).incoming ++
        positions (fun t => t.2.1 == x) h.nextPipe
          (this.mapReservoirs.map (fun p => (h.nextLoc, p.2,
            if p.1 == tr then 0 else (h.locs p.2).getMaximumDelivery)))) ∧
    (∀ x, ((addR0C0 this h tr).2.locs x).code = ((allocTerminals h).locs x).code ∧
      ((addR0C0 this h tr).2.locs x).kind = ((allocTerminals h).locs x).kind) := by
  obtain ⟨e1, _, _⟩ := addR0C0_links rd ms htr
  obtain ⟨_, r2, _, r4, r5⟩ := rd
  obtain ⟨a1, a2, a3, a4, a5, a6⟩ := allocTerminals_spec h
  obtain ⟨s1, s2, s3, s4, s5, s6, s7⟩ := linkAll_spec
    (superLinks h this.mapReservoirs this.mapCities tr h.nextLoc) (allocTerminals h)
  rw [← e1] at s1 s2 s3 s4 s5 s6 s7
  rw [a2] at s1 s3 s4 s5 s6
  have hlen : (superLinks h this.mapReservoirs this.mapCities tr h.nextLoc).length
      = this.mapReservoirs.length + this.mapCities.length := by
    simp [superLinks]
  have hR1 : ∀ t ∈ this.mapReservoirs.map (fun p => (h.nextLoc, p.2,
      if p.1 == tr then 0 else (h.locs p.2).getMaximumDelivery)), t.1 = h.nextLoc := by
    intro t ht
    obtain ⟨p, _, rfl⟩ := List.mem_map.1 ht
    rfl
  have hR2 : ∀ t ∈ this.mapReservoirs.map (fun p => (h.nextLoc, p.2,
      if p.1 == tr then 0 else (h.locs p.2).getMaximumDelivery)), t.2.1 < h.nextLoc := by
    intro t ht
    obtain ⟨p, hp, rfl⟩ := List.mem_map.1 ht
    exact (r4 p hp).2.2
  have hC1 : ∀ t ∈ this.mapCities.map (fun p => (p.2, h.nextLoc + 1, (h.locs p.2).getDemand)),
      t.1 < h.nextLoc := by
    intro t ht
    obtain ⟨p, hp, rfl⟩ := List.mem_map.1 ht
    exact (r5 p hp).2.2
  have hC2 : ∀ t ∈ this.mapCities.map (fun p => (p.2, h.nextLoc + 1, (h.locs p.2).getDemand)),
      t.2.1 = h.nextLoc + 1 := by
    intro t ht
    obtain ⟨p, _, rfl⟩ := List.mem_map.1 ht
    rfl
  have pos : ∀ (f : Nat × Nat × Int → Bool),
      positions f h.nextPipe (superLinks h this.mapReservoirs this.mapCities tr h.nextLoc)
      = positions f h.nextPipe (this.mapReservoirs.map (fun p => (h.nextLoc, p.2,
          if p.1 == tr then 0 else (h.locs p.2).getMaximumDelivery))) ++
        positions f (h.nextPipe + this.mapReservoirs.length)
          (this.mapCities.map (fun p => (p.2, h.nextLoc + 1, (h.locs p.2).getDemand))) := by
    intro f
    unfold superLinks
    rw [positions_append, List.length_map]
  refine ⟨by rw [s2, a3], by rw [s1, hlen]; omega, fun e he => by rw [s3 e he, a1],
    fun i p hi => ?_, fun j p hj => ?_, ?_, ?_, ?_, ?_, fun x hx => ⟨?_, ?_⟩, fun x => ?_⟩
  · rw [s4 i (h.nextLoc, p.2, if p.1 == tr then 0 else (h.locs p.2).getMaximumDelivery)
      (by
        unfold superLinks
        rw [List.getElem?_append_left (by
          rw [List.length_map]
          exact (List.getElem?_eq_some_iff.1 hi).1), List.getElem?_map, hi]
        rfl)]
    simp [freshPipe]
  · have hjl : j < this.mapCities.length := (List.getElem?_eq_some_iff.1 hj).1
    have := s4 (this.mapReservoirs.length + j) (p.2, h.nextLoc + 1, (h.locs p.2).getDemand)
      (by
        unfold superLinks
        rw [List.getElem?_append_right (by rw [List.length_map]; omega), List.length_map,
          Nat.add_sub_cancel_left, List.getElem?_map, hj]
        rfl)
    rw [← Nat.add_assoc] at this
    rw [this]
    rfl
  · rw [s5, a5, pos, positions_all _ _ _ (fun t ht => by simpa using hR1 t ht),
      positions_none _ _ _ (fun t ht => by
        have := hC1 t ht
        simp only [beq_eq_false_iff_ne, ne_eq]
        omega)]
    simp
  · rw [s6, a5, pos, positions_none _ _ _ (fun t ht => by
        have := hR2 t ht
        simp only [beq_eq_false_iff_ne, ne_eq]
        omega),
      positions_none _ _ _ (fun t ht => by
        have := hC2 t ht
        simp only [beq_eq_false_iff_ne, ne_eq]
        omega)]
    rfl
  · rw [s5, a6, pos, positions_none _ _ _ (fun t ht => by
        have := hR1 t ht
        simp only [beq_eq_false_iff_ne, ne_eq]
        omega),
      positions_none _ _ _ (fun t ht => by
        have := hC1 t ht
        simp only [beq_eq_false_iff_ne, ne_eq]
        omega)]
    rfl
  · rw [s6, a6, pos, positions_none _ _ _ (fun t ht => by
        have := hR2 t ht
        simp only [beq_eq_false_iff_ne, ne_eq]
        omega),
      positions_all _ _ _ (fun t ht => by simpa using hC2 t ht)]
    simp
  · rw [s5, a4 x hx, pos, positions_none _ (this.mapReservoirs.map _) _ (fun t ht => by
        have := hR1 t ht
        simp only [beq_eq_false_iff_ne, ne_eq]
        omega)]
    rfl
  · rw [s6, a4 x hx, pos]
    rw [positions_none _ (this.mapCities.map _) _ (fun t ht => by
        have := hC2 t ht
        simp only [beq_eq_false_iff_ne, ne_eq]
        omega)]
    simp
  · exact ⟨(s7 x).1, (s7 x).2.1⟩

end Project1

namespace Project1

/-! ## The flow reported for a Sink -/

theorem foldl_cond_sum (P : Nat → Bool) (f : Nat → Int) : ∀ (l : List Nat) (acc : Int),
    l.foldl (fun acc e => if P e = true then acc + f e else acc) acc
      = acc + (l.map (fun e => if P e = true then f e else 0)).sum := by
  intro l
  induction l with
  | nil => intro acc; simp
  | cons a l ih =>
    intro acc
    simp only [List.foldl_cons, List.map_cons, List.sum_cons]
    rw [ih]
    split <;> omega

/-- The double loop of `getCitiesFlow` adds up the flows of the links owned by the
vertices of the graph whose destination carries the code. -/
theorem maxFlowInto_eq_sum (g : Graph) (h : Heap) (code : String) :
    maxFlowInto g h code = ((allPipes h g.vertexSet).map (fun e =>
      if ((h.locs (h.pipes e).dest).code == code) = true then (h.pipes e).flow else 0)).sum := by
  have key : ∀ (V : List Nat) (acc : Int),
      V.foldl (fun acc loc => (h.locs loc).adj.foldl (fun acc e =>
        if ((h.locs (h.pipes e).dest).code == code) = true then acc + (h.pipes e).flow
        else acc) acc) acc
      = acc + ((V.flatMap (fun v => (h.locs v).adj)).map (fun e =>
        if ((h.locs (h.pipes e).dest).code == code) = true then (h.pipes e).flow
        else 0)).sum := by
    intro V
    induction V with
    | nil => intro acc; simp
    | cons a V ih =>
      intro acc
      simp only [List.foldl_cons, List.flatMap_cons, List.map_append, List.sum_append]
      rw [ih, foldl_cond_sum (fun e => (h.locs (h.pipes e).dest).code == code)
        (fun e => (h.pipes e).flow)]
      omega
  unfold maxFlowInto allPipes
  rw [key]
  simp

theorem maxFlowInto_congr {g : Graph} {h h1 : Heap} (hp : h1.pipes = h.pipes)
    (ha : ∀ v, (h1.locs v).adj = (h.locs v).adj)
    (hc : ∀ v, (h1.locs v).code = (h.locs v).code) (code : String) :
    maxFlowInto g h1 code = maxFlowInto g h code := by
  have hE : allPipes h1 g.vertexSet = allPipes h g.vertexSet := by
    unfold allPipes; congr 1; funext v; exact ha v
  rw [maxFlowInto_eq_sum, maxFlowInto_eq_sum, hE, hp]
  simp only [hc]

/-- In a well-formed network where no other vertex carries the code of `c`, the double
loop of `getCitiesFlow` for the code of `c` is the sum of the flows on the links
entering `c`. -/
theorem maxFlowInto_inflow {g : Graph} {h : Heap} (w : WF h g.vertexSet) {c : Nat}
    (hc : c ∈ g.vertexSet)
    (uq : ∀ x ∈ g.vertexSet, (h.locs x).code = (h.locs c).code → x = c) :
    maxFlowInto g h (h.locs c).code = inflow h c := by
  rw [maxFlowInto_eq_sum]
  have e1 : ((allPipes h g.vertexSet).map (fun e =>
      if ((h.locs (h.pipes e).dest).code == (h.locs c).code) = true then (h.pipes e).flow
      else 0)).sum
      = ((allPipes h g.vertexSet).map (fun e =>
        (if (h.pipes e).dest = c then (1 : Int) else 0) * flowOf h e)).sum := by
    refine sum_map_congr_mem _ _ _ (fun e he => ?_)
    have hd := (w.dest_mem he).1
    by_cases hdc : (h.pipes e).dest = c
    · simp [hdc, flowOf]
    · have hne : (h.locs (h.pipes e).dest).code ≠ (h.locs c).code := fun hh => hdc (uq _ hd hh)
      simp [hdc, hne]
  rw [e1, ← sum_in_eq w (fun v => if v = c then (1 : Int) else 0) (flowOf h),
    sum_map_single _ c _ w.nodupV hc (fun v _ hv => by simp [hv])]
  simp [inflow]

/-- The records `collectCities` appends: one per entry of the list whose key is not
`C_0`, in order, with the flow the double loop finds for the key. -/
theorem collectCities_records (g : Graph) : ∀ (ps : List (String × Nat)) (h : Heap)
    (acc : List CityInfo),
    (collectCities g h ps acc).1 = acc ++ (ps.filter (fun p => p.1 != "C_0")).map (fun p =>
      { cityName := (h.locs p.2).getName, cityCode := (h.locs p.2).code,
        demand := (h.locs p.2).getDemand, totalFlow := maxFlowInto g h p.1,
        affectedTotalFlow := 0 }) := by
  intro ps
  induction ps with
  | nil => intro h acc; simp [collectCities]
  | cons p ps ih =>
    intro h acc
    rw [collectCities]
    by_cases hp : (p.1 != "C_0") = true
    · rw [if_pos hp]
      simp only
      obtain ⟨a, b⟩ := setTotalFlow_spec h p.2 (maxFlowInto g h p.1)
      rw [ih, List.filter_cons, if_pos hp, List.map_cons, List.append_assoc]
      congr 1
      rw [List.singleton_append]
      congr 1
      · rw [(b p.2).1, (b p.2).2.2.2.2.1, (b p.2).2.2.2.2.2.1]
      · refine List.map_congr_left (fun q _ => ?_)
        rw [(b q.2).1, (b q.2).2.2.2.2.1, (b q.2).2.2.2.2.2.1,
          maxFlowInto_congr a (fun v => (b v).2.1) (fun v => (b v).1)]
    · rw [if_neg hp, List.filter_cons, if_neg hp]
      exact ih h acc

theorem positions_single (f : Nat × Nat × Int → Bool) :
    ∀ (ts : List (Nat × Nat × Int)) (m j : Nat) (t : Nat × Nat × Int),
      ts[j]? = some t → f t = true →
      (∀ i u, ts[i]? = some u → f u = true → i = j) →
      positions f m ts = [m + j] := by
  intro ts
  induction ts with
  | nil => intro m j t hj; simp at hj
  | cons a ts ih =>
    intro m j t hj hf hu
    simp only [positions]
    cases j with
    | zero =>
      simp only [List.getElem?_cons_zero, Option.some.injEq] at hj
      rw [hj, if_pos hf, positions_none f ts (m + 1) (fun u hm => by
        obtain ⟨i, hi⟩ := List.getElem?_of_mem hm
        cases hfu : f u with
        | false => rfl
        | true =>
          have := hu (i + 1) u (by simpa using hi) hfu
          omega)]
      rfl
    | succ j =>
      have hfa : ¬ f a = true := by
        intro hfa
        have := hu 0 a (by simp) hfa
        omega
      rw [if_neg hfa, ih (m + 1) j t (by simpa using hj) hf (fun i u hi hfu => by
        have := hu (i + 1) u (by simpa using hi) hfu
        omega)]
      congr 1
      omega

/-- The values of a sound Sink map are distinct nodes. -/
theorem MapsSound.sinks_nodup {this : Graph} {h : Heap} (ms : MapsSound this h) :
    (this.mapCities.map Prod.snd).Nodup := by
  obtain ⟨_, m2, _, m4⟩ := ms
  refine List.Nodup.map_on (fun x hx y hy hxy => ?_) (List.Nodup.of_map _ m2)
  have h1 := findVertex_code (m4 x hx)
  have h2 := findVertex_code (m4 y hy)
  rw [hxy, h2] at h1
  exact Prod.ext h1.symm hxy

theorem mapFind_of_mem : ∀ (m : List (String × Nat)) (p : String × Nat),
    (m.map Prod.fst).Nodup → p ∈ m → mapFind m p.1 = some p.2 := by
  intro m
  induction m with
  | nil => intro p _ hp; exact absurd hp (List.not_mem_nil _)
  | cons a m ih =>
    intro p nd hp
    rw [List.map_cons, List.nodup_cons] at nd
    unfold mapFind
    rw [List.find?_cons]
    rcases List.mem_cons.1 hp with rfl | hp
    · simp
    · have hne : (a.1 == p.1) = false := by
        rw [beq_eq_false_iff_ne]
        intro hh
        exact nd.1 (hh ▸ List.mem_map_of_mem Prod.fst hp)
      rw [hne]
      exact ih p nd.2 hp

theorem mapFind_append_left {m m1 : List (String × Nat)} {k : String} {v : Nat}
    (hv : mapFind m k = some v) : mapFind (m ++ m1) k = some v := by
  unfold mapFind at hv ⊢
  rw [List.find?_append]
  cases hf : List.find? (fun p => p.1 == k) m with
  | none => rw [hf] at hv; cases hv
  | some q => rw [hf] at hv; exact hv

/-- The solve of a query on a ready network with non-negative quantities, sound maps
and distinct codes: for every entry of the Sink map, the double loop of `getCitiesFlow`
finds the sum of the flows on the links entering the Sink, and for a Sink without
outgoing link in the caller network this is the flow on its one link to `C_0`,
between 0 and the demand. -/
theorem solved_sink {fuel : Nat} {this : Graph} {h : Heap} {tr : String} {u : Unit}
    {h2 : Heap} (rd : QueryReady this h) (caps : QueryCaps this h)
    (ms : MapsSound this h) (uc : (this.vertexSet.map (fun v => (h.locs v).code)).Nodup)
    (htr : tr ≠ "R_0")
    (e1 : edmondsKarp fuel (addR0C0 this h tr).1 (addR0C0 this h tr).2 "R_0" "C_0"
      = Result.ok u h2) :
    (h2.locs (h.nextLoc + 1)).code = "C_0" ∧
    ∀ j p, this.mapCities[j]? = some p →
      (h.locs p.2).code = p.1 ∧ (h2.locs p.2).code = p.1 ∧
      (h2.locs p.2).kind = (h.locs p.2).kind ∧
      maxFlowInto (addR0C0 this h tr).1 h2 p.1 = inflow h2 p.2 ∧
      ((h.locs p.2).adj = [] →
        (h2.locs p.2).adj = [h.nextPipe + this.mapReservoirs.length + j] ∧
        (h2.pipes (h.nextPipe + this.mapReservoirs.length + j)).orig = p.2 ∧
        (h2.pipes (h.nextPipe + this.mapReservoirs.length + j)).dest = h.nextLoc + 1 ∧
        (h2.pipes (h.nextPipe + this.mapReservoirs.length + j)).weight
          = (h.locs p.2).getDemand ∧
        maxFlowInto (addR0C0 this h tr).1 h2 p.1
          = (h2.pipes (h.nextPipe + this.mapReservoirs.length + j)).flow ∧
        0 ≤ (h2.pipes (h.nextPipe + this.mapReservoirs.length + j)).flow ∧
        (h2.pipes (h.nextPipe + this.mapReservoirs.length + j)).flow
          ≤ (h.locs p.2).getDemand) := by
  have N := addR0C0_ok rd caps tr
  obtain ⟨G, vs, _⟩ := addR0C0_grown rd htr
  obtain ⟨f1, f2, _⟩ := findVertex_terminals G vs rd.2.1
  obtain ⟨_, _, _, _, d5, _, _, _, _, d10, d11⟩ := addR0C0_described rd ms htr
  obtain ⟨_, _, _, a4, a5, a6⟩ := allocTerminals_spec h
  have nv := ms.sinks_nodup
  have F := edmondsKarp_frame fuel _ _ _ _ h2 (Result.heap_of_ok e1)
  obtain ⟨h2', e1', post⟩ := edmondsKarp_spec N.wf N.caps f1 f2
    (Nat.ne_of_lt (Nat.lt_succ_self _))
    (max fuel (fuelBound (addR0C0 this h tr).2 (addR0C0 this h tr).1.vertexSet h.nextLoc))
    (le_max_right _ _)
  have e1'' := edmondsKarp_mono (le_max_left fuel
    (fuelBound (addR0C0 this h tr).2 (addR0C0 this h tr).1.vertexSet h.nextLoc))
    _ _ _ _ _ e1 (by intro hh; cases hh)
  rw [e1''] at e1'
  have h22 : h2' = h2 := (Result.ok.inj e1').2.symm
  rw [h22] at post
  have WF2 := post.net.wf N.wf
  have hcode : ∀ x, (h2.locs x).code = ((allocTerminals h).locs x).code :=
    fun x => (F.locs x).1.trans (d11 x).1
  have hkind : ∀ x, (h2.locs x).kind = ((allocTerminals h).locs x).kind :=
    fun x => (F.locs x).2.2.2.2.2.2.trans (d11 x).2
  refine ⟨by rw [hcode, a6], fun j p hj => ?_⟩
  have hp : p ∈ this.mapCities := List.getElem?_mem hj
  have hfv := ms.2.2.2 p hp
  have hcV : p.2 ∈ this.vertexSet := findVertex_mem hfv
  have hcn : p.2 < h.nextLoc := (rd.2.1 p.2 hcV).1
  have hpc : (h.locs p.2).code = p.1 := findVertex_code hfv
  have hc2 : (h2.locs p.2).code = (h.locs p.2).code := by rw [hcode, a4 _ hcn]
  have hcV' : p.2 ∈ (addR0C0 this h tr).1.vertexSet := by
    rw [vs]; simp [hcV]
  have uq : ∀ x ∈ (addR0C0 this h tr).1.vertexSet,
      (h2.locs x).code = (h2.locs p.2).code → x = p.2 := by
    intro x hx hxc
    rw [hc2, hcode] at hxc
    rw [vs] at hx
    simp only [List.mem_append, List.mem_singleton] at hx
    rcases hx with (hx | hx) | hx
    · rw [a4 _ (rd.2.1 x hx).1] at hxc
      exact List.inj_on_of_nodup_map uc hx hcV hxc
    · rw [hx, a5] at hxc
      exact absurd hxc.symm (rd.2.1 p.2 hcV).2.1
    · rw [hx, a6] at hxc
      exact absurd hxc.symm (rd.2.1 p.2 hcV).2.2
  have htot : maxFlowInto (addR0C0 this h tr).1 h2 p.1 = inflow h2 p.2 := by
    rw [← hpc, ← hc2]
    exact maxFlowInto_inflow WF2 hcV' uq
  refine ⟨hpc, hc2.trans hpc, by rw [hkind, a4 _ hcn], htot, fun hadj => ?_⟩
  have hadjk : ((addR0C0 this h tr).2.locs p.2).adj
      = [h.nextPipe + this.mapReservoirs.length + j] := by
    rw [(d10 p.2 hcn).1, hadj, List.nil_append]
    refine positions_single _ _ _ j (p.2, h.nextLoc + 1, (h.locs p.2).getDemand)
      (by rw [List.getElem?_map, hj]; rfl) (by simp) (fun i u hi hu => ?_)
    rw [List.getElem?_map] at hi
    cases hq : this.mapCities[i]? with
    | none => rw [hq] at hi; cases hi
    | some q =>
      rw [hq] at hi
      simp only [Option.map_some', Option.some.injEq] at hi
      rw [← hi] at hu
      simp only [beq_iff_eq] at hu
      have hil : i < (this.mapCities.map Prod.snd).length := by
        rw [List.length_map]
        exact (List.getElem?_eq_some_iff.1 hq).1
      refine List.getElem?_inj hil nv ?_
      rw [List.getElem?_map, List.getElem?_map, hq, hj]
      simp only [Option.map_some', Option.some.injEq]
      exact hu
  have hadj2 : (h2.locs p.2).adj = [h.nextPipe + this.mapReservoirs.length + j] := by
    rw [post.net.adj]; exact hadjk
  have hpipe := d5 j p hj
  have hne1 : p.2 ≠ h.nextLoc := Nat.ne_of_lt hcn
  have hne2 : p.2 ≠ h.nextLoc + 1 := by omega
  have hcons := post.inv.conserve p.2 hcV' hne1 hne2
  have hout : outflow h2 p.2
      = (h2.pipes (h.nextPipe + this.mapReservoirs.length + j)).flow := by
    unfold outflow outflowOf
    rw [hadj2]
    simp [flowOf]
  have hb := post.inv.bounds (h.nextPipe + this.mapReservoirs.length + j)
    (mem_allPipes.2 ⟨p.2, hcV', by rw [hadj2]; exact List.mem_singleton_self _⟩)
  have hw : (h2.pipes (h.nextPipe + this.mapReservoirs.length + j)).weight
      = (h.locs p.2).getDemand := by
    rw [post.net.weight, hpipe]
  exact ⟨hadj2, by rw [post.net.orig, hpipe], by rw [post.net.dest, hpipe], hw,
    by rw [htot, hcons, hout], hb.1, by rw [← hw]; exact hb.2⟩

/-- The list returned by `getCitiesFlow(true, "", tr)` on a ready network: one record
per entry of the Sink map, in order, built from the heap `edmondsKarp` returned. -/
theorem getCitiesFlow_all {fuel : Nat} {this : Graph} {h : Heap} {oneCity tr : String}
    {l : List CityInfo} {h1 : Heap} (rd : QueryReady this h) (htr : tr ≠ "R_0")
    (he : getCitiesFlow fuel this h true oneCity tr = Result.ok l h1) :
    ∃ u h2, edmondsKarp fuel (addR0C0 this h tr).1 (addR0C0 this h tr).2 "R_0" "C_0"
        = Result.ok u h2 ∧
      h1.pipes = h2.pipes ∧ (∀ v, (h1.locs v).adj = (h2.locs v).adj) ∧
      (∀ v, (h1.locs v).incoming = (h2.locs v).incoming) ∧
      (∀ v, (h1.locs v).code = (h2.locs v).code) ∧
      l = this.mapCities.map (fun p =>
        { cityName := (h2.locs p.2).getName, cityCode := (h2.locs p.2).code,
          demand := (h2.locs p.2).getDemand,
          totalFlow := maxFlowInto (addR0C0 this h tr).1 h2 p.1,
          affectedTotalFlow := 0 }) := by
  obtain ⟨_, _, mc⟩ := addR0C0_grown rd htr
  unfold getCitiesFlow at he
  simp only at he
  obtain ⟨u, h2, e1, e2⟩ := Result.bind_eq_ok he
  rw [if_pos trivial] at e2
  simp only [Result.ok.injEq] at e2
  have rec := collectCities_records (addR0C0 this h tr).1 (addR0C0 this h tr).1.mapCities h2 []
  obtain ⟨c1, _, _, c4, c5⟩ := collectCities_same (addR0C0 this h tr).1
    (addR0C0 this h tr).1.mapCities h2 []
  have cc := collectCities_sinks (addR0C0 this h tr).1 (addR0C0 this h tr).1.mapCities h2 []
  rw [e2.2] at c1 c4 c5 cc
  rw [e2.1] at rec
  have hfil : (addR0C0 this h tr).1.mapCities.filter (fun p => p.1 != "C_0")
      = this.mapCities := by
    rw [mc, List.filter_append, filter_all this.mapCities (fun p hp => by
      have := (rd.2.2.2.2 p hp).2.1
      simp [this])]
    simp
  rw [hfil, List.nil_append] at rec
  exact ⟨u, h2, e1, c1, c4, c5, fun v => congrArg Prod.fst (cc.2.2 v), rec⟩

/-- The record returned by `getCitiesFlow(false, key, tr)` for a key of the Sink map of
a ready network with sound maps. -/
theorem getCitiesFlow_one {fuel : Nat} {this : Graph} {h : Heap} {tr : String}
    {l : List CityInfo} {h1 : Heap} (rd : QueryReady this h) (ms : MapsSound this h)
    (htr : tr ≠ "R_0") {p : String × Nat} (hp : p ∈ this.mapCities)
    (he : getCitiesFlow fuel this h false p.1 tr = Result.ok l h1) :
    ∃ u h2, edmondsKarp fuel (addR0C0 this h tr).1 (addR0C0 this h tr).2 "R_0" "C_0"
        = Result.ok u h2 ∧
      h1.pipes = h2.pipes ∧ (∀ v, (h1.locs v).adj = (h2.locs v).adj) ∧
      (∀ v, (h1.locs v).incoming = (h2.locs v).incoming) ∧
      (∀ v, (h1.locs v).code = (h2.locs v).code) ∧
      l = [{ cityName := (h2.locs p.2).getName, cityCode := (h2.locs p.2).code,
             demand := (h2.locs p.2).getDemand,
             totalFlow := maxFlowInto (addR0C0 this h tr).1 h2 (h2.locs p.2).code,
             affectedTotalFlow := 0 }] := by
  obtain ⟨_, _, mc⟩ := addR0C0_grown rd htr
  unfold getCitiesFlow at he
  simp only at he
  obtain ⟨u, h2, e1, e2⟩ := Result.bind_eq_ok he
  rw [if_neg (by simp)] at e2
  rw [mc, mapFind_append_left (mapFind_of_mem _ p ms.2.1 hp)] at e2
  simp only [Result.ok.injEq] at e2
  obtain ⟨a, b⟩ := setTotalFlow_spec h2 p.2
    (maxFlowInto (addR0C0 this h tr).1 h2 (h2.locs p.2).code)
  rw [e2.2] at a b
  refine ⟨u, h2, e1, a, fun v => (b v).2.1, fun v => (b v).2.2.1, fun v => (b v).1, ?_⟩
  rw [← e2.1, e2.2, (b p.2).1, (b p.2).2.2.2.2.1, (b p.2).2.2.2.2.2.1]

end Project1

/-! ## Order and sums of `double` values -/

namespace Double

theorem dbl_le_of_lt {a b : Double} (h : a < b) : a ≤ b := by
  show le a b = true
  have h1 : lt a b = true := h
  simp [le, h1]

theorem dbl_le_refl {a : Double} (h : a.isNaN = false) : a ≤ a := by
  show le a a = true
  cases a with
  | nan => cases h
  | inf s => simp [le, eq]
  | fin n => simp [le, eq]

theorem dbl_le_of_not_lt {a b : Double} (ha : a.isNaN = false) (hb : b.isNaN = false)
    (h : ¬ a < b) : b ≤ a := by
  have h1 : ¬ lt a b = true := h
  show le b a = true
  cases a with
  | nan => cases ha
  | inf s =>
    cases b with
    | nan => cases hb
    | inf t => cases s <;> cases t <;> simp_all [le, lt, eq]
    | fin m => cases s <;> simp_all [le, lt, eq]
  | fin n =>
    cases b with
    | nan => cases hb
    | inf t => cases t <;> simp_all [le, lt, eq]
    | fin m =>
      simp only [lt, decide_eq_true_eq, not_lt] at h1
      simp only [le, lt, eq, Bool.or_eq_true, decide_eq_true_eq]
      omega

theorem dbl_le_trans {a b c : Double} (h1 : a ≤ b) (h2 : b ≤ c) : a ≤ c := by
  have k1 : le a b = true := h1
  have k2 : le b c = true := h2
  show le a c = true
  cases a with
  | nan => simp [le, lt, eq] at k1
  | inf s =>
    cases b with
    | nan => simp [le, lt, eq] at k1
    | inf t =>
      cases c with
      | nan => simp [le, lt, eq] at k2
      | inf u => cases s <;> cases t <;> cases u <;> simp_all [le, lt, eq]
      | fin p => cases s <;> cases t <;> simp_all [le, lt, eq]
    | fin m =>
      cases c with
      | nan => simp [le, lt, eq] at k2
      | inf u => cases s <;> cases u <;> simp_all [le, lt, eq]
      | fin p => cases s <;> simp_all [le, lt, eq]
  | fin n =>
    cases b with
    | nan => simp [le, lt, eq] at k1
    | inf t =>
      cases c with
      | nan => simp [le, lt, eq] at k2
      | inf u => cases t <;> cases u <;> simp_all [le, lt, eq]
      | fin p => cases t <;> simp_all [le, lt, eq]
    | fin m =>
      cases c with
      | nan => simp [le, lt, eq] at k2
      | inf u => cases u <;> simp_all [le, lt, eq]
      | fin p =>
        simp only [le, lt, eq, Bool.or_eq_true, decide_eq_true_eq] at k1 k2 ⊢
        omega

/-- A value that is at least zero is not a NaN. -/
theorem dbl_nonneg_not_nan {a : Double} (h : (0 : Double) ≤ a) : a.isNaN = false := by
  cases a with
  | nan =>
    have k : le 0 nan = true := h
    simp [le, lt, eq] at k
  | inf s => rfl
  | fin n => rfl

theorem dbl_zero : (0 : Double) = fin 0 := by decide

theorem dbl_le_branch (c : Prop) [Decidable c] (x : Nat) :
    le (fin 0) (if c then inf false else fin (x : Int)) = true := by
  split
  · simp [le, lt]
  · simp only [le, lt, eq, Bool.or_eq_true, decide_eq_true_eq]
    omega

theorem dbl_rnd_nonneg {n : Int} (h : 0 ≤ n) : (0 : Double) ≤ rnd n := by
  rw [dbl_zero]
  show le (fin 0) (rnd n) = true
  have hn : decide (n < 0) = false := by simpa using h
  unfold rnd roundQ
  rw [hn]
  simp only [Bool.false_eq_true, if_false]
  exact dbl_le_branch _ _

theorem dbl_add_nonneg {a b : Double} (ha : (0 : Double) ≤ a) (hb : (0 : Double) ≤ b) :
    (0 : Double) ≤ a + b := by
  have ka : le 0 a = true := ha
  have kb : le 0 b = true := hb
  rw [dbl_zero] at ka kb
  show (0 : Double) ≤ add a b
  cases a with
  | nan => simp [le, lt, eq] at ka
  | inf s =>
    cases s
    · cases b with
      | nan => simp [le, lt, eq] at kb
      | inf t =>
        cases t
        · rw [dbl_zero]; decide
        · simp [le, lt, eq] at kb
      | fin m => rw [dbl_zero]; show le (fin 0) (add (inf false) (fin m)) = true; simp [add, le, lt]
    · simp [le, lt, eq] at ka
  | fin n =>
    cases b with
    | nan => simp [le, lt, eq] at kb
    | inf t =>
      cases t
      · rw [dbl_zero]; show le (fin 0) (add (fin n) (inf false)) = true; simp [add, le, lt]
      · simp [le, lt, eq] at kb
    | fin m =>
      simp only [le, lt, eq, Bool.or_eq_true, decide_eq_true_eq] at ka kb
      exact dbl_rnd_nonneg (by omega)

end Double

namespace Projeto2

/-! ## The backtracking search over the tours -/

theorem amFind_map_val {α : Type} (f : Int → α → α) : ∀ (m : List (Int × α)) (k : Int),
    amFind (m.map (fun p => (p.1, f p.1 p.2))) k = (amFind m k).map (f k) := by
  intro m
  induction m with
  | nil => intro k; rfl
  | cons a m ih =>
    intro k
    have := ih k
    unfold amFind at this ⊢
    rw [List.map_cons, List.find?_cons, List.find?_cons]
    by_cases hk : (a.1 == k) = true
    · simp only [hk, Option.map_some']
      rw [beq_iff_eq] at hk
      rw [hk]
    · simp only [hk]
      exact this

theorem findVertex_paint (g : Graph) (path : List Int) (k : Int) :
    (g.paint path).findVertex k
      = (g.findVertex k).map (fun v => { v with visited := decide (k ∈ path) }) := by
  have := amFind_map_val (fun (k : Int) (v : Vertex) => { v with visited := decide (k ∈ path) })
    g.vertexMap k
  unfold Graph.findVertex Graph.paint
  exact this

theorem getNumVertex_paint (g : Graph) (path : List Int) :
    (g.paint path).getNumVertex = g.getNumVertex := by
  simp [Graph.paint, Graph.getNumVertex]

theorem getNumVertex_update (g : Graph) (k : Int) (f : Vertex → Vertex) :
    (g.update k f).getNumVertex = g.getNumVertex := by
  simp [Graph.update, Graph.getNumVertex]

/-- Marking the vertex `i` in the graph painted for `path` gives the graph painted for
`path` with `i` pushed. -/
theorem paint_push (g : Graph) (path : List Int) (i : Int) :
    (g.paint path).update i (fun v => { v with visited := true }) = g.paint (path ++ [i]) := by
  unfold Graph.paint Graph.update
  simp only [List.map_map, Graph.mk.injEq]
  refine List.map_congr_left (fun p _ => ?_)
  simp only [Function.comp]
  by_cases hp : p.1 = i
  · simp [hp]
  · have : (p.1 == i) = false := by simpa using hp
    simp [this, hp]

/-- Unmarking the vertex `i`, which is not in `path`, undoes the push. -/
theorem paint_pop (g : Graph) (path : List Int) (i : Int) (hi : i ∉ path) :
    (g.paint (path ++ [i])).update i (fun v => { v with visited := false }) = g.paint path := by
  unfold Graph.paint Graph.update
  simp only [List.map_map, Graph.mk.injEq]
  refine List.map_congr_left (fun p _ => ?_)
  simp only [Function.comp]
  by_cases hp : p.1 = i
  · simp [hp, hi]
  · have : (p.1 == i) = false := by simpa using hp
    simp [this, hp]

theorem paint_nil (g : Graph) :
    g.paint [] = { vertexMap := g.vertexMap.map (fun p => (p.1, { p.2 with visited := false })) } := by
  simp [Graph.paint]

theorem pathDistanceLoop_paint (hav : Double → Double → Double → Double → Double) (g : Graph)
    (path : List Int) : ∀ (q : List Int) (acc : Double),
    (g.paint path).pathDistanceLoop hav acc q = g.pathDistanceLoop hav acc q := by
  intro q
  induction q with
  | nil => intro acc; simp [Graph.pathDistanceLoop]
  | cons a q ih =>
    intro acc
    cases q with
    | nil => simp [Graph.pathDistanceLoop]
    | cons b rest =>
      rw [Graph.pathDistanceLoop, Graph.pathDistanceLoop, findVertex_paint, findVertex_paint]
      cases g.findVertex a with
      | none => rfl
      | some va =>
        simp only [Option.map_some']
        cases g.findVertex b with
        | none =>
          simp only [Option.map_none']
          split
          · rfl
          · exact ih _
        | some vb =>
          simp only [Option.map_some']
          split
          · exact ih _
          · exact ih _

theorem pathDistance_paint (hav : Double → Double → Double → Double → Double) (g : Graph)
    (path q : List Int) : (g.paint path).pathDistance hav q = g.pathDistance hav q := by
  unfold Graph.pathDistance
  rw [pathDistanceLoop_paint]

theorem Graph.Canonical.found {g : Graph} (hc : g.Canonical) {i : Nat}
    (hi : i < g.getNumVertex) : ∃ v, g.findVertex (i : Int) = some v ∧ v.id = (i : Int) := by
  have := hc i hi
  cases hf : g.findVertex (i : Int) with
  | none => rw [hf] at this; cases this
  | some v =>
    rw [hf] at this
    exact ⟨v, rfl, by simpa using this⟩

theorem pathDistanceLoop_some (hav : Double → Double → Double → Double → Double) {g : Graph}
    (hc : g.Canonical) : ∀ (q : List Int) (acc : Double),
    (∀ x ∈ q, ∃ j, j < g.getNumVertex ∧ x = (j : Int)) →
    ∃ d, g.pathDistanceLoop hav acc q = some d := by
  intro q
  induction q with
  | nil => intro acc _; exact ⟨acc, by simp [Graph.pathDistanceLoop]⟩
  | cons a q ih =>
    intro acc hq
    cases q with
    | nil => exact ⟨acc, by simp [Graph.pathDistanceLoop]⟩
    | cons b rest =>
      obtain ⟨ja, hja, rfl⟩ := hq a (List.mem_cons_self _ _)
      obtain ⟨jb, hjb, rfl⟩ := hq b (List.mem_cons_of_mem _ (List.mem_cons_self _ _))
      obtain ⟨va, fa, _⟩ := hc.found hja
      obtain ⟨vb, fb, _⟩ := hc.found hjb
      have hq1 : ∀ x ∈ (jb : Int) :: rest, ∃ j, j < g.getNumVertex ∧ x = (j : Int) :=
        fun x hx => hq x (List.mem_cons_of_mem _ hx)
      rw [Graph.pathDistanceLoop, fa]
      simp only [fb]
      split
      · exact ih _ hq1
      · exact ih _ hq1

/-- On a non-empty path of vertices of a canonical graph `pathDistance` returns. -/
theorem pathDistance_some (hav : Double → Double → Double → Double → Double) {g : Graph}
    (hc : g.Canonical) {q : List Int} (hne : q ≠ [])
    (hq : ∀ x ∈ q, ∃ j, j < g.getNumVertex ∧ x = (j : Int)) :
    g.pathDistance hav q = some (g.dist hav q) := by
  unfold Graph.dist
  unfold Graph.pathDistance
  rw [if_neg hne]
  obtain ⟨d, hd⟩ := pathDistanceLoop_some hav hc q 0 hq
  rw [hd]; rfl

theorem mem_ids {n : Nat} {x : Int} :
    x ∈ (List.range n).map Int.ofNat ↔ ∃ j, j < n ∧ x = (j : Int) := by
  simp only [List.mem_map, List.mem_range]
  constructor
  · rintro ⟨j, hj, rfl⟩; exact ⟨j, hj, rfl⟩
  · rintro ⟨j, hj, rfl⟩; exact ⟨j, hj, rfl⟩

theorem ids_nodup (n : Nat) : ((List.range n).map Int.ofNat).Nodup :=
  (List.nodup_range n).map Int.ofNat_injective

/-- A tour is a list of the `n` vertices, each once, starting with the source, followed
by the source. -/
theorem isTour_iff {n : Nat} {s : Int} {q : List Int} (hn : 0 < n) :
    IsTour n s q ↔ ∃ body, q = body ++ [s] ∧ body.head? = some s ∧
      body.Perm ((List.range n).map Int.ofNat) := by
  constructor
  · rintro ⟨h1, h2, h3, h4⟩
    have hq : q.dropLast ++ [s] = q := List.dropLast_append_getLast? s (by rw [h2]; rfl)
    have hne : q.dropLast ≠ [] := by
      intro hh
      have := h4.length_eq
      rw [hh] at this
      simp at this
      omega
    refine ⟨q.dropLast, hq.symm, ?_, h4⟩
    rw [← hq, List.head?_append_of_ne_nil _ hne] at h1
    exact h1
  · rintro ⟨body, rfl, hb, hp⟩
    have hne : body ≠ [] := by
      intro hh; rw [hh] at hb; cases hb
    refine ⟨by rw [List.head?_append_of_ne_nil _ hne]; exact hb, by simp, ?_, by simpa using hp⟩
    have := hp.length_eq
    simp at this
    simp [this]

theorem IsTour.valid {n : Nat} {s : Int} {q : List Int} (hn : 0 < n) (t : IsTour n s q) :
    q ≠ [] ∧ ∀ x ∈ q, ∃ j, j < n ∧ x = (j : Int) := by
  obtain ⟨body, rfl, hb, hp⟩ := (isTour_iff hn).1 t
  have hs : s ∈ body := List.mem_of_mem_head? hb
  refine ⟨by simp, fun x hx => ?_⟩
  rcases List.mem_append.1 hx with hx | hx
  · exact mem_ids.1 (hp.mem_iff.1 hx)
  · rw [List.mem_singleton.1 hx]
    exact mem_ids.1 (hp.mem_iff.1 hs)

theorem foldl_range_inv {σ : Type} (F : Option σ → Nat → Option σ) (I : Nat → σ → Prop) :
    ∀ (n : Nat) (s0 : σ), I 0 s0 →
      (∀ k, k < n → ∀ st, I k st → ∃ st1, F (some st) k = some st1 ∧ I (k + 1) st1) →
      ∃ st1, (List.range n).foldl F (some s0) = some st1 ∧ I n st1 := by
  intro n
  induction n with
  | zero => intro s0 h0 _; exact ⟨s0, rfl, h0⟩
  | succ n ih =>
    intro s0 h0 hstep
    obtain ⟨st, e1, i1⟩ := ih s0 h0 (fun k hk st hi => hstep k (Nat.lt_succ_of_lt hk) st hi)
    obtain ⟨st1, e2, i2⟩ := hstep n (Nat.lt_succ_self _) st i1
    refine ⟨st1, ?_, i2⟩
    rw [List.range_succ, List.foldl_append, e1]
    exact e2

/-- A duplicate-free list of fewer than `n` vertices misses a vertex. -/
theorem exists_unvisited {n : Nat} {path : List Int} (hl : path.length < n) : ∃ j, j < n ∧ (j : Int) ∉ path := by
  by_contra hcon
  have hsub : (List.range n).map Int.ofNat ⊆ path := by
    intro x hx
    obtain ⟨j, hj, rfl⟩ := mem_ids.1 hx
    by_contra hx1
    exact hcon ⟨j, hj, hx1⟩
  have := (List.subperm_of_subset (ids_nodup n) hsub).length_le
  simp at this
  omega

/-- A tour that extends a path of fewer than `n` vertices extends it through a vertex
that is not on the path. -/
theorem tour_next {n : Nat} {s : Int} {path q : List Int} (hn : 0 < n) (t : IsTour n s q)
    (hl : path.length < n) (hp : path <+: q) :
    ∃ j, j < n ∧ (j : Int) ∉ path ∧ path ++ [(j : Int)] <+: q := by
  obtain ⟨body, rfl, _, hperm⟩ := (isTour_iff hn).1 t
  have hbl : body.length = n := by
    have := hperm.length_eq
    simpa using this
  have hpb : path <+: body := by
    rw [List.prefix_iff_eq_take] at hp
    rw [List.take_append_of_le_length (by omega)] at hp
    rw [hp]
    exact List.take_prefix _ _
  obtain ⟨r, hr⟩ := hpb
  cases r with
  | nil =>
    rw [List.append_nil] at hr
    rw [hr] at hl
    omega
  | cons x r =>
    have hx : x ∈ body := by rw [← hr]; simp
    obtain ⟨j, hj, rfl⟩ := mem_ids.1 (hperm.mem_iff.1 hx)
    have nd : body.Nodup := hperm.nodup_iff.2 (ids_nodup n)
    rw [← hr] at nd
    refine ⟨j, hj, fun hm => ?_, ⟨r ++ [s], by rw [← hr]; simp⟩⟩
    exact (List.nodup_append.1 nd).2.2 hm (List.mem_cons_self _ _)

/-- The only tour that extends a path of `n` vertices is the path followed by the
source. -/
theorem tour_last {n : Nat} {s : Int} {path q : List Int} (hn : 0 < n) (t : IsTour n s q)
    (hl : path.length = n) (hp : path <+: q) : q = path ++ [s] := by
  obtain ⟨body, rfl, _, hperm⟩ := (isTour_iff hn).1 t
  have hbl : body.length = n := by
    have := hperm.length_eq
    simpa using this
  rw [List.prefix_iff_eq_take] at hp
  rw [hl, ← hbl, List.take_left'] at hp
  · rw [hp]
  · rfl

theorem IsTour.ne_nil {n : Nat} {s : Int} {q : List Int} (t : IsTour n s q) : q ≠ [] := by
  intro hh
  have := t.2.2.1
  rw [hh] at this
  simp at this

/-- What a call of `recursiveBacktracking` does on a canonical graph whose visited
flags mark the vertices of `path` : with fuel for the remaining depth it returns, the
flags are as they were, and `best_path` is a tour that is the former `best_path` or
extends `path`, is not longer than the former `best_path`, and is not longer than any
tour that extends `path`. -/
theorem recursiveBacktracking_spec (hav : Double → Double → Double → Double → Double) {G : Graph}
    (hc : G.Canonical) {s : Int} :
    ∀ (m : Nat) (path b : List Int) (fuel : Nat),
      path.length + m = G.getNumVertex → m + 1 ≤ fuel →
      path.head? = some s → path.Nodup →
      (∀ x ∈ path, ∃ j, j < G.getNumVertex ∧ x = (j : Int)) →
      (b = [] ∨ IsTour G.getNumVertex s b) →
      (∀ q, IsTour G.getNumVertex s q → (G.dist hav q).isNaN = false) →
      ∃ b', Graph.recursiveBacktracking hav fuel (G.paint path) path b
          = some (G.paint path, b') ∧
        IsTour G.getNumVertex s b' ∧ (b' = b ∨ path <+: b') ∧
        (b ≠ [] → G.dist hav b' ≤ G.dist hav b) ∧
        ∀ q, IsTour G.getNumVertex s q → path <+: q → G.dist hav b' ≤ G.dist hav q := by
  intro m
  induction m with
  | zero =>
    intro path b fuel hlen hfuel hhead nd hval hb hN
    obtain ⟨f, rfl⟩ : ∃ f, fuel = f + 1 := ⟨fuel - 1, by omega⟩
    have hl : path.length = G.getNumVertex := by omega
    have hne : path ≠ [] := by intro hh; rw [hh] at hhead; cases hhead
    have hn : 0 < G.getNumVertex := by rw [← hl]; exact List.length_pos.2 hne
    have hT : IsTour G.getNumVertex s (path ++ [s]) := by
      refine (isTour_iff hn).2 ⟨path, rfl, hhead, ?_⟩
      refine (List.subperm_of_subset nd
        (fun x hx => mem_ids.2 (hval x hx))).perm_of_length_le ?_
      simp [hl]
    have hTv := hT.valid hn
    have hq : ∀ q, IsTour G.getNumVertex s q → path <+: q → q = path ++ [s] :=
      fun q t hp => tour_last hn t hl hp
    rw [Graph.recursiveBacktracking, getNumVertex_paint, if_pos hl, hhead]
    simp only
    by_cases hbe : b = []
    · rw [if_pos hbe]
      refine ⟨_, rfl, hT, Or.inr (List.prefix_append _ _), fun h => absurd hbe h,
        fun q t hp => ?_⟩
      rw [hq q t hp]
      exact Double.dbl_le_refl (hN _ hT)
    · rw [if_neg hbe]
      have hbt : IsTour G.getNumVertex s b := hb.resolve_left hbe
      have hbv := hbt.valid hn
      rw [pathDistance_paint, pathDistance_paint, pathDistance_some hav hc hTv.1 hTv.2,
        pathDistance_some hav hc hbv.1 hbv.2]
      simp only
      by_cases hlt : G.dist hav (path ++ [s]) < G.dist hav b
      · rw [if_pos hlt]
        exact ⟨_, rfl, hT, Or.inr (List.prefix_append _ _), fun _ => Double.dbl_le_of_lt hlt,
          fun q t hp => by rw [hq q t hp]; exact Double.dbl_le_refl (hN _ hT)⟩
      · rw [if_neg hlt]
        exact ⟨_, rfl, hbt, Or.inl rfl, fun _ => Double.dbl_le_refl (hN _ hbt),
          fun q t hp => by
            rw [hq q t hp]; exact Double.dbl_le_of_not_lt (hN _ hT) (hN _ hbt) hlt⟩
  | succ m ih =>
    intro path b fuel hlen hfuel hhead nd hval hb hN
    obtain ⟨f, rfl⟩ : ∃ f, fuel = f + 1 := ⟨fuel - 1, by omega⟩
    have hl : path.length < G.getNumVertex := by omega
    have hne : path ≠ [] := by intro hh; rw [hh] at hhead; cases hhead
    have hn : 0 < G.getNumVertex := by omega
    obtain ⟨back, hback⟩ : ∃ back, path.getLast? = some back := by
      cases h : path.getLast? with
      | none => exact absurd (List.getLast?_eq_none_iff.1 h) hne
      | some x => exact ⟨x, rfl⟩
    have hbm : back ∈ path := List.mem_of_mem_getLast? hback
    obtain ⟨jb, hjb, rfl⟩ := hval back hbm
    obtain ⟨cv, fcv, icv⟩ := hc.found hjb
    rw [Graph.recursiveBacktracking, getNumVertex_paint, if_neg (Nat.ne_of_lt hl), hback]
    simp only
    rw [findVertex_paint, fcv]
    simp only [Option.map_some']
    have key : ∀ F : Option (Graph × List Int) → Nat → Option (Graph × List Int),
        (∀ k, k < G.getNumVertex → ∀ st : Graph × List Int,
          (st.1 = G.paint path ∧ (st.2 = b ∨ (IsTour G.getNumVertex s st.2 ∧ path <+: st.2)) ∧
            (b ≠ [] → G.dist hav st.2 ≤ G.dist hav b) ∧
            ∀ j, j < k → (j : Int) ∉ path → IsTour G.getNumVertex s st.2 ∧
              ∀ q, IsTour G.getNumVertex s q → path ++ [(j : Int)] <+: q →
                G.dist hav st.2 ≤ G.dist hav q) →
          ∃ st1 : Graph × List Int, F (some st) k = some st1 ∧
            (st1.1 = G.paint path ∧
              (st1.2 = b ∨ (IsTour G.getNumVertex s st1.2 ∧ path <+: st1.2)) ∧
              (b ≠ [] → G.dist hav st1.2 ≤ G.dist hav b) ∧
              ∀ j, j < k + 1 → (j : Int) ∉ path → IsTour G.getNumVertex s st1.2 ∧
                ∀ q, IsTour G.getNumVertex s q → path ++ [(j : Int)] <+: q →
                  G.dist hav st1.2 ≤ G.dist hav q)) →
        ∃ b', (List.range G.getNumVertex).foldl F (some (G.paint path, b))
            = some (G.paint path, b') ∧
          IsTour G.getNumVertex s b' ∧ (b' = b ∨ path <+: b') ∧
          (b ≠ [] → G.dist hav b' ≤ G.dist hav b) ∧
          ∀ q, IsTour G.getNumVertex s q → path <+: q → G.dist hav b' ≤ G.dist hav q := by
      intro F hstep
      obtain ⟨st1, e1, i1, i2, i3, i4⟩ := foldl_range_inv F
        (fun k (st : Graph × List Int) =>
          st.1 = G.paint path ∧ (st.2 = b ∨ (IsTour G.getNumVertex s st.2 ∧ path <+: st.2)) ∧
            (b ≠ [] → G.dist hav st.2 ≤ G.dist hav b) ∧
            ∀ j, j < k → (j : Int) ∉ path → IsTour G.getNumVertex s st.2 ∧
              ∀ q, IsTour G.getNumVertex s q → path ++ [(j : Int)] <+: q →
                G.dist hav st.2 ≤ G.dist hav q)
        G.getNumVertex (G.paint path, b)
        ⟨rfl, Or.inl rfl, fun hbne => Double.dbl_le_refl (hN _ (hb.resolve_left hbne)),
          fun j hj => absurd hj (Nat.not_lt_zero _)⟩ hstep
      obtain ⟨g1, b1⟩ := st1
      simp only at i1 i2 i3 i4
      rw [i1] at e1
      obtain ⟨j0, hj0, hj0p⟩ := exists_unvisited hl
      refine ⟨b1, e1, (i4 j0 hj0 hj0p).1, ?_, i3, fun q t hp => ?_⟩
      · rcases i2 with h1 | h1
        · exact Or.inl h1
        · exact Or.inr h1.2
      · obtain ⟨j, hj, hjp, hjq⟩ := tour_next hn t hl hp
        exact (i4 j hj hjp).2 q t hjq
    apply key
    intro k hk st hI
    obtain ⟨g1, bk⟩ := st
    simp only at hI
    obtain ⟨hg, ib1, ib2, ib3⟩ := hI
    subst hg
    have stay : (bk = b ∨ (IsTour G.getNumVertex s bk ∧ path <+: bk)) ∧
        (b ≠ [] → G.dist hav bk ≤ G.dist hav b) ∧
        ((k : Int) ∈ path → ∀ j, j < k + 1 → (j : Int) ∉ path → IsTour G.getNumVertex s bk ∧
          ∀ q, IsTour G.getNumVertex s q → path ++ [(j : Int)] <+: q →
            G.dist hav bk ≤ G.dist hav q) := by
      refine ⟨ib1, ib2, fun hkp j hj hjp => ?_⟩
      have hjk : j < k := by
        rcases Nat.lt_succ_iff_lt_or_eq.1 hj with h | h
        · exact h
        · rw [h] at hjp; exact absurd hkp hjp
      exact ib3 j hjk hjp
    simp only [Option.some_bind]
    by_cases hk1 : (k : Int) = cv.id
    · rw [if_pos hk1]
      have hkp : (k : Int) ∈ path := by rw [hk1, icv]; exact hbm
      exact ⟨_, rfl, rfl, stay.1, stay.2.1, stay.2.2 hkp⟩
    · rw [if_neg hk1]
      obtain ⟨nv, fnv, inv⟩ := hc.found hk
      rw [findVertex_paint, fnv]
      simp only [Option.map_some']
      by_cases hkp : (k : Int) ∈ path
      · rw [if_pos (by simpa using hkp)]
        exact ⟨_, rfl, rfl, stay.1, stay.2.1, stay.2.2 hkp⟩
      · rw [if_neg (by simpa using hkp), paint_push, inv]
        have hbk : bk = [] ∨ IsTour G.getNumVertex s bk := by
          rcases ib1 with h1 | h1
          · rw [h1]; exact hb
          · exact Or.inr h1.1
        obtain ⟨b', e, t', o', l', a'⟩ := ih (path ++ [(k : Int)]) bk f
          (by rw [List.length_append, List.length_singleton]; omega) (by omega)
          (by rw [List.head?_append_of_ne_nil _ hne]; exact hhead)
          (List.nodup_append.2 ⟨nd, List.nodup_singleton _, fun x hx hx1 => by
            rw [List.mem_singleton.1 hx1] at hx; exact hkp hx⟩)
          (fun x hx => by
            rcases List.mem_append.1 hx with hx | hx
            · exact hval x hx
            · exact ⟨k, hk, List.mem_singleton.1 hx⟩) hbk hN
        rw [e]
        simp only
        rw [paint_pop _ _ _ hkp]
        refine ⟨_, rfl, rfl, ?_, fun hbne => ?_, fun j hj hjp => ⟨t', fun q t hq => ?_⟩⟩
        · rcases o' with h1 | h1
          · rw [h1]; exact ib1
          · exact Or.inr ⟨t', (List.prefix_append path [(k : Int)]).trans h1⟩
        · have hbkne : bk ≠ [] := by
            rcases ib1 with h1 | h1
            · rw [h1]; exact hbne
            · exact h1.1.ne_nil
          exact Double.dbl_le_trans (l' hbkne) (ib2 hbne)
        · rcases Nat.lt_succ_iff_lt_or_eq.1 hj with h | h
          · obtain ⟨tk, hk2⟩ := ib3 j h hjp
            exact Double.dbl_le_trans (l' tk.ne_nil) (hk2 q t hq)
          · rw [h] at hq
            exact a' q t hq

theorem amFind_mem {α : Type} : ∀ (m : List (Int × α)) (k : Int) (v : α),
    amFind m k = some v → ∃ p ∈ m, p.2 = v := by
  intro m k v h
  unfold amFind at h
  cases hf : m.find? (fun p => p.1 == k) with
  | none => rw [hf] at h; cases h
  | some p =>
    rw [hf] at h
    simp only [Option.map_some', Option.some.injEq] at h
    exact ⟨p, List.mem_of_find?_eq_some hf, h⟩

/-- In a graph whose stored weights are at least zero, with a Haversine distance that
is at least zero, the sum computed by `pathDistance` is at least zero. -/
theorem pathDistanceLoop_nonneg (hav : Double → Double → Double → Double → Double)
    {g : Graph} (hg : g.NonNeg) (hh : ∀ a b c d, (0 : Double) ≤ hav a b c d) :
    ∀ (q : List Int) (acc d : Double), (0 : Double) ≤ acc →
      g.pathDistanceLoop hav acc q = some d → (0 : Double) ≤ d := by
  intro q
  induction q with
  | nil =>
    intro acc d ha h
    simp only [Graph.pathDistanceLoop, Option.some.injEq] at h
    rw [← h]; exact ha
  | cons a q ih =>
    intro acc d ha h
    cases q with
    | nil =>
      simp only [Graph.pathDistanceLoop, Option.some.injEq] at h
      rw [← h]; exact ha
    | cons b rest =>
      rw [Graph.pathDistanceLoop] at h
      cases fa : g.findVertex a with
      | none => rw [fa] at h; cases h
      | some va =>
        rw [fa] at h
        simp only at h
        split at h
        · cases fb : g.findVertex b with
          | none => rw [fb] at h; cases h
          | some vb =>
            rw [fb] at h
            exact ih _ _ (Double.dbl_add_nonneg ha (hh _ _ _ _)) h
        · refine ih _ _ (Double.dbl_add_nonneg ha ?_) h
          cases hw : amFind va.adj b with
          | none => rw [Option.getD_none, Double.dbl_zero]; decide
          | some w =>
            rw [Option.getD_some]
            obtain ⟨e, he, rfl⟩ := amFind_mem _ _ _ hw
            obtain ⟨p, hp, rfl⟩ := amFind_mem _ _ _ fa
            exact hg p hp e he

/-- In such a graph no `pathDistance` is a NaN. -/
theorem dist_not_nan (hav : Double → Double → Double → Double → Double)
    {g : Graph} (hg : g.NonNeg) (hh : ∀ a b c d, (0 : Double) ≤ hav a b c d)
    (q : List Int) : (g.dist hav q).isNaN = false := by
  unfold Graph.dist Graph.pathDistance
  split
  · rfl
  · cases h : g.pathDistanceLoop hav 0 q with
    | none => rfl
    | some d =>
      rw [Option.getD_some]
      exact Double.dbl_nonneg_not_nan
        (pathDistanceLoop_nonneg hav hg hh q 0 d (by rw [Double.dbl_zero]; decide) h)

end Projeto2

namespace Project1

/-! ## The good shape of a network is kept by every building and editing call -/

theorem findVertex_of_unique {g : Graph} {h : Heap}
    (hc : (g.vertexSet.map (fun v => (h.locs v).code)).Nodup) {v : Nat}
    (hv : v ∈ g.vertexSet) : findVertex g h (h.locs v).code = some v := by
  unfold findVertex
  generalize g.vertexSet = V at hc hv
  induction V with
  | nil => cases hv
  | cons a V ih =>
    rw [List.map_cons, List.nodup_cons] at hc
    by_cases hva : v = a
    · subst hva
      simp [List.find?_cons]
    · have hv1 : v ∈ V := by
        rcases List.mem_cons.1 hv with q | q
        · exact absurd q hva
        · exact q
      have hne : (h.locs a).code ≠ (h.locs v).code := by
        intro hh
        apply hc.1
        rw [hh]
        exact List.mem_map.2 ⟨v, hv1, rfl⟩
      rw [List.find?_cons]
      have : ((h.locs a).code == (h.locs v).code) = false := by simpa using hne
      rw [this]
      exact ih hc.2 hv1

theorem Sound.addressable {g : Graph} {h : Heap} (S : Sound g h) : Addressable g h :=
  fun _ hv _ => findVertex_of_unique S.codes hv

theorem sublist_flatMap {f g : Nat → List Nat} : ∀ {V W : List Nat}, V.Sublist W →
    (∀ x ∈ V, (f x).Sublist (g x)) → (V.flatMap f).Sublist (W.flatMap g) := by
  intro V W hs
  induction hs with
  | slnil => intro _; exact List.Sublist.refl _
  | cons a _ ih =>
    intro hf
    rw [List.flatMap_cons]
    exact (ih hf).trans (List.sublist_append_right _ _)
  | cons₂ a _ ih =>
    intro hf
    rw [List.flatMap_cons, List.flatMap_cons]
    exact List.Sublist.append (hf a (List.mem_cons_self _ _))
      (ih (fun x hx => hf x (List.mem_cons_of_mem _ hx)))

theorem Sound.of_vertexSet {g g1 : Graph} {h : Heap} (S : Sound g h)
    (hg : g1.vertexSet = g.vertexSet) : Sound g1 h :=
  ⟨by rw [hg]; exact S.wf, by rw [hg]; exact S.codes, by rw [hg]; exact S.alloc,
    by rw [hg]; exact S.bound⟩

/-- A new node with a code that no node carries keeps the network in good shape. -/
theorem Sound.addNode {g : Graph} {h : Heap} (S : Sound g h) (id : Int) (code : String)
    (k : Kind) (hc : ∀ v ∈ g.vertexSet, (h.locs v).code ≠ code) {g1 : Graph}
    (hg : g1.vertexSet = g.vertexSet ++ [h.nextLoc]) :
    Sound g1 (newLocation h id code k).2 := by
  obtain ⟨p, n2, n3, l⟩ := newLocation_spec h id code k
  have lo : ∀ v ∈ g.vertexSet, (newLocation h id code k).2.locs v = h.locs v :=
    fun v hv => by rw [l v, if_neg (Nat.ne_of_lt (S.alloc v hv))]
  have ln : (newLocation h id code k).2.locs h.nextLoc =
      { code := code, id := id, adj := [], incoming := [], visited := false,
        processing := false, indegree := 0, path := none, kind := k } := by
    rw [l, if_pos rfl]
  have hE : allPipes (newLocation h id code k).2 g1.vertexSet = allPipes h g.vertexSet := by
    unfold allPipes
    rw [hg, List.flatMap_append]
    simp only [List.flatMap_cons, List.flatMap_nil, ln, List.append_nil]
    exact flatMap_congr_mem _ (fun v hv => by rw [lo v hv])
  have hmem : ∀ x, x ∈ g1.vertexSet ↔ x ∈ g.vertexSet ∨ x = h.nextLoc := by
    intro x; rw [hg]; simp
  have wf := S.wf
  refine ⟨⟨?_, by rw [hE]; exact wf.nodupE, ?_, ?_, ?_⟩, ?_, ?_, by rw [hE, n2]; exact S.bound⟩
  · rw [hg]
    refine List.nodup_append.2 ⟨wf.nodupV, List.nodup_singleton _, ?_⟩
    intro x hx hx1
    rw [List.mem_singleton.1 hx1] at hx
    exact lt_irrefl _ (S.alloc _ hx)
  · intro v hv e he
    rcases (hmem v).1 hv with q | q
    · rw [lo v q] at he
      obtain ⟨q1, q2, q3⟩ := wf.adj_ok v q e he
      rw [p, lo _ q2]
      exact ⟨q1, (hmem _).2 (Or.inl q2), q3⟩
    · rw [q, ln] at he; exact absurd he (List.not_mem_nil _)
  · intro v hv e he
    rcases (hmem v).1 hv with q | q
    · rw [lo v q] at he
      obtain ⟨q1, q2, q3⟩ := wf.inc_ok v q e he
      rw [p, lo _ q2]
      exact ⟨q1, (hmem _).2 (Or.inl q2), q3⟩
    · rw [q, ln] at he; exact absurd he (List.not_mem_nil _)
  · intro v hv
    rcases (hmem v).1 hv with q | q
    · rw [lo v q]; exact wf.nodupInc v q
    · rw [q, ln]; exact List.nodup_nil
  · rw [hg, List.map_append, List.map_cons, List.map_nil, ln]
    have hmap : g.vertexSet.map (fun v => ((newLocation h id code k).2.locs v).code)
        = g.vertexSet.map (fun v => (h.locs v).code) :=
      List.map_congr_left (fun v hv => by rw [lo v hv])
    rw [hmap]
    refine List.nodup_append.2 ⟨S.codes, List.nodup_singleton _, ?_⟩
    intro c hc1 hc2
    rw [List.mem_singleton.1 hc2] at hc1
    obtain ⟨v, hv, hvc⟩ := List.mem_map.1 hc1
    exact hc v hv hvc
  · intro v hv
    rw [n3]
    rcases (hmem v).1 hv with q | q
    · exact Nat.lt_succ_of_lt (S.alloc v q)
    · rw [q]; exact Nat.lt_succ_self _

/-- The model of `Location::addEdge` between two nodes of the network keeps it in
good shape, whatever the capacity. -/
theorem Sound.s_link {g : Graph} {h : Heap} (S : Sound g h) {a d : Nat}
    (ha : a ∈ g.vertexSet) (hd : d ∈ g.vertexSet) (w : Int) :
    Sound g (Location.addEdge h a d w).2 := by
  have L := Location.addEdge_locs h a d w
  have P := Location.addEdge_pipes h a d w
  have wf := S.wf
  have old : ∀ e, e < h.nextPipe → (Location.addEdge h a d w).2.pipes e = h.pipes e :=
    fun e he => by rw [P, if_neg (Nat.ne_of_lt he)]
  have new : (Location.addEdge h a d w).2.pipes h.nextPipe =
      { dest := d, weight := w, orig := a, reverse := none, flow := 0, activated := true } := by
    rw [P, if_pos rfl]
  have bAdj : ∀ v ∈ g.vertexSet, ∀ e ∈ (h.locs v).adj, e < h.nextPipe :=
    fun v hv e he => S.bound e (Project1.mem_allPipes.2 ⟨v, hv, he⟩)
  have bInc : ∀ v ∈ g.vertexSet, ∀ e ∈ (h.locs v).incoming, e < h.nextPipe := by
    intro v hv e he
    obtain ⟨_, q2, q3⟩ := wf.inc_ok v hv e he
    exact bAdj _ q2 e q3
  have memA : ∀ v e, e ∈ ((Location.addEdge h a d w).2.locs v).adj →
      e ∈ (h.locs v).adj ∨ (e = h.nextPipe ∧ v = a) := by
    intro v e he; rw [(L v).1] at he; split at he
    · rename_i hx
      rcases List.mem_append.1 he with k | k
      · exact Or.inl k
      · exact Or.inr ⟨List.mem_singleton.1 k, hx⟩
    · exact Or.inl he
  have memI : ∀ v e, e ∈ ((Location.addEdge h a d w).2.locs v).incoming →
      e ∈ (h.locs v).incoming ∨ (e = h.nextPipe ∧ v = d) := by
    intro v e he; rw [(L v).2.1] at he; split at he
    · rename_i hx
      rcases List.mem_append.1 he with k | k
      · exact Or.inl k
      · exact Or.inr ⟨List.mem_singleton.1 k, hx⟩
    · exact Or.inl he
  have subA : ∀ v e, e ∈ (h.locs v).adj → e ∈ ((Location.addEdge h a d w).2.locs v).adj := by
    intro v e he; rw [(L v).1]; split
    · exact List.mem_append_left _ he
    · exact he
  have subI : ∀ v e, e ∈ (h.locs v).incoming →
      e ∈ ((Location.addEdge h a d w).2.locs v).incoming := by
    intro v e he; rw [(L v).2.1]; split
    · exact List.mem_append_left _ he
    · exact he
  have newA : h.nextPipe ∈ ((Location.addEdge h a d w).2.locs a).adj := by
    rw [(L a).1, if_pos rfl]; exact List.mem_append_right _ (List.mem_singleton_self _)
  have newI : h.nextPipe ∈ ((Location.addEdge h a d w).2.locs d).incoming := by
    rw [(L d).2.1, if_pos rfl]; exact List.mem_append_right _ (List.mem_singleton_self _)
  have hfresh : h.nextPipe ∉ allPipes h g.vertexSet := fun hh => lt_irrefl _ (S.bound _ hh)
  refine ⟨⟨wf.nodupV, ?_, ?_, ?_, ?_⟩, ?_, ?_, ?_⟩
  · exact nodup_flatMap_snoc (fun v => (L v).1) g.vertexSet wf.nodupV wf.nodupE hfresh
  · intro v hv e he
    rcases memA v e he with k | ⟨k1, k2⟩
    · obtain ⟨q1, q2, q3⟩ := wf.adj_ok v hv e k
      rw [old e (bAdj v hv e k)]
      exact ⟨q1, q2, subI _ _ q3⟩
    · rw [k1, new, k2]
      exact ⟨rfl, hd, newI⟩
  · intro v hv e he
    rcases memI v e he with k | ⟨k1, k2⟩
    · obtain ⟨q1, q2, q3⟩ := wf.inc_ok v hv e k
      rw [old e (bInc v hv e k)]
      exact ⟨q1, q2, subA _ _ q3⟩
    · rw [k1, new, k2]
      exact ⟨rfl, ha, newA⟩
  · intro v hv
    rw [(L v).2.1]
    split
    · refine List.nodup_append.2 ⟨wf.nodupInc v hv, List.nodup_singleton _, ?_⟩
      intro y hy hy1
      rw [List.mem_singleton.1 hy1] at hy
      exact lt_irrefl _ (bInc v hv _ hy)
    · exact wf.nodupInc v hv
  · have hmap : g.vertexSet.map (fun v => ((Location.addEdge h a d w).2.locs v).code)
        = g.vertexSet.map (fun v => (h.locs v).code) :=
      List.map_congr_left (fun v _ => (L v).2.2.1)
    rw [hmap]; exact S.codes
  · exact S.alloc
  · intro e he
    obtain ⟨v, hv, hve⟩ := Project1.mem_allPipes.1 he
    show e < h.nextPipe + 1
    rcases memA v e hve with k | ⟨k1, _⟩
    · exact Nat.lt_succ_of_lt (bAdj v hv e k)
    · rw [k1]; exact Nat.lt_succ_self _

/-- Dropping nodes and, from the lists of the nodes that stay, the links that do not
satisfy `keep`, keeps the network in good shape, provided a kept link joins nodes
that stay. -/
theorem Sound.shrink {g g1 : Graph} {h h1 : Heap} (S : Sound g h) (hp : h1.pipes = h.pipes)
    (n1 : h1.nextLoc = h.nextLoc) (n2 : h1.nextPipe = h.nextPipe)
    (hc : ∀ v, (h1.locs v).code = (h.locs v).code)
    (hV : g1.vertexSet.Sublist g.vertexSet) (keep : Nat → Bool)
    (ha : ∀ v ∈ g1.vertexSet, (h1.locs v).adj = (h.locs v).adj.filter keep)
    (hi : ∀ v ∈ g1.vertexSet, (h1.locs v).incoming = (h.locs v).incoming.filter keep)
    (hk : ∀ e, keep e = true → e ∈ allPipes h g.vertexSet →
      (h.pipes e).orig ∈ g1.vertexSet ∧ (h.pipes e).dest ∈ g1.vertexSet) :
    Sound g1 h1 := by
  have wf := S.wf
  have sub : ∀ v ∈ g1.vertexSet, v ∈ g.vertexSet := fun v hv => hV.subset hv
  have hE : (allPipes h1 g1.vertexSet).Sublist (allPipes h g.vertexSet) := by
    unfold allPipes
    refine sublist_flatMap hV (fun x hx => ?_)
    rw [ha x hx]; exact List.filter_sublist _
  refine ⟨⟨hV.nodup wf.nodupV, hE.nodup wf.nodupE, ?_, ?_, ?_⟩, ?_, ?_, ?_⟩
  · intro v hv e he
    rw [ha v hv, List.mem_filter] at he
    obtain ⟨q1, q2, q3⟩ := wf.adj_ok v (sub v hv) e he.1
    obtain ⟨_, k2⟩ := hk e he.2 (Project1.mem_allPipes.2 ⟨v, sub v hv, he.1⟩)
    rw [hp, hi _ k2, List.mem_filter]
    exact ⟨q1, k2, q3, he.2⟩
  · intro v hv e he
    rw [hi v hv, List.mem_filter] at he
    obtain ⟨q1, q2, q3⟩ := wf.inc_ok v (sub v hv) e he.1
    obtain ⟨k1, _⟩ := hk e he.2 (Project1.mem_allPipes.2 ⟨_, q2, q3⟩)
    rw [hp, ha _ k1, List.mem_filter]
    exact ⟨q1, k1, q3, he.2⟩
  · intro v hv
    rw [hi v hv]
    exact (wf.nodupInc v (sub v hv)).filter _
  · have hmap : g1.vertexSet.map (fun v => (h1.locs v).code)
        = g1.vertexSet.map (fun v => (h.locs v).code) :=
      List.map_congr_left (fun v _ => hc v)
    rw [hmap]
    exact (hV.map _).nodup S.codes
  · intro v hv; rw [n1]; exact S.alloc v (sub v hv)
  · intro e he; rw [n2]; exact S.bound e (hE.subset he)

theorem setReverse_sameNet (h : Heap) (e : Nat) (r : Option Nat) :
    (setReverse h e r).locs = h.locs ∧ (setReverse h e r).nextLoc = h.nextLoc ∧
    (setReverse h e r).nextPipe = h.nextPipe ∧
    ∀ x, ((setReverse h e r).pipes x).orig = (h.pipes x).orig ∧
      ((setReverse h e r).pipes x).dest = (h.pipes x).dest := by
  refine ⟨rfl, rfl, rfl, fun x => ?_⟩
  simp only [setReverse, Heap.setPipe, Function.update]
  split
  · rename_i hx; subst hx; exact ⟨rfl, rfl⟩
  · exact ⟨rfl, rfl⟩

theorem Sound.s_ends {g : Graph} {h h1 : Heap} (S : Sound g h) (hl : h1.locs = h.locs)
    (n1 : h1.nextLoc = h.nextLoc) (n2 : h1.nextPipe = h.nextPipe)
    (hp : ∀ e, (h1.pipes e).orig = (h.pipes e).orig ∧ (h1.pipes e).dest = (h.pipes e).dest) :
    Sound g h1 := by
  have wf := S.wf
  have hE : allPipes h1 g.vertexSet = allPipes h g.vertexSet := by
    unfold allPipes; rw [hl]
  refine ⟨⟨wf.nodupV, by rw [hE]; exact wf.nodupE, ?_, ?_, ?_⟩, by rw [hl]; exact S.codes,
    by rw [n1]; exact S.alloc, by rw [hE, n2]; exact S.bound⟩
  · intro v hv e he
    rw [hl] at he ⊢
    rw [(hp e).1, (hp e).2]
    exact wf.adj_ok v hv e he
  · intro v hv e he
    rw [hl] at he ⊢
    rw [(hp e).1, (hp e).2]
    exact wf.inc_ok v hv e he
  · intro v hv; rw [hl]; exact wf.nodupInc v hv

theorem addEdge_sound {g : Graph} {h : Heap} (S : Sound g h) (source dest : String) (w : Int) :
    Sound (addEdge g h source dest w).2.1 (addEdge g h source dest w).2.2 ∧
    (addEdge g h source dest w).2.1.vertexSet = g.vertexSet ∧
    ∀ v, ((addEdge g h source dest w).2.2.locs v).code = (h.locs v).code := by
  unfold addEdge
  cases hs : findVertex g h source with
  | none => exact ⟨S, rfl, fun _ => rfl⟩
  | some v1 =>
    cases hd : findVertex g h dest with
    | none => exact ⟨S, rfl, fun _ => rfl⟩
    | some v2 =>
      exact ⟨(S.s_link (findVertex_mem hs) (findVertex_mem hd) w).of_vertexSet rfl, rfl,
        fun v => (Location.addEdge_locs h v1 v2 w v).2.2.1⟩

theorem addBidirectionalEdge_sound {g : Graph} {h : Heap} (S : Sound g h)
    (source dest : String) (w : Int) :
    Sound (addBidirectionalEdge g h source dest w).2.1
      (addBidirectionalEdge g h source dest w).2.2 ∧
    (addBidirectionalEdge g h source dest w).2.1.vertexSet = g.vertexSet ∧
    ∀ v, ((addBidirectionalEdge g h source dest w).2.2.locs v).code = (h.locs v).code := by
  obtain ⟨cg, cc⟩ := addBidirectionalEdge_codes g h source dest w
  refine ⟨?_, cg, cc⟩
  unfold addBidirectionalEdge
  cases hs : findVertex g h source with
  | none => exact S
  | some v1 =>
    cases hd : findVertex g h dest with
    | none => exact S
    | some v2 =>
      have S1 := S.s_link (findVertex_mem hs) (findVertex_mem hd) w
      have S2 := S1.s_link (findVertex_mem hd) (findVertex_mem hs) w
      obtain ⟨a1, a2, a3, a4⟩ := setReverse_sameNet
        (Location.addEdge (Location.addEdge h v1 v2 w).2 v2 v1 w).2
        (Location.addEdge h v1 v2 w).1
        (some (Location.addEdge (Location.addEdge h v1 v2 w).2 v2 v1 w).1)
      have S3 := S2.s_ends a1 a2 a3 a4
      obtain ⟨b1, b2, b3, b4⟩ := setReverse_sameNet
        (setReverse (Location.addEdge (Location.addEdge h v1 v2 w).2 v2 v1 w).2
          (Location.addEdge h v1 v2 w).1
          (some (Location.addEdge (Location.addEdge h v1 v2 w).2 v2 v1 w).1))
        (Location.addEdge (Location.addEdge h v1 v2 w).2 v2 v1 w).1
        (some (Location.addEdge h v1 v2 w).1)
      exact (S3.s_ends b1 b2 b3 b4).of_vertexSet rfl

theorem removeEdge_sound {g : Graph} {h : Heap} (S : Sound g h) (source dest : String) :
    Sound g (removeEdge g h source dest).2 ∧
    ∀ v, ((removeEdge g h source dest).2.locs v).code = (h.locs v).code := by
  cases hs : findVertex g h source with
  | none => rw [removeEdge_none dest hs]; exact ⟨S, fun _ => rfl⟩
  | some a =>
    obtain ⟨k1, _, k3, k4, _⟩ := removeEdge_shape S.wf S.addressable dest hs
    rw [removeEdge_some dest hs] at k1 k3 k4 ⊢
    obtain ⟨_, F, _, _⟩ := Location.removeEdge_spec h a dest
    refine ⟨S.shrink F.pipes F.nextLoc F.nextPipe (fun v => (F.locs v).1) (List.Sublist.refl _)
      (fun e => !(decide ((h.pipes e).orig = a) && destCoded h dest e)) ?_ ?_ ?_,
      fun v => (F.locs v).1⟩
    · intro v hv
      by_cases hva : v = a
      · rw [hva, k1]
        refine filter_congr_mem _ (fun e he => ?_)
        have := (S.wf.adj_ok a (findVertex_mem hs) e he).1
        simp [this]
      · rw [k3 v hva]
        symm
        rw [List.filter_eq_self]
        intro e he
        have := (S.wf.adj_ok v hv e he).1
        have hne : (h.pipes e).orig ≠ a := by rw [this]; exact hva
        simp [hne]
    · intro v hv
      rw [k4 v hv]
      refine filter_congr_mem _ (fun e he => ?_)
      have := (S.wf.inc_ok v hv e he).1
      simp only [destCoded, this]
    · intro e _ he
      exact ⟨(S.wf.orig_mem he).1, (S.wf.dest_mem he).1⟩

theorem removeVertex_sound {g : Graph} {h : Heap} (S : Sound g h) (code : String) :
    Sound (removeVertex g h code).2.1 (removeVertex g h code).2.2 ∧
    ∀ v ∈ (removeVertex g h code).2.1.vertexSet, v ∈ g.vertexSet ∧
      ((removeVertex g h code).2.2.locs v).code = (h.locs v).code := by
  cases hv : findVertex g h code with
  | none => rw [removeVertex_none hv]; exact ⟨S, fun v hv1 => ⟨hv1, rfl⟩⟩
  | some v =>
    obtain ⟨_, hV, _, hmem, hp, hl⟩ := removeVertex_shape S.wf S.addressable hv
    obtain ⟨F1, _, _⟩ := Location.removeOutgoingEdges_spec h v
    obtain ⟨F2, _⟩ := removeIncoming_spec h v g.vertexSet _ F1
    have hh : (removeVertex g h code).2.2 =
        g.vertexSet.foldl (fun h u => (Location.removeEdge h u (h.locs v).code).2)
          (Location.removeOutgoingEdges h v) := by
      rw [removeVertex_some hv]
    have hc : ∀ x, ((removeVertex g h code).2.2.locs x).code = (h.locs x).code := by
      intro x; rw [hh]; exact (F2.locs x).1
    refine ⟨S.shrink hp (by rw [hh]; exact F2.nextLoc) (by rw [hh]; exact F2.nextPipe) hc
      (by rw [hV]; exact List.erase_sublist _ _)
      (fun e => decide ((h.pipes e).orig ≠ v) && decide ((h.pipes e).dest ≠ v)) ?_ ?_ ?_,
      fun x hx => ⟨((hmem x).1 hx).1, hc x⟩⟩
    · intro u hu
      obtain ⟨l1, _⟩ := hl u hu
      rw [l1]
      refine filter_congr_mem _ (fun e he => ?_)
      have := (S.wf.adj_ok u ((hmem u).1 hu).1 e he).1
      have hne : (h.pipes e).orig ≠ v := by rw [this]; exact ((hmem u).1 hu).2
      simp [hne]
    · intro u hu
      obtain ⟨_, l2, _⟩ := hl u hu
      rw [l2]
      refine filter_congr_mem _ (fun e he => ?_)
      have := (S.wf.inc_ok u ((hmem u).1 hu).1 e he).1
      have hne : (h.pipes e).dest ≠ v := by rw [this]; exact ((hmem u).1 hu).2
      simp [hne]
    · intro e hk he
      simp only [Bool.and_eq_true, decide_eq_true_eq] at hk
      exact ⟨(hmem _).2 ⟨(S.wf.orig_mem he).1, hk.1⟩, (hmem _).2 ⟨(S.wf.dest_mem he).1, hk.2⟩⟩

theorem newNode_codes {g g1 : Graph} {h : Heap} (S : Sound g h) (id : Int) (code : String)
    (k : Kind) (hg : g1.vertexSet = g.vertexSet ++ [h.nextLoc]) :
    ∀ v ∈ g1.vertexSet,
      (v ∈ g.vertexSet ∧ ((newLocation h id code k).2.locs v).code = (h.locs v).code) ∨
      ((newLocation h id code k).2.locs v).code = code := by
  obtain ⟨_, _, _, l⟩ := newLocation_spec h id code k
  intro v hv
  rw [hg, List.mem_append, List.mem_singleton] at hv
  rcases hv with q | q
  · exact Or.inl ⟨q, by rw [l v, if_neg (Nat.ne_of_lt (S.alloc v q))]⟩
  · exact Or.inr (by rw [l v, if_pos q])

theorem addVertexReservoir_sound {g : Graph} {h : Heap} (S : Sound g h)
    (name municipality : String) (id : Int) (code : String) (m : Int)
    (hc : ∀ v ∈ g.vertexSet, (h.locs v).code ≠ code) :
    Sound (addVertexReservoir g h name municipality id code m).2.1
      (addVertexReservoir g h name municipality id code m).2.2 ∧
    ∀ v ∈ (addVertexReservoir g h name municipality id code m).2.1.vertexSet,
      (v ∈ g.vertexSet ∧
        ((addVertexReservoir g h name municipality id code m).2.2.locs v).code
          = (h.locs v).code) ∨
      ((addVertexReservoir g h name municipality id code m).2.2.locs v).code = code := by
  unfold addVertexReservoir
  split
  · exact ⟨S, fun v hv => Or.inl ⟨hv, rfl⟩⟩
  · exact ⟨S.addNode id code _ hc rfl, newNode_codes S id code _ rfl⟩

theorem addVertexStation_sound {g : Graph} {h : Heap} (S : Sound g h)
    (id : Int) (code : String) (hc : ∀ v ∈ g.vertexSet, (h.locs v).code ≠ code) :
    Sound (addVertexStation g h id code).2.1 (addVertexStation g h id code).2.2 ∧
    ∀ v ∈ (addVertexStation g h id code).2.1.vertexSet,
      (v ∈ g.vertexSet ∧
        ((addVertexStation g h id code).2.2.locs v).code = (h.locs v).code) ∨
      ((addVertexStation g h id code).2.2.locs v).code = code := by
  unfold addVertexStation
  split
  · exact ⟨S, fun v hv => Or.inl ⟨hv, rfl⟩⟩
  · exact ⟨S.addNode id code _ hc rfl, newNode_codes S id code _ rfl⟩

theorem addVertexCity_sound {g : Graph} {h : Heap} (S : Sound g h)
    (name : String) (id : Int) (code : String) (d p : Int)
    (hc : ∀ v ∈ g.vertexSet, (h.locs v).code ≠ code) :
    Sound (addVertexCity g h name id code d p).2.1 (addVertexCity g h name id code d p).2.2 ∧
    ∀ v ∈ (addVertexCity g h name id code d p).2.1.vertexSet,
      (v ∈ g.vertexSet ∧
        ((addVertexCity g h name id code d p).2.2.locs v).code = (h.locs v).code) ∨
      ((addVertexCity g h name id code d p).2.2.locs v).code = code := by
  unfold addVertexCity
  split
  · exact ⟨S, fun v hv => Or.inl ⟨hv, rfl⟩⟩
  · exact ⟨S.addNode id code _ hc rfl, newNode_codes S id code _ rfl⟩

/-- One call keeps the network in good shape when the code it gives to a new node was
not used before; the codes of the nodes are among the codes used so far. -/
theorem Op.run_sound (op : Op) (st : Graph × Heap) (used : List String)
    (S : Sound st.1 st.2) (hu : ∀ v ∈ st.1.vertexSet, (st.2.locs v).code ∈ used)
    (hn : ∀ c, op.newCode = some c → c ∉ used) :
    Sound (op.run st).1 (op.run st).2 ∧
    ∀ v ∈ (op.run st).1.vertexSet, ((op.run st).2.locs v).code ∈ used ++ op.newCode.toList := by
  have fresh : ∀ c, op.newCode = some c → ∀ v ∈ st.1.vertexSet, (st.2.locs v).code ≠ c :=
    fun c hc v hv hh => hn c hc (by rw [← hh]; exact hu v hv)
  cases op with
  | addVertexReservoir name municipality id code m =>
    obtain ⟨a, b⟩ := addVertexReservoir_sound S name municipality id code m (fresh code rfl)
    refine ⟨a, fun v hv => ?_⟩
    rcases b v hv with ⟨q1, q2⟩ | q
    · exact List.mem_append_left _ (by rw [Op.run, q2]; exact hu v q1)
    · exact List.mem_append_right _ (by rw [Op.run, q]; simp [Op.newCode])
  | addVertexStation id code =>
    obtain ⟨a, b⟩ := addVertexStation_sound S id code (fresh code rfl)
    refine ⟨a, fun v hv => ?_⟩
    rcases b v hv with ⟨q1, q2⟩ | q
    · exact List.mem_append_left _ (by rw [Op.run, q2]; exact hu v q1)
    · exact List.mem_append_right _ (by rw [Op.run, q]; simp [Op.newCode])
  | addVertexCity name id code d p =>
    obtain ⟨a, b⟩ := addVertexCity_sound S name id code d p (fresh code rfl)
    refine ⟨a, fun v hv => ?_⟩
    rcases b v hv with ⟨q1, q2⟩ | q
    · exact List.mem_append_left _ (by rw [Op.run, q2]; exact hu v q1)
    · exact List.mem_append_right _ (by rw [Op.run, q]; simp [Op.newCode])
  | addEdge source dest w =>
    obtain ⟨a, b, c⟩ := addEdge_sound S source dest w
    refine ⟨a, fun v hv => List.mem_append_left _ ?_⟩
    rw [Op.run, c]
    exact hu v (by rw [← b]; exact hv)
  | addBidirectionalEdge source dest w =>
    obtain ⟨a, b, c⟩ := addBidirectionalEdge_sound S source dest w
    refine ⟨a, fun v hv => List.mem_append_left _ ?_⟩
    rw [Op.run, c]
    exact hu v (by rw [← b]; exact hv)
  | removeEdge source dest =>
    obtain ⟨a, c⟩ := removeEdge_sound S source dest
    refine ⟨a, fun v hv => List.mem_append_left _ ?_⟩
    rw [Op.run, c]
    exact hu v hv
  | removeVertex code =>
    obtain ⟨a, c⟩ := removeVertex_sound S code
    refine ⟨a, fun v hv => List.mem_append_left _ ?_⟩
    rw [Op.run, (c v hv).2]
    exact hu v (c v hv).1

theorem runOps_sound : ∀ (ops : List Op) (used : List String) (st : Graph × Heap),
    Sound st.1 st.2 → (∀ v ∈ st.1.vertexSet, (st.2.locs v).code ∈ used) →
    (used ++ ops.filterMap Op.newCode).Nodup →
    Sound (runOps ops st).1 (runOps ops st).2 := by
  intro ops
  induction ops with
  | nil => intro used st S _ _; exact S
  | cons op ops ih =>
    intro used st S hu hnd
    have hsplit : used ++ (op :: ops).filterMap Op.newCode
        = (used ++ op.newCode.toList) ++ ops.filterMap Op.newCode := by
      cases hc : op.newCode with
      | none => simp [List.filterMap_cons, hc]
      | some c => simp [List.filterMap_cons, hc]
    rw [hsplit] at hnd
    have hn : ∀ c, op.newCode = some c → c ∉ used := by
      intro c hc hcu
      rw [hc] at hnd
      have h1 := (List.nodup_append.1 hnd).1
      have h2 := (List.nodup_append.1 h1).2.2
      exact h2 hcu (by simp) 
    obtain ⟨S1, hu1⟩ := op.run_sound st used S hu hn
    exact ih (used ++ op.newCode.toList) (op.run st) S1 hu1 hnd

theorem Sound.empty : Sound Graph.empty Heap.empty :=
  ⟨by decide, by decide, by decide, by decide⟩

end Project1

namespace Project1

/-! ## `edmondsKarp` in exact arithmetic

What the solver does when every capacity, flow, demand and maximum delivery is an
integer, so that no sum or difference is rounded; the rounded sums of decimal data are
looked at with the `double` model further down. -/

/-- Max-flow optimality in exact arithmetic. On a well-formed network with non-negative
capacities and distinct existing terminals `s`, `t`, `edmondsKarp` returns (for
every fuel from `fuelBound` on) and in the heap it leaves there is no
augmenting path from `s` to `t` in the residual graph; the stored flow is
feasible, its value equals the capacity of an `s`-`t` cut of the enabled links,
and no feasible flow has a larger value. -/
theorem edmondsKarp_optimal (g : Graph) (h : Heap) (source target : String) (s t : Nat)
    (wf : WF h g.vertexSet) (caps : CapsNonneg h g.vertexSet)
    (hs : findVertex g h source = some s) (ht : findVertex g h target = some t)
    (hst : s ≠ t) (fuel : Nat) (hfuel : fuelBound h g.vertexSet s ≤ fuel) :
    ∃ h1, edmondsKarp fuel g h source target = Result.ok () h1 ∧
      ¬ AugmentingPath h1 s t ∧
      Feasible h1 g.vertexSet s t (flowOf h1) ∧
      (∃ S : Nat → Bool, S s = true ∧ S t = false ∧
        flowValue h1 s = cutCapacity h1 g.vertexSet S) ∧
      ∀ fl, Feasible h1 g.vertexSet s t fl → valueOf h1 fl s ≤ flowValue h1 s := by
  obtain ⟨h1, e1, post⟩ := edmondsKarp_spec wf caps hs ht hst fuel hfuel
  have wf1 := post.net.wf wf
  have hsV := findVertex_mem hs
  have hcut := value_eq_cutCapacity wf1 hsV post
  refine ⟨h1, e1, no_augmentingPath wf1 hsV post, ?_, ?_, ?_⟩
  · refine ⟨fun e he => ?_, fun v hv h1s h1t => post.inv.conserve v hv h1s h1t⟩
    exact ⟨(post.inv.bounds e he).1, (post.inv.bounds e he).2, post.inv.disabled e he⟩
  · exact ⟨fun v => (h1.locs v).visited, post.src, post.snk, hcut⟩
  · intro fl hf
    rw [hcut]
    exact value_le_cut wf1 hsV _ post.src post.snk fl hf

theorem edmondsKarp_optimal_witness :
    (WF chainNet.2 chainNet.1.vertexSet ∧ CapsNonneg chainNet.2 chainNet.1.vertexSet) ∧
    ∃ h1, edmondsKarp 20 chainNet.1 chainNet.2 "R1" "C1" = Result.ok () h1 ∧
      ¬ AugmentingPath h1 0 2 ∧
      Feasible h1 chainNet.1.vertexSet 0 2 (flowOf h1) ∧
      (∃ S : Nat → Bool, S 0 = true ∧ S 2 = false ∧
        flowValue h1 0 = cutCapacity h1 chainNet.1.vertexSet S) ∧
      ∀ fl, Feasible h1 chainNet.1.vertexSet 0 2 fl → valueOf h1 fl 0 ≤ flowValue h1 0 :=
  ⟨⟨by decide, by decide⟩,
   edmondsKarp_optimal chainNet.1 chainNet.2 "R1" "C1" 0 2 (by decide) (by decide) (by decide)
    (by decide) (by decide) 20 (by decide)⟩

/-- Flow conservation in exact arithmetic, for a solve on a well-formed network (one
that no query has touched yet). After `edmondsKarp` has returned on a well-formed
network, at every vertex other than the two terminals the flows on the incoming
links add up to the flows on the outgoing links. -/
theorem edmondsKarp_conservation (g : Graph) (h : Heap) (source target : String) (s t : Nat)
    (wf : WF h g.vertexSet) (caps : CapsNonneg h g.vertexSet)
    (hs : findVertex g h source = some s) (ht : findVertex g h target = some t)
    (hst : s ≠ t) (fuel : Nat) (hfuel : fuelBound h g.vertexSet s ≤ fuel) :
    ∃ h1, edmondsKarp fuel g h source target = Result.ok () h1 ∧
      ∀ v ∈ g.vertexSet, v ≠ s → v ≠ t → inflow h1 v = outflow h1 v := by
  obtain ⟨h1, e1, post⟩ := edmondsKarp_spec wf caps hs ht hst fuel hfuel
  exact ⟨h1, e1, post.inv.conserve⟩

theorem edmondsKarp_conservation_witness :
    (WF chainNet.2 chainNet.1.vertexSet ∧ CapsNonneg chainNet.2 chainNet.1.vertexSet) ∧
    ∃ h1, edmondsKarp 20 chainNet.1 chainNet.2 "R1" "C1" = Result.ok () h1 ∧
      ∀ v ∈ chainNet.1.vertexSet, v ≠ 0 → v ≠ 2 → inflow h1 v = outflow h1 v :=
  ⟨⟨by decide, by decide⟩,
   edmondsKarp_conservation chainNet.1 chainNet.2 "R1" "C1" 0 2 (by decide) (by decide)
    (by decide) (by decide) (by decide) 20 (by decide)⟩

/-- Capacity respect in exact arithmetic. After `edmondsKarp` has returned on a well-formed
network with non-negative capacities, every link owned by a vertex of the
network has `0 <= flow <= capacity`, and every disabled link has flow `0`. -/
theorem edmondsKarp_capacity (g : Graph) (h : Heap) (source target : String) (s t : Nat)
    (wf : WF h g.vertexSet) (caps : CapsNonneg h g.vertexSet)
    (hs : findVertex g h source = some s) (ht : findVertex g h target = some t)
    (hst : s ≠ t) (fuel : Nat) (hfuel : fuelBound h g.vertexSet s ≤ fuel) :
    ∃ h1, edmondsKarp fuel g h source target = Result.ok () h1 ∧
      ∀ v ∈ g.vertexSet, ∀ e ∈ (h1.locs v).adj,
        0 ≤ (h1.pipes e).flow ∧ (h1.pipes e).flow ≤ (h1.pipes e).weight ∧
        ((h1.pipes e).activated = false → (h1.pipes e).flow = 0) := by
  obtain ⟨h1, e1, post⟩ := edmondsKarp_spec wf caps hs ht hst fuel hfuel
  refine ⟨h1, e1, fun v hv e he => ?_⟩
  have hm : e ∈ allPipes h1 g.vertexSet := mem_allPipes.2 ⟨v, hv, he⟩
  exact ⟨(post.inv.bounds e hm).1, (post.inv.bounds e hm).2, post.inv.disabled e hm⟩

theorem edmondsKarp_capacity_witness :
    (WF chainNet.2 chainNet.1.vertexSet ∧ CapsNonneg chainNet.2 chainNet.1.vertexSet) ∧
    ∃ h1, edmondsKarp 20 chainNet.1 chainNet.2 "R1" "C1" = Result.ok () h1 ∧
      ∀ v ∈ chainNet.1.vertexSet, ∀ e ∈ (h1.locs v).adj,
        0 ≤ (h1.pipes e).flow ∧ (h1.pipes e).flow ≤ (h1.pipes e).weight ∧
        ((h1.pipes e).activated = false → (h1.pipes e).flow = 0) :=
  ⟨⟨by decide, by decide⟩,
   edmondsKarp_capacity chainNet.1 chainNet.2 "R1" "C1" 0 2 (by decide) (by decide)
    (by decide) (by decide) (by decide) 20 (by decide)⟩

/-- Termination in exact arithmetic. On a well-formed network with non-negative capacities
and distinct existing terminals, `edmondsKarp` returns: `fuelBound` (number of
vertices + number of links + capacity out of the source + 2) bounds the
iterations of the augmentation loop, of every BFS and of every walk back from
the sink, and any larger fuel gives a result as well. -/
theorem edmondsKarp_terminates (g : Graph) (h : Heap) (source target : String) (s t : Nat)
    (wf : WF h g.vertexSet) (caps : CapsNonneg h g.vertexSet)
    (hs : findVertex g h source = some s) (ht : findVertex g h target = some t)
    (hst : s ≠ t) :
    ∀ fuel, fuelBound h g.vertexSet s ≤ fuel →
      ∃ h1, edmondsKarp fuel g h source target = Result.ok () h1 := by
  intro fuel hfuel
  obtain ⟨h1, e1, _⟩ := edmondsKarp_spec wf caps hs ht hst fuel hfuel
  exact ⟨h1, e1⟩

theorem edmondsKarp_terminates_witness :
    (WF chainNet.2 chainNet.1.vertexSet ∧ CapsNonneg chainNet.2 chainNet.1.vertexSet) ∧
    ∀ fuel, fuelBound chainNet.2 chainNet.1.vertexSet 0 ≤ fuel →
      ∃ h1, edmondsKarp fuel chainNet.1 chainNet.2 "R1" "C1" = Result.ok () h1 :=
  ⟨⟨by decide, by decide⟩,
   edmondsKarp_terminates chainNet.1 chainNet.2 "R1" "C1" 0 2 (by decide) (by decide)
    (by decide) (by decide) (by decide)⟩

/-- C5 (invalid argument). `edmondsKarp` throws exactly when no vertex has the
source code, or no vertex has the target code, or both codes resolve to the
same vertex; the heap is then the one it was called with. -/
theorem edmondsKarp_invalidArgument_iff (fuel : Nat) (g : Graph) (h : Heap)
    (source target : String) :
    ((∃ h1, edmondsKarp fuel g h source target = Result.invalidArgument h1) ↔
      ((∀ v ∈ g.vertexSet, (h.locs v).code ≠ source) ∨
       (∀ v ∈ g.vertexSet, (h.locs v).code ≠ target) ∨
       findVertex g h source = findVertex g h target)) ∧
    ∀ h1, edmondsKarp fuel g h source target = Result.invalidArgument h1 → h1 = h := by
  have hnone : ∀ code, findVertex g h code = none ↔
      ∀ v ∈ g.vertexSet, (h.locs v).code ≠ code := by
    intro code
    unfold findVertex
    rw [List.find?_eq_none]
    simp
  unfold edmondsKarp
  cases hs : findVertex g h source with
  | none =>
    constructor
    · simp only [true_iff]
      constructor
      · intro _; exact Or.inl ((hnone source).1 hs)
      · intro _; exact ⟨h, rfl⟩
    · intro h1 he
      cases ht : findVertex g h target <;> simp_all
  | some s =>
    cases ht : findVertex g h target with
    | none =>
      constructor
      · constructor
        · intro _; exact Or.inr (Or.inl ((hnone target).1 ht))
        · intro _; exact ⟨h, rfl⟩
      · intro h1 he
        simp at he; exact he.symm
    | some t =>
      have hs1 : ¬ ∀ v ∈ g.vertexSet, (h.locs v).code ≠ source := by
        rw [← hnone, hs]; simp
      have ht1 : ¬ ∀ v ∈ g.vertexSet, (h.locs v).code ≠ target := by
        rw [← hnone, ht]; simp
      by_cases hst : s = t
      · simp only [hst, if_true]
        constructor
        · constructor
          · intro _; exact Or.inr (Or.inr (by simp))
          · intro _; exact ⟨h, rfl⟩
        · intro h1 he
          simp at he; exact he.symm
      · simp only [hst, if_false]
        constructor
        · constructor
          · rintro ⟨h1, he⟩
            cases hl : augmentLoop fuel fuel g s t (resetFlows g h) <;> simp [hl] at he
          · rintro (h0 | h0 | h0)
            · exact absurd h0 hs1
            · exact absurd h0 ht1
            · exact absurd (Option.some.inj h0) hst
        · intro h1 he
          cases hl : augmentLoop fuel fuel g s t (resetFlows g h) <;> simp [hl] at he

end Project1

namespace Project1

/-- C10 (scenario). In the network `R1` (maximum delivery 10), `PS1`, `C1`
(demand 6) with `R1 -> PS1` of capacity 10 and `PS1 -> C1` of capacity 6,
`getCitiesFlow(true)` returns the single record `C1` with demand 6 and flow 6,
and `removePipeCompare("PS1", "C1")` returns the single record `C1` with
baseline flow 6 and perturbed flow 0; 20 units of fuel are enough and more fuel
gives the same answers. -/
theorem chainNet_scenario (fuel : Nat) (hfuel : 20 ≤ fuel) :
    (getCitiesFlow fuel chainNet.1 chainNet.2 true "" "").value
      = some [{ cityName := "City1", cityCode := "C1", demand := 6, totalFlow := 6,
                affectedTotalFlow := 0 }] ∧
    (removePipeCompare fuel chainNet.1 chainNet.2 "PS1" "C1").value
      = some [{ cityName := "City1", cityCode := "C1", demand := 6, totalFlow := 6,
                affectedTotalFlow := 0 }] := by
  have h1 : (getCitiesFlow 20 chainNet.1 chainNet.2 true "" "").value
      = some [{ cityName := "City1", cityCode := "C1", demand := 6, totalFlow := 6,
                affectedTotalFlow := 0 }] := by decide!
  have h2 : (removePipeCompare 20 chainNet.1 chainNet.2 "PS1" "C1").value
      = some [{ cityName := "City1", cityCode := "C1", demand := 6, totalFlow := 6,
                affectedTotalFlow := 0 }] := by decide!
  rw [getCitiesFlow_mono hfuel _ _ _ _ _ (Result.value_ne_stuck h1),
    removePipeCompare_mono hfuel _ _ _ _ (Result.value_ne_stuck h2)]
  exact ⟨h1, h2⟩

theorem chainNet_scenario_witness :
    (getCitiesFlow 25 chainNet.1 chainNet.2 true "" "").value
      = some [{ cityName := "City1", cityCode := "C1", demand := 6, totalFlow := 6,
                affectedTotalFlow := 0 }] ∧
    (removePipeCompare 25 chainNet.1 chainNet.2 "PS1" "C1").value
      = some [{ cityName := "City1", cityCode := "C1", demand := 6, totalFlow := 6,
                affectedTotalFlow := 0 }] :=
  chainNet_scenario 25 (by decide)

end Project1

namespace Project1

/-! ## Claims about the sensitivity analysis -/

theorem Result.bind_value {α β : Type} {A : Result α} {B : α → Heap → Result β} {b : β}
    (he : (A.bind B).value = some b) :
    ∃ a h1, A = Result.ok a h1 ∧ (B a h1).value = some b := by
  cases A with
  | ok a h1 => exact ⟨a, h1, rfl, he⟩
  | invalidArgument h1 => simp [Result.bind, Result.value] at he
  | stuck => simp [Result.bind, Result.value] at he

theorem compareFlows_spec : ∀ (og no res : List CityInfo), compareFlows og no = some res →
    ∀ r ∈ res, ∃ x ∈ og.zip no,
      r = { x.1 with affectedTotalFlow := x.2.totalFlow } ∧ x.2.totalFlow < x.1.totalFlow := by
  intro og
  induction og with
  | nil =>
    intro no res he r hr
    simp only [compareFlows, Option.some.injEq] at he
    rw [← he] at hr
    exact absurd hr (List.not_mem_nil _)
  | cons a as ih =>
    intro no res he r hr
    cases no with
    | nil => simp [compareFlows] at he
    | cons b bs =>
      rw [compareFlows] at he
      cases hc : compareFlows as bs with
      | none => rw [hc] at he; simp at he
      | some rest =>
        rw [hc] at he
        simp only at he
        have tail : ∀ r ∈ rest, ∃ x ∈ (a :: as).zip (b :: bs),
            r = { x.1 with affectedTotalFlow := x.2.totalFlow } ∧
              x.2.totalFlow < x.1.totalFlow := by
          intro r1 hr1
          obtain ⟨x, hx, hx2⟩ := ih bs rest hc r1 hr1
          exact ⟨x, by simp [List.zip_cons_cons, hx], hx2⟩
        by_cases hgt : a.totalFlow - b.totalFlow > 0
        · rw [if_pos hgt] at he
          simp only [Option.some.injEq] at he
          rw [← he] at hr
          rcases List.mem_cons.1 hr with h1 | h1
          · exact ⟨(a, b), by simp [List.zip_cons_cons], h1, by simp only; omega⟩
          · exact tail r h1
        · rw [if_neg hgt] at he
          simp only [Option.some.injEq] at he
          rw [← he] at hr
          exact tail r hr

theorem compare_tail_value {this : Graph} {b : Bool} {ps : List (String × String)}
    {p : List CityInfo × List CityInfo} {h3 : Heap} {res : List CityInfo}
    (he : ((compareResult p.1 p.2 h3).bind fun res h4 =>
      (setPipelinesResult this b ps h4).bind fun _ h5 => Result.ok res h5).value = some res) :
    compareFlows p.1 p.2 = some res := by
  obtain ⟨r1, h4, e1, e2⟩ := Result.bind_value he
  obtain ⟨u, h5, _, e4⟩ := Result.bind_value e2
  simp only [Result.value, Option.some.injEq] at e4
  rw [← e4]
  exact (compareResult_heap e1).2

/-- C6, the claim as stated fails: in `forkNet`, disabling the pipeline
`R1 -> CA` raises the flow delivered to `CB` from 0 (baseline) to 5 (perturbed). -/
theorem perSink_not_monotone :
    ∃ p, (pipeFlows 20 forkNet.1 forkNet.2 [("R1", "CA")]).value = some p ∧
      ¬ PerSinkMonotone p :=
  ⟨([{ cityName := "CityA", cityCode := "CA", demand := 5, totalFlow := 5,
        affectedTotalFlow := 0 },
      { cityName := "CityB", cityCode := "CB", demand := 5, totalFlow := 0,
        affectedTotalFlow := 0 }],
     [{ cityName := "CityA", cityCode := "CA", demand := 5, totalFlow := 0,
        affectedTotalFlow := 0 },
      { cityName := "CityB", cityCode := "CB", demand := 5, totalFlow := 5,
        affectedTotalFlow := 0 }]),
   by decide!, by decide⟩

/-- C6 as amended: every record returned by `removeStationCompare`,
`removePipeCompare` and `removeMultiplePipesCompare` is a baseline record
completed with the perturbed flow found at the same index, and its perturbed
flow is strictly below its baseline flow; sinks whose flow did not drop are
not returned. -/
theorem reported_flows_decrease (fuel : Nat) (this : Graph) (h : Heap) :
    (∀ code res, (removeStationCompare fuel this h code).value = some res →
      ∃ p, (stationFlows fuel this h code).value = some p ∧
        ∀ r ∈ res, ∃ x ∈ p.1.zip p.2,
          r = { x.1 with affectedTotalFlow := x.2.totalFlow } ∧
            r.affectedTotalFlow < r.totalFlow) ∧
    (∀ sourceCode destCode res,
      (removePipeCompare fuel this h sourceCode destCode).value = some res →
      ∃ p, (pipeFlows fuel this h [(sourceCode, destCode)]).value = some p ∧
        ∀ r ∈ res, ∃ x ∈ p.1.zip p.2,
          r = { x.1 with affectedTotalFlow := x.2.totalFlow } ∧
            r.affectedTotalFlow < r.totalFlow) ∧
    (∀ pipelines res, (removeMultiplePipesCompare fuel this h pipelines).value = some res →
      ∃ p, (pipeFlows fuel this h pipelines).value = some p ∧
        ∀ r ∈ res, ∃ x ∈ p.1.zip p.2,
          r = { x.1 with affectedTotalFlow := x.2.totalFlow } ∧
            r.affectedTotalFlow < r.totalFlow) := by
  have fin : ∀ (p : List CityInfo × List CityInfo) (res : List CityInfo),
      compareFlows p.1 p.2 = some res →
      ∀ r ∈ res, ∃ x ∈ p.1.zip p.2,
        r = { x.1 with affectedTotalFlow := x.2.totalFlow } ∧
          r.affectedTotalFlow < r.totalFlow := by
    intro p res hc r hr
    obtain ⟨x, hx, h1, h2⟩ := compareFlows_spec p.1 p.2 res hc r hr
    refine ⟨x, hx, h1, ?_⟩
    rw [h1]; exact h2
  refine ⟨fun code res he => ?_, fun s d res he => ?_, fun ps res he => ?_⟩
  · unfold removeStationCompare at he
    obtain ⟨p, h3, e1, e2⟩ := Result.bind_value he
    refine ⟨p, by rw [e1]; rfl, fin p res ?_⟩
    obtain ⟨r1, h4, e3, e4⟩ := Result.bind_value e2
    obtain ⟨u, h5, _, e6⟩ := Result.bind_value e4
    simp only [Result.value, Option.some.injEq] at e6
    rw [← e6]
    exact (compareResult_heap e3).2
  · unfold removePipeCompare at he
    obtain ⟨p, h3, e1, e2⟩ := Result.bind_value he
    exact ⟨p, by rw [e1]; rfl, fin p res (compare_tail_value e2)⟩
  · unfold removeMultiplePipesCompare at he
    obtain ⟨p, h3, e1, e2⟩ := Result.bind_value he
    exact ⟨p, by rw [e1]; rfl, fin p res (compare_tail_value e2)⟩

theorem reported_flows_decrease_witness :
    ∃ p, (pipeFlows 20 forkNet.1 forkNet.2 [("R1", "CA")]).value = some p ∧
      ∀ r ∈ [({ cityName := "CityA", cityCode := "CA", demand := 5, totalFlow := 5,
                affectedTotalFlow := 0 } : CityInfo)],
        ∃ x ∈ p.1.zip p.2, r = { x.1 with affectedTotalFlow := x.2.totalFlow } ∧
          r.affectedTotalFlow < r.totalFlow :=
  (reported_flows_decrease 20 forkNet.1 forkNet.2).2.1 "R1" "CA" _ (by decide!)

/-- C8, the claim as stated fails: in `chainNet`, once solved (flow 6 on
`R1 -> PS1`), the query `removePipeCompare("PS1", "C1")` returns and leaves
flow 0 on that link. -/
theorem removePipeCompare_overwrites_flow :
    ∃ h1, (removePipeCompare 20 chainNet.1 chainNetSolved "PS1" "C1").heap = some h1 ∧
      ¬ FlowsAndFlagsKept chainNet.1.vertexSet chainNetSolved h1 := by
  refine ⟨((removePipeCompare 20 chainNet.1 chainNetSolved "PS1" "C1").heap).getD chainNet.2,
    ?_, by decide!⟩
  have hs : ((removePipeCompare 20 chainNet.1 chainNetSolved "PS1" "C1").heap).isSome = true := by
    decide!
  cases hh : (removePipeCompare 20 chainNet.1 chainNetSolved "PS1" "C1").heap with
  | none => rw [hh] at hs; simp at hs
  | some x => rfl

/-- C8 as amended: when an impact query returns, every pipe allocated before
the call has the end points, capacity and reverse link it had, and is enabled
if it was enabled before the call (`ImpactFrame`); the flow values are those of
the last solve.  For the station queries the station pointers of the lookup
map must be allocated. -/
theorem impact_queries_frame (fuel : Nat) (this : Graph) (h : Heap)
    (hst : ∀ p ∈ this.mapStations, p.2 < h.nextLoc) :
    (∀ code r h1, removeReservoirCompare fuel this h code = Result.ok r h1 → ImpactFrame h h1) ∧
    (∀ code r h1, removeStationCompare fuel this h code = Result.ok r h1 → ImpactFrame h h1) ∧
    (∀ r h1, removeStationsCompare fuel this h = Result.ok r h1 → ImpactFrame h h1) ∧
    (∀ sourceCode destCode r h1,
      removePipeCompare fuel this h sourceCode destCode = Result.ok r h1 → ImpactFrame h h1) ∧
    (∀ pipelines r h1,
      removeMultiplePipesCompare fuel this h pipelines = Result.ok r h1 → ImpactFrame h h1) ∧
    (∀ r h1, removeAllPipesCompare fuel this h = Result.ok r h1 → ImpactFrame h h1) :=
  ⟨fun _ _ _ he => removeReservoirCompare_frame he,
   fun _ _ _ he => removeStationCompare_frame hst he,
   fun _ _ he => stationsLoop_frame _ _ _ _ _ hst he,
   fun _ _ _ _ he => removePipeCompare_frame he,
   fun _ _ _ he => removeMultiplePipesCompare_frame he,
   fun _ _ he => pipesLoop_frame _ _ _ _ _ he⟩

theorem impact_queries_frame_witness :
    ImpactFrame chainNetSolved
      (((removePipeCompare 20 chainNet.1 chainNetSolved "PS1" "C1").heap).getD chainNet.2) :=
  (impact_queries_frame 20 chainNet.1 chainNetSolved (by decide!)).2.2.2.1 "PS1" "C1"
    [{ cityName := "City1", cityCode := "C1", demand := 6, totalFlow := 6,
       affectedTotalFlow := 0 }] _
    (Result.eq_ok_of_value chainNet.2 (by decide!))

/-- C9, evaluated at `chainNet` : after `getCitiesFlow(true)` has returned, the
caller's Sink `C1` owns a link to a vertex coded `C_0`, the caller's Source
`R1` has an incoming link from a vertex coded `R_0` and incoming count 1; before
the call `C1` had no outgoing link and `R1` no incoming link. -/
theorem getCitiesFlow_attaches_links :
    (chainNet.2.locs 2).adj = [] ∧ (chainNet.2.locs 0).incoming = [] ∧
    (chainNet.2.locs 0).indegree = 0 ∧
    (chainNetSolved.locs 2).adj = [3] ∧
    (chainNetSolved.locs (chainNetSolved.pipes 3).dest).code = "C_0" ∧
    (chainNetSolved.locs 0).incoming = [2] ∧
    (chainNetSolved.locs (chainNetSolved.pipes 2).orig).code = "R_0" ∧
    (chainNetSolved.locs 0).indegree = 1 ∧
    (getCitiesFlow 20 chainNet.1 chainNet.2 true "" "").heap.isSome = true ∧
    ¬ LinksUntouched chainNet.1.vertexSet chainNet.2 chainNetSolved := by
  decide!

end Project1

namespace Project1

/-- C7, evaluated at `clashNet`, a network with a Relay coded `R_0` (each `addVertex`
function looks a code up in the map of its own role only, so the synthetic Source
`R_0` is created next to it and `findVertex` returns the Relay for the code) : the
first `getCitiesFlow(true)` reports flow 5 for `C1`, the second one, on the heap
the first one left, reports flow 10, because the link `R_0 -> R1` attached by
the first call to the caller's Relay is still there when the second call
attaches another one. -/
theorem getCitiesFlow_twice_differs :
    (getCitiesFlow 30 clashNet.1 clashNet.2 true "" "").value
      = some [{ cityName := "Sink", cityCode := "C1", demand := 10, totalFlow := 5,
                affectedTotalFlow := 0 }] ∧
    (getCitiesFlow 30 clashNet.1
        ((getCitiesFlow 30 clashNet.1 clashNet.2 true "" "").heap.getD clashNet.2)
        true "" "").value
      = some [{ cityName := "Sink", cityCode := "C1", demand := 10, totalFlow := 10,
                affectedTotalFlow := 0 }] := by
  decide!

/-- Two queries in a row on a network where the reserved codes `R_0` and `C_0` are free
(`QueryReady` : well formed, allocated, no vertex and no key of the source and
sink maps coded `R_0` or `C_0`), whenever `getCitiesFlow(true)` returns a list
`l1`, a second `getCitiesFlow(true)` on the heap left by the first returns, for
every sufficiently large fuel, the same list `l1`; and when capacities, maximum
deliveries and demands are non-negative (`QueryCaps`), both calls do return, with
the same list, for every sufficiently large fuel. -/
theorem getCitiesFlow_idempotent (this : Graph) (h : Heap) (rd : QueryReady this h) :
    (∀ (fuel : Nat) (l1 : List CityInfo),
      (getCitiesFlow fuel this h true "" "").value = some l1 →
      ∃ F, ∀ f, F ≤ f →
        (getCitiesFlow f this ((getCitiesFlow fuel this h true "" "").heap.getD h)
          true "" "").value = some l1) ∧
    (QueryCaps this h → ∃ F l1, ∀ f, F ≤ f →
      (getCitiesFlow f this h true "" "").value = some l1 ∧
      (getCitiesFlow f this ((getCitiesFlow f this h true "" "").heap.getD h)
        true "" "").value = some l1) :=
  ⟨fun _ _ hv => getCitiesFlow_again rd (Result.eq_ok_of_value h hv),
   fun caps => getCitiesFlow_twice rd caps⟩

theorem getCitiesFlow_idempotent_witness :
    (∃ F, ∀ f, F ≤ f →
      (getCitiesFlow f chainNet.1
        ((getCitiesFlow 20 chainNet.1 chainNet.2 true "" "").heap.getD chainNet.2)
        true "" "").value
      = some [{ cityName := "City1", cityCode := "C1", demand := 6, totalFlow := 6,
                affectedTotalFlow := 0 }]) ∧
    (∃ F l1, ∀ f, F ≤ f →
      (getCitiesFlow f chainNet.1 chainNet.2 true "" "").value = some l1 ∧
      (getCitiesFlow f chainNet.1
        ((getCitiesFlow f chainNet.1 chainNet.2 true "" "").heap.getD chainNet.2)
        true "" "").value = some l1) :=
  ⟨(getCitiesFlow_idempotent chainNet.1 chainNet.2 (by decide!)).1 20 _ (by decide!),
   (getCitiesFlow_idempotent chainNet.1 chainNet.2 (by decide!)).2 (by decide!)⟩

end Project1

namespace Project1

/-! ## Claims about the building operations and the unmet demand -/

/-- C11. `verifyCityNeeds()` returns exactly the records of `getCitiesFlow(true)`
whose demand strictly exceeds the delivered flow, in the same order and
unchanged.  In `thirstyNet` the Sink of demand 20 that can receive at most 6 is
returned with demand 20 and flow 6 (deficit 14); in `chainNet` the Sink whose
flow 6 equals its demand is not returned. -/
theorem verifyCityNeeds_spec :
    (∀ (fuel : Nat) (this : Graph) (h : Heap),
      verifyCityNeeds fuel this h =
        (getCitiesFlow fuel this h true "" "").bind fun l h1 =>
          Result.ok (l.filter (fun c => decide (c.demand > c.totalFlow))) h1) ∧
    (verifyCityNeeds 20 thirstyNet.1 thirstyNet.2).value
      = some [{ cityName := "City1", cityCode := "C1", demand := 20, totalFlow := 6,
                affectedTotalFlow := 0 }] ∧
    (20 : Int) - 6 = 14 ∧
    (getCitiesFlow 20 chainNet.1 chainNet.2 true "" "").value
      = some [{ cityName := "City1", cityCode := "C1", demand := 6, totalFlow := 6,
                affectedTotalFlow := 0 }] ∧
    (verifyCityNeeds 20 chainNet.1 chainNet.2).value = some [] := by
  refine ⟨fun fuel this h => ?_, by decide!, by decide, by decide!, by decide!⟩
  unfold verifyCityNeeds
  congr 1
  funext l h1
  rw [unmet_loop]
  rfl

/-- C14. Each of `addVertexReservoir`, `addVertexStation`, `addVertexCity` returns
false iff the code is already a key of that role's lookup map, and then graph
and heap are unchanged; otherwise it returns true, appends the new node (the
next address of the heap) to the node list, gives it the attributes passed,
no link, and registers it in that role's map; the other maps, the other nodes
and all pipes are unchanged. -/
theorem addVertex_spec (g : Graph) (h : Heap) (name municipality code : String) (id : Int)
    (maximumDelivery demand population : Int) :
    (((addVertexReservoir g h name municipality id code maximumDelivery).1 = false ↔
        ∃ p ∈ g.mapReservoirs, p.1 = code) ∧
      ((addVertexReservoir g h name municipality id code maximumDelivery).1 = false →
        (addVertexReservoir g h name municipality id code maximumDelivery).2 = (g, h)) ∧
      ((addVertexReservoir g h name municipality id code maximumDelivery).1 = true →
        (addVertexReservoir g h name municipality id code maximumDelivery).2.1 =
          { g with vertexSet := g.vertexSet ++ [h.nextLoc],
                   mapReservoirs := g.mapReservoirs ++ [(code, h.nextLoc)] } ∧
        mapFind (addVertexReservoir g h name municipality id code maximumDelivery).2.1.mapReservoirs
          code = some h.nextLoc ∧
        (addVertexReservoir g h name municipality id code maximumDelivery).2.2.locs h.nextLoc =
          { code := code, id := id, adj := [], incoming := [], visited := false,
            processing := false, indegree := 0, path := none,
            kind := Kind.reservoir name municipality maximumDelivery } ∧
        (∀ x, x ≠ h.nextLoc →
          (addVertexReservoir g h name municipality id code maximumDelivery).2.2.locs x
            = h.locs x) ∧
        (addVertexReservoir g h name municipality id code maximumDelivery).2.2.pipes
          = h.pipes)) ∧
    (((addVertexStation g h id code).1 = false ↔ ∃ p ∈ g.mapStations, p.1 = code) ∧
      ((addVertexStation g h id code).1 = false → (addVertexStation g h id code).2 = (g, h)) ∧
      ((addVertexStation g h id code).1 = true →
        (addVertexStation g h id code).2.1 =
          { g with vertexSet := g.vertexSet ++ [h.nextLoc],
                   mapStations := g.mapStations ++ [(code, h.nextLoc)] } ∧
        mapFind (addVertexStation g h id code).2.1.mapStations code = some h.nextLoc ∧
        (addVertexStation g h id code).2.2.locs h.nextLoc =
          { code := code, id := id, adj := [], incoming := [], visited := false,
            processing := false, indegree := 0, path := none, kind := Kind.pumpingStation } ∧
        (∀ x, x ≠ h.nextLoc → (addVertexStation g h id code).2.2.locs x = h.locs x) ∧
        (addVertexStation g h id code).2.2.pipes = h.pipes)) ∧
    (((addVertexCity g h name id code demand population).1 = false ↔
        ∃ p ∈ g.mapCities, p.1 = code) ∧
      ((addVertexCity g h name id code demand population).1 = false →
        (addVertexCity g h name id code demand population).2 = (g, h)) ∧
      ((addVertexCity g h name id code demand population).1 = true →
        (addVertexCity g h name id code demand population).2.1 =
          { g with vertexSet := g.vertexSet ++ [h.nextLoc],
                   mapCities := g.mapCities ++ [(code, h.nextLoc)] } ∧
        mapFind (addVertexCity g h name id code demand population).2.1.mapCities code
          = some h.nextLoc ∧
        (addVertexCity g h name id code demand population).2.2.locs h.nextLoc =
          { code := code, id := id, adj := [], incoming := [], visited := false,
            processing := false, indegree := 0, path := none,
            kind := Kind.city name demand population 0 } ∧
        (∀ x, x ≠ h.nextLoc →
          (addVertexCity g h name id code demand population).2.2.locs x = h.locs x) ∧
        (addVertexCity g h name id code demand population).2.2.pipes = h.pipes)) := by
  refine ⟨?_, ?_, ?_⟩
  · unfold addVertexReservoir
    by_cases hk : (mapFind g.mapReservoirs code).isSome = true
    · rw [if_pos hk]
      exact ⟨⟨fun _ => (mapFind_isSome_iff _ _).1 hk, fun _ => rfl⟩, fun _ => rfl,
        fun hh => by cases hh⟩
    · rw [if_neg hk]
      have hfresh : ∀ p ∈ g.mapReservoirs, p.1 ≠ code :=
        fun p hp hpk => hk ((mapFind_isSome_iff _ _).2 ⟨p, hp, hpk⟩)
      obtain ⟨_, _, _, n4⟩ := newLocation_spec h id code (Kind.reservoir name municipality
        maximumDelivery)
      refine ⟨⟨fun hh => (by cases hh), fun hh => absurd ((mapFind_isSome_iff _ _).2 hh) hk⟩,
        fun hh => (by cases hh), fun _ => ⟨?_, ?_, ?_, ?_, rfl⟩⟩
      · simp only [mapInsert_fresh _ hfresh]; rfl
      · simp only [mapInsert_fresh _ hfresh]
        exact (mapFind_append_fresh _ _ _ hfresh).1
      · simp only []; rw [n4, if_pos rfl]
      · intro x hx; simp only []; rw [n4, if_neg hx]
  · unfold addVertexStation
    by_cases hk : (mapFind g.mapStations code).isSome = true
    · rw [if_pos hk]
      exact ⟨⟨fun _ => (mapFind_isSome_iff _ _).1 hk, fun _ => rfl⟩, fun _ => rfl,
        fun hh => by cases hh⟩
    · rw [if_neg hk]
      have hfresh : ∀ p ∈ g.mapStations, p.1 ≠ code :=
        fun p hp hpk => hk ((mapFind_isSome_iff _ _).2 ⟨p, hp, hpk⟩)
      obtain ⟨_, _, _, n4⟩ := newLocation_spec h id code Kind.pumpingStation
      refine ⟨⟨fun hh => (by cases hh), fun hh => absurd ((mapFind_isSome_iff _ _).2 hh) hk⟩,
        fun hh => (by cases hh), fun _ => ⟨?_, ?_, ?_, ?_, rfl⟩⟩
      · simp only [mapInsert_fresh _ hfresh]; rfl
      · simp only [mapInsert_fresh _ hfresh]
        exact (mapFind_append_fresh _ _ _ hfresh).1
      · simp only []; rw [n4, if_pos rfl]
      · intro x hx; simp only []; rw [n4, if_neg hx]
  · unfold addVertexCity
    by_cases hk : (mapFind g.mapCities code).isSome = true
    · rw [if_pos hk]
      exact ⟨⟨fun _ => (mapFind_isSome_iff _ _).1 hk, fun _ => rfl⟩, fun _ => rfl,
        fun hh => by cases hh⟩
    · rw [if_neg hk]
      have hfresh : ∀ p ∈ g.mapCities, p.1 ≠ code :=
        fun p hp hpk => hk ((mapFind_isSome_iff _ _).2 ⟨p, hp, hpk⟩)
      obtain ⟨_, _, _, n4⟩ := newLocation_spec h id code (Kind.city name demand population 0)
      refine ⟨⟨fun hh => (by cases hh), fun hh => absurd ((mapFind_isSome_iff _ _).2 hh) hk⟩,
        fun hh => (by cases hh), fun _ => ⟨?_, ?_, ?_, ?_, rfl⟩⟩
      · simp only [mapInsert_fresh _ hfresh]; rfl
      · simp only [mapInsert_fresh _ hfresh]
        exact (mapFind_append_fresh _ _ _ hfresh).1
      · simp only []; rw [n4, if_pos rfl]
      · intro x hx; simp only []; rw [n4, if_neg hx]

/-- C15. `addEdge` and `addBidirectionalEdge` return false iff no node has the
code `source` or no node has the code `dest` (otherwise true), and when they
return false graph and heap (link lists, incoming counts, pipe map) are
unchanged. -/
theorem addEdge_fails_iff (g : Graph) (h : Heap) (source dest : String) (w : Int) :
    ((addEdge g h source dest w).1 = false ↔
      (∀ v ∈ g.vertexSet, (h.locs v).code ≠ source) ∨
      (∀ v ∈ g.vertexSet, (h.locs v).code ≠ dest)) ∧
    ((addEdge g h source dest w).1 = false → (addEdge g h source dest w).2 = (g, h)) ∧
    ((addBidirectionalEdge g h source dest w).1 = false ↔
      (∀ v ∈ g.vertexSet, (h.locs v).code ≠ source) ∨
      (∀ v ∈ g.vertexSet, (h.locs v).code ≠ dest)) ∧
    ((addBidirectionalEdge g h source dest w).1 = false →
      (addBidirectionalEdge g h source dest w).2 = (g, h)) := by
  rw [← findVertex_eq_none, ← findVertex_eq_none]
  unfold addEdge addBidirectionalEdge
  cases h1 : findVertex g h source with
  | none => simp
  | some v1 =>
    cases h2 : findVertex g h dest with
    | none => simp
    | some v2 => simp

/-- C16 as stated fails at `loneNet` : `addBidirectionalEdge("A", "A", 5)` succeeds
and creates the links 0 and 1, but the keys `A|A` of the two registrations
coincide, so the pipe map holds link 1 (the second one) under `A|A` and link 0
(the first one) under no key. -/
theorem addBidirectionalEdge_same_key :
    (addBidirectionalEdge loneNet.1 loneNet.2 "A" "A" 5).1 = true ∧
    loneNet.2.nextPipe = 0 ∧
    mapFind (addBidirectionalEdge loneNet.1 loneNet.2 "A" "A" 5).2.1.mapPipes
      ("A" ++ "|" ++ "A") = some 1 ∧
    ¬ mapFind (addBidirectionalEdge loneNet.1 loneNet.2 "A" "A" 5).2.1.mapPipes
      ("A" ++ "|" ++ "A") = some 0 ∧
    (addBidirectionalEdge loneNet.1 loneNet.2 "A" "A" 5).2.1.mapPipes
      = [("A|A", 1)] := by
  decide

/-- C20 fails at `twinNet` : `addVertexStation(1, "X")` and then
`addVertexCity("City", 1, "X", 5, 100)` both return true, the node list holds
two distinct nodes with the code `X`, and `findVertex("X")` returns the first. -/
theorem twinNet_codes :
    (addVertexStation Graph.empty Heap.empty 1 "X").1 = true ∧
    (addVertexCity (addVertexStation Graph.empty Heap.empty 1 "X").2.1
      (addVertexStation Graph.empty Heap.empty 1 "X").2.2 "City" 1 "X" 5 100).1 = true ∧
    twinNet.1.vertexSet = [0, 1] ∧
    (twinNet.2.locs 0).code = "X" ∧ (twinNet.2.locs 1).code = "X" ∧
    (twinNet.2.locs 0).kind = Kind.pumpingStation ∧
    (twinNet.2.locs 1).kind = Kind.city "City" 5 100 0 ∧
    findVertex twinNet.1 twinNet.2 "X" = some 0 := by
  decide

/-- C16 as amended: when `source` and `dest` are found (at `v1` and `v2`),
`addBidirectionalEdge` returns true and creates exactly the two pipes
`e1 = nextPipe` from `v1` to `v2` and `e2 = nextPipe + 1` from `v2` to `v1`, both
enabled, of capacity `w`, each the reverse of the other, appended to the
outgoing and incoming lists of their end points; all other pipes are
unchanged.  The pipe map holds `e2` under `dest|source`, holds `e1` under
`source|dest` when the two keys differ, and is unchanged at all other keys.  A
pipe created by `addEdge` has no reverse and is registered under
`source|dest`. -/
theorem addBidirectionalEdge_spec (g : Graph) (h : Heap) (source dest : String) (w : Int)
    (v1 v2 : Nat) (hs : findVertex g h source = some v1) (hd : findVertex g h dest = some v2) :
    (addBidirectionalEdge g h source dest w).1 = true ∧
    (addBidirectionalEdge g h source dest w).2.2.nextPipe = h.nextPipe + 2 ∧
    ((addBidirectionalEdge g h source dest w).2.2.pipes h.nextPipe).orig = v1 ∧
    ((addBidirectionalEdge g h source dest w).2.2.pipes h.nextPipe).dest = v2 ∧
    ((addBidirectionalEdge g h source dest w).2.2.pipes h.nextPipe).weight = w ∧
    ((addBidirectionalEdge g h source dest w).2.2.pipes h.nextPipe).activated = true ∧
    ((addBidirectionalEdge g h source dest w).2.2.pipes h.nextPipe).reverse
      = some (h.nextPipe + 1) ∧
    ((addBidirectionalEdge g h source dest w).2.2.pipes (h.nextPipe + 1)).orig = v2 ∧
    ((addBidirectionalEdge g h source dest w).2.2.pipes (h.nextPipe + 1)).dest = v1 ∧
    ((addBidirectionalEdge g h source dest w).2.2.pipes (h.nextPipe + 1)).weight = w ∧
    ((addBidirectionalEdge g h source dest w).2.2.pipes (h.nextPipe + 1)).activated = true ∧
    ((addBidirectionalEdge g h source dest w).2.2.pipes (h.nextPipe + 1)).reverse
      = some h.nextPipe ∧
    (∀ e, e ≠ h.nextPipe → e ≠ h.nextPipe + 1 →
      (addBidirectionalEdge g h source dest w).2.2.pipes e = h.pipes e) ∧
    (∀ x, ((addBidirectionalEdge g h source dest w).2.2.locs x).adj =
      (h.locs x).adj ++ (if x = v1 then [h.nextPipe] else [])
        ++ (if x = v2 then [h.nextPipe + 1] else [])) ∧
    (∀ x, ((addBidirectionalEdge g h source dest w).2.2.locs x).incoming =
      (h.locs x).incoming ++ (if x = v2 then [h.nextPipe] else [])
        ++ (if x = v1 then [h.nextPipe + 1] else [])) ∧
    mapFind (addBidirectionalEdge g h source dest w).2.1.mapPipes (dest ++ "|" ++ source)
      = some (h.nextPipe + 1) ∧
    (source ++ "|" ++ dest ≠ dest ++ "|" ++ source →
      mapFind (addBidirectionalEdge g h source dest w).2.1.mapPipes (source ++ "|" ++ dest)
        = some h.nextPipe) ∧
    (∀ k, k ≠ source ++ "|" ++ dest → k ≠ dest ++ "|" ++ source →
      mapFind (addBidirectionalEdge g h source dest w).2.1.mapPipes k = mapFind g.mapPipes k) ∧
    ((addEdge g h source dest w).2.2.pipes h.nextPipe).reverse = none ∧
    mapFind (addEdge g h source dest w).2.1.mapPipes (source ++ "|" ++ dest)
      = some h.nextPipe :=
  addBidirectionalEdge_shape g h source dest w v1 v2 hs hd

theorem addBidirectionalEdge_spec_witness :
    bidiNet.2.nextPipe = 2 ∧ (bidiNet.2.pipes 0).reverse = some 1 ∧
    (bidiNet.2.pipes 1).reverse = some 0 ∧
    mapFind bidiNet.1.mapPipes ("B" ++ "|" ++ "A") = some 1 ∧
    mapFind bidiNet.1.mapPipes ("A" ++ "|" ++ "B") = some 0 :=
  have k := addBidirectionalEdge_spec pairNet.1 pairNet.2 "A" "B" 5 0 1 (by decide) (by decide)
  ⟨k.2.1, k.2.2.2.2.2.2.1, k.2.2.2.2.2.2.2.2.2.2.2.1, k.2.2.2.2.2.2.2.2.2.2.2.2.2.2.2.1,
    k.2.2.2.2.2.2.2.2.2.2.2.2.2.2.2.2.1 (by decide)⟩

end Project1

namespace Project1

/-! ## Removing links and nodes -/

/-- C12: on a well-formed network whose linked nodes are found under their codes,
`Graph::removeEdge(A, B)` returns true exactly when `A` is found and has a link to a
node coded `B`; it leaves the heap alone when `A` is not found; when `A` is found at
`a`, the outgoing list of `a` loses exactly the links whose destination is coded `B`
(none is left), every other outgoing list is kept, and the incoming list of a node
`x` loses exactly the links from `a` when `x` is coded `B` (none is left) and nothing
otherwise. In `parallelNet` the two parallel links `A -> B` of capacities 3 and 4
both go, while `A -> C` and `C -> B` stay. -/
theorem removeEdge_removes_all (g : Graph) (h : Heap) (A B : String)
    (wf : WF h g.vertexSet) (ad : Addressable g h) :
    ((removeEdge g h A B).1 = true ↔
      ∃ a, findVertex g h A = some a ∧
        ∃ e ∈ (h.locs a).adj, (h.locs (h.pipes e).dest).code = B) ∧
    (findVertex g h A = none → removeEdge g h A B = (false, h)) ∧
    (∀ a, findVertex g h A = some a →
      ((removeEdge g h A B).2.locs a).adj
          = (h.locs a).adj.filter (fun e => !destCoded h B e) ∧
      (∀ e ∈ ((removeEdge g h A B).2.locs a).adj, (h.locs (h.pipes e).dest).code ≠ B) ∧
      (∀ x, x ≠ a → ((removeEdge g h A B).2.locs x).adj = (h.locs x).adj) ∧
      (∀ x ∈ g.vertexSet, ((removeEdge g h A B).2.locs x).incoming =
        (h.locs x).incoming.filter
          (fun e => !(decide ((h.pipes e).orig = a) && ((h.locs x).code == B)))) ∧
      (∀ x ∈ g.vertexSet, (h.locs x).code = B →
        ∀ e ∈ ((removeEdge g h A B).2.locs x).incoming, (h.pipes e).orig ≠ a)) ∧
    ((parallelNet.2.pipes 0).weight = 3 ∧ (parallelNet.2.pipes 1).weight = 4 ∧
      (parallelNet.2.locs 0).adj = [0, 1, 2] ∧ (parallelNet.2.locs 1).incoming = [0, 1, 3] ∧
      (removeEdge parallelNet.1 parallelNet.2 "A" "B").1 = true ∧
      ((removeEdge parallelNet.1 parallelNet.2 "A" "B").2.locs 0).adj = [2] ∧
      ((removeEdge parallelNet.1 parallelNet.2 "A" "B").2.locs 1).incoming = [3] ∧
      ((removeEdge parallelNet.1 parallelNet.2 "A" "B").2.locs 2).adj = [3] ∧
      ((removeEdge parallelNet.1 parallelNet.2 "A" "B").2.locs 2).incoming = [2]) :=
  ⟨removeEdge_true_iff g h A B, fun hA => removeEdge_none B hA,
    fun _ hA => removeEdge_shape wf ad B hA, by decide⟩

theorem removeEdge_removes_all_witness :
    WF parallelNet.2 parallelNet.1.vertexSet ∧ Addressable parallelNet.1 parallelNet.2 ∧
    findVertex parallelNet.1 parallelNet.2 "A" = some 0 ∧
    ((removeEdge parallelNet.1 parallelNet.2 "A" "B").2.locs 0).adj
      = (parallelNet.2.locs 0).adj.filter (fun e => !destCoded parallelNet.2 "B" e) :=
  ⟨by decide, by decide, by decide,
    ((removeEdge_removes_all parallelNet.1 parallelNet.2 "A" "B" (by decide) (by decide)).2.2.1
      0 (by decide)).1⟩

/-- C13 fails: in `bidiNet` (nodes `A` at 0 and `B` at 1 joined by
`addBidirectionalEdge`, forward pipe 0, backward pipe 1) `Graph::removeEdge("A", "B")`
returns true and the backward pipe `B -> A` is still in the outgoing list of `B` and
in the incoming list of `A`. -/
theorem removeEdge_keeps_reverse :
    (bidiNet.2.pipes 1).orig = 1 ∧ (bidiNet.2.pipes 1).dest = 0 ∧
    (bidiNet.2.pipes 0).reverse = some 1 ∧
    (removeEdge bidiNet.1 bidiNet.2 "A" "B").1 = true ∧
    ((removeEdge bidiNet.1 bidiNet.2 "A" "B").2.locs 1).adj = [1] ∧
    ((removeEdge bidiNet.1 bidiNet.2 "A" "B").2.locs 0).incoming = [1] := by
  decide

/-- C13 as amended: when a bidirectional link is added between two differently coded
nodes found at `a` and `b`, `Graph::removeEdge(source, dest)` returns true and takes the
forward pipe out of the outgoing list of `a` and of the incoming list of `b`, while the
backward pipe `b -> a` stays in the outgoing list of `b` and in the incoming list of
`a`, still pointing at the forward pipe as its reverse. -/
theorem removeEdge_forward_only (g : Graph) (h : Heap) (source dest : String) (w : Int)
    (a b : Nat) (hs : findVertex g h source = some a) (hd : findVertex g h dest = some b)
    (hne : source ≠ dest) :
    (removeEdge (addBidirectionalEdge g h source dest w).2.1
      (addBidirectionalEdge g h source dest w).2.2 source dest).1 = true ∧
    h.nextPipe ∉ ((removeEdge (addBidirectionalEdge g h source dest w).2.1
      (addBidirectionalEdge g h source dest w).2.2 source dest).2.locs a).adj ∧
    h.nextPipe ∉ ((removeEdge (addBidirectionalEdge g h source dest w).2.1
      (addBidirectionalEdge g h source dest w).2.2 source dest).2.locs b).incoming ∧
    h.nextPipe + 1 ∈ ((removeEdge (addBidirectionalEdge g h source dest w).2.1
      (addBidirectionalEdge g h source dest w).2.2 source dest).2.locs b).adj ∧
    h.nextPipe + 1 ∈ ((removeEdge (addBidirectionalEdge g h source dest w).2.1
      (addBidirectionalEdge g h source dest w).2.2 source dest).2.locs a).incoming ∧
    ((removeEdge (addBidirectionalEdge g h source dest w).2.1
      (addBidirectionalEdge g h source dest w).2.2 source dest).2.pipes (h.nextPipe + 1)).orig
        = b ∧
    ((removeEdge (addBidirectionalEdge g h source dest w).2.1
      (addBidirectionalEdge g h source dest w).2.2 source dest).2.pipes (h.nextPipe + 1)).dest
        = a ∧
    ((removeEdge (addBidirectionalEdge g h source dest w).2.1
      (addBidirectionalEdge g h source dest w).2.2 source dest).2.pipes (h.nextPipe + 1)).reverse
        = some h.nextPipe :=
  removeEdge_after_bidirectional g h source dest w a b hs hd hne

theorem removeEdge_forward_only_witness :
    findVertex pairNet.1 pairNet.2 "A" = some 0 ∧
    findVertex pairNet.1 pairNet.2 "B" = some 1 ∧
    pairNet.2.nextPipe + 1 ∈
      ((removeEdge (addBidirectionalEdge pairNet.1 pairNet.2 "A" "B" 5).2.1
        (addBidirectionalEdge pairNet.1 pairNet.2 "A" "B" 5).2.2 "A" "B").2.locs 1).adj :=
  ⟨by decide, by decide,
    (removeEdge_forward_only pairNet.1 pairNet.2 "A" "B" 5 0 1 (by decide) (by decide)
      (by decide)).2.2.2.1⟩

/-- C17: on a well-formed network whose linked nodes are found under their codes,
`Graph::removeVertex(code)` returns false with graph and heap unchanged when no node
has the code; when the code is found at `v` it returns true, the node list is the old
one without `v`, and every remaining node keeps exactly its outgoing links whose
destination is not `v` and its incoming links whose origin is not `v`. In
`parallelNet`, removing `B` leaves `A` and `C` with the link `A -> C` only. -/
theorem removeVertex_spec (g : Graph) (h : Heap) (code : String)
    (wf : WF h g.vertexSet) (ad : Addressable g h) :
    ((∀ v ∈ g.vertexSet, (h.locs v).code ≠ code) → removeVertex g h code = (false, g, h)) ∧
    (∀ v, findVertex g h code = some v →
      (removeVertex g h code).1 = true ∧
      (removeVertex g h code).2.1.vertexSet = g.vertexSet.erase v ∧
      v ∉ (removeVertex g h code).2.1.vertexSet ∧
      (∀ u, u ∈ (removeVertex g h code).2.1.vertexSet ↔ u ∈ g.vertexSet ∧ u ≠ v) ∧
      (removeVertex g h code).2.2.pipes = h.pipes ∧
      (∀ u ∈ (removeVertex g h code).2.1.vertexSet,
        ((removeVertex g h code).2.2.locs u).adj
          = (h.locs u).adj.filter (fun e => decide ((h.pipes e).dest ≠ v)) ∧
        ((removeVertex g h code).2.2.locs u).incoming
          = (h.locs u).incoming.filter (fun e => decide ((h.pipes e).orig ≠ v)) ∧
        (∀ e ∈ ((removeVertex g h code).2.2.locs u).adj, (h.pipes e).dest ≠ v) ∧
        (∀ e ∈ ((removeVertex g h code).2.2.locs u).incoming, (h.pipes e).orig ≠ v))) ∧
    ((∃ v ∈ g.vertexSet, (h.locs v).code = code) → ∃ v, findVertex g h code = some v) ∧
    ((removeVertex parallelNet.1 parallelNet.2 "B").1 = true ∧
      (removeVertex parallelNet.1 parallelNet.2 "B").2.1.vertexSet = [0, 2] ∧
      ((removeVertex parallelNet.1 parallelNet.2 "B").2.2.locs 0).adj = [2] ∧
      ((removeVertex parallelNet.1 parallelNet.2 "B").2.2.locs 2).adj = [] ∧
      ((removeVertex parallelNet.1 parallelNet.2 "B").2.2.locs 2).incoming = [2] ∧
      ((removeVertex parallelNet.1 parallelNet.2 "B").2.2.locs 0).incoming = []) := by
  refine ⟨fun hn => removeVertex_none ((findVertex_eq_none g h code).2 hn),
    fun v hv => removeVertex_shape wf ad hv, ?_, by decide⟩
  rintro ⟨v, hv, hc⟩
  cases hf : findVertex g h code with
  | none => exact absurd hc ((findVertex_eq_none g h code).1 hf v hv)
  | some w => exact ⟨w, rfl⟩

theorem removeVertex_spec_witness :
    WF parallelNet.2 parallelNet.1.vertexSet ∧ Addressable parallelNet.1 parallelNet.2 ∧
    findVertex parallelNet.1 parallelNet.2 "B" = some 1 ∧
    (removeVertex parallelNet.1 parallelNet.2 "B").2.1.vertexSet
      = parallelNet.1.vertexSet.erase 1 :=
  ⟨by decide, by decide, by decide,
    ((removeVertex_spec parallelNet.1 parallelNet.2 "B" (by decide) (by decide)).2.1
      1 (by decide)).2.1⟩

end Project1

namespace Project1

/-! ## The records returned by the impact queries -/

end Project1

namespace Project1

/-! ## Which links the pipe queries disable -/

/-- C19 fails: in `doubleNet` (Source `R1` at node 0, Sink `C1` at node 1, parallel
links `R1 -> C1`: pipe 0 of capacity 3 and pipe 1 of capacity 4, the pipe map holding
pipe 1 under `R1|C1`), the two solves of `removePipeCompare("R1", "C1")` return the
flows 7 and 3 for `C1`, and after the perturbed solve pipe 0, a link from `R1` to `C1`,
is enabled and carries flow 3. -/
theorem removePipeCompare_parallel_link :
    findVertex doubleNet.1 doubleNet.2 "R1" = some 0 ∧
    findVertex doubleNet.1 doubleNet.2 "C1" = some 1 ∧
    (doubleNet.2.locs 0).adj = [0, 1] ∧
    (doubleNet.2.pipes 0).orig = 0 ∧ (doubleNet.2.pipes 0).dest = 1 ∧
    (doubleNet.2.pipes 1).orig = 0 ∧ (doubleNet.2.pipes 1).dest = 1 ∧
    mapFind doubleNet.1.mapPipes ("R1" ++ "|" ++ "C1") = some 1 ∧
    (pipeFlows 20 doubleNet.1 doubleNet.2 [("R1", "C1")]).value
      = some ([{ cityName := "City", cityCode := "C1", demand := 10, totalFlow := 7,
                 affectedTotalFlow := 0 }],
              [{ cityName := "City", cityCode := "C1", demand := 10, totalFlow := 3,
                 affectedTotalFlow := 0 }]) ∧
    ((pipeFlows 20 doubleNet.1 doubleNet.2 [("R1", "C1")]).heap).map
        (fun h3 => ((h3.pipes 0).orig, (h3.pipes 0).dest, (h3.pipes 0).activated,
          (h3.pipes 0).flow))
      = some (0, 1, true, 3) := by
  decide!

/-- C19 as amended: on a consistent heap whose graph nodes are allocated, when the two
solves of `removePipeCompare(src, dst)` or `removeMultiplePipesCompare(pipelines)`
return, the perturbed solve was started with the named pipes disabled, the named pipes
being, for every pair, the one pipe registered in the pipe map under `src|dst` and the
one registered under `dst|src` when there is one; and every named pipe that is in the
outgoing list of a node of the network is disabled and has flow 0 in the heap left by
the perturbed solve. `removePipeCompare(src, dst)` does what
`removeMultiplePipesCompare` does for the single pair. -/
theorem registered_pipes_disabled (fuel : Nat) (this : Graph) (h : Heap) (ok : HeapOK h)
    (al : ∀ v ∈ this.vertexSet, v < h.nextLoc) :
    (∀ ps p h3, pipeFlows fuel this h ps = Result.ok p h3 →
      ∃ og h1 l, getCitiesFlow fuel this h true "" "" = Result.ok og h1 ∧
        pipelineTargets this ps = some l ∧
        getCitiesFlow fuel this (l.foldl (fun h e => setActivated h e false) h1) true "" ""
          = Result.ok p.2 h3 ∧
        (∀ e ∈ l,
          ((l.foldl (fun h e => setActivated h e false) h1).pipes e).activated = false) ∧
        (∀ e ∈ l, e ∈ allPipes h this.vertexSet →
          (h3.pipes e).activated = false ∧ (h3.pipes e).flow = 0)) ∧
    (∀ s d, pipelineTargets this [(s, d)] =
      match mapFind this.mapPipes (s ++ "|" ++ d) with
      | none => none
      | some e =>
        match mapFind this.mapPipes (d ++ "|" ++ s) with
        | some r => some [e, r]
        | none => some [e]) ∧
    (∀ s d, removePipeCompare fuel this h s d
      = removeMultiplePipesCompare fuel this h [(s, d)]) := by
  refine ⟨fun ps p h3 he => pipeFlows_disabled ok al he, fun s d => ?_, fun s d => rfl⟩
  simp only [pipelineTargets]
  cases mapFind this.mapPipes (s ++ "|" ++ d) with
  | none => rfl
  | some e =>
    cases mapFind this.mapPipes (d ++ "|" ++ s) with
    | none => rfl
    | some r => rfl

theorem registered_pipes_disabled_witness :
    HeapOK doubleNet.2 ∧ (∀ v ∈ doubleNet.1.vertexSet, v < doubleNet.2.nextLoc) ∧
    pipelineTargets doubleNet.1 [("R1", "C1")] = some [1] ∧
    1 ∈ allPipes doubleNet.2 doubleNet.1.vertexSet ∧
    ((pipeFlows 20 doubleNet.1 doubleNet.2 [("R1", "C1")]).heap).map
        (fun h3 => ((h3.pipes 1).activated, (h3.pipes 1).flow)) = some (false, 0) ∧
    ∃ og h1 l, getCitiesFlow 20 doubleNet.1 doubleNet.2 true "" "" = Result.ok og h1 ∧
      pipelineTargets doubleNet.1 [("R1", "C1")] = some l ∧
      getCitiesFlow 20 doubleNet.1 (l.foldl (fun h e => setActivated h e false) h1) true "" ""
        = Result.ok [{ cityName := "City", cityCode := "C1", demand := 10, totalFlow := 3,
                       affectedTotalFlow := 0 }]
            (((pipeFlows 20 doubleNet.1 doubleNet.2 [("R1", "C1")]).heap).getD doubleNet.2) ∧
      (∀ e ∈ l,
        ((l.foldl (fun h e => setActivated h e false) h1).pipes e).activated = false) ∧
      (∀ e ∈ l, e ∈ allPipes doubleNet.2 doubleNet.1.vertexSet →
        ((((pipeFlows 20 doubleNet.1 doubleNet.2 [("R1", "C1")]).heap).getD
            doubleNet.2).pipes e).activated = false ∧
        ((((pipeFlows 20 doubleNet.1 doubleNet.2 [("R1", "C1")]).heap).getD
            doubleNet.2).pipes e).flow = 0) :=
  ⟨by decide, by decide, by decide, by decide, by decide!,
    (registered_pipes_disabled 20 doubleNet.1 doubleNet.2 (by decide) (by decide)).1
      [("R1", "C1")]
      ([{ cityName := "City", cityCode := "C1", demand := 10, totalFlow := 7,
          affectedTotalFlow := 0 }],
       [{ cityName := "City", cityCode := "C1", demand := 10, totalFlow := 3,
          affectedTotalFlow := 0 }])
      (((pipeFlows 20 doubleNet.1 doubleNet.2 [("R1", "C1")]).heap).getD doubleNet.2)
      (Result.eq_ok_of_value doubleNet.2 (by decide!))⟩

end Project1

namespace Projeto2

/-- C22, evaluated at `pairGraph` (vertices 0 and 1, edge of weight 5 between them) with
`v` the vertex 0: `removeAllEdgesTo(v)` returns the weights `1 -> 5` and empties the
adjacency map of vertex 0; `addAllEdgesTo(v, weights)` then returns with every
adjacency map as it found it, so vertex 0, whose map was `1 -> 5`, is left with no
edge. -/
theorem addAllEdgesTo_adds_nothing :
    pairGraph.vertexMap.map (fun p => (p.1, p.2.id, p.2.adj))
      = [(0, 0, [(1, 5)]), (1, 1, [(0, 5)])] ∧
    (pairGraph.removeAllEdgesTo 0).map
        (fun r => (r.1, r.2.vertexMap.map (fun p => (p.1, p.2.adj))))
      = some ([(1, 5)], [(0, []), (1, [(0, 5)])]) ∧
    ((pairGraph.removeAllEdgesTo 0).bind (fun r => r.2.addAllEdgesTo 0 r.1)).map
        (fun g => g.vertexMap.map (fun p => (p.1, p.2.adj)))
      = some [(0, []), (1, [(0, 5)])] := by
  decide!

end Projeto2

namespace Project1

/-- C27, evaluated at `chainNet` : when `removeStationCompare("PS1")` has returned, the
two links of the network are enabled with the end points and capacities they had, but
the Sink `C1` (node 2), which had no outgoing link, owns the links 3 and 5 to nodes
coded `C_0`, and the Source `R1` (node 0), which had no incoming link, has the
incoming links 2 and 4 from nodes coded `R_0`. -/
theorem removeStationCompare_leaves_links :
    (chainNet.2.locs 2).adj = [] ∧ (chainNet.2.locs 0).incoming = [] ∧
    chainNet.2.nextPipe = 2 ∧
    ((removeStationCompare 20 chainNet.1 chainNet.2 "PS1").heap).map
        (fun h => (List.range 2).map (fun e => ((h.pipes e).orig, (h.pipes e).dest,
            (h.pipes e).weight, (h.pipes e).activated)))
      = some [(0, 1, 10, true), (1, 2, 6, true)] ∧
    ((removeStationCompare 20 chainNet.1 chainNet.2 "PS1").heap).map
        (fun h => ((h.locs 2).adj, (h.locs 0).incoming))
      = some ([3, 5], [2, 4]) ∧
    ((removeStationCompare 20 chainNet.1 chainNet.2 "PS1").heap).map
        (fun h => [(h.locs (h.pipes 3).dest).code, (h.locs (h.pipes 5).dest).code,
          (h.locs (h.pipes 2).orig).code, (h.locs (h.pipes 4).orig).code])
      = some ["C_0", "C_0", "R_0", "R_0"] ∧
    (List.range 2).map (fun e => ((chainNet.2.pipes e).orig, (chainNet.2.pipes e).dest,
        (chainNet.2.pipes e).weight, (chainNet.2.pipes e).activated))
      = [(0, 1, 10, true), (1, 2, 6, true)] ∧
    (removeStationCompare 20 chainNet.1 chainNet.2 "PS1").value
      = some [{ cityName := "City1", cityCode := "C1", demand := 6, totalFlow := 6,
                affectedTotalFlow := 0 }] := by
  decide!

/-- C29, evaluated at `chainNet` : `removeVertex("C1")` returns true and takes the Sink
out of the node list, but the city map still holds the entry `C1`, whose pointer is the
object that `removeVertex` has deleted, and the pipe map still holds the entry `PS1|C1`;
a following `addVertexCity` with the code `C1` returns false although `findVertex("C1")`
finds no node. Likewise `removeEdge("R1", "PS1")` returns true and leaves the entry
`R1|PS1` in the pipe map. Nothing is stated about a read through the stale entries:
the object they point to is freed. -/
theorem removeVertex_keeps_map_entries :
    (removeVertex chainNet.1 chainNet.2 "C1").1 = true ∧
    (removeVertex chainNet.1 chainNet.2 "C1").2.1.vertexSet = [0, 1] ∧
    (removeVertex chainNet.1 chainNet.2 "C1").2.1.mapCities = [("C1", 2)] ∧
    (removeVertex chainNet.1 chainNet.2 "C1").2.1.mapPipes = [("R1|PS1", 0), ("PS1|C1", 1)] ∧
    findVertex (removeVertex chainNet.1 chainNet.2 "C1").2.1
      (removeVertex chainNet.1 chainNet.2 "C1").2.2 "C1" = none ∧
    (addVertexCity (removeVertex chainNet.1 chainNet.2 "C1").2.1
      (removeVertex chainNet.1 chainNet.2 "C1").2.2 "City1" 1 "C1" 6 1000).1 = false ∧
    mapFind (removeVertex chainNet.1 chainNet.2 "C1").2.1.mapCities "C1" = some 2 ∧
    2 ∉ (removeVertex chainNet.1 chainNet.2 "C1").2.1.vertexSet ∧
    (removeEdge chainNet.1 chainNet.2 "R1" "PS1").1 = true ∧
    ((removeEdge chainNet.1 chainNet.2 "R1" "PS1").2.locs 0).adj = [] ∧
    mapFind chainNet.1.mapPipes "R1|PS1" = some 0 := by
  decide!

end Project1

namespace Project1

/-! ## Backward traversal and the enabled flag -/

/-- C23 fails: in `backNet` the link `A -> S` (pipe 0) enters the start vertex `S`
(node 0), carries flow 3, is disabled, and its origin `A` (node 1) is unvisited; the
search from `S` for `T` (node 2) does not traverse it backward: it returns false with
`A` and `T` unvisited. With the same link enabled the search reaches `A` and `T`. -/
theorem disabled_link_not_traversed :
    (backNet.2.locs 0).incoming = [0] ∧
    (backNet.2.pipes 0).orig = 1 ∧ (backNet.2.pipes 0).dest = 0 ∧
    (backNet.2.pipes 0).flow = 3 ∧ (backNet.2.pipes 0).activated = false ∧
    (backNet.2.locs 1).visited = false ∧
    (processIncoming (setVisited backNet.2 0 true, []) (backNet.2.locs 0).incoming).2 = [] ∧
    (findAugmentingPath 10 backNet.1 backNet.2 0 2).map
        (fun r => (r.1, (List.range 3).map (fun v => (r.2.locs v).visited)))
      = some (false, [true, false, false]) ∧
    (findAugmentingPath 10 backNet.1 (setActivated backNet.2 0 true) 0 2).map
        (fun r => (r.1, (List.range 3).map (fun v => (r.2.locs v).visited)))
      = some (true, [true, true, true]) := by
  decide

/-- C23 as amended: `testAndVisit` marks and enqueues `w` exactly when `w` is unvisited,
the residual is positive and the link is enabled, and does nothing otherwise; the loop
over the incoming links calls it with the origin of the link and its flow, so a link is
traversed backward exactly when its origin is unvisited, its flow is positive and it is
enabled, and a disabled link is never traversed. On a consistent heap every vertex of
the graph that a returned `findAugmentingPath` left marked visited, other than the
start, has in `path` an enabled link, taken forward with `flow < capacity` or backward
with `flow > 0`. -/
theorem backward_needs_enabled :
    (∀ (st : Heap × List Nat) (e w : Nat) (r : Int),
      testAndVisit st e w r =
        if (st.1.locs w).visited = false ∧ 0 < r ∧ (st.1.pipes e).activated = true then
          (setPath (setVisited st.1 w true) w (some e), st.2 ++ [w])
        else st) ∧
    (∀ (st : Heap × List Nat) (e : Nat) (es : List Nat),
      processIncoming st (e :: es) =
        processIncoming (testAndVisit st e (st.1.pipes e).orig (st.1.pipes e).flow) es) ∧
    (∀ (st : Heap × List Nat) (e w : Nat) (r : Int),
      (st.1.pipes e).activated = false → testAndVisit st e w r = st) ∧
    (∀ (fuel : Nat) (g : Graph) (h : Heap) (s t : Nat) (r : Bool × Heap),
      HeapOK h → s < h.nextLoc → findAugmentingPath fuel g h s t = some r →
      ∀ x ∈ g.vertexSet, x ≠ s → (r.2.locs x).visited = true →
        ∃ e, (r.2.locs x).path = some e ∧ (r.2.pipes e).activated = true ∧
          (((r.2.pipes e).dest = x ∧ (r.2.pipes e).flow < (r.2.pipes e).weight) ∨
           ((r.2.pipes e).dest ≠ x ∧ (r.2.pipes e).orig = x ∧ 0 < (r.2.pipes e).flow))) := by
  refine ⟨fun st e w r => ?_, fun st e es => processIncoming_cons st e es,
    fun st e w r ha => testAndVisit_skip (Or.inr (Or.inr ha)), ?_⟩
  · unfold testAndVisit
    by_cases hc : (st.1.locs w).visited = false ∧ 0 < r ∧ (st.1.pipes e).activated = true
    · rw [if_pos hc]
      obtain ⟨c1, c2, c3⟩ := hc
      simp [c1, c2, c3]
    · rw [if_neg hc]
      split
      · rename_i hg
        simp only [Bool.and_eq_true, Bool.not_eq_true', decide_eq_true_eq] at hg
        exact absurd ⟨hg.1.1, hg.1.2, hg.2⟩ hc
      · rfl
  · intro fuel g h s t r ok hs he x hx hxs hv
    obtain ⟨_, _, h0, T, M⟩ := findAugmentingPath_hunt ok hs he
    obtain ⟨_, e, p, a, b⟩ := T x (M x hx hxs hv) hxs
    refine ⟨e, p, a, ?_⟩
    rcases b with ⟨b1, _, b3, _⟩ | ⟨b1, b2, _, b4, _⟩
    · exact Or.inl ⟨b1, b3⟩
    · exact Or.inr ⟨b1, b2, b4⟩

end Project1

namespace Project1

/-! ## One augmentation -/

/-- One turn of the loop of `edmondsKarp` in exact arithmetic: on a well-formed network
whose flow respects capacities and conservation,
with distinct terminals `s`, `t` of the network and enough fuel, `findAugmentingPath`
returns, leaving the pipes as they are. When it returns true, the walk back from `t`
along the `path` fields reaches `s` after the finitely many links `l`, each enabled
and with positive residual in the direction it is traversed (`capacity - flow`
forward, `flow` backward); `findMinResidualAlongPath` returns the minimum of these
residuals, which is strictly positive; and `augmentFlowAlongPath` with that bottleneck
returns a heap in which the net flow out of `s` is larger by exactly the bottleneck and
the flow still respects `0 <= flow <= capacity` on every link of the path (and of the
network) and conservation. -/
theorem augmenting_path_pushes (g : Graph) (h : Heap) (s t fuel : Nat)
    (wf : WF h g.vertexSet) (inv : FlowInv h g.vertexSet s t)
    (hs : s ∈ g.vertexSet) (ht : t ∈ g.vertexSet) (hst : s ≠ t)
    (hfuel : g.vertexSet.length + (allPipes h g.vertexSet).length + 2 ≤ fuel) :
    ∃ h1, findAugmentingPath fuel g h s t = some ((h1.locs t).visited, h1) ∧
      h1.pipes = h.pipes ∧
      ((h1.locs t).visited = true →
        ∃ l, walkEdges fuel h1 s t = some l ∧ TreePath h1 g.vertexSet s t l ∧
          (∀ p ∈ l, p.1 ∈ allPipes h1 g.vertexSet ∧ (h1.pipes p.1).activated = true ∧
            0 < residual h1 p) ∧
          findMinResidualAlongPath fuel h1 s t = some (bottleneck h1 l INF) ∧
          0 < bottleneck h1 l INF ∧
          (∀ p ∈ l, bottleneck h1 l INF ≤ residual h1 p) ∧
          ∃ h2, augmentFlowAlongPath fuel h1 s t (bottleneck h1 l INF) = some h2 ∧
            flowValue h1 s = flowValue h s ∧
            flowValue h2 s = flowValue h1 s + bottleneck h1 l INF ∧
            FlowInv h2 g.vertexSet s t ∧
            (∀ p ∈ l, 0 ≤ (h2.pipes p.1).flow ∧
              (h2.pipes p.1).flow ≤ (h2.pipes p.1).weight)) := by
  obtain ⟨h1, e1, post⟩ := findAugmentingPath_spec (t := t) wf hs fuel (by omega)
  have net1 : SameNet h h1 :=
    ⟨post.adj, post.incoming, fun e => by rw [post.pipes], fun e => by rw [post.pipes],
     fun e => by rw [post.pipes], fun e => by rw [post.pipes], fun e => by rw [post.pipes]⟩
  have inv1 : FlowInv h1 g.vertexSet s t := inv.congr post.pipes post.adj post.incoming
  have wf1 := net1.wf wf
  refine ⟨h1, e1, post.pipes, fun hvis => ?_⟩
  obtain ⟨l, tp⟩ := post.tree t ht hvis
  have hlen : l.length < fuel := by
    have := tp.length_le
    rw [net1.allPipes] at this
    omega
  have hw := walkEdges_of_treePath tp fuel hlen
  obtain ⟨hpos, inv2, hval⟩ := augment_step wf1 inv1 tp hst hs
  have net2 := applyPush_sameNet (bottleneck h1 l INF) l h1
  have e2 : findMinResidualAlongPath fuel h1 s t = some (bottleneck h1 l INF) := by
    unfold findMinResidualAlongPath
    rw [minResidualWalk_eq, hw]; rfl
  have e3 : augmentFlowAlongPath fuel h1 s t (bottleneck h1 l INF)
      = some (applyPush (bottleneck h1 l INF) l h1) := by
    unfold augmentFlowAlongPath
    rw [augmentWalk_eq, hw]; rfl
  refine ⟨l, hw, tp, fun p hp => ⟨tp.edges_owned p hp, tp.activated p hp, tp.residual_pos p hp⟩,
    e2, hpos, (bottleneck_le h1 l INF).2, _, e3,
    flowValue_congr post.pipes post.adj post.incoming s, hval, inv2, fun p hp => ?_⟩
  have hm : p.1 ∈ allPipes (applyPush (bottleneck h1 l INF) l h1) g.vertexSet := by
    rw [net2.allPipes]; exact tp.edges_owned p hp
  exact inv2.bounds p.1 hm

theorem augmenting_path_pushes_witness :
    WF chainNet.2 chainNet.1.vertexSet ∧
    ∃ h1, findAugmentingPath 10 chainNet.1 chainNet.2 0 2 = some ((h1.locs 2).visited, h1) ∧
      h1.pipes = chainNet.2.pipes ∧
      ((h1.locs 2).visited = true →
        ∃ l, walkEdges 10 h1 0 2 = some l ∧ TreePath h1 chainNet.1.vertexSet 0 2 l ∧
          (∀ p ∈ l, p.1 ∈ allPipes h1 chainNet.1.vertexSet ∧
            (h1.pipes p.1).activated = true ∧ 0 < residual h1 p) ∧
          findMinResidualAlongPath 10 h1 0 2 = some (bottleneck h1 l INF) ∧
          0 < bottleneck h1 l INF ∧
          (∀ p ∈ l, bottleneck h1 l INF ≤ residual h1 p) ∧
          ∃ h2, augmentFlowAlongPath 10 h1 0 2 (bottleneck h1 l INF) = some h2 ∧
            flowValue h1 0 = flowValue chainNet.2 0 ∧
            flowValue h2 0 = flowValue h1 0 + bottleneck h1 l INF ∧
            FlowInv h2 chainNet.1.vertexSet 0 2 ∧
            (∀ p ∈ l, 0 ≤ (h2.pipes p.1).flow ∧
              (h2.pipes p.1).flow ≤ (h2.pipes p.1).weight)) :=
  ⟨by decide,
    augmenting_path_pushes chainNet.1 chainNet.2 0 2 10 (by decide)
      ⟨by decide, by decide, by decide⟩ (by decide) (by decide) (by decide) (by decide)⟩

end Project1

namespace Project1

/-! ## The links `addR0C0` adds -/

end Project1

namespace Project1

/-! ## The perturbed solve of the Relay query -/

/-- C26, evaluated at a Relay that carries a reserved code (each `addVertex` function
looks a code up in the map of its own role only, so `addR0C0` creates the synthetic
Source `R_0` next to it) : in `clashNet` (Relay coded `R_0` at node 0, Source `R1` at
node 1, Sink `C1` at node 2) the perturbed solve of
`removeStationCompare("R_0")` runs from the Relay itself, which `findVertex` returns for
the code `R_0` : every search of that solve leaves the Relay visited, and after the
solve its two outgoing links (pipes 1 and 3, both to `R1`) carry 5 each. -/
theorem removeStationCompare_reserved_relay :
    mapFind clashNet.1.mapStations "R_0" = some 0 ∧
    findVertex
      (addR0C0 clashNet.1
        ((((getCitiesFlow 20 clashNet.1 clashNet.2 true "" "").heap.getD clashNet.2).locs
            0).incoming.foldl (fun h e => setActivated h e false)
          ((getCitiesFlow 20 clashNet.1 clashNet.2 true "" "").heap.getD clashNet.2)) "").1
      (addR0C0 clashNet.1
        ((((getCitiesFlow 20 clashNet.1 clashNet.2 true "" "").heap.getD clashNet.2).locs
            0).incoming.foldl (fun h e => setActivated h e false)
          ((getCitiesFlow 20 clashNet.1 clashNet.2 true "" "").heap.getD clashNet.2)) "").2
      "R_0" = some 0 ∧
    findVertex
      (addR0C0 clashNet.1
        ((((getCitiesFlow 20 clashNet.1 clashNet.2 true "" "").heap.getD clashNet.2).locs
            0).incoming.foldl (fun h e => setActivated h e false)
          ((getCitiesFlow 20 clashNet.1 clashNet.2 true "" "").heap.getD clashNet.2)) "").1
      (addR0C0 clashNet.1
        ((((getCitiesFlow 20 clashNet.1 clashNet.2 true "" "").heap.getD clashNet.2).locs
            0).incoming.foldl (fun h e => setActivated h e false)
          ((getCitiesFlow 20 clashNet.1 clashNet.2 true "" "").heap.getD clashNet.2)) "").2
      "C_0" = some 6 ∧
    (bfsTrace 20 20
      (addR0C0 clashNet.1
        ((((getCitiesFlow 20 clashNet.1 clashNet.2 true "" "").heap.getD clashNet.2).locs
            0).incoming.foldl (fun h e => setActivated h e false)
          ((getCitiesFlow 20 clashNet.1 clashNet.2 true "" "").heap.getD clashNet.2)) "").1
      0 6
      (resetFlows
        (addR0C0 clashNet.1
          ((((getCitiesFlow 20 clashNet.1 clashNet.2 true "" "").heap.getD clashNet.2).locs
              0).incoming.foldl (fun h e => setActivated h e false)
            ((getCitiesFlow 20 clashNet.1 clashNet.2 true "" "").heap.getD clashNet.2)) "").1
        (addR0C0 clashNet.1
          ((((getCitiesFlow 20 clashNet.1 clashNet.2 true "" "").heap.getD clashNet.2).locs
              0).incoming.foldl (fun h e => setActivated h e false)
            ((getCitiesFlow 20 clashNet.1 clashNet.2 true "" "").heap.getD clashNet.2))
          "").2)).map (fun l => l.map (fun x => (x.locs 0).visited))
      = some [true, true, true] ∧
    (stationFlows 20 clashNet.1 clashNet.2 "R_0").value.map
        (fun p => (p.1.map (fun c => (c.cityCode, c.totalFlow)),
          p.2.map (fun c => (c.cityCode, c.totalFlow))))
      = some ([("C1", 5)], [("C1", 10)]) ∧
    (stationFlows 20 clashNet.1 clashNet.2 "R_0").heap.map
        (fun h => ((h.locs 0).adj,
          (h.locs 0).adj.map (fun e => ((h.pipes e).orig, (h.pipes e).dest, (h.pipes e).flow))))
      = some ([1, 3], [(0, 1, 5), (0, 1, 5)]) := by
  decide!

/-- The nominated Relay away from the reserved codes: on a consistent heap whose links
are listed at both ends and whose
graph nodes are allocated, let `S` be the node registered in the Relay map under `code`,
a node of the graph whose code is not `R_0`, not `C_0` and not a key of the Source map,
and whose entering links are owned by nodes of the graph. When the two solves of
`removeStationCompare(code)` return, the second one was started with every link entering
`S` disabled; each search of its `edmondsKarp` (the heaps listed by `bfsTrace`) leaves
`S` unvisited; and in the heap it returns every link leaving `S` carries flow 0 and
every link entering `S` is disabled and carries flow 0. -/
theorem relay_cut_off (fuel : Nat) (this : Graph) (h : Heap) (code : String) (S : Nat)
    (ok : HeapOK h) (pr : Paired h) (al : ∀ v ∈ this.vertexSet, v < h.nextLoc)
    (hS : S ∈ this.vertexSet) (hst : mapFind this.mapStations code = some S)
    (c1 : (h.locs S).code ≠ "R_0") (c2 : (h.locs S).code ≠ "C_0")
    (c3 : ∀ q ∈ this.mapReservoirs, q.1 ≠ (h.locs S).code)
    (own : ∀ e ∈ (h.locs S).incoming, e ∈ allPipes h this.vertexSet) :
    ∀ p h3, stationFlows fuel this h code = Result.ok p h3 →
      ∃ og h1, getCitiesFlow fuel this h true "" "" = Result.ok og h1 ∧
        getCitiesFlow fuel this
          ((h1.locs S).incoming.foldl (fun h e => setActivated h e false) h1)
          true "" "" = Result.ok p.2 h3 ∧
        (∃ s t tc,
          findVertex
            (addR0C0 this
              ((h1.locs S).incoming.foldl (fun h e => setActivated h e false) h1) "").1
            (addR0C0 this
              ((h1.locs S).incoming.foldl (fun h e => setActivated h e false) h1) "").2
            "R_0" = some s ∧
          findVertex
            (addR0C0 this
              ((h1.locs S).incoming.foldl (fun h e => setActivated h e false) h1) "").1
            (addR0C0 this
              ((h1.locs S).incoming.foldl (fun h e => setActivated h e false) h1) "").2
            "C_0" = some t ∧
          bfsTrace fuel fuel
            (addR0C0 this
              ((h1.locs S).incoming.foldl (fun h e => setActivated h e false) h1) "").1
            s t
            (resetFlows
              (addR0C0 this
                ((h1.locs S).incoming.foldl (fun h e => setActivated h e false) h1) "").1
              (addR0C0 this
                ((h1.locs S).incoming.foldl (fun h e => setActivated h e false) h1) "").2)
            = some tc ∧
          ∀ x ∈ tc, (x.locs S).visited = false) ∧
        (∀ e ∈ (h3.locs S).adj, (h3.pipes e).flow = 0) ∧
        (∀ e ∈ (h3.locs S).incoming,
          (h3.pipes e).activated = false ∧ (h3.pipes e).flow = 0) :=
  fun _ _ he => stationFlows_cutOff ok pr al hS hst c1 c2 c3 own he

theorem relay_cut_off_witness :
    (HeapOK relayNet.2 ∧ Paired relayNet.2 ∧
      (∀ v ∈ relayNet.1.vertexSet, v < relayNet.2.nextLoc) ∧
      mapFind relayNet.1.mapStations "PS1" = some 1 ∧
      (relayNet.2.locs 1).adj = [1, 2] ∧ (relayNet.2.locs 1).incoming = [0]) ∧
    (stationFlows 20 relayNet.1 relayNet.2 "PS1").value.map
        (fun p => (p.1.map (fun c => (c.cityCode, c.totalFlow)),
          p.2.map (fun c => (c.cityCode, c.totalFlow))))
      = some ([("C1", 8)], [("C1", 3)]) ∧
    ∃ og h1, getCitiesFlow 20 relayNet.1 relayNet.2 true "" "" = Result.ok og h1 ∧
      getCitiesFlow 20 relayNet.1
        ((h1.locs 1).incoming.foldl (fun h e => setActivated h e false) h1)
        true "" ""
        = Result.ok [{ cityName := "City1", cityCode := "C1", demand := 8, totalFlow := 3,
                       affectedTotalFlow := 0 }]
            ((stationFlows 20 relayNet.1 relayNet.2 "PS1").heap.getD relayNet.2) ∧
      (∃ s t tc,
        findVertex
          (addR0C0 relayNet.1
            ((h1.locs 1).incoming.foldl (fun h e => setActivated h e false) h1) "").1
          (addR0C0 relayNet.1
            ((h1.locs 1).incoming.foldl (fun h e => setActivated h e false) h1) "").2
          "R_0" = some s ∧
        findVertex
          (addR0C0 relayNet.1
            ((h1.locs 1).incoming.foldl (fun h e => setActivated h e false) h1) "").1
          (addR0C0 relayNet.1
            ((h1.locs 1).incoming.foldl (fun h e => setActivated h e false) h1) "").2
          "C_0" = some t ∧
        bfsTrace 20 20
          (addR0C0 relayNet.1
            ((h1.locs 1).incoming.foldl (fun h e => setActivated h e false) h1) "").1
          s t
          (resetFlows
            (addR0C0 relayNet.1
              ((h1.locs 1).incoming.foldl (fun h e => setActivated h e false) h1) "").1
            (addR0C0 relayNet.1
              ((h1.locs 1).incoming.foldl (fun h e => setActivated h e false) h1) "").2)
          = some tc ∧
        ∀ x ∈ tc, (x.locs 1).visited = false) ∧
      (∀ e ∈ (((stationFlows 20 relayNet.1 relayNet.2 "PS1").heap.getD relayNet.2).locs 1).adj,
        (((stationFlows 20 relayNet.1 relayNet.2 "PS1").heap.getD relayNet.2).pipes e).flow
          = 0) ∧
      (∀ e ∈ (((stationFlows 20 relayNet.1 relayNet.2 "PS1").heap.getD
          relayNet.2).locs 1).incoming,
        (((stationFlows 20 relayNet.1 relayNet.2 "PS1").heap.getD
            relayNet.2).pipes e).activated = false ∧
        (((stationFlows 20 relayNet.1 relayNet.2 "PS1").heap.getD relayNet.2).pipes e).flow
          = 0) :=
  ⟨⟨by decide, by decide, by decide, by decide, by decide, by decide⟩, by decide!,
    relay_cut_off 20 relayNet.1 relayNet.2 "PS1" 1 (by decide) (by decide) (by decide)
      (by decide) (by decide) (by decide) (by decide) (by decide) (by decide)
      ([{ cityName := "City1", cityCode := "C1", demand := 8, totalFlow := 8,
          affectedTotalFlow := 0 }],
       [{ cityName := "City1", cityCode := "C1", demand := 8, totalFlow := 3,
          affectedTotalFlow := 0 }])
      ((stationFlows 20 relayNet.1 relayNet.2 "PS1").heap.getD relayNet.2)
      (Result.eq_ok_of_value relayNet.2 (by decide!))⟩

end Project1

namespace Project1

/-! ## The structural invariant of the network -/

/-- C28: start from the empty Graph and make any sequence of `addVertexReservoir`,
`addVertexStation`, `addVertexCity`, `addEdge`, `addBidirectionalEdge`,
`Graph::removeEdge` and `removeVertex` calls in which no two node-adding calls give the
same code. Then the network is well formed and its node codes are pairwise distinct;
in particular a link `e` is in the outgoing list of a node `u` exactly when
`origin(e) = u`, the destination of `e` is a node of the network and `e` is in the
incoming list of that destination; and every link in the incoming list of a node ends
at it, starts at a node of the network and is in the outgoing list of its origin. -/
theorem links_stay_paired (ops : List Op) (hu : (ops.filterMap Op.newCode).Nodup) :
    WF (runOps ops (Graph.empty, Heap.empty)).2
      (runOps ops (Graph.empty, Heap.empty)).1.vertexSet ∧
    ((runOps ops (Graph.empty, Heap.empty)).1.vertexSet.map
      (fun v => ((runOps ops (Graph.empty, Heap.empty)).2.locs v).code)).Nodup ∧
    (∀ u ∈ (runOps ops (Graph.empty, Heap.empty)).1.vertexSet, ∀ e,
      e ∈ ((runOps ops (Graph.empty, Heap.empty)).2.locs u).adj ↔
        (((runOps ops (Graph.empty, Heap.empty)).2.pipes e).orig = u ∧
          ((runOps ops (Graph.empty, Heap.empty)).2.pipes e).dest
            ∈ (runOps ops (Graph.empty, Heap.empty)).1.vertexSet ∧
          e ∈ ((runOps ops (Graph.empty, Heap.empty)).2.locs
            ((runOps ops (Graph.empty, Heap.empty)).2.pipes e).dest).incoming)) ∧
    (∀ x ∈ (runOps ops (Graph.empty, Heap.empty)).1.vertexSet,
      ∀ e ∈ ((runOps ops (Graph.empty, Heap.empty)).2.locs x).incoming,
        ((runOps ops (Graph.empty, Heap.empty)).2.pipes e).dest = x ∧
        ((runOps ops (Graph.empty, Heap.empty)).2.pipes e).orig
          ∈ (runOps ops (Graph.empty, Heap.empty)).1.vertexSet ∧
        e ∈ ((runOps ops (Graph.empty, Heap.empty)).2.locs
          ((runOps ops (Graph.empty, Heap.empty)).2.pipes e).orig).adj) := by
  have S := runOps_sound ops [] (Graph.empty, Heap.empty) Sound.empty
    (fun v hv => by cases hv) (by simpa using hu)
  generalize runOps ops (Graph.empty, Heap.empty) = st at S
  have wf := S.wf
  refine ⟨wf, S.codes, fun u hu1 e => ⟨fun he => wf.adj_ok u hu1 e he, fun hh => ?_⟩,
    fun x hx e he => wf.inc_ok x hx e he⟩
  obtain ⟨q1, q2, q3⟩ := hh
  have := (wf.inc_ok _ q2 e q3).2.2
  rw [q1] at this
  exact this

theorem links_stay_paired_witness :
    ([Op.addVertexStation 1 "A", Op.addVertexStation 2 "B", Op.addVertexStation 3 "C",
      Op.addEdge "A" "B" 3, Op.addEdge "A" "B" 4, Op.addBidirectionalEdge "B" "C" 5,
      Op.removeEdge "A" "B", Op.removeVertex "C"].filterMap Op.newCode).Nodup ∧
    (runOps [Op.addVertexStation 1 "A", Op.addVertexStation 2 "B", Op.addVertexStation 3 "C",
      Op.addEdge "A" "B" 3, Op.addEdge "A" "B" 4, Op.addBidirectionalEdge "B" "C" 5,
      Op.removeEdge "A" "B", Op.removeVertex "C"] (Graph.empty, Heap.empty)).1.vertexSet
      = [0, 1] ∧
    WF (runOps [Op.addVertexStation 1 "A", Op.addVertexStation 2 "B",
      Op.addVertexStation 3 "C", Op.addEdge "A" "B" 3, Op.addEdge "A" "B" 4,
      Op.addBidirectionalEdge "B" "C" 5, Op.removeEdge "A" "B", Op.removeVertex "C"]
      (Graph.empty, Heap.empty)).2
      (runOps [Op.addVertexStation 1 "A", Op.addVertexStation 2 "B",
      Op.addVertexStation 3 "C", Op.addEdge "A" "B" 3, Op.addEdge "A" "B" 4,
      Op.addBidirectionalEdge "B" "C" 5, Op.removeEdge "A" "B", Op.removeVertex "C"]
      (Graph.empty, Heap.empty)).1.vertexSet :=
  ⟨by decide, by decide,
    (links_stay_paired [Op.addVertexStation 1 "A", Op.addVertexStation 2 "B",
      Op.addVertexStation 3 "C", Op.addEdge "A" "B" 3, Op.addEdge "A" "B" 4,
      Op.addBidirectionalEdge "B" "C" 5, Op.removeEdge "A" "B", Op.removeVertex "C"]
      (by decide)).1⟩

end Project1

namespace Project1

/-! ## The flow reported for a Sink without outgoing link -/

/-- The flow reported for a sink in exact arithmetic: on a ready network (well formed,
reserved codes free) with non-negative
capacities, maximum deliveries and demands, sound lookup maps and pairwise distinct node
codes, let `p` be the `j`-th entry of the Sink map and let its node have no outgoing
link. In the list returned by `getCitiesFlow(true, ., removeR)` the `j`-th record, and
in the list returned by `getCitiesFlow(false, key, removeR)` the only record, carries
the key as code and the demand of the node; its flow is the sum of the flows on the
links entering the node; in the heap left by the call the node has exactly one outgoing
link, the pipe `m + |R| + j` that `addR0C0` created from the node to `C_0` with the
demand as capacity, and the reported flow is the flow on that link, between 0 and the
demand. -/
theorem sink_flow_is_link_flow (fuel : Nat) (this : Graph) (h : Heap) (removeR : String)
    (rd : QueryReady this h) (caps : QueryCaps this h) (ms : MapsSound this h)
    (uc : (this.vertexSet.map (fun v => (h.locs v).code)).Nodup)
    (htr : removeR ≠ "R_0") (j : Nat) (p : String × Nat)
    (hj : this.mapCities[j]? = some p) (hout : (h.locs p.2).adj = []) :
    (∀ oneCity l h1, getCitiesFlow fuel this h true oneCity removeR = Result.ok l h1 →
      l.length = this.mapCities.length ∧
      ∃ r, l[j]? = some r ∧ r.cityCode = p.1 ∧ r.demand = (h.locs p.2).getDemand ∧
        r.totalFlow = inflow h1 p.2 ∧
        (h1.locs p.2).adj = [h.nextPipe + this.mapReservoirs.length + j] ∧
        (h1.pipes (h.nextPipe + this.mapReservoirs.length + j)).orig = p.2 ∧
        (h1.pipes (h.nextPipe + this.mapReservoirs.length + j)).dest = h.nextLoc + 1 ∧
        (h1.locs (h.nextLoc + 1)).code = "C_0" ∧
        (h1.pipes (h.nextPipe + this.mapReservoirs.length + j)).weight
          = (h.locs p.2).getDemand ∧
        r.totalFlow = (h1.pipes (h.nextPipe + this.mapReservoirs.length + j)).flow ∧
        0 ≤ r.totalFlow ∧ r.totalFlow ≤ r.demand) ∧
    (∀ l h1, getCitiesFlow fuel this h false p.1 removeR = Result.ok l h1 →
      ∃ r, l = [r] ∧ r.cityCode = p.1 ∧ r.demand = (h.locs p.2).getDemand ∧
        r.totalFlow = inflow h1 p.2 ∧
        (h1.locs p.2).adj = [h.nextPipe + this.mapReservoirs.length + j] ∧
        (h1.pipes (h.nextPipe + this.mapReservoirs.length + j)).orig = p.2 ∧
        (h1.pipes (h.nextPipe + this.mapReservoirs.length + j)).dest = h.nextLoc + 1 ∧
        (h1.locs (h.nextLoc + 1)).code = "C_0" ∧
        (h1.pipes (h.nextPipe + this.mapReservoirs.length + j)).weight
          = (h.locs p.2).getDemand ∧
        r.totalFlow = (h1.pipes (h.nextPipe + this.mapReservoirs.length + j)).flow ∧
        0 ≤ r.totalFlow ∧ r.totalFlow ≤ r.demand) := by
  constructor
  · intro oneCity l h1 he
    obtain ⟨u, h2, e1, c1, c4, c5, c6, rec⟩ := getCitiesFlow_all rd htr he
    obtain ⟨s0, S⟩ := solved_sink rd caps ms uc htr e1
    obtain ⟨s1, s2, s3, s4, s5⟩ := S j p hj
    obtain ⟨t1, t2, t3, t4, t5, t6, t7⟩ := s5 hout
    have hin : inflow h1 p.2 = inflow h2 p.2 := by
      unfold inflow inflowOf
      rw [flowOf_congr c1, c5]
    refine ⟨by rw [rec, List.length_map], _, by rw [rec, List.getElem?_map, hj]; rfl,
      s2, getDemand_of_kind s3, by rw [hin]; exact s4, by rw [c4]; exact t1,
      by rw [c1]; exact t2, by rw [c1]; exact t3, by rw [c6]; exact s0,
      by rw [c1]; exact t4, by rw [c1]; exact t5, ?_, ?_⟩
    · show 0 ≤ maxFlowInto (addR0C0 this h removeR).1 h2 p.1
      rw [t5]; exact t6
    · show maxFlowInto (addR0C0 this h removeR).1 h2 p.1 ≤ (h2.locs p.2).getDemand
      rw [t5, getDemand_of_kind s3]; exact t7
  · intro l h1 he
    obtain ⟨u, h2, e1, c1, c4, c5, c6, rec⟩ :=
      getCitiesFlow_one rd ms htr (List.getElem?_mem hj) he
    obtain ⟨s0, S⟩ := solved_sink rd caps ms uc htr e1
    obtain ⟨s1, s2, s3, s4, s5⟩ := S j p hj
    obtain ⟨t1, t2, t3, t4, t5, t6, t7⟩ := s5 hout
    have hin : inflow h1 p.2 = inflow h2 p.2 := by
      unfold inflow inflowOf
      rw [flowOf_congr c1, c5]
    rw [s2] at rec
    refine ⟨_, rec, rfl, getDemand_of_kind s3, by rw [hin]; exact s4, by rw [c4]; exact t1,
      by rw [c1]; exact t2, by rw [c1]; exact t3, by rw [c6]; exact s0,
      by rw [c1]; exact t4, by rw [c1]; exact t5, ?_, ?_⟩
    · show 0 ≤ maxFlowInto (addR0C0 this h removeR).1 h2 p.1
      rw [t5]; exact t6
    · show maxFlowInto (addR0C0 this h removeR).1 h2 p.1 ≤ (h2.locs p.2).getDemand
      rw [t5, getDemand_of_kind s3]; exact t7

theorem sink_flow_is_link_flow_witness :
    (QueryReady forkNet.1 forkNet.2 ∧ QueryCaps forkNet.1 forkNet.2 ∧
      MapsSound forkNet.1 forkNet.2 ∧
      (forkNet.1.vertexSet.map (fun v => (forkNet.2.locs v).code)).Nodup ∧
      forkNet.1.mapCities[0]? = some ("CA", 1) ∧ (forkNet.2.locs 1).adj = [] ∧
      forkNet.2.nextPipe + forkNet.1.mapReservoirs.length + 0 = 3 ∧
      (getCitiesFlow 20 forkNet.1 forkNet.2 true "" "").heap.map
        (fun h1 => ((h1.pipes 3).orig, (h1.pipes 3).dest, (h1.pipes 3).weight,
          (h1.pipes 3).flow)) = some (1, 4, 5, 5)) ∧
    ([{ cityName := "CityA", cityCode := "CA", demand := 5, totalFlow := 5,
        affectedTotalFlow := 0 },
      { cityName := "CityB", cityCode := "CB", demand := 5, totalFlow := 0,
        affectedTotalFlow := 0 }] : List CityInfo).length = forkNet.1.mapCities.length ∧
    ∃ r : CityInfo,
      ([{ cityName := "CityA", cityCode := "CA", demand := 5, totalFlow := 5,
          affectedTotalFlow := 0 },
        { cityName := "CityB", cityCode := "CB", demand := 5, totalFlow := 0,
          affectedTotalFlow := 0 }] : List CityInfo)[0]? = some r ∧
      r.cityCode = "CA" ∧ r.demand = (forkNet.2.locs 1).getDemand ∧
      r.totalFlow
        = inflow ((getCitiesFlow 20 forkNet.1 forkNet.2 true "" "").heap.getD forkNet.2) 1 ∧
      (((getCitiesFlow 20 forkNet.1 forkNet.2 true "" "").heap.getD forkNet.2).locs 1).adj
        = [forkNet.2.nextPipe + forkNet.1.mapReservoirs.length + 0] ∧
      (((getCitiesFlow 20 forkNet.1 forkNet.2 true "" "").heap.getD forkNet.2).pipes
        (forkNet.2.nextPipe + forkNet.1.mapReservoirs.length + 0)).orig = 1 ∧
      (((getCitiesFlow 20 forkNet.1 forkNet.2 true "" "").heap.getD forkNet.2).pipes
        (forkNet.2.nextPipe + forkNet.1.mapReservoirs.length + 0)).dest
        = forkNet.2.nextLoc + 1 ∧
      (((getCitiesFlow 20 forkNet.1 forkNet.2 true "" "").heap.getD forkNet.2).locs
        (forkNet.2.nextLoc + 1)).code = "C_0" ∧
      (((getCitiesFlow 20 forkNet.1 forkNet.2 true "" "").heap.getD forkNet.2).pipes
        (forkNet.2.nextPipe + forkNet.1.mapReservoirs.length + 0)).weight
        = (forkNet.2.locs 1).getDemand ∧
      r.totalFlow
        = (((getCitiesFlow 20 forkNet.1 forkNet.2 true "" "").heap.getD forkNet.2).pipes
          (forkNet.2.nextPipe + forkNet.1.mapReservoirs.length + 0)).flow ∧
      0 ≤ r.totalFlow ∧ r.totalFlow ≤ r.demand :=
  ⟨⟨by decide, by decide, by decide, by decide, by decide, by decide, by decide, by decide!⟩,
    (sink_flow_is_link_flow 20 forkNet.1 forkNet.2 "" (by decide) (by decide) (by decide)
      (by decide) (by decide) 0 ("CA", 1) (by decide) (by decide)).1 ""
      [{ cityName := "CityA", cityCode := "CA", demand := 5, totalFlow := 5,
         affectedTotalFlow := 0 },
       { cityName := "CityB", cityCode := "CB", demand := 5, totalFlow := 0,
         affectedTotalFlow := 0 }]
      ((getCitiesFlow 20 forkNet.1 forkNet.2 true "" "").heap.getD forkNet.2)
      (Result.eq_ok_of_value forkNet.2 (by decide!))⟩

end Project1

namespace Projeto2

/-! ## The tour returned by the backtracking search -/

/-- C21, the claim as stated fails: a `double` weight can be a NaN (`std::stod` reads
`nan`), and `x < NaN` is false for every `x`. In `nanGraph`, the complete graph on
`0, 1, 2, 3` with weight NaN on the edge `0 - 1` and weight 1 elsewhere,
`backtrackingTSP(0)` keeps the first tour it completes, `0 1 2 3 0`, whose
`pathDistance` is a NaN, although the tour `0 2 1 3 0` has `pathDistance` 4; a NaN is
not less than or equal to 4, so no tour returned is at most as long as every tour. -/
theorem backtrackingTSP_nan_weight :
    nanGraph.Canonical ∧ nanGraph.getNumVertex = 4 ∧
    (Graph.backtrackingTSP (fun _ _ _ _ => 7) 4 nanGraph 0).map (fun r => (r.1, r.2.1))
      = some ([0, 1, 2, 3, 0], some Double.nan) ∧
    IsTour 4 0 [0, 2, 1, 3, 0] ∧
    nanGraph.pathDistance (fun _ _ _ _ => 7) [0, 2, 1, 3, 0] = some 4 ∧
    ¬ (Double.nan ≤ (4 : Double)) ∧
    ¬ ∃ path d g1,
      Graph.backtrackingTSP (fun _ _ _ _ => 7) 4 nanGraph 0 = some (path, some d, g1) ∧
      IsTour nanGraph.getNumVertex 0 path ∧
      nanGraph.pathDistance (fun _ _ _ _ => 7) path = some d ∧
      ∀ q, IsTour nanGraph.getNumVertex 0 q →
        ∃ dq, nanGraph.pathDistance (fun _ _ _ _ => 7) q = some dq ∧ d ≤ dq := by
  have e : (Graph.backtrackingTSP (fun _ _ _ _ => 7) 4 nanGraph 0).map (fun r => (r.1, r.2.1))
      = some ([0, 1, 2, 3, 0], some Double.nan) := by decide!
  have t : IsTour 4 0 [0, 2, 1, 3, 0] := by decide
  have p : nanGraph.pathDistance (fun _ _ _ _ => 7) [0, 2, 1, 3, 0] = some 4 := by decide!
  have n4 : nanGraph.getNumVertex = 4 := by decide
  refine ⟨by decide, n4, e, t, p, by decide, ?_⟩
  rintro ⟨path, d, g1, hr, _, _, hall⟩
  rw [hr] at e
  simp only [Option.map_some', Option.some.injEq, Prod.mk.injEq] at e
  obtain ⟨dq, hq, hle⟩ := hall [0, 2, 1, 3, 0] (by rw [n4]; exact t)
  rw [p] at hq
  rw [← Option.some.inj hq, e.2] at hle
  exact absurd hle (by decide)

/-- C21 as amended: in a graph whose vertex ids are exactly `0, ..., n - 1`, for every
source in that range from which no tour has a NaN as its `pathDistance`,
`backtrackingTSP(source)` returns (with fuel `n` for the depth of the recursion) a tour:
`n + 1` ids, the first and the last are the source, and without the last one they are
every vertex exactly once; `dist` is its `pathDistance`, and every tour from the source
has a `pathDistance` that is greater or equal. For a source that `findVertex` does not
find it returns the empty path and writes no distance. Distances are `double` sums as
the program rounds them and `hav` stands for `getHaversine`. -/
theorem backtrackingTSP_optimal (hav : Double → Double → Double → Double → Double) (g : Graph)
    (hc : g.Canonical) :
    (∀ (source fuel : Nat), source < g.getNumVertex → g.getNumVertex ≤ fuel →
      (∀ q, IsTour g.getNumVertex (source : Int) q →
        g.pathDistance hav q ≠ some Double.nan) →
      ∃ path d g1, Graph.backtrackingTSP hav fuel g (source : Int) = some (path, some d, g1) ∧
        IsTour g.getNumVertex (source : Int) path ∧
        g.pathDistance hav path = some d ∧
        ∀ q, IsTour g.getNumVertex (source : Int) q →
          ∃ dq, g.pathDistance hav q = some dq ∧ d ≤ dq) ∧
    (∀ (source : Int) (fuel : Nat), g.findVertex source = none →
      ∃ g1, Graph.backtrackingTSP hav fuel g source = some ([], none, g1)) := by
  constructor
  · intro source fuel hs hfuel hnan
    have hn : 0 < g.getNumVertex := by omega
    have hN : ∀ q, IsTour g.getNumVertex (source : Int) q → (g.dist hav q).isNaN = false := by
      intro q t
      have hqv := t.valid hn
      have h1 := hnan q t
      rw [pathDistance_some hav hc hqv.1 hqv.2] at h1
      cases hd : g.dist hav q with
      | nan => rw [hd] at h1; exact absurd rfl h1
      | inf s => rfl
      | fin n => rfl
    obtain ⟨v, fv, _⟩ := hc.found hs
    obtain ⟨b', e, t', _, _, a'⟩ := recursiveBacktracking_spec hav hc (s := (source : Int))
      (g.getNumVertex - 1) [(source : Int)] [] fuel
      (by rw [List.length_singleton]; omega) (by omega) rfl (List.nodup_singleton _)
      (fun x hx => ⟨source, hs, List.mem_singleton.1 hx⟩) (Or.inl rfl) hN
    have hv := t'.valid hn
    unfold Graph.backtrackingTSP
    simp only
    rw [← paint_nil, findVertex_paint, fv]
    simp only [Option.map_some']
    rw [paint_push, List.nil_append, e]
    simp only
    rw [pathDistance_paint, pathDistance_some hav hc hv.1 hv.2]
    refine ⟨b', g.dist hav b', _, rfl, t', pathDistance_some hav hc hv.1 hv.2, fun q t => ?_⟩
    have hqv := t.valid hn
    refine ⟨g.dist hav q, pathDistance_some hav hc hqv.1 hqv.2, a' q t ?_⟩
    have hh := t.1
    cases q with
    | nil => cases hh
    | cons x q =>
      simp only [List.head?_cons, Option.some.injEq] at hh
      rw [hh]
      exact ⟨q, rfl⟩
  · intro source fuel hf
    unfold Graph.backtrackingTSP
    simp only
    rw [← paint_nil, findVertex_paint, hf]
    exact ⟨_, rfl⟩

theorem backtrackingTSP_optimal_witness :
    (quadGraph.Canonical ∧ quadGraph.getNumVertex = 4 ∧ quadGraph.NonNeg ∧
      (Graph.backtrackingTSP (fun _ _ _ _ => 7) 4 quadGraph 0).map (fun r => (r.1, r.2.1))
        = some ([0, 1, 3, 2, 0], some 5) ∧
      quadGraph.findVertex 9 = none) ∧
    (∃ path d g1,
      Graph.backtrackingTSP (fun _ _ _ _ => 7) 4 quadGraph ((0 : Nat) : Int)
        = some (path, some d, g1) ∧
      IsTour quadGraph.getNumVertex ((0 : Nat) : Int) path ∧
      quadGraph.pathDistance (fun _ _ _ _ => 7) path = some d ∧
      ∀ q, IsTour quadGraph.getNumVertex ((0 : Nat) : Int) q →
        ∃ dq, quadGraph.pathDistance (fun _ _ _ _ => 7) q = some dq ∧ d ≤ dq) ∧
    ∃ g1, Graph.backtrackingTSP (fun _ _ _ _ => 7) 4 quadGraph 9 = some ([], none, g1) :=
  ⟨⟨by decide, by decide, by decide!, by decide!, by decide⟩,
    (backtrackingTSP_optimal (fun _ _ _ _ => 7) quadGraph (by decide)).1 0 4
      (by decide) (by decide)
      (fun q t hq => by
        have h1 := dist_not_nan (fun _ _ _ _ => 7) (g := quadGraph) (by decide!)
          (fun _ _ _ _ => (by decide! : (0 : Double) ≤ 7)) q
        have h2 := pathDistance_some (fun _ _ _ _ => 7) (g := quadGraph) (by decide)
          (t.valid (by decide)).1 (t.valid (by decide)).2
        rw [h2] at hq
        rw [Option.some.inj hq] at h1
        cases h1),
    (backtrackingTSP_optimal (fun _ _ _ _ => 7) quadGraph (by decide)).2 9 4 (by decide)⟩

end Projeto2

namespace Project1

/-! ## A second solve on the same `Graph` object -/

/-- C2, evaluated at `chainNet` on the heap a first `getCitiesFlow(true)` has left
(`chainNetSolved`) : the second query solves the copy with the nodes `0, 1, 2, 5, 6`,
source `R_0` (node 5) and sink `C_0` (node 6). When `edmondsKarp("R_0", "C_0")` has
returned, the Source `R1` (node 0), a node of that network other than the two
terminals, has the incoming links 2 and 4, both from nodes coded `R_0` and both with
flow 6, and the outgoing link 0 with flow 6: inflow 12, outflow 6. Link 2 is the link
the first query attached to the caller's node; its origin is not a node of the copy,
so the loop that resets the flows never reaches it. -/
theorem second_solve_unbalanced :
    (addR0C0 chainNet.1 chainNetSolved "").1.vertexSet = [0, 1, 2, 5, 6] ∧
    findVertex (addR0C0 chainNet.1 chainNetSolved "").1 (addR0C0 chainNet.1 chainNetSolved "").2
      "R_0" = some 5 ∧
    findVertex (addR0C0 chainNet.1 chainNetSolved "").1 (addR0C0 chainNet.1 chainNetSolved "").2
      "C_0" = some 6 ∧
    (edmondsKarp 20 (addR0C0 chainNet.1 chainNetSolved "").1
      (addR0C0 chainNet.1 chainNetSolved "").2 "R_0" "C_0").value.isSome = true ∧
    ((edmondsKarp 20 (addR0C0 chainNet.1 chainNetSolved "").1
      (addR0C0 chainNet.1 chainNetSolved "").2 "R_0" "C_0").heap).map
        (fun h => ((h.locs 0).code, (h.locs 0).incoming, (h.locs 0).adj,
          [(h.locs (h.pipes 2).orig).code, (h.locs (h.pipes 4).orig).code]))
      = some ("R1", [2, 4], [0], ["R_0", "R_0"]) ∧
    ((edmondsKarp 20 (addR0C0 chainNet.1 chainNetSolved "").1
      (addR0C0 chainNet.1 chainNetSolved "").2 "R_0" "C_0").heap).map
        (fun h => ([(h.pipes 2).flow, (h.pipes 4).flow, (h.pipes 0).flow], inflow h 0,
          outflow h 0))
      = some ([6, 6, 6], 12, 6) ∧
    (chainNetSolved.pipes 2).orig = 3 ∧
    3 ∉ (addR0C0 chainNet.1 chainNetSolved "").1.vertexSet ∧
    (getCitiesFlow 20 chainNet.1 chainNetSolved true "" "").value
      = some [{ cityName := "City1", cityCode := "C1", demand := 6, totalFlow := 6,
                affectedTotalFlow := 0 }] := by
  decide!

end Project1

namespace Project1.Fp

/-! ## Rounded sums in the solver

The statements describe the links through the nodes that own them, so that they do not
depend on the order in which `addR0C0` goes over the lookup maps. -/

/-- C3, evaluated with `double` arithmetic at `roundQuery`, the graph `getCitiesFlow`
solves for a Source of maximum delivery 3.9 and two Sinks of demand 1.7 and 10: every
capacity is at least zero, and when `edmondsKarp("R_0", "C_0")` has returned, the link
`R_0 -> R1` (link 2, the one link owned by node 3 of the network, enabled) has capacity
3.9 and flow 3.9000000000000004: the first path pushes 1.7, the second path has the
bottleneck `3.9 - 1.7`, which rounds to 2.2, and `1.7 + 2.2` rounds to
3.9000000000000004. -/
theorem edmondsKarp_exceeds_capacity :
    roundQuery.1.vertexSet = [0, 1, 2, 3, 4] ∧
    (List.range 5).map (fun v => (roundQuery.2.locs v).code) = ["R1", "C1", "C2", "R_0", "C_0"] ∧
    (List.range 5).map (fun v => (outLinks roundQuery.2 v).map (fun l => (l.1, l.2.1)))
      = [[(1, 10), (2, 10)], [(4, Double.ofDecimal 17 1)], [(4, 10)],
         [(0, Double.ofDecimal 39 1)], []] ∧
    (∀ v ∈ roundQuery.1.vertexSet, ∀ e ∈ (roundQuery.2.locs v).adj,
      (0 : Double) ≤ (roundQuery.2.pipes e).weight) ∧
    (roundQuery.2.locs 3).adj = [2] ∧
    (edmondsKarp 20 roundQuery.1 roundQuery.2 "R_0" "C_0").value.isSome = true ∧
    ((edmondsKarp 20 roundQuery.1 roundQuery.2 "R_0" "C_0").heap).map
        (fun h => ((h.locs 3).adj, (h.pipes 2).dest, (h.pipes 2).activated))
      = some ([2], 0, true) ∧
    ((edmondsKarp 20 roundQuery.1 roundQuery.2 "R_0" "C_0").heap).map
        (fun h => ((h.pipes 2).weight, (h.pipes 2).flow))
      = some (Double.ofDecimal 39 1, Double.ofDecimal 39000000000000004 16) ∧
    Double.ofDecimal 39 1 < Double.ofDecimal 39000000000000004 16 ∧
    ¬ (Double.ofDecimal 39000000000000004 16 ≤ Double.ofDecimal 39 1) := by
  decide!

/-- C1, evaluated with `double` arithmetic at `roundQuery` : when
`edmondsKarp("R_0", "C_0")` has returned, a further search finds no path, but the flow
it leaves is not feasible and its value is above the capacity of a cut: the source
`R_0` (node 3) has no incoming link and the one outgoing link, of capacity 3.9, so the
cut that separates `R_0` from the other nodes has capacity 3.9, and the net flow out of
`R_0` is the flow 3.9000000000000004 of that link. The Sinks `C1` and `C2` pass 1.7 and
2.2 on to `C_0`. None of the eight cuts that keep `R_0` and leave out `C_0` has, as the
exact sum of its capacities, the value of the flow. -/
theorem edmondsKarp_above_cut :
    (edmondsKarp 20 roundQuery.1 roundQuery.2 "R_0" "C_0").value.isSome = true ∧
    findVertex roundQuery.1 roundQuery.2 "R_0" = some 3 ∧
    findVertex roundQuery.1 roundQuery.2 "C_0" = some 4 ∧
    ((edmondsKarp 20 roundQuery.1 roundQuery.2 "R_0" "C_0").heap).bind
        (fun h => (findAugmentingPath 20 roundQuery.1 h 3 4).map (fun r => r.1))
      = some false ∧
    ((edmondsKarp 20 roundQuery.1 roundQuery.2 "R_0" "C_0").heap).map
        (fun h => (List.range 5).map (outLinks h))
      = some [[(1, 10, Double.ofDecimal 17 1), (2, 10, Double.ofDecimal 22 1)],
              [(4, Double.ofDecimal 17 1, Double.ofDecimal 17 1)],
              [(4, 10, Double.ofDecimal 22 1)],
              [(0, Double.ofDecimal 39 1, Double.ofDecimal 39000000000000004 16)], []] ∧
    ((edmondsKarp 20 roundQuery.1 roundQuery.2 "R_0" "C_0").heap).map
        (fun h => (h.locs 3).incoming)
      = some [] ∧
    Double.ofDecimal 39 1 < Double.ofDecimal 39000000000000004 16 ∧
    ((edmondsKarp 20 roundQuery.1 roundQuery.2 "R_0" "C_0").heap).map
        (fun h => (cutUnits h [3], netUnits h 3))
      = some ((Double.ofDecimal 39 1).units, (Double.ofDecimal 39000000000000004 16).units) ∧
    ((edmondsKarp 20 roundQuery.1 roundQuery.2 "R_0" "C_0").heap).map
        (fun h => ([0, 1, 2].sublists.map (fun S => 3 :: S)).all
          (fun S => decide (cutUnits h S ≠ netUnits h 3)))
      = some true := by
  decide!

/-- C24, evaluated with `double` arithmetic at the second turn of the loop of
`edmondsKarp("R_0", "C_0")` on `roundQuery` : after the first turn the links
`R_0 -> R1`, `R1 -> C1` and `C1 -> C_0` carry 1.7; `findAugmentingPath` returns true
with the path `R_0 -> R1 -> C2 -> C_0` recorded in the `path` fields,
`findMinResidualAlongPath` returns 2.2, the rounded value of `3.9 - 1.7`, and
`augmentFlowAlongPath` leaves the flow 3.9000000000000004 on `R_0 -> R1`, the only link
of the source, whose capacity is 3.9: the flow is above the capacity, and the net flow
out of the source, in units of `2^(-1074)`, has grown by more than the bottleneck. -/
theorem augmentFlowAlongPath_rounds :
    roundFirst.map (fun h => (List.range 5).map (fun v => (outLinks h v).map (fun l => (l.1, l.2.2))))
      = some [[(1, Double.ofDecimal 17 1), (2, 0)], [(4, Double.ofDecimal 17 1)], [(4, 0)],
              [(0, Double.ofDecimal 17 1)], []] ∧
    roundSecond.map (fun r => (r.1, [pathEnds r.2 4, pathEnds r.2 2, pathEnds r.2 0]))
      = some (true, [some (2, 4), some (0, 2), some (3, 0)]) ∧
    roundSecond.bind (fun r => findMinResidualAlongPath 20 r.2 3 4)
      = some (Double.ofDecimal 22 1) ∧
    (roundSecond.bind (fun r => augmentFlowAlongPath 20 r.2 3 4 (Double.ofDecimal 22 1))).map
        (fun h => (outLinks h 3, (h.locs 3).incoming))
      = some ([(0, Double.ofDecimal 39 1, Double.ofDecimal 39000000000000004 16)], []) ∧
    Double.ofDecimal 39 1 < Double.ofDecimal 39000000000000004 16 ∧
    roundSecond.map (fun r => netUnits r.2 3) = some (Double.ofDecimal 17 1).units ∧
    (roundSecond.bind (fun r => augmentFlowAlongPath 20 r.2 3 4 (Double.ofDecimal 22 1))).map
        (fun h => netUnits h 3)
      = some (Double.ofDecimal 39000000000000004 16).units ∧
    (Double.ofDecimal 17 1).units + (Double.ofDecimal 22 1).units
      < (Double.ofDecimal 39000000000000004 16).units := by
  decide!

/-- A turn of the loop need not close the link that bounds it. In `tieQuery` the second
turn of `edmondsKarp("R_0", "C_0")` goes along `R_0 -> R1 -> C2 -> C_0` and is bounded by
the link `R_0 -> R1` (capacity 1.5000000000000002, flow 0.25000000000000011): the
residual rounds to 1.25 and the new flow to 1.5, below the capacity, so the third turn
goes along the same path again and is bounded by the same link; the fourth search
finds no path. -/
theorem bottleneck_link_stays_open :
    ((augmentTurn 20 tieQuery.1 3 4 (resetFlows tieQuery.1 tieQuery.2)).map
        (fun r => (r.1, outLinks r.2 3)))
      = some (true, [(0, Double.ofDecimal 15000000000000002 16,
          Double.ofDecimal 25000000000000011 17)]) ∧
    (((augmentTurn 20 tieQuery.1 3 4 (resetFlows tieQuery.1 tieQuery.2)).bind
        (fun r => augmentTurn 20 tieQuery.1 3 4 r.2)).map
        (fun r => (r.1, [pathEnds r.2 4, pathEnds r.2 2, pathEnds r.2 0])))
      = some (true, [some (2, 4), some (0, 2), some (3, 0)]) ∧
    (((augmentTurn 20 tieQuery.1 3 4 (resetFlows tieQuery.1 tieQuery.2)).bind
        (fun r => augmentTurn 20 tieQuery.1 3 4 r.2)).map
        (fun r => ((outLinks r.2 3).map (fun l => l.2.2), (outLinks r.2 2).map (fun l => l.2.2))))
      = some ([Double.ofDecimal 15 1], [Double.ofDecimal 125 2]) ∧
    Double.ofDecimal 15 1 < Double.ofDecimal 15000000000000002 16 ∧
    ((((augmentTurn 20 tieQuery.1 3 4 (resetFlows tieQuery.1 tieQuery.2)).bind
        (fun r => augmentTurn 20 tieQuery.1 3 4 r.2)).bind
        (fun r => augmentTurn 20 tieQuery.1 3 4 r.2)).map
        (fun r => (r.1, [pathEnds r.2 4, pathEnds r.2 2, pathEnds r.2 0])))
      = some (true, [some (2, 4), some (0, 2), some (3, 0)]) ∧
    ((((augmentTurn 20 tieQuery.1 3 4 (resetFlows tieQuery.1 tieQuery.2)).bind
        (fun r => augmentTurn 20 tieQuery.1 3 4 r.2)).bind
        (fun r => augmentTurn 20 tieQuery.1 3 4 r.2)).map
        (fun r => (outLinks r.2 3).map (fun l => l.2.2)))
      = some [Double.ofDecimal 15000000000000002 16] ∧
    (((((augmentTurn 20 tieQuery.1 3 4 (resetFlows tieQuery.1 tieQuery.2)).bind
        (fun r => augmentTurn 20 tieQuery.1 3 4 r.2)).bind
        (fun r => augmentTurn 20 tieQuery.1 3 4 r.2)).bind
        (fun r => augmentTurn 20 tieQuery.1 3 4 r.2)).map (fun r => r.1))
      = some false :=
  ⟨by decide!, by decide!, by decide!, by decide!, by decide!, by decide!, by decide!⟩

/-- C30, evaluated with `double` arithmetic at `twoSourceNet` : the node codes are
distinct, every capacity is at least zero and the Sink `C1` (node 3, demand 3.9) has no
outgoing pipeline, but `getCitiesFlow(true)` reports the flow 3.9000000000000004 for it,
which is also the flow it leaves on the link `C1 -> C_0` of capacity 3.9, the one link
the Sink then owns: the path through `R1` delivers 1.7, the longer path through `R2`
and `PS1` delivers `3.9 - 1.7`, which rounds to 2.2, and `1.7 + 2.2` rounds to
3.9000000000000004. -/
theorem getCitiesFlow_exceeds_demand :
    twoSourceNet.1.vertexSet.map (fun v => (twoSourceNet.2.locs v).code)
      = ["R1", "R2", "PS1", "C1"] ∧
    (List.range 4).map (fun v => (outLinks twoSourceNet.2 v).map (fun l => (l.1, l.2.1)))
      = [[(3, 10)], [(2, 10)], [(3, 10)], []] ∧
    (twoSourceNet.2.locs 3).adj = [] ∧
    (getCitiesFlow 20 twoSourceNet.1 twoSourceNet.2 true "" "").value
      = some [{ cityName := "City1", cityCode := "C1", demand := Double.ofDecimal 39 1,
                totalFlow := Double.ofDecimal 39000000000000004 16,
                affectedTotalFlow := 0 }] ∧
    ((getCitiesFlow 20 twoSourceNet.1 twoSourceNet.2 true "" "").heap).map
        (fun h => ((outLinks h 3).map (fun l => ((h.locs l.1).code, l.2.1, l.2.2)),
          (h.locs 3).incoming.map (fun e => ((h.pipes e).orig, (h.pipes e).flow))))
      = some ([("C_0", Double.ofDecimal 39 1, Double.ofDecimal 39000000000000004 16)],
          [(0, Double.ofDecimal 17 1), (2, Double.ofDecimal 22 1)]) ∧
    Double.ofDecimal 39 1 < Double.ofDecimal 39000000000000004 16 := by
  decide!

end Project1.Fp
